import Mathlib

/-!
# Reflection-probe manager

A shallow embedding of `indra/newview/llreflectionmapmanager.cpp`
(class `LLReflectionMapManager`) together with the properties of its
probe registry, cube-index pool, neighbour graph and update cursor.

Conventions of the embedding

* A probe (`LLReflectionMap`) lives on a heap addressed by `ProbePtr`.
  `new LLReflectionMap()` returns an address that was never handed out
  before, so a pointer names one probe for the whole run.
* `LL_REFLECTION_PROBE_COUNT` is a macro of a header that is not part of the
  sources at hand; every definition takes it as the parameter `N`.
* `F32` quantities (times, distances, radii, coordinates) are carried as
  integers: only their order and equality are used by the manager.
* Everything the manager reads from the rest of the viewer during one call
  (settings, camera, reference counts, geometry tests, the library sort) is
  collected in `Env`.
* `llassert` does not stop a release build.  The ghost field
  `llassertFailed` records that some assertion condition evaluated to false.
* The ghost field `faceLog` is the render trace: one entry for each call of
  `updateProbeFace`, in order.
* The statements about one call of `update` name its intermediate states:
  `drained` (queues processed), `stepped` (capture in progress advanced),
  `scanned` (end of the loop over `mProbes`) and `scheduled` (before the
  final sort).
* The buffer of `getReflectionMaps` is a list of optional addresses, `none`
  being `nullptr`.
* The struct `rpd` that `updateUniforms` packs is kept with its integer
  fields; it is a local variable without initialiser, so a cell that was
  never written is `none`.  `uniformData` is the struct handed to the uniform
  buffer object.
* The statements about the scenario of a static scene use `StaticScene` for
  what the ticks observe and `CaptureInv` for the state between ticks.
-/

/-- Address of a heap-allocated `LLReflectionMap`. -/
abbrev ProbePtr := Nat

/-- A point or offset (`LLVector4a`, three components used). -/
abbrev LLVector4a := Int × Int × Int

/-- Component-wise difference (`LLVector4a::setSub`). -/
def LLVector4a.sub (a b : LLVector4a) : LLVector4a :=
  (a.1 - b.1, a.2.1 - b.2.1, a.2.2 - b.2.2)

/-- Component-wise sum (`LLVector4a::add`). -/
def LLVector4a.add (a b : LLVector4a) : LLVector4a :=
  (a.1 + b.1, a.2.1 + b.2.1, a.2.2 + b.2.2)

/-- The fields of `LLReflectionMap` that the manager reads or writes.
`mCubeArray` is kept as the flag `mCubeArray.notNull()`. -/
structure LLReflectionMap where
  mCubeIndex : Int
  mProbeIndex : Int
  mNeighbors : List ProbePtr
  mLastUpdateTime : Int
  mLastBindTime : Int
  mDistance : Int
  mRadius : Int
  mOrigin : LLVector4a
  mPriority : Int
  mCubeArray : Bool
  mGroup : Option Nat
  mViewerObject : Option Nat
  deriving DecidableEq, Repr

/-- Modelled from the spec: the class declaration of `LLReflectionMap` is not
part of the sources.  A freshly constructed probe has no cube slot
(`mCubeIndex == -1`), is not in the active list (`mProbeIndex == -1`), has no
neighbours, no cube array and no owner; the remaining numeric fields start
at zero. -/
def LLReflectionMap.new : LLReflectionMap :=
  { mCubeIndex := -1, mProbeIndex := -1, mNeighbors := [],
    mLastUpdateTime := 0, mLastBindTime := 0, mDistance := 0, mRadius := 0,
    mOrigin := (0, 0, 0), mPriority := 0, mCubeArray := false,
    mGroup := none, mViewerObject := none }

/-- What one call of the manager observes of the rest of the viewer. -/
structure Env where
  /-- `LLPipeline::sRenderPBR` -/
  sRenderPBR : Bool
  /-- `gTeleportDisplay` -/
  gTeleportDisplay : Bool
  /-- `LLAppViewer::instance()->logoutRequestSent()` -/
  logoutRequestSent : Bool
  /-- `RenderReflectionProbeDetail >= DetailLevel::REALTIME` -/
  realtime : Bool
  /-- `gFrameTimeSeconds` -/
  gFrameTimeSeconds : Int
  /-- `LLViewerCamera::instance().getOrigin()` -/
  camera_pos : LLVector4a
  /-- `LLVector4a::getLength3` -/
  getLength3 : LLVector4a → Int
  /-- `LLRefCount::getNumRefs` of a probe -/
  getNumRefs : ProbePtr → Nat
  /-- `LLReflectionMap::getIsDynamic` -/
  getIsDynamic : ProbePtr → Bool
  /-- `probe->intersects(other)`: the geometric overlap test -/
  intersects : ProbePtr → ProbePtr → Bool
  /-- `LLReflectionMap::autoAdjustOrigin`: the origin and radius it leaves -/
  autoAdjustOrigin : ProbePtr → LLVector4a × Int
  /-- `std::sort` applied to a comparator and a sequence -/
  stdSort : (ProbePtr → ProbePtr → Bool) → List ProbePtr → List ProbePtr
  /-- `LLReflectionMap::getBox`: the probe has a box as its influence volume -/
  getBox : ProbePtr → Bool := fun _ => false

/-- The contract of `std::sort`: the result is a rearrangement of the input,
and for a comparator that orders by a key nothing later in the result
compares less than something earlier. -/
structure StdSortSpec
    (sort : (ProbePtr → ProbePtr → Bool) → List ProbePtr → List ProbePtr) : Prop where
  perm : ∀ cmp l, (sort cmp l).Perm l
  sorted : ∀ cmp l, (∃ key : ProbePtr → Int, ∀ a b, cmp a b = decide (key a < key b)) →
    (sort cmp l).Pairwise (fun a b => cmp b a = false)

/-- The state of `LLReflectionMapManager` together with the probe heap. -/
structure LLReflectionMapManager where
  /-- the probe objects -/
  heap : ProbePtr → LLReflectionMap
  /-- the address the next `new LLReflectionMap()` returns -/
  nextPtr : ProbePtr
  mProbes : List ProbePtr
  mKillList : List ProbePtr
  mCreateList : List ProbePtr
  /-- `bool mCubeFree[LL_REFLECTION_PROBE_COUNT]` -/
  mCubeFree : Int → Bool
  mUpdatingProbe : Option ProbePtr
  mUpdatingFace : Nat
  mReflectionMaps : List (Option ProbePtr)
  /-- ghost: the calls `updateProbeFace(probe, face)` made so far, oldest first -/
  faceLog : List (ProbePtr × Nat)
  /-- ghost: some `llassert` condition was false -/
  llassertFailed : Bool

namespace LLReflectionMapManager

/-- The constructor: every slot of the pool starts free.  Modelled from the
spec: the class declaration (with the member initialisers) is not part of the
sources; the collections start empty and the cursor starts idle, that is
`mUpdatingProbe == nullptr` and `mUpdatingFace == 0`. -/
def new (N : Nat) : LLReflectionMapManager :=
  { heap := fun _ => LLReflectionMap.new, nextPtr := 0,
    mProbes := [], mKillList := [], mCreateList := [],
    mCubeFree := fun i => decide (0 ≤ i ∧ i < (N : Int)),
    mUpdatingProbe := none, mUpdatingFace := 0,
    mReflectionMaps := [], faceLog := [], llassertFailed := false }

/-- The element `mProbes[i]`. -/
def probeAt (s : LLReflectionMapManager) (i : Nat) : ProbePtr := s.mProbes.getD i 0

/-- Overwrite the object at address `p`. -/
def store (s : LLReflectionMapManager) (p : ProbePtr) (v : LLReflectionMap) :
    LLReflectionMapManager :=
  { s with heap := Function.update s.heap p v }

/-- First loop of `allocateCubeIndex`: `n` indices left to inspect, starting
at `i`; the first index whose flag is set. -/
def scanFree (free : Int → Bool) : Nat → Nat → Option Nat
  | 0, _ => none
  | n + 1, i => if free (i : Int) = true then some i else scanFree free n (i + 1)

/-- Second loop of `allocateCubeIndex`, written on `k = i + 1`: inspects
position `i = k - 1` and walks down while `i >= N`. -/
def scanSteal (N : Nat) (s : LLReflectionMapManager) : Nat → Option Nat
  | 0 => none
  | k + 1 =>
    if N ≤ k then
      if (s.heap (s.probeAt k)).mCubeIndex ≠ -1 then some k else scanSteal N s k
    else none

/-- The method `allocateCubeIndex`; returns the new state and the result. -/
def allocateCubeIndex (N : Nat) (s : LLReflectionMapManager) :
    LLReflectionMapManager × Int :=
  match scanFree s.mCubeFree N 0 with
  | some i => ({ s with mCubeFree := Function.update s.mCubeFree (i : Int) false }, (i : Int))
  | none =>
    match scanSteal N s s.mProbes.length with
    | some i =>
      let probe := s.probeAt i
      let ret := (s.heap probe).mCubeIndex
      (s.store probe { s.heap probe with mCubeIndex := -1 }, ret)
    | none => ({ s with llassertFailed := true }, -1)

/-- One round of the loops that remove `probe` from a neighbour list:
`std::find` in `other->mNeighbors`, the assertion that it was found, and the
erase of that first occurrence.  When the link is missing the assertion is
recorded and the list is left as it is (the erase of `end()` has no defined
behaviour in the source). -/
def unlink (probe : ProbePtr) (s : LLReflectionMapManager) (other : ProbePtr) :
    LLReflectionMapManager :=
  { s with
    heap := Function.update s.heap other
      { s.heap other with mNeighbors := (s.heap other).mNeighbors.erase probe }
    llassertFailed := s.llassertFailed || !decide (probe ∈ (s.heap other).mNeighbors) }

/-- The method `deleteProbe`.  An index past the end is not a call the
manager makes; the state is then returned as it is.  The loop over
`probe->mNeighbors` runs over the list as it is when the loop starts. -/
def deleteProbe (s : LLReflectionMapManager) (i : Nat) : LLReflectionMapManager :=
  match s.mProbes[i]? with
  | none => s
  | some probe =>
    let s1 := if (s.heap probe).mCubeIndex ≠ -1
      then { s with mCubeFree := Function.update s.mCubeFree (s.heap probe).mCubeIndex true }
      else s
    let s2 := if s1.mUpdatingProbe = some probe
      then { s1 with mUpdatingProbe := none, mUpdatingFace := 0 }
      else s1
    let s3 := (s2.heap probe).mNeighbors.foldl (unlink probe) s2
    { s3 with mProbes := s3.mProbes.eraseIdx i }

/-- One round of the search loop of `updateNeighbors`. -/
def link (env : Env) (probe : ProbePtr) (s : LLReflectionMapManager) (other : ProbePtr) :
    LLReflectionMapManager :=
  if other ≠ probe ∧ env.intersects probe other = true then
    let s1 := s.store probe
      { s.heap probe with mNeighbors := (s.heap probe).mNeighbors ++ [other] }
    s1.store other
      { s1.heap other with mNeighbors := (s1.heap other).mNeighbors ++ [probe] }
  else s

/-- The method `updateNeighbors`. -/
def updateNeighbors (env : Env) (s : LLReflectionMapManager) (probe : ProbePtr) :
    LLReflectionMapManager :=
  let s1 := (s.heap probe).mNeighbors.foldl (unlink probe) s
  let s2 := s1.store probe { s1.heap probe with mNeighbors := [] }
  s2.mProbes.foldl (link env probe) s2

/-- Modelled from the spec: `LLReflectionMap::update` and the rendering it
drives are not part of the sources.  The capture of one face is recorded in
`faceLog` and stamps the probe's last-update time with the frame time. -/
def updateProbeFace (env : Env) (s : LLReflectionMapManager) (probe : ProbePtr) (face : Nat) :
    LLReflectionMapManager :=
  { s with
    heap := Function.update s.heap probe
      { s.heap probe with mLastUpdateTime := env.gFrameTimeSeconds }
    faceLog := s.faceLog ++ [(probe, face)] }

/-- The method `doProbeUpdate`.  With a null cursor only the failed assertion
is recorded: the source would go on to dereference the null pointer. -/
def doProbeUpdate (env : Env) (s : LLReflectionMapManager) : LLReflectionMapManager :=
  match s.mUpdatingProbe with
  | none => { s with llassertFailed := true }
  | some probe =>
    let s1 := updateProbeFace env s probe s.mUpdatingFace
    let s2 := { s1 with mUpdatingFace := (s1.mUpdatingFace + 1) % 2 ^ 32 }
    if s2.mUpdatingFace = 6 then
      let s3 := updateNeighbors env s2 probe
      { s3 with mUpdatingProbe := none, mUpdatingFace := 0 }
    else s2

/-- The loop "process kill list" of `update`. -/
def processKillList (s : LLReflectionMapManager) : LLReflectionMapManager :=
  s.mKillList.foldl
    (fun m probe =>
      if m.mProbes.indexOf probe < m.mProbes.length
      then m.deleteProbe (m.mProbes.indexOf probe) else m)
    s

/-- The loop "process create list" of `update`. -/
def processCreateList (s : LLReflectionMapManager) : LLReflectionMapManager :=
  s.mCreateList.foldl (fun m probe => { m with mProbes := m.mProbes ++ [probe] }) s

/-- The local variables of `update` that the scan over `mProbes` carries. -/
structure Scan where
  m : LLReflectionMapManager
  oldestProbe : Option ProbePtr
  closestDynamic : Option ProbePtr

/-- The test `oldestProbe == nullptr || probe->mLastUpdateTime <
oldestProbe->mLastUpdateTime` of the scan of `update`. -/
def olderThan (s : LLReflectionMapManager) (probe : ProbePtr) : Option ProbePtr → Bool
  | none => true
  | some o => decide ((s.heap probe).mLastUpdateTime < (s.heap o).mLastUpdateTime)

/-- The body of the scan of `update` for a probe that is kept. -/
def visitProbe (N : Nat) (env : Env) (did_update : Bool) (st : Scan) (i : Nat)
    (probe : ProbePtr) : Scan :=
  let m1 := st.m.store probe { st.m.heap probe with mProbeIndex := (i : Int) }
  let oldest :=
    if did_update = false ∧ i < N ∧ olderThan m1 probe st.oldestProbe = true
    then some probe else st.oldestProbe
  let closest :=
    if env.realtime = true ∧ st.closestDynamic = none ∧
        (m1.heap probe).mCubeArray = true ∧ env.getIsDynamic probe = true
    then some probe else st.closestDynamic
  let m2 := m1.store probe
    { m1.heap probe with
      mDistance := env.getLength3 (LLVector4a.sub env.camera_pos (m1.heap probe).mOrigin)
        - (m1.heap probe).mRadius }
  { m := m2, oldestProbe := oldest, closestDynamic := closest }

/-- The scan `for (int i = 0; i < mProbes.size(); ++i)` of `update`, from
index `i` on.  Every round either erases `mProbes[i]` or moves to `i + 1`, so
`mProbes.size() - i` rounds are enough; `fuel` bounds the rounds. -/
def scanProbes (N : Nat) (env : Env) (did_update : Bool) : Nat → Nat → Scan → Scan
  | 0, _, st => st
  | fuel + 1, i, st =>
    match st.m.mProbes[i]? with
    | none => st
    | some probe =>
      if env.getNumRefs probe = 1 then
        scanProbes N env did_update fuel i { st with m := st.m.deleteProbe i }
      else
        scanProbes N env did_update fuel (i + 1) (visitProbe N env did_update st i probe)

/-- The block "update the closest dynamic probe realtime" of `update`. -/
def updateRealtime (env : Env) (s : LLReflectionMapManager) (closestDynamic : Option ProbePtr) :
    LLReflectionMapManager :=
  match closestDynamic with
  | none => s
  | some probe =>
    if env.realtime = true then
      let s1 := s.store probe
        { s.heap probe with
          mOrigin := (env.autoAdjustOrigin probe).1, mRadius := (env.autoAdjustOrigin probe).2 }
      (List.range 6).foldl (fun m face => updateProbeFace env m probe face) s1
    else s

/-- The block "switch to updating the next oldest probe" of `update`. -/
def switchToOldest (N : Nat) (env : Env) (did_update : Bool) (s : LLReflectionMapManager)
    (oldestProbe : Option ProbePtr) : LLReflectionMapManager :=
  match oldestProbe with
  | none => s
  | some probe =>
    if did_update = false then
      let s2 :=
        if (s.heap probe).mCubeIndex = -1 then
          let s1 := s.store probe { s.heap probe with mCubeArray := true }
          let r := allocateCubeIndex N s1
          r.1.store probe { r.1.heap probe with mCubeIndex := r.2 }
        else s
      let s3 := s2.store probe
        { s2.heap probe with
          mOrigin := (env.autoAdjustOrigin probe).1, mRadius := (env.autoAdjustOrigin probe).2 }
      doProbeUpdate env { s3 with mUpdatingProbe := some probe }
    else s

/-- The comparator `CompareProbeDistance`. -/
def CompareProbeDistance (s : LLReflectionMapManager) (lhs rhs : ProbePtr) : Bool :=
  decide ((s.heap lhs).mDistance < (s.heap rhs).mDistance)

/-- The method `update`.  The allocation of the GPU resources at its start
touches none of the fields kept here, and `llassert(!gCubeSnapshot)` reads a
flag of the caller that is not part of the state.  Registrations made by the
scene traversal while a face is captured run with `gCubeSnapshot` set: they
only append to `mCreateList`, which `update` does not read again once it is
drained, and are taken as calls of `addProbe` between two ticks. -/
def update (N : Nat) (env : Env) (s : LLReflectionMapManager) : LLReflectionMapManager :=
  if env.sRenderPBR = false ∨ env.gTeleportDisplay = true then s
  else if env.logoutRequestSent = true then s
  else
    let s1 := { processKillList s with mKillList := [] }
    let s2 := { processCreateList s1 with mCreateList := [] }
    if s2.mProbes.isEmpty = true then s2
    else
      let did_update := s2.mUpdatingProbe.isSome
      let s3 := if did_update = true then doProbeUpdate env s2 else s2
      let st := scanProbes N env did_update s3.mProbes.length 0
        { m := s3, oldestProbe := none, closestDynamic := none }
      let s4 := updateRealtime env st.m st.closestDynamic
      let s5 := switchToOldest N env did_update s4 st.oldestProbe
      { s5 with mProbes := env.stdSort (CompareProbeDistance s5) s5.mProbes }

/-- The common part of `addProbe` and `registerViewerObject`: allocate the
probe object, then queue it while a snapshot is in progress and add it to
the live collection otherwise.  Returns the new state and the new probe. -/
def insertNew (s : LLReflectionMapManager) (gCubeSnapshot : Bool) (v : LLReflectionMap) :
    LLReflectionMapManager × ProbePtr :=
  let probe := s.nextPtr
  let s1 := { s with heap := Function.update s.heap probe v, nextPtr := s.nextPtr + 1 }
  if gCubeSnapshot = true then
    ({ s1 with mCreateList := s1.mCreateList ++ [probe] }, probe)
  else
    ({ s1 with mProbes := s1.mProbes ++ [probe] }, probe)

/-- The method `addProbe`; `center` is `group->getOctreeNode()->getCenter()`. -/
def addProbe (s : LLReflectionMapManager) (gCubeSnapshot : Bool) (group : Nat)
    (center : LLVector4a) : LLReflectionMapManager × ProbePtr :=
  insertNew s gCubeSnapshot
    { LLReflectionMap.new with mGroup := some group, mOrigin := center }

/-- The method `registerViewerObject`; `pos` is `vobj->getPositionAgent()`. -/
def registerViewerObject (s : LLReflectionMapManager) (gCubeSnapshot : Bool) (vobj : Nat)
    (pos : LLVector4a) : LLReflectionMapManager × ProbePtr :=
  insertNew s gCubeSnapshot
    { LLReflectionMap.new with mViewerObject := some vobj, mOrigin := pos }

/-- The method `rebuild`. -/
def rebuild (s : LLReflectionMapManager) : LLReflectionMapManager :=
  s.mProbes.foldl (fun m probe => m.store probe { m.heap probe with mLastUpdateTime := 0 }) s

/-- The method `shift`. -/
def shift (s : LLReflectionMapManager) (offset : LLVector4a) : LLReflectionMapManager :=
  s.mProbes.foldl
    (fun m probe => m.store probe
      { m.heap probe with mOrigin := LLVector4a.add (m.heap probe).mOrigin offset })
    s

/-- Modelled from the spec: the code that queues a probe for destruction is
not part of the sources; an explicit kill appends the probe to `mKillList`,
to be drained by the next `update`. -/
def queueKill (s : LLReflectionMapManager) (probe : ProbePtr) : LLReflectionMapManager :=
  { s with mKillList := s.mKillList ++ [probe] }

/-- The local variables of `getReflectionMaps`, with the manager and the
buffer `maps` of the caller. -/
structure Bind where
  m : LLReflectionMapManager
  maps : List (Option ProbePtr)
  count : Nat
  lastIdx : Nat

/-- The body of the first loop of `getReflectionMaps`, for `probe =
mProbes[i]`. -/
def bindProbe (env : Env) (b : Bind) (i : Nat) (probe : ProbePtr) : Bind :=
  let m1 := b.m.store probe { b.m.heap probe with mLastBindTime := env.gFrameTimeSeconds }
  if (m1.heap probe).mCubeIndex ≠ -1 then
    { m := m1.store probe { m1.heap probe with mProbeIndex := (b.count : Int) }
      maps := b.maps.set b.count (some probe)
      count := b.count + 1
      lastIdx := i }
  else
    { b with
      m := m1.store probe { m1.heap probe with mProbeIndex := -1 }
      lastIdx := i }

/-- The first loop of `getReflectionMaps`, `for (U32 i = 0; count <
maps.size() && i < mProbes.size(); ++i)`, from index `i` on; the loop leaves
`mProbes` as it is, so it runs over the probes from `mProbes[i]` on. -/
def bindLoop (env : Env) : List ProbePtr → Nat → Bind → Bind
  | [], _, b => b
  | probe :: rest, i, b =>
    if b.count < b.maps.length then bindLoop env rest (i + 1) (bindProbe env b i probe)
    else b

/-- The method `getReflectionMaps`; returns the new state and the buffer. -/
def getReflectionMaps (env : Env) (s : LLReflectionMapManager) (maps : List (Option ProbePtr)) :
    LLReflectionMapManager × List (Option ProbePtr) :=
  let b := bindLoop env s.mProbes 0 { m := s, maps := maps, count := 0, lastIdx := 0 }
  let m2 := (b.m.mProbes.drop (b.lastIdx + 1)).foldl
    (fun m probe => m.store probe { m.heap probe with mProbeIndex := -1 }) b.m
  (m2, if b.count < b.maps.length then b.maps.set b.count none else b.maps)

/-- The number of entries `getReflectionMaps` writes: its local `count` when
the first loop ends. -/
def bindCount (env : Env) (s : LLReflectionMapManager) (maps : List (Option ProbePtr)) : Nat :=
  (bindLoop env s.mProbes 0 { m := s, maps := maps, count := 0, lastIdx := 0 }).count

/-- The call `mReflectionMaps.resize(n)` of a vector of pointers: cut to `n`
entries, or filled up with null pointers. -/
def resize (maps : List (Option ProbePtr)) (n : Nat) : List (Option ProbePtr) :=
  maps.take n ++ List.replicate (n - maps.length) none

/-- The integer fields of the local `ReflectionProbeData rpd` of
`updateUniforms`; `refIndex row col` is `refIndex[row][col]`.  The struct is
not initialised: a cell nothing was written to is `none`. -/
structure ReflectionProbeData where
  refIndex : Nat → Nat → Option Int
  refNeighbor : Nat → Option Int
  refmapCount : Option Int

/-- The assignment `rpd.refIndex[row][col] = v`. -/
def ReflectionProbeData.setIndex (rpd : ReflectionProbeData) (row col : Nat) (v : Int) :
    ReflectionProbeData :=
  { rpd with
    refIndex := Function.update rpd.refIndex row
      (Function.update (rpd.refIndex row) col (some v)) }

/-- The locals of the packing loop of `updateUniforms`: the struct `rpd`, the
probe counter `count` and the neighbour cursor `nc`; the ghost flag records a
failed `llassert` of the loop. -/
structure Pack where
  rpd : ReflectionProbeData
  count : Nat
  nc : Nat
  llassertFailed : Bool

/-- The inner loop of `updateUniforms` over `refmap->mNeighbors`, started with
the write index `ni`: returns the index and the array `refNeighbor` it
leaves. -/
def packNeighbors (s : LLReflectionMapManager) :
    List ProbePtr → Nat → (Nat → Option Int) → Nat × (Nat → Option Int)
  | [], ni, refNeighbor => (ni, refNeighbor)
  | neighbor :: rest, ni, refNeighbor =>
    if 4096 ≤ ni then (ni, refNeighbor)
    else if (s.heap neighbor).mProbeIndex = -1 then packNeighbors s rest ni refNeighbor
    else packNeighbors s rest (ni + 1)
      (Function.update refNeighbor ni (some (s.heap neighbor).mProbeIndex))

/-- The body of the packing loop of `updateUniforms` for a non-null entry
`refmap` of `mReflectionMaps`.  The matrix and vector fields of `rpd`
(`refBox`, `refSphere`, `refParams`) are left out. -/
def packProbe (env : Env) (s : LLReflectionMapManager) (k : Pack) (refmap : ProbePtr) : Pack :=
  let ok := decide ((s.heap refmap).mProbeIndex = (k.count : Int)) &&
    decide (0 ≤ (s.heap refmap).mProbeIndex ∧
      s.mReflectionMaps[(s.heap refmap).mProbeIndex.toNat]? = some (some refmap)) &&
    decide (0 ≤ (s.heap refmap).mCubeIndex) &&
    decide (k.nc % 4 = 0)
  let r0 := k.rpd.setIndex k.count 0 (s.heap refmap).mCubeIndex
  let r1 := r0.setIndex k.count 1 ((k.nc / 4 : Nat) : Int)
  let r2 := r1.setIndex k.count 3 (s.heap refmap).mPriority
  let r3 := if env.getBox refmap = true then r2.setIndex k.count 3 (-(s.heap refmap).mPriority)
    else r2
  let n := packNeighbors s (s.heap refmap).mNeighbors k.nc r3.refNeighbor
  let r4 := { r3 with refNeighbor := n.2 }
  if k.nc = n.1 then
    { rpd := r4.setIndex k.count 1 (-1)
      count := k.count + 1
      nc := k.nc
      llassertFailed := k.llassertFailed || !ok }
  else
    { rpd := r4.setIndex k.count 2 ((n.1 : Int) - (k.nc : Int))
      count := k.count + 1
      nc := if n.1 % 4 ≠ 0 then n.1 + (4 - n.1 % 4) else n.1
      llassertFailed := k.llassertFailed || !ok }

/-- The packing loop of `updateUniforms`, `for (auto* refmap :
mReflectionMaps)`, which stops at the first null entry. -/
def packLoop (env : Env) (s : LLReflectionMapManager) : List (Option ProbePtr) → Pack → Pack
  | [], k => k
  | none :: _, k => k
  | some refmap :: rest, k => packLoop env s rest (packProbe env s k refmap)

/-- The start of `updateUniforms`: `mReflectionMaps.resize` and
`getReflectionMaps(mReflectionMaps)`. -/
def bindUniforms (N : Nat) (env : Env) (s : LLReflectionMapManager) : LLReflectionMapManager :=
  let r := getReflectionMaps env { s with mReflectionMaps := resize s.mReflectionMaps N }
    (resize s.mReflectionMaps N)
  { r.1 with mReflectionMaps := r.2 }

/-- The locals before the packing loop: `count = 0`, `nc = 0`, and nothing
written to `rpd`. -/
def packStart : Pack :=
  { rpd := { refIndex := fun _ _ => none, refNeighbor := fun _ => none, refmapCount := none }
    count := 0, nc := 0, llassertFailed := false }

/-- The locals of the packing loop after its first `i` rounds (fewer if a
null entry stops the loop before). -/
def packedAt (env : Env) (s : LLReflectionMapManager) (i : Nat) : Pack :=
  packLoop env s (s.mReflectionMaps.take i) packStart

/-- The rest of `updateUniforms`, on the state `getReflectionMaps` left: the
packing loop from `count = 0`, `nc = 0`, and `rpd.refmapCount = count`. -/
def packUniforms (env : Env) (s : LLReflectionMapManager) : Pack :=
  { packLoop env s s.mReflectionMaps packStart with
    rpd := { (packLoop env s s.mReflectionMaps packStart).rpd with
      refmapCount := some ((packLoop env s s.mReflectionMaps packStart).count : Int) } }

/-- What the inner loop of `updateUniforms` writes for `refmap` while there is
room: the `mProbeIndex` of the neighbours whose `mProbeIndex` is not `-1`,
in the order of `mNeighbors`. -/
def activeNeighbors (s : LLReflectionMapManager) (refmap : ProbePtr) : List Int :=
  ((s.heap refmap).mNeighbors.map (fun neighbor => (s.heap neighbor).mProbeIndex)).filter
    (fun idx => decide (idx ≠ -1))

/-- The number of entries the inner loop of `updateUniforms` writes for
`refmap` when it starts at the cursor `nc`: the run is cut at the end of the
array. -/
def runLength (s : LLReflectionMapManager) (nc : Nat) (refmap : ProbePtr) : Nat :=
  min (activeNeighbors s refmap).length (4096 - nc)

/-- The method `updateUniforms`, as far as the manager is concerned: the
buffer `mReflectionMaps` is rebound and the assertions of the packing loop
are evaluated. -/
def updateUniforms (N : Nat) (env : Env) (s : LLReflectionMapManager) : LLReflectionMapManager :=
  { bindUniforms N env s with
    llassertFailed := (bindUniforms N env s).llassertFailed ||
      (packUniforms env (bindUniforms N env s)).llassertFailed }

/-- The struct `rpd` that `updateUniforms` copies into the uniform buffer
object. -/
def uniformData (N : Nat) (env : Env) (s : LLReflectionMapManager) : ReflectionProbeData :=
  (packUniforms env (bindUniforms N env s)).rpd

/-- The enumerators of `LLViewerRegion` that `registerSpatialGroup` tests,
and any other partition type. -/
inductive PartitionType where
  | PARTITION_VOLUME
  | PARTITION_TERRAIN
  | other (code : Nat)
  deriving DecidableEq, Repr

/-- What `registerSpatialGroup` and `addProbe` read of an `LLSpatialGroup`:
`mPartitionType` of its spatial partition, and of its octree node the first
component of `getSize()` and `getCenter()`. -/
structure LLSpatialGroup where
  id : Nat
  mPartitionType : PartitionType
  size : ℚ
  center : LLVector4a

/-- The method `registerSpatialGroup`; `none` is `nullptr`. -/
def registerSpatialGroup (s : LLReflectionMapManager) (gCubeSnapshot : Bool)
    (group : LLSpatialGroup) : LLReflectionMapManager × Option ProbePtr :=
  if group.mPartitionType = PartitionType.PARTITION_VOLUME ∧
      (15 ≤ group.size ∧ group.size ≤ 17) then
    ((s.addProbe gCubeSnapshot group.id group.center).1,
      some (s.addProbe gCubeSnapshot group.id group.center).2)
  else if group.mPartitionType = PartitionType.PARTITION_TERRAIN ∧
      (15 ≤ group.size ∧ group.size ≤ 17) then
    ((s.addProbe gCubeSnapshot group.id group.center).1,
      some (s.addProbe gCubeSnapshot group.id group.center).2)
  else (s, none)

end LLReflectionMapManager

/-- The neighbour invariants: the live collection lists no probe twice, and
every neighbour list of a live probe is duplicate-free, names live probes
only, never names its owner, and every link has its reverse link. -/
structure NeighborInv (s : LLReflectionMapManager) : Prop where
  nodup : s.mProbes.Nodup
  nbrNodup : ∀ p ∈ s.mProbes, (s.heap p).mNeighbors.Nodup
  nbrLive : ∀ p ∈ s.mProbes, ∀ q ∈ (s.heap p).mNeighbors, q ∈ s.mProbes
  nbrIrrefl : ∀ p ∈ s.mProbes, p ∉ (s.heap p).mNeighbors
  nbrSymm : ∀ p ∈ s.mProbes, ∀ q ∈ (s.heap p).mNeighbors, p ∈ (s.heap q).mNeighbors

/-- The invariants of the cube-index pool: a slot is marked used exactly
when a live probe owns it, a live probe owns no slot or a slot of the pool,
and no slot has two owners. -/
structure PoolInv (N : Nat) (s : LLReflectionMapManager) : Prop where
  used : ∀ i : Int, 0 ≤ i → i < (N : Int) →
    (s.mCubeFree i = false ↔ ∃ p ∈ s.mProbes, (s.heap p).mCubeIndex = i)
  valid : ∀ p ∈ s.mProbes, (s.heap p).mCubeIndex = -1 ∨
    (0 ≤ (s.heap p).mCubeIndex ∧ (s.heap p).mCubeIndex < (N : Int))
  unique : ∀ p ∈ s.mProbes, ∀ q ∈ s.mProbes,
    (s.heap p).mCubeIndex = (s.heap q).mCubeIndex → (s.heap p).mCubeIndex ≠ -1 → p = q

/-- The invariants of the update cursor. -/
structure CursorInv (s : LLReflectionMapManager) : Prop where
  idle : s.mUpdatingProbe = none ↔ s.mUpdatingFace = 0
  face : s.mUpdatingFace < 6
  live : ∀ p, s.mUpdatingProbe = some p → p ∈ s.mProbes

/-- The invariants of the deferred creation queue: live and queued probes
are pairwise different allocated objects, and a queued probe is still as it
was constructed (no slot, no neighbours). -/
structure QueueInv (s : LLReflectionMapManager) : Prop where
  allocated : ∀ p ∈ s.mProbes ++ s.mCreateList, p < s.nextPtr
  nodup : (s.mProbes ++ s.mCreateList).Nodup
  noSlot : ∀ p ∈ s.mCreateList, (s.heap p).mCubeIndex = -1
  noNeighbors : ∀ p ∈ s.mCreateList, (s.heap p).mNeighbors = []

/-- All invariants of the manager state. -/
structure ManagerInv (N : Nat) (s : LLReflectionMapManager) : Prop where
  nbr : NeighborInv s
  pool : PoolInv N s
  cursor : CursorInv s
  queue : QueueInv s

/-- The states the manager reaches from its constructor through its methods.
`update` runs with any environment whose sort meets the contract of
`std::sort`; `deleteProbe` and `updateNeighbors`, which `update` calls, are
also admitted on their own, at a valid index and on a live probe;
`getReflectionMaps` runs on any buffer of the caller. -/
inductive Reachable (N : Nat) : LLReflectionMapManager → Prop
  | init : Reachable N (LLReflectionMapManager.new N)
  | addProbe {s : LLReflectionMapManager} (gCubeSnapshot : Bool) (group : Nat)
      (center : LLVector4a) :
      Reachable N s → Reachable N (s.addProbe gCubeSnapshot group center).1
  | registerViewerObject {s : LLReflectionMapManager} (gCubeSnapshot : Bool) (vobj : Nat)
      (pos : LLVector4a) :
      Reachable N s → Reachable N (s.registerViewerObject gCubeSnapshot vobj pos).1
  | queueKill {s : LLReflectionMapManager} (probe : ProbePtr) :
      Reachable N s → Reachable N (s.queueKill probe)
  | update {s : LLReflectionMapManager} (env : Env) :
      StdSortSpec env.stdSort → Reachable N s → Reachable N (s.update N env)
  | deleteProbe {s : LLReflectionMapManager} (i : Nat) :
      i < s.mProbes.length → Reachable N s → Reachable N (s.deleteProbe i)
  | updateNeighbors {s : LLReflectionMapManager} (env : Env) (probe : ProbePtr) :
      probe ∈ s.mProbes → Reachable N s → Reachable N (s.updateNeighbors env probe)
  | rebuild {s : LLReflectionMapManager} :
      Reachable N s → Reachable N s.rebuild
  | shift {s : LLReflectionMapManager} (offset : LLVector4a) :
      Reachable N s → Reachable N (s.shift offset)
  | getReflectionMaps {s : LLReflectionMapManager} (env : Env)
      (maps : List (Option ProbePtr)) :
      Reachable N s → Reachable N (s.getReflectionMaps env maps).1
  | updateUniforms {s : LLReflectionMapManager} (env : Env) :
      Reachable N s → Reachable N (s.updateUniforms N env)

/-- An implementation of the sort: insertion sort with the comparator. -/
def exampleSort (cmp : ProbePtr → ProbePtr → Bool) (l : List ProbePtr) : List ProbePtr :=
  l.insertionSort (fun a b => cmp b a = false)

/-- An environment for worked examples: PBR on, no realtime detail, every
probe referenced from outside, every pair of probes intersecting, the camera
at the origin and distances measured along the first axis. -/
def exampleEnv : Env where
  sRenderPBR := true
  gTeleportDisplay := false
  logoutRequestSent := false
  realtime := false
  gFrameTimeSeconds := 10
  camera_pos := (0, 0, 0)
  getLength3 := fun v => Int.natAbs v.1
  getNumRefs := fun _ => 2
  getIsDynamic := fun _ => false
  intersects := fun _ _ => true
  autoAdjustOrigin := fun p => ((Int.ofNat p, 0, 0), 0)
  stdSort := exampleSort

/-- Three probes registered on a fresh manager with a pool of two slots, the
third one while a snapshot was in progress. -/
def exampleStart : LLReflectionMapManager :=
  ((((LLReflectionMapManager.new 2).addProbe false 0 (5, 0, 0)).1.addProbe false 1
    (3, 0, 0)).1.addProbe true 2 (1, 0, 0)).1

/-- The state `exampleStart` after `n` calls of `update`. -/
def exampleTicks : Nat → LLReflectionMapManager
  | 0 => exampleStart
  | n + 1 => (exampleTicks n).update 2 exampleEnv

/-- The state `exampleStart` after `updateNeighbors` on its first probe: the
two live probes are now neighbours of each other. -/
def exampleLinked : LLReflectionMapManager :=
  exampleStart.updateNeighbors exampleEnv 0

/-- A hand-written state with a pool of one slot: three live probes, of which
the probe at position 1 owns slot 0; the cursor is idle. -/
def exampleStolen : LLReflectionMapManager :=
  { LLReflectionMapManager.new 1 with
    heap := fun p =>
      if p = 11 then { LLReflectionMap.new with mCubeIndex := 0, mCubeArray := true }
      else LLReflectionMap.new
    nextPtr := 13
    mProbes := [10, 11, 12]
    mCubeFree := fun _ => false }

/-- A hand-written state with a pool of two slots: two live probes, the
probe at position 0 owns slot 1 and its capture is at face 3. -/
def exampleCapture : LLReflectionMapManager :=
  { LLReflectionMapManager.new 2 with
    heap := fun p =>
      if p = 10 then { LLReflectionMap.new with mCubeIndex := 1, mCubeArray := true }
      else LLReflectionMap.new
    nextPtr := 12
    mProbes := [10, 11]
    mCubeFree := fun i => decide (i = 0)
    mUpdatingProbe := some 10
    mUpdatingFace := 3 }

/-- A hand-written state with a pool of one slot whose only slot is owned by
the only live probe: nothing is free and nothing can be stolen. -/
def exampleExhausted : LLReflectionMapManager :=
  { LLReflectionMapManager.new 1 with
    heap := fun p =>
      if p = 10 then { LLReflectionMap.new with mCubeIndex := 0, mCubeArray := true }
      else LLReflectionMap.new
    nextPtr := 11
    mProbes := [10]
    mCubeFree := fun _ => false }

/-- One round of the scan of `update`, for the probe found at index `acc.2`:
the probe is erased and the scan stays at the index, or it is visited and
the scan moves to the next index. -/
def scanRound (N : Nat) (env : Env) (did_update : Bool) (acc : LLReflectionMapManager.Scan × Nat)
    (probe : ProbePtr) : LLReflectionMapManager.Scan × Nat :=
  if env.getNumRefs probe = 1 then ({ acc.1 with m := acc.1.m.deleteProbe acc.2 }, acc.2)
  else (LLReflectionMapManager.visitProbe N env did_update acc.1 acc.2 probe, acc.2 + 1)

/-- The choice of the scheduler among the candidates `cand`: no probe when
there is no candidate, else the candidate with the least last-update time,
the earliest one in list order among equals. -/
def IsOldest (time : ProbePtr → Int) (cand : List ProbePtr) : Option ProbePtr → Prop
  | none => cand = []
  | some p => ∃ a b, cand = a ++ p :: b ∧ (∀ q ∈ a, time p < time q) ∧ (∀ q ∈ b, time p ≤ time q)

/-- The state of the scan of `update` that started on manager `s`, when the
probes `pre` have been visited and kept: what the scan has written, what it
has removed, and what it has selected so far. -/
structure ScanInv (N : Nat) (env : Env) (did_update : Bool) (s : LLReflectionMapManager)
    (pre : List ProbePtr) (st : LLReflectionMapManager.Scan) : Prop where
  inv : ManagerInv N st.m
  frame : ∀ q, st.m.heap q =
    { s.heap q with
      mProbeIndex := (st.m.heap q).mProbeIndex
      mDistance := (st.m.heap q).mDistance
      mNeighbors := (st.m.heap q).mNeighbors }
  visited : ∀ (k : Nat) (q : ProbePtr), pre[k]? = some q →
    (st.m.heap q).mProbeIndex = (k : Int) ∧
    (st.m.heap q).mDistance =
      env.getLength3 (LLVector4a.sub env.camera_pos (s.heap q).mOrigin) - (s.heap q).mRadius
  unvisited : ∀ q, q ∉ pre →
    (st.m.heap q).mProbeIndex = (s.heap q).mProbeIndex ∧
    (st.m.heap q).mDistance = (s.heap q).mDistance
  sub : ∀ q, q ∈ st.m.mProbes → q ∈ s.mProbes
  nbrs : ∀ q ∈ st.m.mProbes, (st.m.heap q).mNeighbors =
    (s.heap q).mNeighbors.filter (fun r => decide (r ∈ st.m.mProbes))
  dead : ∀ q, q ∉ s.mProbes → st.m.heap q = s.heap q
  cursorKept : ∀ p, s.mUpdatingProbe = some p → p ∈ st.m.mProbes →
    st.m.mUpdatingProbe = some p ∧ st.m.mUpdatingFace = s.mUpdatingFace
  cursorGone : ∀ p, s.mUpdatingProbe = some p → p ∉ st.m.mProbes →
    st.m.mUpdatingProbe = none ∧ st.m.mUpdatingFace = 0
  cursorIdle : s.mUpdatingProbe = none →
    st.m.mUpdatingProbe = none ∧ st.m.mUpdatingFace = s.mUpdatingFace
  free : ∀ i, st.m.mCubeFree i = true ↔
    s.mCubeFree i = true ∨
      ∃ p ∈ s.mProbes, p ∉ st.m.mProbes ∧ (s.heap p).mCubeIndex = i ∧ i ≠ -1
  oldest : did_update = false →
    IsOldest (fun q => (s.heap q).mLastUpdateTime) (pre.take N) st.oldestProbe
  oldestNone : did_update = true → st.oldestProbe = none
  closest : env.realtime = true → st.closestDynamic =
    pre.find? (fun q => (s.heap q).mCubeArray && env.getIsDynamic q)
  closestNone : env.realtime = false → st.closestDynamic = none
  queues : st.m.mKillList = s.mKillList ∧ st.m.mCreateList = s.mCreateList
  ghost : st.m.faceLog = s.faceLog ∧ st.m.llassertFailed = s.llassertFailed
  other : st.m.nextPtr = s.nextPtr ∧ st.m.mReflectionMaps = s.mReflectionMaps

/-- A hand-written state with a pool of three slots: three live probes that
own the slots 0, 1 and 2, an idle cursor and an empty buffer
`mReflectionMaps`. -/
def exampleBound : LLReflectionMapManager :=
  { LLReflectionMapManager.new 3 with
    heap := fun p =>
      if p = 10 then { LLReflectionMap.new with mCubeIndex := 0, mCubeArray := true }
      else if p = 11 then { LLReflectionMap.new with mCubeIndex := 1, mCubeArray := true }
      else if p = 12 then { LLReflectionMap.new with mCubeIndex := 2, mCubeArray := true }
      else LLReflectionMap.new
    nextPtr := 13
    mProbes := [10, 11, 12]
    mCubeFree := fun _ => false }

/-- The state `exampleBound` after `updateUniforms`, the destruction of the
probes at positions 1 and 2, and `updateUniforms` again. -/
def exampleRebound : LLReflectionMapManager :=
  LLReflectionMapManager.updateUniforms 3 exampleEnv
    (((LLReflectionMapManager.updateUniforms 3 exampleEnv exampleBound).deleteProbe 1).deleteProbe 1)

/-- The state of `update` after its two queue loops and the two `clear()`
calls. -/
def drained (s : LLReflectionMapManager) : LLReflectionMapManager :=
  { LLReflectionMapManager.processCreateList
      { LLReflectionMapManager.processKillList s with mKillList := [] } with mCreateList := [] }

/-- The locals of `update` after its scan over `mProbes`, started on the
drained state `s2`: the step of a capture in progress, then the scan. -/
def scanned (N : Nat) (env : Env) (s2 : LLReflectionMapManager) : LLReflectionMapManager.Scan :=
  LLReflectionMapManager.scanProbes N env s2.mUpdatingProbe.isSome
    (if s2.mUpdatingProbe.isSome = true then LLReflectionMapManager.doProbeUpdate env s2
      else s2).mProbes.length 0
    { m := if s2.mUpdatingProbe.isSome = true then LLReflectionMapManager.doProbeUpdate env s2
        else s2
      oldestProbe := none, closestDynamic := none }

/-- The state of `update` just before its final `std::sort`, started on the
drained state `s2`. -/
def scheduled (N : Nat) (env : Env) (s2 : LLReflectionMapManager) : LLReflectionMapManager :=
  LLReflectionMapManager.switchToOldest N env s2.mUpdatingProbe.isSome
    (LLReflectionMapManager.updateRealtime env (scanned N env s2).m
      (scanned N env s2).closestDynamic)
    (scanned N env s2).oldestProbe

/-- The state of a kill loop that started on manager `s`: what the calls of
`deleteProbe` made so far have changed. -/
structure KillInv (N : Nat) (s m : LLReflectionMapManager) : Prop where
  inv : ManagerInv N m
  frame : ∀ q, m.heap q = { s.heap q with mNeighbors := (m.heap q).mNeighbors }
  sub : ∀ q, q ∈ m.mProbes → q ∈ s.mProbes
  nbrs : ∀ q ∈ m.mProbes, (m.heap q).mNeighbors =
    (s.heap q).mNeighbors.filter (fun r => decide (r ∈ m.mProbes))
  dead : ∀ q, q ∉ s.mProbes → m.heap q = s.heap q
  cursorKept : ∀ p, s.mUpdatingProbe = some p → p ∈ m.mProbes →
    m.mUpdatingProbe = some p ∧ m.mUpdatingFace = s.mUpdatingFace
  cursorGone : ∀ p, s.mUpdatingProbe = some p → p ∉ m.mProbes →
    m.mUpdatingProbe = none ∧ m.mUpdatingFace = 0
  cursorIdle : s.mUpdatingProbe = none →
    m.mUpdatingProbe = none ∧ m.mUpdatingFace = s.mUpdatingFace
  free : ∀ i, m.mCubeFree i = true ↔
    s.mCubeFree i = true ∨
      ∃ p ∈ s.mProbes, p ∉ m.mProbes ∧ (s.heap p).mCubeIndex = i ∧ i ≠ -1
  queues : m.mKillList = s.mKillList ∧ m.mCreateList = s.mCreateList
  ghost : m.faceLog = s.faceLog ∧ m.llassertFailed = s.llassertFailed
  other : m.nextPtr = s.nextPtr ∧ m.mReflectionMaps = s.mReflectionMaps

/-- An implementation of the sort that meets the contract of `std::sort` and
is not stable: insertion sort of the reversed input. -/
def tieSort (cmp : ProbePtr → ProbePtr → Bool) (l : List ProbePtr) : List ProbePtr :=
  exampleSort cmp l.reverse

/-- The environment `exampleEnv` with the sort `tieSort`. -/
def tieEnv : Env := { exampleEnv with stdSort := tieSort }

/-- Two probes registered on a fresh manager with a pool of two slots, both
at distance 3 from the camera of `exampleEnv`. -/
def tieStart : LLReflectionMapManager :=
  (((LLReflectionMapManager.new 2).addProbe false 0 (3, 0, 0)).1.addProbe false 1 (3, 0, 0)).1

/-- The state of `update` when its scan starts, from the drained state `s2`:
a capture in progress has made its step. -/
def stepped (env : Env) (s2 : LLReflectionMapManager) : LLReflectionMapManager :=
  if s2.mUpdatingProbe.isSome = true then LLReflectionMapManager.doProbeUpdate env s2 else s2

/-- The environment `exampleEnv` when nobody but the manager holds probe 0. -/
def gcEnv : Env := { exampleEnv with getNumRefs := fun p => if p = 0 then 1 else 2 }

/-- The faces the realtime block of `update` renders, for the closest
dynamic probe its scan has found. -/
def realtimeFaces (env : Env) (closestDynamic : Option ProbePtr) : List (ProbePtr × Nat) :=
  match closestDynamic with
  | none => []
  | some c => if env.realtime = true then [(c, 0), (c, 1), (c, 2), (c, 3), (c, 4), (c, 5)] else []

/-- The state after `k` calls of `update`, the call number `i` (from 0) made
with the environment `e i`. -/
def ticks (N : Nat) (e : Nat → Env) : Nat → LLReflectionMapManager → LLReflectionMapManager
  | 0, s => s
  | k + 1, s => (ticks N e k s).update N (e k)

/-- An environment with realtime detail: PBR on, every probe referenced from
outside, probe 0 dynamic and probe 1 static, no two probes intersecting, the
camera at the origin, distances measured along the first axis, and
`autoAdjustOrigin` putting probe 0 at distance 5 and every other probe at
distance 3, with radius 0. -/
def bugEnv : Env where
  sRenderPBR := true
  gTeleportDisplay := false
  logoutRequestSent := false
  realtime := true
  gFrameTimeSeconds := 10
  camera_pos := (0, 0, 0)
  getLength3 := fun v => Int.natAbs v.1
  getNumRefs := fun _ => 2
  getIsDynamic := fun p => decide (p = 0)
  intersects := fun _ _ => false
  autoAdjustOrigin := fun p => ((if p = 0 then 5 else 3, 0, 0), 0)
  stdSort := exampleSort

/-- Two probes registered on a fresh manager with a pool of one slot: probe
0 at distance 5 and probe 1 at distance 3 from the camera of `bugEnv`. -/
def bugStart : LLReflectionMapManager :=
  (((LLReflectionMapManager.new 1).registerViewerObject false 0 (5, 0, 0)).1.registerViewerObject
    false 1 (3, 0, 0)).1

/-- A manager with a pool of one slot and one registered probe after one call
of `update`: the probe is live, holds slot 0 and has `mProbeIndex == 0`, its
position in `mProbes`. -/
def bindStale : LLReflectionMapManager :=
  ((LLReflectionMapManager.new 1).registerViewerObject false 0 (3, 0, 0)).1.update 1 exampleEnv

/-- A hand-written state with a pool of three slots: three live probes that
own the slots 0, 1 and 2; probe 10 is a neighbour of the probes 11 and 12
and they are neighbours of it. -/
def nbrBound : LLReflectionMapManager :=
  { LLReflectionMapManager.new 3 with
    heap := fun p =>
      if p = 10 then
        { LLReflectionMap.new with mCubeIndex := 0, mCubeArray := true, mNeighbors := [11, 12] }
      else if p = 11 then
        { LLReflectionMap.new with mCubeIndex := 1, mCubeArray := true, mNeighbors := [10] }
      else if p = 12 then
        { LLReflectionMap.new with mCubeIndex := 2, mCubeArray := true, mNeighbors := [10] }
      else LLReflectionMap.new
    nextPtr := 13
    mProbes := [10, 11, 12]
    mCubeFree := fun _ => false }

/-- The state on which `update` calls `allocateCubeIndex` for the probe
`probe` it selected: the drained and scanned state after the realtime block,
with `probe->mCubeArray` set. -/
def allocState (N : Nat) (env : Env) (s : LLReflectionMapManager) (probe : ProbePtr) :
    LLReflectionMapManager :=
  (LLReflectionMapManager.updateRealtime env (scanned N env (drained s)).m
      (scanned N env (drained s)).closestDynamic).store probe
    { (LLReflectionMapManager.updateRealtime env (scanned N env (drained s)).m
        (scanned N env (drained s)).closestDynamic).heap probe with mCubeArray := true }

/-- A probe from which at least two probes of `L` are further away. -/
def IsNear (dist : ProbePtr → Int) (L : List ProbePtr) (q : ProbePtr) : Prop :=
  ∃ a ∈ L, ∃ b ∈ L, a ≠ b ∧ dist q < dist a ∧ dist q < dist b

/-- What a tick of the static scene observes, for the probes registered in
`s0`: `update` is not suspended, the sort meets its contract, every probe is
referenced from outside, the frame time is positive, `autoAdjustOrigin`
leaves a probe where it was registered, and the distance of the camera to the
sphere of a probe is `dist`. -/
structure StaticScene (s0 : LLReflectionMapManager) (dist : ProbePtr → Int) (env : Env) :
    Prop where
  pbr : env.sRenderPBR = true
  noTeleport : env.gTeleportDisplay = false
  noLogout : env.logoutRequestSent = false
  sort : StdSortSpec env.stdSort
  held : ∀ q ∈ s0.mProbes, env.getNumRefs q ≠ 1
  time : 0 < env.gFrameTimeSeconds
  origin : ∀ q ∈ s0.mProbes,
    env.autoAdjustOrigin q = ((s0.heap q).mOrigin, (s0.heap q).mRadius)
  distance : ∀ q ∈ s0.mProbes,
    env.getLength3 (LLVector4a.sub env.camera_pos (s0.heap q).mOrigin) - (s0.heap q).mRadius =
      dist q

/-- The state of the static scene that started in `s0`, when the probes `A`
have been selected so far, in this order: the probes are those of `s0` where
they were registered, the selected probes hold a slot and a positive time
stamp, the others are as they were registered, the cursor is idle or on a
selected probe, every selected probe is the first one registered or has two probes
further away, and the first probe selected is the first one registered.  Before the first selection `mProbes` is in
registration order, afterwards it is sorted by distance. -/
structure CaptureInv (N : Nat) (s0 : LLReflectionMapManager) (dist : ProbePtr → Int)
    (A : List ProbePtr) (s : LLReflectionMapManager) : Prop where
  inv : ManagerInv N s
  perm : s.mProbes.Perm s0.mProbes
  quiet : s.mKillList = [] ∧ s.mCreateList = []
  static : ∀ q ∈ s0.mProbes,
    (s.heap q).mOrigin = (s0.heap q).mOrigin ∧ (s.heap q).mRadius = (s0.heap q).mRadius
  captured : ∀ q ∈ A, q ∈ s0.mProbes ∧ (s.heap q).mCubeIndex ≠ -1 ∧
    0 < (s.heap q).mLastUpdateTime
  waiting : ∀ q ∈ s0.mProbes, q ∉ A →
    (s.heap q).mCubeIndex = -1 ∧ (s.heap q).mLastUpdateTime = 0 ∧ (s.heap q).mCubeArray = false
  nodup : A.Nodup
  who : ∀ q ∈ A, s0.mProbes.head? = some q ∨ IsNear dist s0.mProbes q
  first : A ≠ [] → A.head? = s0.mProbes.head?
  cursor : ∀ p, s.mUpdatingProbe = some p → p ∈ A
  order : (A = [] ∧ s.mProbes = s0.mProbes) ∨
    (A ≠ [] ∧ s.mProbes.Pairwise (fun a b => dist a < dist b))

/-- The environment of the scene examples at tick `k`: the example
environment with the frame time `10 + k` and with `autoAdjustOrigin` leaving
probe `p` at `pos p` on the first axis, with radius 0. -/
def sceneEnv (pos : ProbePtr → Int) (k : Nat) : Env :=
  { exampleEnv with
    gFrameTimeSeconds := 10 + (k : Int)
    autoAdjustOrigin := fun p => ((pos p, 0, 0), 0) }

/-- A fresh manager with a pool of `N` slots on which the viewer objects `0`
to `n - 1` were registered in this order, object `k` at `pos k` on the first
axis. -/
def sceneStart (N : Nat) (pos : ProbePtr → Int) : Nat → LLReflectionMapManager
  | 0 => LLReflectionMapManager.new N
  | n + 1 => ((sceneStart N pos n).registerViewerObject false n (pos n, 0, 0)).1

open LLReflectionMapManager

theorem scanFree_some (free : Int → Bool) : ∀ (n i j : Nat), scanFree free n i = some j →
    i ≤ j ∧ j < i + n ∧ free (j : Int) = true ∧ ∀ k : Nat, i ≤ k → k < j → free (k : Int) = false := by
  intro n
  induction n with
  | zero => intro i j h; simp [scanFree] at h
  | succ n ih =>
    intro i j h
    unfold scanFree at h
    by_cases hf : free (i : Int) = true
    · rw [if_pos hf] at h
      have hij : i = j := by simpa using h
      subst hij
      exact ⟨le_refl _, by omega, hf, fun k h1 h2 => by omega⟩
    · rw [if_neg hf] at h
      obtain ⟨h1, h2, h3, h4⟩ := ih (i + 1) j h
      refine ⟨by omega, by omega, h3, ?_⟩
      intro k hk1 hk2
      by_cases hki : k = i
      · subst hki; simpa using hf
      · exact h4 k (by omega) hk2

theorem scanFree_none (free : Int → Bool) : ∀ (n i : Nat), scanFree free n i = none →
    ∀ k : Nat, i ≤ k → k < i + n → free (k : Int) = false := by
  intro n
  induction n with
  | zero => intro i _ k h1 h2; omega
  | succ n ih =>
    intro i h k h1 h2
    unfold scanFree at h
    by_cases hf : free (i : Int) = true
    · rw [if_pos hf] at h; simp at h
    · rw [if_neg hf] at h
      by_cases hki : k = i
      · subst hki; simpa using hf
      · exact ih (i + 1) h k (by omega) (by omega)

theorem scanSteal_some (N : Nat) (s : LLReflectionMapManager) : ∀ (k j : Nat),
    scanSteal N s k = some j →
    N ≤ j ∧ j < k ∧ (s.heap (s.probeAt j)).mCubeIndex ≠ -1 ∧
      ∀ m : Nat, j < m → m < k → (s.heap (s.probeAt m)).mCubeIndex = -1 := by
  intro k
  induction k with
  | zero => intro j h; simp [scanSteal] at h
  | succ k ih =>
    intro j h
    unfold scanSteal at h
    by_cases hN : N ≤ k
    · rw [if_pos hN] at h
      by_cases hc : (s.heap (s.probeAt k)).mCubeIndex ≠ -1
      · rw [if_pos hc] at h
        have hkj : k = j := by simpa using h
        subst hkj
        exact ⟨hN, by omega, hc, fun m h1 h2 => by omega⟩
      · rw [if_neg hc] at h
        obtain ⟨h1, h2, h3, h4⟩ := ih j h
        refine ⟨h1, by omega, h3, ?_⟩
        intro m hm1 hm2
        by_cases hmk : m = k
        · subst hmk; exact not_not.mp hc
        · exact h4 m hm1 (by omega)
    · rw [if_neg hN] at h; simp at h

theorem scanSteal_none (N : Nat) (s : LLReflectionMapManager) : ∀ (k : Nat),
    scanSteal N s k = none →
    ∀ m : Nat, N ≤ m → m < k → (s.heap (s.probeAt m)).mCubeIndex = -1 := by
  intro k
  induction k with
  | zero => intro _ m _ h2; omega
  | succ k ih =>
    intro h m h1 h2
    unfold scanSteal at h
    by_cases hN : N ≤ k
    · rw [if_pos hN] at h
      by_cases hc : (s.heap (s.probeAt k)).mCubeIndex ≠ -1
      · rw [if_pos hc] at h; simp at h
      · rw [if_neg hc] at h
        by_cases hmk : m = k
        · subst hmk; exact not_not.mp hc
        · exact ih h m h1 (by omega)
    · omega

theorem probeAt_eq (s : LLReflectionMapManager) (i : Nat) (h : i < s.mProbes.length) :
    s.probeAt i = s.mProbes[i] := by
  unfold probeAt
  exact List.getD_eq_getElem _ _ h

theorem probeAt_mem (s : LLReflectionMapManager) (i : Nat) (h : i < s.mProbes.length) :
    s.probeAt i ∈ s.mProbes := by
  rw [probeAt_eq s i h]
  exact List.getElem_mem h

theorem probeAt_inj (s : LLReflectionMapManager) (hnd : s.mProbes.Nodup) (i j : Nat)
    (hi : i < s.mProbes.length) (hj : j < s.mProbes.length)
    (h : s.probeAt i = s.probeAt j) : i = j := by
  rw [probeAt_eq s i hi, probeAt_eq s j hj] at h
  exact (List.Nodup.getElem_inj_iff hnd).mp h

/-- C8: while some flag of the pool is set, `allocateCubeIndex` returns the
smallest index whose flag is set, clears that flag, and changes nothing else:
every other flag and every probe (so every `mCubeIndex`) stay as they were. -/
theorem allocateCubeIndex_takes_first_free (N : Nat) (s : LLReflectionMapManager)
    (h : ∃ i : Nat, i < N ∧ s.mCubeFree (i : Int) = true) :
    ∃ j : Nat, j < N ∧ s.mCubeFree (j : Int) = true ∧
      (∀ k : Nat, k < j → s.mCubeFree (k : Int) = false) ∧
      (allocateCubeIndex N s).2 = (j : Int) ∧
      (allocateCubeIndex N s).1 =
        { s with mCubeFree := Function.update s.mCubeFree (j : Int) false } ∧
      (allocateCubeIndex N s).1.mCubeFree (j : Int) = false ∧
      (∀ k : Int, k ≠ (j : Int) → (allocateCubeIndex N s).1.mCubeFree k = s.mCubeFree k) ∧
      (∀ p, ((allocateCubeIndex N s).1.heap p).mCubeIndex = (s.heap p).mCubeIndex) := by
  obtain ⟨i, hiN, hi⟩ := h
  cases hsf : scanFree s.mCubeFree N 0 with
  | none =>
    have := scanFree_none s.mCubeFree N 0 hsf i (Nat.zero_le _) (by omega)
    rw [this] at hi
    exact absurd hi (by decide)
  | some j =>
    obtain ⟨_, h2, h3, h4⟩ := scanFree_some s.mCubeFree N 0 j hsf
    refine ⟨j, by omega, h3, fun k hk => h4 k (Nat.zero_le _) hk, ?_, ?_, ?_, ?_, ?_⟩
    · simp only [allocateCubeIndex, hsf]
    · simp only [allocateCubeIndex, hsf]
    · simp only [allocateCubeIndex, hsf, Function.update_same]
    · intro k hk
      simp only [allocateCubeIndex, hsf]
      exact Function.update_noteq hk _ _
    · intro p
      simp only [allocateCubeIndex, hsf]

/-- C9: with no flag of the pool set and a probe at a list position
`>= N` holding a slot, `allocateCubeIndex` steals from the probe at the
greatest list position that holds a slot: it returns the index that probe
held, sets that probe's `mCubeIndex` to -1, and leaves every other probe and
the whole pool as they were; in a live collection that lists no probe twice
this covers each of the first `N` positions. -/
theorem allocateCubeIndex_steals_from_back (N : Nat) (s : LLReflectionMapManager)
    (hfree : ∀ i : Nat, i < N → s.mCubeFree (i : Int) = false)
    (hsteal : ∃ k : Nat, N ≤ k ∧ k < s.mProbes.length ∧
      (s.heap (s.probeAt k)).mCubeIndex ≠ -1) :
    ∃ k : Nat, N ≤ k ∧ k < s.mProbes.length ∧
      (s.heap (s.probeAt k)).mCubeIndex ≠ -1 ∧
      (∀ m : Nat, k < m → m < s.mProbes.length → (s.heap (s.probeAt m)).mCubeIndex = -1) ∧
      (allocateCubeIndex N s).2 = (s.heap (s.probeAt k)).mCubeIndex ∧
      ((allocateCubeIndex N s).1.heap (s.probeAt k)).mCubeIndex = -1 ∧
      (∀ p, p ≠ s.probeAt k → (allocateCubeIndex N s).1.heap p = s.heap p) ∧
      (s.mProbes.Nodup → ∀ j : Nat, j < N → j < s.mProbes.length →
        (allocateCubeIndex N s).1.heap (s.probeAt j) = s.heap (s.probeAt j)) ∧
      (allocateCubeIndex N s).1.mCubeFree = s.mCubeFree ∧
      (allocateCubeIndex N s).1.mProbes = s.mProbes ∧
      (allocateCubeIndex N s).1.llassertFailed = s.llassertFailed := by
  obtain ⟨k0, hk0N, hk0len, hk0⟩ := hsteal
  have hsf : scanFree s.mCubeFree N 0 = none := by
    cases hsf : scanFree s.mCubeFree N 0 with
    | none => rfl
    | some j =>
      obtain ⟨_, h2, h3, _⟩ := scanFree_some s.mCubeFree N 0 j hsf
      rw [hfree j (by omega)] at h3
      exact absurd h3 (by decide)
  cases hss : scanSteal N s s.mProbes.length with
  | none =>
    exact absurd (scanSteal_none N s _ hss k0 hk0N hk0len) hk0
  | some k =>
    obtain ⟨h1, h2, h3, h4⟩ := scanSteal_some N s _ k hss
    refine ⟨k, h1, h2, h3, h4, ?_, ?_, ?_, ?_, ?_, ?_, ?_⟩
    · simp only [allocateCubeIndex, hsf, hss]
    · simp only [allocateCubeIndex, hsf, hss, store, Function.update_same]
    · intro p hp
      simp only [allocateCubeIndex, hsf, hss, store]
      exact Function.update_noteq hp _ _
    · intro hnodup j hjN hjlen
      simp only [allocateCubeIndex, hsf, hss, store]
      apply Function.update_noteq
      intro hjk
      have := probeAt_inj s hnodup j k hjlen h2 hjk
      omega
    · simp only [allocateCubeIndex, hsf, hss, store]
    · simp only [allocateCubeIndex, hsf, hss, store]
    · simp only [allocateCubeIndex, hsf, hss, store]

/-- C10: `allocateCubeIndex` reaches its assertion and returns -1 exactly
when no flag of the pool is set and no probe at a list position `>= N` holds
a slot; it then changes nothing but the record of the failed assertion.  In
every other state no assertion fails and, the slots held by the live probes
being valid, the result is an index in `[0, N)`. -/
theorem allocateCubeIndex_fails_iff (N : Nat) (s : LLReflectionMapManager) :
    ((allocateCubeIndex N s).2 = -1 ↔
      ((∀ i : Nat, i < N → s.mCubeFree (i : Int) = false) ∧
       (∀ k : Nat, N ≤ k → k < s.mProbes.length → (s.heap (s.probeAt k)).mCubeIndex = -1))) ∧
    ((allocateCubeIndex N s).2 = -1 →
      allocateCubeIndex N s = ({ s with llassertFailed := true }, -1)) ∧
    ((allocateCubeIndex N s).2 ≠ -1 →
      (allocateCubeIndex N s).1.llassertFailed = s.llassertFailed) ∧
    ((∀ p ∈ s.mProbes, (s.heap p).mCubeIndex = -1 ∨
        (0 ≤ (s.heap p).mCubeIndex ∧ (s.heap p).mCubeIndex < (N : Int))) →
      (allocateCubeIndex N s).2 ≠ -1 →
      0 ≤ (allocateCubeIndex N s).2 ∧ (allocateCubeIndex N s).2 < (N : Int)) := by
  cases hsf : scanFree s.mCubeFree N 0 with
  | some j =>
    obtain ⟨_, h2, h3, _⟩ := scanFree_some s.mCubeFree N 0 j hsf
    have hret : (allocateCubeIndex N s).2 = (j : Int) := by
      simp only [allocateCubeIndex, hsf]
    have hne : (allocateCubeIndex N s).2 ≠ -1 := by rw [hret]; omega
    refine ⟨⟨fun h => absurd h hne, ?_⟩, fun h => absurd h hne, ?_, ?_⟩
    · rintro ⟨hf, _⟩
      rw [hf j (by omega)] at h3
      exact absurd h3 (by decide)
    · intro _
      simp only [allocateCubeIndex, hsf]
    · intro _ _
      rw [hret]
      omega
  | none =>
    have hnofree := scanFree_none s.mCubeFree N 0 hsf
    cases hss : scanSteal N s s.mProbes.length with
    | some k =>
      obtain ⟨h1, h2, h3, _⟩ := scanSteal_some N s _ k hss
      have hret : (allocateCubeIndex N s).2 = (s.heap (s.probeAt k)).mCubeIndex := by
        simp only [allocateCubeIndex, hsf, hss]
      have hne : (allocateCubeIndex N s).2 ≠ -1 := by rw [hret]; exact h3
      refine ⟨⟨fun h => absurd h hne, ?_⟩, fun h => absurd h hne, ?_, ?_⟩
      · rintro ⟨_, hs⟩
        exact absurd (hs k h1 h2) h3
      · intro _
        simp only [allocateCubeIndex, hsf, hss, store]
      · intro hvalid _
        rw [hret]
        rcases hvalid _ (probeAt_mem s k h2) with hv | hv
        · exact absurd hv h3
        · exact hv
    | none =>
      have hnosteal := scanSteal_none N s _ hss
      have hall : allocateCubeIndex N s = ({ s with llassertFailed := true }, -1) := by
        simp only [allocateCubeIndex, hsf, hss]
      refine ⟨⟨fun _ => ⟨fun i hi => hnofree i (Nat.zero_le _) (by omega), hnosteal⟩, ?_⟩,
        fun _ => hall, ?_, ?_⟩
      · intro _; rw [hall]
      · intro h; rw [hall] at h; exact absurd rfl h
      · intro _ h; rw [hall] at h; exact absurd rfl h

/-- The removal loop over a duplicate-free list, in closed form. -/
theorem unlink_foldl_nodup (probe : ProbePtr) : ∀ (L : List ProbePtr) (s : LLReflectionMapManager),
    L.Nodup →
    L.foldl (unlink probe) s =
      { s with
        heap := fun q => if q ∈ L
          then { s.heap q with mNeighbors := (s.heap q).mNeighbors.erase probe }
          else s.heap q
        llassertFailed := s.llassertFailed || decide (∃ q ∈ L, probe ∉ (s.heap q).mNeighbors) } := by
  intro L
  induction L with
  | nil => intro s _; simp
  | cons a t ih =>
    intro s hnd
    have hat : a ∉ t := (List.nodup_cons.mp hnd).1
    rw [List.foldl_cons, ih _ (List.nodup_cons.mp hnd).2]
    have hheap : (fun q => if q ∈ t
          then { (unlink probe s a).heap q with
                 mNeighbors := ((unlink probe s a).heap q).mNeighbors.erase probe }
          else (unlink probe s a).heap q) =
        (fun q => if q ∈ a :: t
          then { s.heap q with mNeighbors := (s.heap q).mNeighbors.erase probe }
          else s.heap q) := by
      funext q
      by_cases hqa : q = a
      · subst hqa; simp [hat, unlink]
      · simp [hqa, unlink, Function.update_noteq hqa]
    have hflag : ((unlink probe s a).llassertFailed ||
          decide (∃ q ∈ t, probe ∉ ((unlink probe s a).heap q).mNeighbors)) =
        (s.llassertFailed || decide (∃ q ∈ a :: t, probe ∉ (s.heap q).mNeighbors)) := by
      have : (∃ q ∈ t, probe ∉ ((unlink probe s a).heap q).mNeighbors) ↔
          (∃ q ∈ t, probe ∉ (s.heap q).mNeighbors) := by
        constructor
        · rintro ⟨q, hq, hp⟩
          have hqa : q ≠ a := fun h => hat (h ▸ hq)
          exact ⟨q, hq, by simpa [unlink, Function.update_noteq hqa] using hp⟩
        · rintro ⟨q, hq, hp⟩
          have hqa : q ≠ a := fun h => hat (h ▸ hq)
          exact ⟨q, hq, by simpa [unlink, Function.update_noteq hqa] using hp⟩
      simp only [this]
      by_cases hpa : probe ∈ (s.heap a).mNeighbors
      · simp [unlink, hpa]
      · simp [unlink, hpa]
    rw [hheap, hflag]
    rfl

/-- The removal loop only rewrites neighbour lists and the assertion record,
and what it writes depends on the heap and on that record alone. -/
theorem unlink_foldl_frame (probe : ProbePtr) : ∀ (L : List ProbePtr) (s : LLReflectionMapManager),
    ∃ h b, (∀ s1 : LLReflectionMapManager, s1.heap = s.heap →
        s1.llassertFailed = s.llassertFailed →
        L.foldl (unlink probe) s1 = { s1 with heap := h, llassertFailed := b }) ∧
      (∀ q, h q = { s.heap q with mNeighbors := (h q).mNeighbors }) ∧
      (L.Nodup →
        (∀ q, (h q).mNeighbors = if q ∈ L
          then (s.heap q).mNeighbors.erase probe else (s.heap q).mNeighbors) ∧
        b = (s.llassertFailed || decide (∃ q ∈ L, probe ∉ (s.heap q).mNeighbors))) := by
  intro L
  induction L with
  | nil =>
    intro s
    refine ⟨s.heap, s.llassertFailed, ?_, fun q => rfl, ?_⟩
    · intro s1 h1 h2
      rw [← h1, ← h2]; rfl
    · intro _; simp
  | cons a t ih =>
    intro s
    obtain ⟨h, b, heq, hh, _⟩ := ih (unlink probe s a)
    have hfold : ∀ s1 : LLReflectionMapManager, s1.heap = s.heap →
        s1.llassertFailed = s.llassertFailed →
        (a :: t).foldl (unlink probe) s1 = { s1 with heap := h, llassertFailed := b } := by
      intro s1 h1 h2
      rw [List.foldl_cons, heq (unlink probe s1 a)]
      · rfl
      · simp only [unlink, h1]
      · simp only [unlink, h1, h2]
    refine ⟨h, b, hfold, ?_, ?_⟩
    · intro q
      rw [hh q]
      by_cases hqa : q = a
      · subst hqa; simp [unlink]
      · simp [unlink, Function.update_noteq hqa]
    · intro hnd
      have h1 := hfold s rfl rfl
      rw [unlink_foldl_nodup probe (a :: t) s hnd] at h1
      constructor
      · intro q
        have := congrFun (congrArg LLReflectionMapManager.heap h1) q
        simp only at this
        rw [← this]
        split_ifs <;> rfl
      · have := congrArg LLReflectionMapManager.llassertFailed h1
        simp only at this
        exact this.symm

/-- The method `deleteProbe` at a valid index, field by field. -/
theorem deleteProbe_eq (s : LLReflectionMapManager) (i : Nat) (hi : i < s.mProbes.length) :
    ∃ h b, s.deleteProbe i =
      { s with
        heap := h
        llassertFailed := b
        mProbes := s.mProbes.eraseIdx i
        mCubeFree := if (s.heap (s.probeAt i)).mCubeIndex ≠ -1
          then Function.update s.mCubeFree (s.heap (s.probeAt i)).mCubeIndex true
          else s.mCubeFree
        mUpdatingProbe := if s.mUpdatingProbe = some (s.probeAt i) then none
          else s.mUpdatingProbe
        mUpdatingFace := if s.mUpdatingProbe = some (s.probeAt i) then 0
          else s.mUpdatingFace } ∧
      (∀ q, h q = { s.heap q with mNeighbors := (h q).mNeighbors }) ∧
      ((s.heap (s.probeAt i)).mNeighbors.Nodup →
        (∀ q, (h q).mNeighbors = if q ∈ (s.heap (s.probeAt i)).mNeighbors
          then (s.heap q).mNeighbors.erase (s.probeAt i) else (s.heap q).mNeighbors) ∧
        b = (s.llassertFailed ||
          decide (∃ q ∈ (s.heap (s.probeAt i)).mNeighbors,
            s.probeAt i ∉ (s.heap q).mNeighbors))) := by
  have hget : s.mProbes[i]? = some (s.probeAt i) := by
    rw [probeAt_eq s i hi]; exact List.getElem?_eq_getElem hi
  obtain ⟨h, b, heq, hh, hnd⟩ := unlink_foldl_frame (s.probeAt i)
    (s.heap (s.probeAt i)).mNeighbors s
  refine ⟨h, b, ?_, hh, hnd⟩
  unfold deleteProbe
  simp only [hget]
  split_ifs with hc hu hu
  all_goals (rw [heq _ (by rfl) (by rfl)])



/-- C6: `deleteProbe(i)` on the probe under capture resets the cursor to
`(nullptr, 0)` and, when that probe held slot `c`, leaves `mCubeFree[c]`
set; `deleteProbe(i)` on any other probe leaves the cursor as it was. -/
theorem deleteProbe_resets_cursor (s : LLReflectionMapManager) (i : Nat)
    (hi : i < s.mProbes.length) :
    (s.mUpdatingProbe = some (s.probeAt i) →
      (s.deleteProbe i).mUpdatingProbe = none ∧ (s.deleteProbe i).mUpdatingFace = 0 ∧
      ((s.heap (s.probeAt i)).mCubeIndex ≠ -1 →
        (s.deleteProbe i).mCubeFree (s.heap (s.probeAt i)).mCubeIndex = true)) ∧
    (s.mUpdatingProbe ≠ some (s.probeAt i) →
      (s.deleteProbe i).mUpdatingProbe = s.mUpdatingProbe ∧
      (s.deleteProbe i).mUpdatingFace = s.mUpdatingFace) := by
  obtain ⟨h, b, heq, _, _⟩ := deleteProbe_eq s i hi
  rw [heq]
  constructor
  · intro hu
    refine ⟨by simp only [hu, if_true], by simp only [hu, if_true], ?_⟩
    intro hc
    simp only [hc, ne_eq, not_false_eq_true, if_true, Function.update_same]
  · intro hu
    exact ⟨by simp only [hu, if_false], by simp only [hu, if_false]⟩

theorem mem_eraseIdx_of_nodup {l : List ProbePtr} (hnd : l.Nodup) {i : Nat} (hi : i < l.length)
    (q : ProbePtr) : q ∈ l.eraseIdx i ↔ q ∈ l ∧ q ≠ l[i] := by
  rw [List.mem_eraseIdx_iff_getElem]
  constructor
  · rintro ⟨j, hj, hne, rfl⟩
    refine ⟨List.getElem_mem hj, ?_⟩
    intro heq
    exact hne ((List.Nodup.getElem_inj_iff hnd).mp heq)
  · rintro ⟨hq, hne⟩
    obtain ⟨j, hj, rfl⟩ := List.getElem_of_mem hq
    exact ⟨j, hj, fun hji => hne (by subst hji; rfl), rfl⟩

/-- What `deleteProbe` at a valid index does to a state that satisfies the
neighbour invariants. -/
theorem deleteProbe_spec (s : LLReflectionMapManager) (hn : NeighborInv s) (i : Nat)
    (hi : i < s.mProbes.length) :
    (s.deleteProbe i).mProbes = s.mProbes.eraseIdx i ∧
    (∀ q, q ∈ (s.deleteProbe i).mProbes ↔ q ∈ s.mProbes ∧ q ≠ s.probeAt i) ∧
    (∀ q, (s.deleteProbe i).heap q =
      { s.heap q with mNeighbors := ((s.deleteProbe i).heap q).mNeighbors }) ∧
    (∀ q ∈ s.mProbes, ((s.deleteProbe i).heap q).mNeighbors =
      (s.heap q).mNeighbors.erase (s.probeAt i)) ∧
    (∀ q, q ∉ s.mProbes → (s.deleteProbe i).heap q = s.heap q) ∧
    (s.deleteProbe i).llassertFailed = s.llassertFailed ∧
    (s.deleteProbe i).mCubeFree = (if (s.heap (s.probeAt i)).mCubeIndex ≠ -1
        then Function.update s.mCubeFree (s.heap (s.probeAt i)).mCubeIndex true
        else s.mCubeFree) ∧
    (s.deleteProbe i).mUpdatingProbe =
      (if s.mUpdatingProbe = some (s.probeAt i) then none else s.mUpdatingProbe) ∧
    (s.deleteProbe i).mUpdatingFace =
      (if s.mUpdatingProbe = some (s.probeAt i) then 0 else s.mUpdatingFace) ∧
    (s.deleteProbe i).mCreateList = s.mCreateList ∧
    (s.deleteProbe i).mKillList = s.mKillList ∧
    (s.deleteProbe i).nextPtr = s.nextPtr ∧
    (s.deleteProbe i).faceLog = s.faceLog ∧
    (s.deleteProbe i).mReflectionMaps = s.mReflectionMaps := by
  obtain ⟨h, b, heq, hh, hnd⟩ := deleteProbe_eq s i hi
  have hp : s.probeAt i ∈ s.mProbes := probeAt_mem s i hi
  obtain ⟨hnb, hb⟩ := hnd (hn.nbrNodup _ hp)
  rw [heq]
  refine ⟨rfl, ?_, hh, ?_, ?_, ?_, rfl, rfl, rfl, rfl, rfl, rfl, rfl, rfl⟩
  · intro q
    show q ∈ s.mProbes.eraseIdx i ↔ _
    rw [mem_eraseIdx_of_nodup hn.nodup hi, probeAt_eq s i hi]
  · intro q hq
    show (h q).mNeighbors = _
    rw [hnb q]
    split_ifs with hqp
    · rfl
    · rw [List.erase_of_not_mem]
      intro hpq
      exact hqp (hn.nbrSymm q hq _ hpq)
  · intro q hq
    show h q = s.heap q
    have h1 := hnb q
    have hqp : q ∉ (s.heap (s.probeAt i)).mNeighbors := fun hmem => hq (hn.nbrLive _ hp q hmem)
    rw [if_neg hqp] at h1
    rw [hh q, h1]
  · show b = s.llassertFailed
    rw [hb]
    have : ¬ ∃ q ∈ (s.heap (s.probeAt i)).mNeighbors, s.probeAt i ∉ (s.heap q).mNeighbors := by
      rintro ⟨q, hq, hnot⟩
      exact hnot (hn.nbrSymm _ hp q hq)
    simp [this]

/-- The invariants only look at the membership of `mProbes`, the queue, the
pool, the cursor and the `mCubeIndex` and `mNeighbors` of live and queued probes. -/
theorem ManagerInv.congrAll {N : Nat} {s t : LLReflectionMapManager} (h : ManagerInv N s)
    (hP : t.mProbes.Perm s.mProbes) (hC : t.mCreateList = s.mCreateList)
    (hF : t.mCubeFree = s.mCubeFree) (hnext : t.nextPtr = s.nextPtr)
    (hU : t.mUpdatingProbe = s.mUpdatingProbe) (hUF : t.mUpdatingFace = s.mUpdatingFace)
    (hcube : ∀ q, (t.heap q).mCubeIndex = (s.heap q).mCubeIndex)
    (hnbr : ∀ q, (t.heap q).mNeighbors = (s.heap q).mNeighbors) :
    ManagerInv N t := by
  have hmem : ∀ q, q ∈ t.mProbes ↔ q ∈ s.mProbes := fun q => hP.mem_iff
  refine ⟨⟨?_, ?_, ?_, ?_, ?_⟩, ⟨?_, ?_, ?_⟩, ⟨?_, ?_, ?_⟩, ⟨?_, ?_, ?_, ?_⟩⟩
  · exact hP.nodup_iff.mpr h.nbr.nodup
  · intro p hp; rw [hnbr]; exact h.nbr.nbrNodup p ((hmem p).mp hp)
  · intro p hp q hq; rw [hnbr] at hq
    exact (hmem q).mpr (h.nbr.nbrLive p ((hmem p).mp hp) q hq)
  · intro p hp; rw [hnbr]; exact h.nbr.nbrIrrefl p ((hmem p).mp hp)
  · intro p hp q hq; rw [hnbr] at hq ⊢
    exact h.nbr.nbrSymm p ((hmem p).mp hp) q hq
  · intro i h0 hN
    rw [hF, h.pool.used i h0 hN]
    constructor
    · rintro ⟨p, hp, hc⟩; exact ⟨p, (hmem p).mpr hp, by rw [hcube]; exact hc⟩
    · rintro ⟨p, hp, hc⟩; exact ⟨p, (hmem p).mp hp, by rw [← hcube]; exact hc⟩
  · intro p hp; rw [hcube]; exact h.pool.valid p ((hmem p).mp hp)
  · intro p hp q hq; rw [hcube, hcube]
    exact h.pool.unique p ((hmem p).mp hp) q ((hmem q).mp hq)
  · rw [hU, hUF]; exact h.cursor.idle
  · rw [hUF]; exact h.cursor.face
  · intro p hp; rw [hU] at hp; exact (hmem p).mpr (h.cursor.live p hp)
  · intro p hp
    rw [hnext]
    apply h.queue.allocated
    rw [List.mem_append] at hp ⊢
    rw [hC, hmem] at hp
    exact hp
  · rw [hC]
    exact (List.Perm.nodup_iff (List.Perm.append_right _ hP)).mpr h.queue.nodup
  · intro p hp; rw [hC] at hp; rw [hcube]; exact h.queue.noSlot p hp
  · intro p hp; rw [hC] at hp; rw [hnbr]; exact h.queue.noNeighbors p hp

/-- `deleteProbe` at a valid index keeps the invariants. -/
theorem deleteProbe_inv {N : Nat} {s : LLReflectionMapManager} (h : ManagerInv N s) (i : Nat)
    (hi : i < s.mProbes.length) : ManagerInv N (s.deleteProbe i) := by
  obtain ⟨hP, hmem, hheap, hnbr, hout, _, hF, hU, hUF, hC, _, hnext, _, _⟩ :=
    deleteProbe_spec s h.nbr i hi
  have hp : s.probeAt i ∈ s.mProbes := probeAt_mem s i hi
  have hcube : ∀ q, ((s.deleteProbe i).heap q).mCubeIndex = (s.heap q).mCubeIndex := by
    intro q; rw [hheap q]
  refine ⟨⟨?_, ?_, ?_, ?_, ?_⟩, ⟨?_, ?_, ?_⟩, ⟨?_, ?_, ?_⟩, ⟨?_, ?_, ?_, ?_⟩⟩
  · rw [hP]; exact h.nbr.nodup.eraseIdx i
  · intro p hp'
    rw [hnbr p ((hmem p).mp hp').1]
    exact (h.nbr.nbrNodup p ((hmem p).mp hp').1).erase _
  · intro p hp' q hq
    have hpl := ((hmem p).mp hp').1
    rw [hnbr p hpl] at hq
    have := (List.Nodup.mem_erase_iff (h.nbr.nbrNodup p hpl)).mp hq
    exact (hmem q).mpr ⟨h.nbr.nbrLive p hpl q this.2, this.1⟩
  · intro p hp' hq
    have hpl := ((hmem p).mp hp').1
    rw [hnbr p hpl] at hq
    exact h.nbr.nbrIrrefl p hpl (List.mem_of_mem_erase hq)
  · intro p hp' q hq
    have hpl := ((hmem p).mp hp')
    rw [hnbr p hpl.1] at hq
    have hq' := (List.Nodup.mem_erase_iff (h.nbr.nbrNodup p hpl.1)).mp hq
    have hql := h.nbr.nbrLive p hpl.1 q hq'.2
    rw [hnbr q hql]
    exact (List.Nodup.mem_erase_iff (h.nbr.nbrNodup q hql)).mpr
      ⟨hpl.2, h.nbr.nbrSymm p hpl.1 q hq'.2⟩
  · intro j h0 hN
    rw [hF]
    by_cases hc : (s.heap (s.probeAt i)).mCubeIndex = -1
    · rw [if_neg (not_not.mpr hc), h.pool.used j h0 hN]
      constructor
      · rintro ⟨p, hpl, hpc⟩
        refine ⟨p, (hmem p).mpr ⟨hpl, ?_⟩, by rw [hcube]; exact hpc⟩
        intro hpe; rw [hpe, hc] at hpc; omega
      · rintro ⟨p, hpl, hpc⟩
        exact ⟨p, ((hmem p).mp hpl).1, by rw [← hcube]; exact hpc⟩
    · rw [if_pos hc]
      by_cases hj : j = (s.heap (s.probeAt i)).mCubeIndex
      · subst hj
        rw [Function.update_same]
        constructor
        · intro hcontra; exact absurd hcontra (by decide)
        · rintro ⟨p, hpl, hpc⟩
          exfalso
          rw [hcube] at hpc
          have := h.pool.unique p ((hmem p).mp hpl).1 _ hp hpc (by rw [hpc]; exact hc)
          exact ((hmem p).mp hpl).2 this
      · rw [Function.update_noteq hj, h.pool.used j h0 hN]
        constructor
        · rintro ⟨p, hpl, hpc⟩
          refine ⟨p, (hmem p).mpr ⟨hpl, ?_⟩, by rw [hcube]; exact hpc⟩
          intro hpe; rw [hpe] at hpc; exact hj hpc.symm
        · rintro ⟨p, hpl, hpc⟩
          exact ⟨p, ((hmem p).mp hpl).1, by rw [← hcube]; exact hpc⟩
  · intro p hp'; rw [hcube]; exact h.pool.valid p ((hmem p).mp hp').1
  · intro p hp' q hq'; rw [hcube, hcube]
    exact h.pool.unique p ((hmem p).mp hp').1 q ((hmem q).mp hq').1
  · rw [hU, hUF]
    split_ifs with hu
    · simp
    · exact h.cursor.idle
  · rw [hUF]
    split_ifs with hu
    · omega
    · exact h.cursor.face
  · intro p hp'
    rw [hU] at hp'
    by_cases hu : s.mUpdatingProbe = some (s.probeAt i)
    · rw [if_pos hu] at hp'; exact absurd hp' (by simp)
    · rw [if_neg hu] at hp'
      refine (hmem p).mpr ⟨h.cursor.live p hp', ?_⟩
      intro hpe; rw [hpe] at hp'; exact hu hp'
  · intro p hp'
    rw [hnext]
    apply h.queue.allocated
    rw [List.mem_append] at hp' ⊢
    rcases hp' with hp' | hp'
    · exact Or.inl ((hmem p).mp hp').1
    · rw [hC] at hp'; exact Or.inr hp'
  · rw [hP, hC]
    exact h.queue.nodup.sublist
      (List.Sublist.append_right (List.eraseIdx_sublist _ _) _)
  · intro p hp'; rw [hC] at hp'; rw [hcube]; exact h.queue.noSlot p hp'
  · intro p hp'
    rw [hC] at hp'
    have hnl : p ∉ s.mProbes := fun hl =>
      (List.nodup_append.mp h.queue.nodup).2.2 hl hp'
    rw [hout p hnl]
    exact h.queue.noNeighbors p hp'

/-- The search loop of `updateNeighbors` only appends to neighbour lists: to
the list of `probe` the intersecting other probes in scan order, and `probe`
itself to the list of each of them. -/
theorem link_foldl_frame (env : Env) (probe : ProbePtr) :
    ∀ (L : List ProbePtr) (s : LLReflectionMapManager),
    ∃ h, (∀ s1 : LLReflectionMapManager, s1.heap = s.heap →
        L.foldl (link env probe) s1 = { s1 with heap := h }) ∧
      (∀ q, h q = { s.heap q with mNeighbors := (h q).mNeighbors }) ∧
      (h probe).mNeighbors = (s.heap probe).mNeighbors ++
        L.filter (fun o => decide (o ≠ probe) && env.intersects probe o) ∧
      (L.Nodup → ∀ q, q ≠ probe →
        (h q).mNeighbors = (s.heap q).mNeighbors ++
          (if q ∈ L ∧ env.intersects probe q = true then [probe] else [])) := by
  intro L
  induction L with
  | nil =>
    intro s
    refine ⟨s.heap, ?_, fun q => rfl, by simp, ?_⟩
    · intro s1 h1; rw [← h1]; rfl
    · intro _ q _; simp
  | cons a t ih =>
    intro s
    obtain ⟨h, heq, hh, hp, hq⟩ := ih (link env probe s a)
    have hfold : ∀ s1 : LLReflectionMapManager, s1.heap = s.heap →
        (a :: t).foldl (link env probe) s1 = { s1 with heap := h } := by
      intro s1 h1
      rw [List.foldl_cons, heq (link env probe s1 a)]
      · unfold link; split_ifs <;> rfl
      · unfold link; simp only [store, h1]; split_ifs <;> first | rfl | exact h1
    refine ⟨h, hfold, ?_, ?_, ?_⟩
    · intro q
      rw [hh q]
      unfold link
      split_ifs with hc
      · by_cases hqa : q = a
        · subst hqa; simp [store, Function.update_noteq hc.1]
        · by_cases hqp : q = probe
          · subst hqp; simp [store, Function.update_noteq hqa]
          · simp [store, Function.update_noteq hqa, Function.update_noteq hqp]
      · rfl
    · rw [hp]
      unfold link
      split_ifs with hc
      · have hap : probe ≠ a := fun e => hc.1 e.symm
        simp [store, Function.update_noteq hap, List.filter_cons, hc.1, hc.2]
      · have : (decide (a ≠ probe) && env.intersects probe a) = false := by
          by_cases hap : a = probe
          · simp [hap]
          · have : env.intersects probe a ≠ true := fun e => hc ⟨hap, e⟩
            simp [this]
        rw [List.filter_cons, this]
        simp
    · intro hnd q hqp
      have hat : a ∉ t := (List.nodup_cons.mp hnd).1
      rw [hq (List.nodup_cons.mp hnd).2 q hqp]
      by_cases hqa : q = a
      · subst hqa
        unfold link
        by_cases hc : q ≠ probe ∧ env.intersects probe q = true
        · have hpq : probe ≠ q := fun e => hqp e.symm
          simp [hc, store, hat]
        · have hi : ¬ env.intersects probe q = true := fun e => hc ⟨hqp, e⟩
          simp [hc, hi]
      · have hmem : (q ∈ a :: t ∧ env.intersects probe q = true) ↔
            (q ∈ t ∧ env.intersects probe q = true) := by
          simp [hqa]
        simp only [hmem]
        congr 1
        unfold link
        split_ifs with hc
        · simp [store, Function.update_noteq hqa, Function.update_noteq hqp]
        · rfl

theorem PoolInv.congrPool {N : Nat} {s t : LLReflectionMapManager} (h : PoolInv N s)
    (hP : t.mProbes.Perm s.mProbes) (hF : t.mCubeFree = s.mCubeFree)
    (hcube : ∀ q, (t.heap q).mCubeIndex = (s.heap q).mCubeIndex) : PoolInv N t := by
  have hmem : ∀ q, q ∈ t.mProbes ↔ q ∈ s.mProbes := fun q => hP.mem_iff
  refine ⟨?_, ?_, ?_⟩
  · intro i h0 hN
    rw [hF, h.used i h0 hN]
    constructor
    · rintro ⟨p, hp, hc⟩; exact ⟨p, (hmem p).mpr hp, by rw [hcube]; exact hc⟩
    · rintro ⟨p, hp, hc⟩; exact ⟨p, (hmem p).mp hp, by rw [← hcube]; exact hc⟩
  · intro p hp; rw [hcube]; exact h.valid p ((hmem p).mp hp)
  · intro p hp q hq; rw [hcube, hcube]
    exact h.unique p ((hmem p).mp hp) q ((hmem q).mp hq)

theorem CursorInv.congrCursor {s t : LLReflectionMapManager} (h : CursorInv s)
    (hP : t.mProbes.Perm s.mProbes)
    (hU : t.mUpdatingProbe = s.mUpdatingProbe) (hUF : t.mUpdatingFace = s.mUpdatingFace) :
    CursorInv t := by
  refine ⟨?_, ?_, ?_⟩
  · rw [hU, hUF]; exact h.idle
  · rw [hUF]; exact h.face
  · intro p hp; rw [hU] at hp; exact hP.mem_iff.mpr (h.live p hp)

theorem QueueInv.congrQueue {s t : LLReflectionMapManager} (h : QueueInv s)
    (hP : t.mProbes.Perm s.mProbes) (hC : t.mCreateList = s.mCreateList)
    (hnext : t.nextPtr = s.nextPtr)
    (hcube : ∀ q ∈ s.mCreateList, (t.heap q).mCubeIndex = (s.heap q).mCubeIndex)
    (hnbr : ∀ q ∈ s.mCreateList, (t.heap q).mNeighbors = (s.heap q).mNeighbors) :
    QueueInv t := by
  refine ⟨?_, ?_, ?_, ?_⟩
  · intro p hp
    rw [hnext]
    apply h.allocated
    rw [List.mem_append] at hp ⊢
    rw [hC, hP.mem_iff] at hp
    exact hp
  · rw [hC]
    exact (List.Perm.nodup_iff (List.Perm.append_right _ hP)).mpr h.nodup
  · intro p hp; rw [hC] at hp; rw [hcube p hp]; exact h.noSlot p hp
  · intro p hp; rw [hC] at hp; rw [hnbr p hp]; exact h.noNeighbors p hp

/-- The method `updateNeighbors`, field by field. -/
theorem updateNeighbors_eq (env : Env) (s : LLReflectionMapManager) (probe : ProbePtr) :
    ∃ h b, s.updateNeighbors env probe = { s with heap := h, llassertFailed := b } ∧
      (∀ q, h q = { s.heap q with mNeighbors := (h q).mNeighbors }) ∧
      (h probe).mNeighbors =
        s.mProbes.filter (fun o => decide (o ≠ probe) && env.intersects probe o) ∧
      (NeighborInv s → probe ∈ s.mProbes →
        b = s.llassertFailed ∧
        ∀ q, q ≠ probe → (h q).mNeighbors =
          (if q ∈ s.mProbes then (s.heap q).mNeighbors.erase probe else (s.heap q).mNeighbors) ++
          (if q ∈ s.mProbes ∧ env.intersects probe q = true then [probe] else [])) := by
  obtain ⟨h1, b1, heq1, hh1, hnd1⟩ := unlink_foldl_frame probe (s.heap probe).mNeighbors s
  have e1 := heq1 s rfl rfl
  obtain ⟨h3, heq3, hh3, hp3, hq3⟩ := link_foldl_frame env probe s.mProbes
    ({ s with heap := h1, llassertFailed := b1 }.store probe
      { h1 probe with mNeighbors := [] })
  have e3 := heq3 _ rfl
  refine ⟨h3, b1, ?_, ?_, ?_, ?_⟩
  · unfold updateNeighbors
    simp only [e1]
    exact e3
  · intro q
    rw [hh3 q]
    by_cases hqp : q = probe
    · subst hqp
      simp only [store, Function.update_same]
      rw [hh1 q]
    · simp only [store, Function.update_noteq hqp]
      rw [hh1 q]
  · rw [hp3]
    simp only [store, Function.update_same, List.nil_append]
  · intro hn hp
    obtain ⟨hnb, hb⟩ := hnd1 (hn.nbrNodup _ hp)
    constructor
    · rw [hb]
      have : ¬ ∃ q ∈ (s.heap probe).mNeighbors, probe ∉ (s.heap q).mNeighbors := by
        rintro ⟨q, hq, hnot⟩
        exact hnot (hn.nbrSymm _ hp q hq)
      simp [this]
    · intro q hqp
      rw [hq3 hn.nodup q hqp]
      simp only [store, Function.update_noteq hqp]
      congr 1
      rw [hnb q]
      by_cases hql : q ∈ s.mProbes
      · rw [if_pos hql]
        split_ifs with hqn
        · rfl
        · rw [List.erase_of_not_mem]
          intro hpq
          exact hqn (hn.nbrSymm q hql _ hpq)
      · rw [if_neg hql]
        have : q ∉ (s.heap probe).mNeighbors := fun hm => hql (hn.nbrLive _ hp q hm)
        rw [if_neg this]

/-- `updateNeighbors` on a live probe of a state that satisfies the neighbour
invariants fails no assertion. -/
theorem updateNeighbors_flag (env : Env) (s : LLReflectionMapManager) (probe : ProbePtr)
    (hn : NeighborInv s) (hp : probe ∈ s.mProbes) :
    (s.updateNeighbors env probe).llassertFailed = s.llassertFailed := by
  obtain ⟨h, b, heq, _, _, hrest⟩ := updateNeighbors_eq env s probe
  rw [heq]
  exact (hrest hn hp).1

/-- C3: in a state that satisfies the neighbour invariants, after
`updateNeighbors(p)` on a live probe `p` the list `p.mNeighbors` is the
sequence of the probes `q` of `mProbes` with `q != p` and `p.intersects(q)`,
in the order of `mProbes`: each of them once and no other probe, whatever
the list held before; `mProbes` itself is untouched. -/
theorem updateNeighbors_exact (env : Env) (s : LLReflectionMapManager) (p : ProbePtr)
    (hn : NeighborInv s) (hp : p ∈ s.mProbes) :
    ((s.updateNeighbors env p).heap p).mNeighbors =
      s.mProbes.filter (fun q => decide (q ≠ p) && env.intersects p q) ∧
    ((s.updateNeighbors env p).heap p).mNeighbors.Nodup ∧
    (∀ q, q ∈ ((s.updateNeighbors env p).heap p).mNeighbors ↔
      (q ∈ s.mProbes ∧ q ≠ p ∧ env.intersects p q = true)) ∧
    (s.updateNeighbors env p).mProbes = s.mProbes ∧
    (s.updateNeighbors env p).llassertFailed = s.llassertFailed := by
  obtain ⟨h, b, heq, _, hfilter, hrest⟩ := updateNeighbors_eq env s p
  have hb := (hrest hn hp).1
  rw [heq]
  show (h p).mNeighbors = _ ∧ (h p).mNeighbors.Nodup ∧
    (∀ q, q ∈ (h p).mNeighbors ↔ _) ∧ s.mProbes = s.mProbes ∧ b = s.llassertFailed
  rw [hfilter]
  refine ⟨rfl, hn.nodup.filter _, ?_, rfl, hb⟩
  intro q
  simp [List.mem_filter]

/-- `updateNeighbors` on a live probe keeps the neighbour, pool and queue
invariants, whatever the cursor is. -/
theorem updateNeighbors_core {N : Nat} (env : Env) {s : LLReflectionMapManager}
    (hn : NeighborInv s) (hpool : PoolInv N s) (hqueue : QueueInv s)
    (probe : ProbePtr) (hp : probe ∈ s.mProbes) :
    NeighborInv (s.updateNeighbors env probe) ∧ PoolInv N (s.updateNeighbors env probe) ∧
    QueueInv (s.updateNeighbors env probe) ∧
    (s.updateNeighbors env probe).mProbes = s.mProbes ∧
    (s.updateNeighbors env probe).mUpdatingProbe = s.mUpdatingProbe ∧
    (s.updateNeighbors env probe).mUpdatingFace = s.mUpdatingFace := by
  obtain ⟨h, b, heq, hh, hfilter, hrest⟩ := updateNeighbors_eq env s probe
  obtain ⟨_, hq⟩ := hrest hn hp
  rw [heq]
  have hcube : ∀ q, (h q).mCubeIndex = (s.heap q).mCubeIndex := fun q => by rw [hh q]
  have hlive : ∀ q ∈ s.mProbes, q ≠ probe → (h q).mNeighbors =
      (s.heap q).mNeighbors.erase probe ++
        (if env.intersects probe q = true then [probe] else []) := by
    intro q hql hqp
    rw [hq q hqp, if_pos hql]
    simp only [hql, true_and]
  have hmemp : ∀ q, q ∈ (h probe).mNeighbors ↔
      (q ∈ s.mProbes ∧ q ≠ probe ∧ env.intersects probe q = true) := by
    intro q; rw [hfilter]; simp [List.mem_filter]
  have hmemq : ∀ q ∈ s.mProbes, q ≠ probe → ∀ r, r ∈ (h q).mNeighbors ↔
      ((r ∈ (s.heap q).mNeighbors ∧ r ≠ probe) ∨
        (r = probe ∧ env.intersects probe q = true)) := by
    intro q hql hqp r
    rw [hlive q hql hqp, List.mem_append,
      List.Nodup.mem_erase_iff (hn.nbrNodup q hql)]
    by_cases hi : env.intersects probe q = true
    · simp [hi]; tauto
    · simp [hi]; tauto
  refine ⟨⟨hn.nodup, ?_, ?_, ?_, ?_⟩, hpool.congrPool (List.Perm.refl _) rfl hcube,
    hqueue.congrQueue (List.Perm.refl _) rfl rfl (fun q _ => hcube q) ?_, rfl, rfl, rfl⟩
  · intro q hql
    show (h q).mNeighbors.Nodup
    by_cases hqp : q = probe
    · subst hqp; rw [hfilter]; exact hn.nodup.filter _
    · rw [hlive q hql hqp]
      have hnd := (hn.nbrNodup q hql).erase probe
      have hnot : probe ∉ (s.heap q).mNeighbors.erase probe := fun hm =>
        ((List.Nodup.mem_erase_iff (hn.nbrNodup q hql)).mp hm).1 rfl
      split_ifs
      · exact List.Nodup.append hnd (List.nodup_singleton _)
          (by intro a ha hap
              rw [List.mem_singleton] at hap
              exact hnot (hap ▸ ha))
      · simpa using hnd
  · intro q hql r hr
    show r ∈ s.mProbes
    by_cases hqp : q = probe
    · subst hqp; exact ((hmemp r).mp hr).1
    · rcases (hmemq q hql hqp r).mp hr with ⟨h1, _⟩ | ⟨h1, _⟩
      · exact hn.nbrLive q hql r h1
      · rw [h1]; exact hp
  · intro q hql hr
    by_cases hqp : q = probe
    · subst hqp; exact ((hmemp q).mp hr).2.1 rfl
    · rcases (hmemq q hql hqp q).mp hr with ⟨h1, _⟩ | ⟨h1, _⟩
      · exact hn.nbrIrrefl q hql h1
      · exact hqp h1
  · intro q hql r hr
    show q ∈ (h r).mNeighbors
    by_cases hqp : q = probe
    · subst hqp
      obtain ⟨hrl, hrp, hri⟩ := (hmemp r).mp hr
      exact (hmemq r hrl hrp q).mpr (Or.inr ⟨rfl, hri⟩)
    · rcases (hmemq q hql hqp r).mp hr with ⟨h1, h2⟩ | ⟨h1, h2⟩
      · have hrl := hn.nbrLive q hql r h1
        exact (hmemq r hrl h2 q).mpr (Or.inl ⟨hn.nbrSymm q hql r h1, hqp⟩)
      · rw [h1]
        exact (hmemp q).mpr ⟨hql, hqp, h2⟩
  · intro q hqc
    show (h q).mNeighbors = (s.heap q).mNeighbors
    have hnl : q ∉ s.mProbes := fun hl =>
      (List.nodup_append.mp hqueue.nodup).2.2 hl hqc
    have hqp : q ≠ probe := fun e => hnl (e ▸ hp)
    rw [hq q hqp, if_neg hnl]
    simp [hnl]

/-- `updateNeighbors` on a live probe keeps the invariants. -/
theorem updateNeighbors_inv {N : Nat} (env : Env) {s : LLReflectionMapManager}
    (hinv : ManagerInv N s) (probe : ProbePtr) (hp : probe ∈ s.mProbes) :
    ManagerInv N (s.updateNeighbors env probe) := by
  obtain ⟨h1, h2, h3, h4, h5, h6⟩ :=
    updateNeighbors_core (N := N) env hinv.nbr hinv.pool hinv.queue probe hp
  exact ⟨h1, h2, hinv.cursor.congrCursor (by rw [h4]) h5 h6, h3⟩

theorem update_cube_eq (hp : ProbePtr → LLReflectionMap) (p q : ProbePtr) (v : LLReflectionMap)
    (hv : v.mCubeIndex = (hp p).mCubeIndex) :
    (Function.update hp p v q).mCubeIndex = (hp q).mCubeIndex := by
  by_cases hqp : q = p
  · subst hqp; rw [Function.update_same]; exact hv
  · rw [Function.update_noteq hqp]

theorem update_nbrs_eq (hp : ProbePtr → LLReflectionMap) (p q : ProbePtr) (v : LLReflectionMap)
    (hv : v.mNeighbors = (hp p).mNeighbors) :
    (Function.update hp p v q).mNeighbors = (hp q).mNeighbors := by
  by_cases hqp : q = p
  · subst hqp; rw [Function.update_same]; exact hv
  · rw [Function.update_noteq hqp]

/-- Overwriting a probe with an object that has the same slot and the same
neighbours keeps the invariants. -/
theorem store_inv {N : Nat} {s : LLReflectionMapManager} (h : ManagerInv N s) (p : ProbePtr)
    (v : LLReflectionMap) (hc : v.mCubeIndex = (s.heap p).mCubeIndex)
    (hn : v.mNeighbors = (s.heap p).mNeighbors) : ManagerInv N (s.store p v) :=
  h.congrAll (List.Perm.refl _) rfl rfl rfl rfl rfl
    (fun q => update_cube_eq s.heap p q v hc) (fun q => update_nbrs_eq s.heap p q v hn)

/-- A loop of such overwrites keeps the invariants and touches the heap only. -/
theorem store_foldl_inv {N : Nat} (f : LLReflectionMapManager → ProbePtr → LLReflectionMap)
    (hf : ∀ m p, (f m p).mCubeIndex = (m.heap p).mCubeIndex ∧
      (f m p).mNeighbors = (m.heap p).mNeighbors) :
    ∀ (L : List ProbePtr) (s : LLReflectionMapManager), ManagerInv N s →
      ManagerInv N (L.foldl (fun m p => m.store p (f m p)) s) := by
  intro L
  induction L with
  | nil => intro s h; exact h
  | cons a t ih =>
    intro s h
    rw [List.foldl_cons]
    exact ih _ (store_inv h a _ (hf s a).1 (hf s a).2)

theorem rebuild_inv {N : Nat} {s : LLReflectionMapManager} (h : ManagerInv N s) :
    ManagerInv N s.rebuild :=
  store_foldl_inv (fun m probe => { m.heap probe with mLastUpdateTime := 0 })
    (fun _ _ => ⟨rfl, rfl⟩) _ s h

theorem shift_inv {N : Nat} {s : LLReflectionMapManager} (h : ManagerInv N s)
    (offset : LLVector4a) : ManagerInv N (s.shift offset) :=
  store_foldl_inv
    (fun m probe => { m.heap probe with mOrigin := LLVector4a.add (m.heap probe).mOrigin offset })
    (fun _ _ => ⟨rfl, rfl⟩) _ s h

theorem queueKill_inv {N : Nat} {s : LLReflectionMapManager} (h : ManagerInv N s)
    (probe : ProbePtr) : ManagerInv N (s.queueKill probe) :=
  h.congrAll (List.Perm.refl _) rfl rfl rfl rfl rfl (fun _ => rfl) (fun _ => rfl)

theorem updateProbeFace_inv {N : Nat} (env : Env) {s : LLReflectionMapManager}
    (h : ManagerInv N s) (probe : ProbePtr) (face : Nat) :
    ManagerInv N (updateProbeFace env s probe face) :=
  h.congrAll (List.Perm.refl _) rfl rfl rfl rfl rfl
    (fun q => update_cube_eq s.heap probe q _ rfl) (fun q => update_nbrs_eq s.heap probe q _ rfl)

theorem new_inv (N : Nat) : ManagerInv N (LLReflectionMapManager.new N) := by
  refine ⟨⟨List.nodup_nil, ?_, ?_, ?_, ?_⟩, ⟨?_, ?_, ?_⟩, ⟨?_, ?_, ?_⟩, ⟨?_, List.nodup_nil, ?_, ?_⟩⟩
  · intro p hp; exact absurd hp (List.not_mem_nil _)
  · intro p hp; exact absurd hp (List.not_mem_nil _)
  · intro p hp; exact absurd hp (List.not_mem_nil _)
  · intro p hp; exact absurd hp (List.not_mem_nil _)
  · intro i h0 hN
    constructor
    · intro hf
      have : decide (0 ≤ i ∧ i < (N : Int)) = false := hf
      simp only [decide_eq_false_iff_not] at this
      exact absurd ⟨h0, hN⟩ this
    · rintro ⟨p, hp, _⟩; exact absurd hp (List.not_mem_nil _)
  · intro p hp; exact absurd hp (List.not_mem_nil _)
  · intro p hp; exact absurd hp (List.not_mem_nil _)
  · exact ⟨fun _ => rfl, fun _ => rfl⟩
  · show 0 < 6; omega
  · intro p hp; exact absurd hp (by simp [LLReflectionMapManager.new])
  · intro p hp; exact absurd hp (List.not_mem_nil _)
  · intro p hp; exact absurd hp (List.not_mem_nil _)
  · intro p hp; exact absurd hp (List.not_mem_nil _)

/-- The common part of `addProbe` and `registerViewerObject`, field by field. -/
theorem insertNew_spec (s : LLReflectionMapManager) (gCubeSnapshot : Bool) (v : LLReflectionMap) :
    (s.insertNew gCubeSnapshot v).2 = s.nextPtr ∧
    (s.insertNew gCubeSnapshot v).1.heap = Function.update s.heap s.nextPtr v ∧
    (s.insertNew gCubeSnapshot v).1.nextPtr = s.nextPtr + 1 ∧
    (s.insertNew gCubeSnapshot v).1.mProbes =
      (if gCubeSnapshot = true then s.mProbes else s.mProbes ++ [s.nextPtr]) ∧
    (s.insertNew gCubeSnapshot v).1.mCreateList =
      (if gCubeSnapshot = true then s.mCreateList ++ [s.nextPtr] else s.mCreateList) ∧
    (s.insertNew gCubeSnapshot v).1.mCubeFree = s.mCubeFree ∧
    (s.insertNew gCubeSnapshot v).1.mUpdatingProbe = s.mUpdatingProbe ∧
    (s.insertNew gCubeSnapshot v).1.mUpdatingFace = s.mUpdatingFace ∧
    (s.insertNew gCubeSnapshot v).1.mKillList = s.mKillList ∧
    (s.insertNew gCubeSnapshot v).1.faceLog = s.faceLog ∧
    (s.insertNew gCubeSnapshot v).1.mReflectionMaps = s.mReflectionMaps ∧
    (s.insertNew gCubeSnapshot v).1.llassertFailed = s.llassertFailed := by
  unfold insertNew
  cases gCubeSnapshot <;> simp

/-- Allocating a probe object and registering it keeps the invariants, as
long as the object has no slot and no neighbours. -/
theorem insertNew_inv {N : Nat} {s : LLReflectionMapManager} (h : ManagerInv N s)
    (gCubeSnapshot : Bool) (v : LLReflectionMap) (hc : v.mCubeIndex = -1)
    (hn : v.mNeighbors = []) : ManagerInv N (s.insertNew gCubeSnapshot v).1 := by
  obtain ⟨_, hheap, hnext, hP, hC, hF, hU, hUF, _, _, _, _⟩ := insertNew_spec s gCubeSnapshot v
  generalize (s.insertNew gCubeSnapshot v).1 = t at *
  have hfresh : ∀ q ∈ s.mProbes ++ s.mCreateList, q ≠ s.nextPtr := by
    intro q hq; exact Nat.ne_of_lt (h.queue.allocated q hq)
  have hfl : ∀ q ∈ s.mProbes, q ≠ s.nextPtr := fun q hq =>
    hfresh q (List.mem_append_left _ hq)
  have hfc : ∀ q ∈ s.mCreateList, q ≠ s.nextPtr := fun q hq =>
    hfresh q (List.mem_append_right _ hq)
  have hold : ∀ q, q ≠ s.nextPtr → t.heap q = s.heap q := by
    intro q hq; rw [hheap]; exact Function.update_noteq hq _ _
  have hnew : t.heap s.nextPtr = v := by rw [hheap]; exact Function.update_same _ _ _
  by_cases hs : gCubeSnapshot = true
  · rw [if_pos hs] at hP hC
    refine ⟨⟨?_, ?_, ?_, ?_, ?_⟩, ⟨?_, ?_, ?_⟩, ⟨?_, ?_, ?_⟩, ⟨?_, ?_, ?_, ?_⟩⟩
    · rw [hP]; exact h.nbr.nodup
    · intro p hp; rw [hP] at hp
      rw [hold p (hfl p hp)]; exact h.nbr.nbrNodup p hp
    · intro p hp q hq; rw [hP] at hp ⊢
      rw [hold p (hfl p hp)] at hq; exact h.nbr.nbrLive p hp q hq
    · intro p hp hq; rw [hP] at hp
      rw [hold p (hfl p hp)] at hq; exact h.nbr.nbrIrrefl p hp hq
    · intro p hp q hq; rw [hP] at hp
      rw [hold p (hfl p hp)] at hq
      rw [hold q (hfl q (h.nbr.nbrLive p hp q hq))]
      exact h.nbr.nbrSymm p hp q hq
    · intro i h0 hN
      rw [hF, hP, h.pool.used i h0 hN]
      constructor
      · rintro ⟨p, hp, hpc⟩; exact ⟨p, hp, by rw [hold p (hfl p hp)]; exact hpc⟩
      · rintro ⟨p, hp, hpc⟩; exact ⟨p, hp, by rw [hold p (hfl p hp)] at hpc; exact hpc⟩
    · intro p hp; rw [hP] at hp
      rw [hold p (hfl p hp)]; exact h.pool.valid p hp
    · intro p hp q hq; rw [hP] at hp hq
      rw [hold p (hfl p hp), hold q (hfl q hq)]; exact h.pool.unique p hp q hq
    · rw [hU, hUF]; exact h.cursor.idle
    · rw [hUF]; exact h.cursor.face
    · intro p hp; rw [hU] at hp; rw [hP]; exact h.cursor.live p hp
    · intro p hp
      rw [hP, hC, ← List.append_assoc, List.mem_append, List.mem_singleton] at hp
      rw [hnext]
      rcases hp with hp | hp
      · exact Nat.lt_succ_of_lt (h.queue.allocated p hp)
      · rw [hp]; exact Nat.lt_succ_self _
    · rw [hP, hC, ← List.append_assoc]
      refine List.Nodup.append h.queue.nodup (List.nodup_singleton _) ?_
      intro a ha hb
      rw [List.mem_singleton] at hb
      exact hfresh a ha hb
    · intro p hp
      rw [hC, List.mem_append, List.mem_singleton] at hp
      rcases hp with hp | hp
      · rw [hold p (hfc p hp)]; exact h.queue.noSlot p hp
      · rw [hp, hnew]; exact hc
    · intro p hp
      rw [hC, List.mem_append, List.mem_singleton] at hp
      rcases hp with hp | hp
      · rw [hold p (hfc p hp)]; exact h.queue.noNeighbors p hp
      · rw [hp, hnew]; exact hn
  · rw [if_neg hs] at hP hC
    have hmem : ∀ p, p ∈ t.mProbes ↔ p ∈ s.mProbes ∨ p = s.nextPtr := by
      intro p; rw [hP, List.mem_append, List.mem_singleton]
    refine ⟨⟨?_, ?_, ?_, ?_, ?_⟩, ⟨?_, ?_, ?_⟩, ⟨?_, ?_, ?_⟩, ⟨?_, ?_, ?_, ?_⟩⟩
    · rw [hP]
      refine List.Nodup.append h.nbr.nodup (List.nodup_singleton _) ?_
      intro a ha hb
      rw [List.mem_singleton] at hb
      exact hfl a ha hb
    · intro p hp
      rcases (hmem p).mp hp with hp | hp
      · rw [hold p (hfl p hp)]; exact h.nbr.nbrNodup p hp
      · rw [hp, hnew, hn]; exact List.nodup_nil
    · intro p hp q hq
      rcases (hmem p).mp hp with hp | hp
      · rw [hold p (hfl p hp)] at hq; exact (hmem q).mpr (Or.inl (h.nbr.nbrLive p hp q hq))
      · rw [hp, hnew, hn] at hq; exact absurd hq (List.not_mem_nil _)
    · intro p hp hq
      rcases (hmem p).mp hp with hp | hp
      · rw [hold p (hfl p hp)] at hq; exact h.nbr.nbrIrrefl p hp hq
      · rw [hp] at hq; rw [hnew, hn] at hq; exact absurd hq (List.not_mem_nil _)
    · intro p hp q hq
      rcases (hmem p).mp hp with hp | hp
      · rw [hold p (hfl p hp)] at hq
        rw [hold q (hfl q (h.nbr.nbrLive p hp q hq))]
        exact h.nbr.nbrSymm p hp q hq
      · rw [hp, hnew, hn] at hq; exact absurd hq (List.not_mem_nil _)
    · intro i h0 hN
      rw [hF, h.pool.used i h0 hN]
      constructor
      · rintro ⟨p, hp, hpc⟩
        exact ⟨p, (hmem p).mpr (Or.inl hp), by rw [hold p (hfl p hp)]; exact hpc⟩
      · rintro ⟨p, hp, hpc⟩
        rcases (hmem p).mp hp with hp | hp
        · exact ⟨p, hp, by rw [hold p (hfl p hp)] at hpc; exact hpc⟩
        · rw [hp, hnew, hc] at hpc; omega
    · intro p hp
      rcases (hmem p).mp hp with hp | hp
      · rw [hold p (hfl p hp)]; exact h.pool.valid p hp
      · rw [hp, hnew]; exact Or.inl hc
    · intro p hp q hq
      rcases (hmem p).mp hp with hp | hp
      · rcases (hmem q).mp hq with hq | hq
        · rw [hold p (hfl p hp), hold q (hfl q hq)]; exact h.pool.unique p hp q hq
        · rw [hq, hnew, hc]; intro h1 h2; exact absurd h1 h2
      · rw [hp, hnew, hc]; intro _ h2; exact absurd rfl h2
    · rw [hU, hUF]; exact h.cursor.idle
    · rw [hUF]; exact h.cursor.face
    · intro p hp; rw [hU] at hp; exact (hmem p).mpr (Or.inl (h.cursor.live p hp))
    · intro p hp
      rw [List.mem_append, hmem, hC] at hp
      rw [hnext]
      rcases hp with (hp | hp) | hp
      · exact Nat.lt_succ_of_lt (h.queue.allocated p (List.mem_append_left _ hp))
      · rw [hp]; exact Nat.lt_succ_self _
      · exact Nat.lt_succ_of_lt (h.queue.allocated p (List.mem_append_right _ hp))
    · rw [hP, hC]
      have hperm : ((s.mProbes ++ [s.nextPtr]) ++ s.mCreateList).Perm
          ((s.mProbes ++ s.mCreateList) ++ [s.nextPtr]) := by
        rw [List.append_assoc, List.append_assoc]
        exact List.Perm.append_left _ List.perm_append_comm
      rw [hperm.nodup_iff]
      refine List.Nodup.append h.queue.nodup (List.nodup_singleton _) ?_
      intro a ha hb
      rw [List.mem_singleton] at hb
      exact hfresh a ha hb
    · intro p hp; rw [hC] at hp
      rw [hold p (hfc p hp)]; exact h.queue.noSlot p hp
    · intro p hp; rw [hC] at hp
      rw [hold p (hfc p hp)]; exact h.queue.noNeighbors p hp

theorem NeighborInv.congrNbr {s t : LLReflectionMapManager} (h : NeighborInv s)
    (hP : t.mProbes.Perm s.mProbes)
    (hnbr : ∀ q, (t.heap q).mNeighbors = (s.heap q).mNeighbors) : NeighborInv t := by
  have hmem : ∀ q, q ∈ t.mProbes ↔ q ∈ s.mProbes := fun q => hP.mem_iff
  refine ⟨hP.nodup_iff.mpr h.nodup, ?_, ?_, ?_, ?_⟩
  · intro p hp; rw [hnbr]; exact h.nbrNodup p ((hmem p).mp hp)
  · intro p hp q hq; rw [hnbr] at hq
    exact (hmem q).mpr (h.nbrLive p ((hmem p).mp hp) q hq)
  · intro p hp; rw [hnbr]; exact h.nbrIrrefl p ((hmem p).mp hp)
  · intro p hp q hq; rw [hnbr] at hq ⊢
    exact h.nbrSymm p ((hmem p).mp hp) q hq

/-- The kill loop keeps the invariants. -/
theorem killLoop_inv {N : Nat} : ∀ (L : List ProbePtr) (s : LLReflectionMapManager),
    ManagerInv N s →
    ManagerInv N (L.foldl
      (fun m probe =>
        if m.mProbes.indexOf probe < m.mProbes.length
        then m.deleteProbe (m.mProbes.indexOf probe) else m) s) := by
  intro L
  induction L with
  | nil => intro s h; exact h
  | cons a t ih =>
    intro s h
    rw [List.foldl_cons]
    apply ih
    split_ifs with hlt
    · exact deleteProbe_inv h _ hlt
    · exact h

theorem processKillList_inv {N : Nat} {s : LLReflectionMapManager} (h : ManagerInv N s) :
    ManagerInv N { processKillList s with mKillList := [] } :=
  (killLoop_inv s.mKillList s h).congrAll (List.Perm.refl _) rfl rfl rfl rfl rfl
    (fun _ => rfl) (fun _ => rfl)

/-- The create loop appends the queue to the live collection. -/
theorem createLoop_eq : ∀ (L : List ProbePtr) (s : LLReflectionMapManager),
    L.foldl (fun m probe => { m with mProbes := m.mProbes ++ [probe] }) s =
      { s with mProbes := s.mProbes ++ L } := by
  intro L
  induction L with
  | nil => intro s; simp
  | cons a t ih =>
    intro s
    rw [List.foldl_cons, ih]
    simp

theorem processCreateList_eq (s : LLReflectionMapManager) :
    { processCreateList s with mCreateList := [] } =
      { s with mProbes := s.mProbes ++ s.mCreateList, mCreateList := [] } := by
  unfold processCreateList
  rw [createLoop_eq]

theorem processCreateList_inv {N : Nat} {s : LLReflectionMapManager} (h : ManagerInv N s) :
    ManagerInv N { processCreateList s with mCreateList := [] } := by
  rw [processCreateList_eq]
  have hdisj : ∀ p ∈ s.mCreateList, p ∉ s.mProbes := fun p hc hl =>
    (List.nodup_append.mp h.queue.nodup).2.2 hl hc
  refine ⟨⟨h.queue.nodup, ?_, ?_, ?_, ?_⟩, ⟨?_, ?_, ?_⟩, ⟨h.cursor.idle, h.cursor.face, ?_⟩,
    ⟨?_, ?_, ?_, ?_⟩⟩
  · intro p hp
    rcases List.mem_append.mp hp with hp | hp
    · exact h.nbr.nbrNodup p hp
    · show (s.heap p).mNeighbors.Nodup
      rw [h.queue.noNeighbors p hp]; exact List.nodup_nil
  · intro p hp q hq
    rcases List.mem_append.mp hp with hp | hp
    · exact List.mem_append_left _ (h.nbr.nbrLive p hp q hq)
    · change q ∈ (s.heap p).mNeighbors at hq
      rw [h.queue.noNeighbors p hp] at hq; exact absurd hq (List.not_mem_nil _)
  · intro p hp hq
    rcases List.mem_append.mp hp with hp | hp
    · exact h.nbr.nbrIrrefl p hp hq
    · change p ∈ (s.heap p).mNeighbors at hq
      rw [h.queue.noNeighbors p hp] at hq; exact absurd hq (List.not_mem_nil _)
  · intro p hp q hq
    rcases List.mem_append.mp hp with hp | hp
    · exact h.nbr.nbrSymm p hp q hq
    · change q ∈ (s.heap p).mNeighbors at hq
      rw [h.queue.noNeighbors p hp] at hq; exact absurd hq (List.not_mem_nil _)
  · intro i h0 hN
    show s.mCubeFree i = false ↔ ∃ p ∈ s.mProbes ++ s.mCreateList, (s.heap p).mCubeIndex = i
    rw [h.pool.used i h0 hN]
    constructor
    · rintro ⟨p, hp, hpc⟩; exact ⟨p, List.mem_append_left _ hp, hpc⟩
    · rintro ⟨p, hp, hpc⟩
      rcases List.mem_append.mp hp with hp | hp
      · exact ⟨p, hp, hpc⟩
      · rw [h.queue.noSlot p hp] at hpc; omega
  · intro p hp
    rcases List.mem_append.mp hp with hp | hp
    · exact h.pool.valid p hp
    · exact Or.inl (h.queue.noSlot p hp)
  · intro p hp q hq h1 h2
    change (s.heap p).mCubeIndex = (s.heap q).mCubeIndex at h1
    change (s.heap p).mCubeIndex ≠ -1 at h2
    rcases List.mem_append.mp hp with hp | hp
    · rcases List.mem_append.mp hq with hq | hq
      · exact h.pool.unique p hp q hq h1 h2
      · rw [h.queue.noSlot q hq] at h1; exact absurd h1 h2
    · exact absurd (h.queue.noSlot p hp) h2
  · intro p hp; exact List.mem_append_left _ (h.cursor.live p hp)
  · intro p hp
    apply h.queue.allocated
    simpa using hp
  · show ((s.mProbes ++ s.mCreateList) ++ []).Nodup
    rw [List.append_nil]; exact h.queue.nodup
  · intro p hp; exact absurd hp (List.not_mem_nil _)
  · intro p hp; exact absurd hp (List.not_mem_nil _)

/-- `doProbeUpdate` with a live probe under the cursor and a face counter
below 6 establishes the invariants: it only needs the neighbour, pool and
queue invariants to start with. -/
theorem doProbeUpdate_inv {N : Nat} (env : Env) {s : LLReflectionMapManager}
    (hn : NeighborInv s) (hpool : PoolInv N s) (hqueue : QueueInv s)
    (probe : ProbePtr) (hU : s.mUpdatingProbe = some probe) (hp : probe ∈ s.mProbes)
    (hf : s.mUpdatingFace < 6) : ManagerInv N (doProbeUpdate env s) := by
  have hn1 : NeighborInv (updateProbeFace env s probe s.mUpdatingFace) :=
    hn.congrNbr (List.Perm.refl _) (fun q => update_nbrs_eq s.heap probe q _ rfl)
  have hpool1 : PoolInv N (updateProbeFace env s probe s.mUpdatingFace) :=
    hpool.congrPool (List.Perm.refl _) rfl (fun q => update_cube_eq s.heap probe q _ rfl)
  have hqueue1 : QueueInv (updateProbeFace env s probe s.mUpdatingFace) :=
    hqueue.congrQueue (List.Perm.refl _) rfl rfl
      (fun q _ => update_cube_eq s.heap probe q _ rfl)
      (fun q _ => update_nbrs_eq s.heap probe q _ rfl)
  have hmod : (s.mUpdatingFace + 1) % 2 ^ 32 = s.mUpdatingFace + 1 := by omega
  unfold doProbeUpdate
  simp only [hU]
  have hface : (updateProbeFace env s probe s.mUpdatingFace).mUpdatingFace = s.mUpdatingFace := rfl
  rw [hface, hmod]
  by_cases h6 : s.mUpdatingFace + 1 = 6
  · rw [if_pos h6]
    obtain ⟨a1, a2, a3, a4, _, _⟩ := updateNeighbors_core (N := N) env
      (s := { updateProbeFace env s probe s.mUpdatingFace with
              mUpdatingFace := s.mUpdatingFace + 1 })
      (hn1.congrNbr (List.Perm.refl _) (fun _ => rfl))
      (hpool1.congrPool (List.Perm.refl _) rfl (fun _ => rfl))
      (hqueue1.congrQueue (List.Perm.refl _) rfl rfl (fun _ _ => rfl) (fun _ _ => rfl))
      probe hp
    exact ⟨a1.congrNbr (List.Perm.refl _) (fun _ => rfl),
      a2.congrPool (List.Perm.refl _) rfl (fun _ => rfl),
      ⟨⟨fun _ => rfl, fun _ => rfl⟩, by show 0 < 6; omega, fun p hp => absurd hp (by simp)⟩,
      a3.congrQueue (List.Perm.refl _) rfl rfl (fun _ _ => rfl) (fun _ _ => rfl)⟩
  · rw [if_neg h6]
    refine ⟨hn1.congrNbr (List.Perm.refl _) (fun _ => rfl),
      hpool1.congrPool (List.Perm.refl _) rfl (fun _ => rfl), ⟨?_, ?_, ?_⟩,
      hqueue1.congrQueue (List.Perm.refl _) rfl rfl (fun _ _ => rfl) (fun _ _ => rfl)⟩
    · show s.mUpdatingProbe = none ↔ s.mUpdatingFace + 1 = 0
      rw [hU]; simp
    · show s.mUpdatingFace + 1 < 6; omega
    · intro p hp'
      change s.mUpdatingProbe = some p at hp'
      rw [hU] at hp'
      have : probe = p := by simpa using hp'
      rw [← this]; exact hp

/-- The three ways `allocateCubeIndex` ends: a free slot, a stolen slot, or
the failed assertion. -/
theorem allocateCubeIndex_cases (N : Nat) (s : LLReflectionMapManager) :
    (∃ j : Nat, j < N ∧ s.mCubeFree (j : Int) = true ∧
      (∀ k : Nat, k < j → s.mCubeFree (k : Int) = false) ∧
      allocateCubeIndex N s =
        ({ s with mCubeFree := Function.update s.mCubeFree (j : Int) false }, (j : Int))) ∨
    ((∀ i : Nat, i < N → s.mCubeFree (i : Int) = false) ∧
      ∃ k : Nat, N ≤ k ∧ k < s.mProbes.length ∧ (s.heap (s.probeAt k)).mCubeIndex ≠ -1 ∧
        (∀ m : Nat, k < m → m < s.mProbes.length → (s.heap (s.probeAt m)).mCubeIndex = -1) ∧
        allocateCubeIndex N s =
          (s.store (s.probeAt k) { s.heap (s.probeAt k) with mCubeIndex := -1 },
            (s.heap (s.probeAt k)).mCubeIndex)) ∨
    ((∀ i : Nat, i < N → s.mCubeFree (i : Int) = false) ∧
      (∀ k : Nat, N ≤ k → k < s.mProbes.length → (s.heap (s.probeAt k)).mCubeIndex = -1) ∧
      allocateCubeIndex N s = ({ s with llassertFailed := true }, -1)) := by
  cases hsf : scanFree s.mCubeFree N 0 with
  | some j =>
    obtain ⟨_, h2, h3, h4⟩ := scanFree_some s.mCubeFree N 0 j hsf
    refine Or.inl ⟨j, by omega, h3, fun k hk => h4 k (Nat.zero_le _) hk, ?_⟩
    simp only [allocateCubeIndex, hsf]
  | none =>
    have hnofree : ∀ i : Nat, i < N → s.mCubeFree (i : Int) = false := fun i hi =>
      scanFree_none s.mCubeFree N 0 hsf i (Nat.zero_le _) (by omega)
    cases hss : scanSteal N s s.mProbes.length with
    | some k =>
      obtain ⟨h1, h2, h3, h4⟩ := scanSteal_some N s _ k hss
      refine Or.inr (Or.inl ⟨hnofree, k, h1, h2, h3, h4, ?_⟩)
      simp only [allocateCubeIndex, hsf, hss]
    | none =>
      refine Or.inr (Or.inr ⟨hnofree, scanSteal_none N s _ hss, ?_⟩)
      simp only [allocateCubeIndex, hsf, hss]

/-- Giving the result of `allocateCubeIndex` to a live probe that has no
slot (`probe->mCubeIndex = allocateCubeIndex()`) keeps the invariants. -/
theorem claimSlot_inv {N : Nat} {s : LLReflectionMapManager} (h : ManagerInv N s)
    (probe : ProbePtr) (hp : probe ∈ s.mProbes) (hc : (s.heap probe).mCubeIndex = -1) :
    ManagerInv N ((allocateCubeIndex N s).1.store probe
      { (allocateCubeIndex N s).1.heap probe with mCubeIndex := (allocateCubeIndex N s).2 }) := by
  have hnc : ∀ q ∈ s.mCreateList, q ≠ probe := fun q hq e =>
    (List.nodup_append.mp h.queue.nodup).2.2 hp (e ▸ hq)
  rcases allocateCubeIndex_cases N s with ⟨j, hjN, hjfree, _, heq⟩ | ⟨hnofree, k, hkN, hklen, hkc, _, heq⟩ |
      ⟨_, _, heq⟩
  · rw [heq]
    have hnoholder : ¬ ∃ q ∈ s.mProbes, (s.heap q).mCubeIndex = (j : Int) := by
      intro hex
      have := (h.pool.used (j : Int) (by omega) (by omega)).mpr hex
      rw [hjfree] at this
      exact absurd this (by decide)
    generalize htdef :
      ({ s with mCubeFree := Function.update s.mCubeFree (j : Int) false } :
          LLReflectionMapManager).store probe
        { s.heap probe with mCubeIndex := (j : Int) } = t
    have hP : t.mProbes = s.mProbes := by rw [← htdef]; rfl
    have hC : t.mCreateList = s.mCreateList := by rw [← htdef]; rfl
    have hF : t.mCubeFree = Function.update s.mCubeFree (j : Int) false := by rw [← htdef]; rfl
    have hnext : t.nextPtr = s.nextPtr := by rw [← htdef]; rfl
    have hU : t.mUpdatingProbe = s.mUpdatingProbe := by rw [← htdef]; rfl
    have hUF : t.mUpdatingFace = s.mUpdatingFace := by rw [← htdef]; rfl
    have hcubep : (t.heap probe).mCubeIndex = (j : Int) := by
      rw [← htdef]; simp [store]
    have hcube : ∀ q, q ≠ probe → (t.heap q).mCubeIndex = (s.heap q).mCubeIndex := by
      intro q h1
      rw [← htdef]; simp [store, Function.update_noteq h1]
    have hnbr : ∀ q, (t.heap q).mNeighbors = (s.heap q).mNeighbors := by
      intro q
      rw [← htdef]
      exact update_nbrs_eq s.heap probe q _ rfl
    refine ⟨h.nbr.congrNbr (by rw [hP]) hnbr, ⟨?_, ?_, ?_⟩,
      h.cursor.congrCursor (by rw [hP]) hU hUF,
      h.queue.congrQueue (by rw [hP]) hC hnext (fun q hq => hcube q (hnc q hq))
        (fun q _ => hnbr q)⟩
    · intro i h0 hN
      rw [hF, hP]
      by_cases hij : i = (j : Int)
      · subst hij
        rw [Function.update_same]
        exact ⟨fun _ => ⟨probe, hp, hcubep⟩, fun _ => rfl⟩
      · rw [Function.update_noteq hij, h.pool.used i h0 hN]
        constructor
        · rintro ⟨q, hq, hqc⟩
          have hqp : q ≠ probe := by
            intro e; rw [e, hc] at hqc; omega
          exact ⟨q, hq, by rw [hcube q hqp]; exact hqc⟩
        · rintro ⟨q, hq, hqc⟩
          by_cases hqp : q = probe
          · rw [hqp, hcubep] at hqc; exact absurd hqc.symm hij
          · exact ⟨q, hq, by rw [hcube q hqp] at hqc; exact hqc⟩
    · intro q hq
      rw [hP] at hq
      by_cases hqp : q = probe
      · rw [hqp, hcubep]; right; omega
      · rw [hcube q hqp]; exact h.pool.valid q hq
    · intro p1 hp1 p2 hp2
      rw [hP] at hp1 hp2
      by_cases h1 : p1 = probe
      · by_cases h2 : p2 = probe
        · intro _ _; rw [h1, h2]
        · rw [h1, hcubep, hcube p2 h2]
          intro e _
          exact absurd ⟨p2, hp2, e.symm⟩ hnoholder
      · by_cases h2 : p2 = probe
        · rw [h2, hcubep, hcube p1 h1]
          intro e _
          exact absurd ⟨p1, hp1, e⟩ hnoholder
        · rw [hcube p1 h1, hcube p2 h2]
          exact h.pool.unique p1 hp1 p2 hp2
  · rw [heq]
    have hv : s.probeAt k ∈ s.mProbes := probeAt_mem s k hklen
    have hvp : s.probeAt k ≠ probe := by
      intro e; rw [e] at hkc; exact hkc hc
    have hpv : probe ≠ s.probeAt k := fun e => hvp e.symm
    generalize hvdef : s.probeAt k = v at *
    generalize hcdef : (s.heap v).mCubeIndex = c at *
    have hvalid_c : 0 ≤ c ∧ c < (N : Int) := by
      rcases h.pool.valid v hv with e | e
      · rw [hcdef] at e; exact absurd e hkc
      · rw [hcdef] at e; exact e
    generalize htdef : (s.store v { s.heap v with mCubeIndex := -1 }).store probe
      { (s.store v { s.heap v with mCubeIndex := -1 }).heap probe with mCubeIndex := c } = t
    have hP : t.mProbes = s.mProbes := by rw [← htdef]; rfl
    have hC : t.mCreateList = s.mCreateList := by rw [← htdef]; rfl
    have hF : t.mCubeFree = s.mCubeFree := by rw [← htdef]; rfl
    have hnext : t.nextPtr = s.nextPtr := by rw [← htdef]; rfl
    have hU : t.mUpdatingProbe = s.mUpdatingProbe := by rw [← htdef]; rfl
    have hUF : t.mUpdatingFace = s.mUpdatingFace := by rw [← htdef]; rfl
    have hcubep : (t.heap probe).mCubeIndex = c := by
      rw [← htdef]; simp [store]
    have hcubev : (t.heap v).mCubeIndex = -1 := by
      rw [← htdef]; simp [store, Function.update_noteq hvp]
    have hcube : ∀ q, q ≠ probe → q ≠ v → (t.heap q).mCubeIndex = (s.heap q).mCubeIndex := by
      intro q h1 h2
      rw [← htdef]; simp [store, Function.update_noteq h1, Function.update_noteq h2]
    have hnbr : ∀ q, (t.heap q).mNeighbors = (s.heap q).mNeighbors := by
      intro q
      rw [← htdef]
      by_cases h1 : q = probe
      · subst h1; simp [store, Function.update_noteq hpv]
      · by_cases h2 : q = v
        · subst h2; simp [store, Function.update_noteq h1]
        · simp [store, Function.update_noteq h1, Function.update_noteq h2]
    have hvc : ∀ q ∈ s.mCreateList, q ≠ v := fun q hq e =>
      (List.nodup_append.mp h.queue.nodup).2.2 hv (e ▸ hq)
    refine ⟨h.nbr.congrNbr (by rw [hP]) hnbr, ⟨?_, ?_, ?_⟩,
      h.cursor.congrCursor (by rw [hP]) hU hUF,
      h.queue.congrQueue (by rw [hP]) hC hnext (fun q hq => hcube q (hnc q hq) (hvc q hq))
        (fun q _ => hnbr q)⟩
    · intro i h0 hN
      rw [hF, hP, h.pool.used i h0 hN]
      constructor
      · rintro ⟨q, hq, hqc⟩
        by_cases hqv : q = v
        · refine ⟨probe, hp, ?_⟩
          rw [hcubep, ← hqc, hqv, hcdef]
        · have hqp : q ≠ probe := by
            intro e; rw [e, hc] at hqc; omega
          exact ⟨q, hq, by rw [hcube q hqp hqv]; exact hqc⟩
      · rintro ⟨q, hq, hqc⟩
        by_cases hqp : q = probe
        · rw [hqp, hcubep] at hqc
          exact ⟨v, hv, by rw [hcdef]; exact hqc⟩
        · by_cases hqv : q = v
          · rw [hqv, hcubev] at hqc; omega
          · exact ⟨q, hq, by rw [hcube q hqp hqv] at hqc; exact hqc⟩
    · intro q hq
      rw [hP] at hq
      by_cases hqp : q = probe
      · rw [hqp, hcubep]; exact Or.inr hvalid_c
      · by_cases hqv : q = v
        · rw [hqv, hcubev]; exact Or.inl rfl
        · rw [hcube q hqp hqv]; exact h.pool.valid q hq
    · intro p1 hp1 p2 hp2
      rw [hP] at hp1 hp2
      by_cases h1v : p1 = v
      · rw [h1v, hcubev]; intro _ e; exact absurd rfl e
      · by_cases h2v : p2 = v
        · rw [h2v, hcubev]; intro e1 e2; exact absurd e1 e2
        · by_cases h1 : p1 = probe
          · by_cases h2 : p2 = probe
            · intro _ _; rw [h1, h2]
            · rw [h1, hcubep, hcube p2 h2 h2v]
              intro e _
              exfalso
              exact h2v (h.pool.unique p2 hp2 v hv (by rw [hcdef]; exact e.symm)
                (by rw [← e]; exact hkc))
          · by_cases h2 : p2 = probe
            · rw [h2, hcubep, hcube p1 h1 h1v]
              intro e _
              exfalso
              exact h1v (h.pool.unique p1 hp1 v hv (by rw [hcdef]; exact e)
                (by rw [e]; exact hkc))
            · rw [hcube p1 h1 h1v, hcube p2 h2 h2v]
              exact h.pool.unique p1 hp1 p2 hp2
  · rw [heq]
    exact h.congrAll (List.Perm.refl _) rfl rfl rfl rfl rfl
      (fun q => update_cube_eq s.heap probe q _ hc.symm)
      (fun q => update_nbrs_eq s.heap probe q _ rfl)

theorem deleteProbe_length (s : LLReflectionMapManager) (i : Nat) (hi : i < s.mProbes.length) :
    (s.deleteProbe i).mProbes.length = s.mProbes.length - 1 := by
  obtain ⟨h, b, heq, _, _⟩ := deleteProbe_eq s i hi
  rw [heq]
  exact List.length_eraseIdx_of_lt hi

theorem visitProbe_mProbes (N : Nat) (env : Env) (did_update : Bool) (st : Scan) (i : Nat)
    (probe : ProbePtr) : (visitProbe N env did_update st i probe).m.mProbes = st.m.mProbes := rfl

/-- Induction over the scan of `update`: a property that survives the erase
of the probe at the current index and the visit of a kept probe holds when
the scan ends, and with `mProbes.size() - i` rounds of fuel the scan ends
because its index has reached the end of `mProbes`. -/
theorem scanProbes_induct (N : Nat) (env : Env) (did_update : Bool) (P : Nat → Scan → Prop)
    (hdel : ∀ i st probe, P i st → st.m.mProbes[i]? = some probe → env.getNumRefs probe = 1 →
      P i { st with m := st.m.deleteProbe i })
    (hvisit : ∀ i st probe, P i st → st.m.mProbes[i]? = some probe →
      env.getNumRefs probe ≠ 1 → P (i + 1) (visitProbe N env did_update st i probe)) :
    ∀ (fuel i : Nat) (st : Scan), P i st → st.m.mProbes.length ≤ i + fuel →
      ∃ i1, P i1 (scanProbes N env did_update fuel i st) ∧
        (scanProbes N env did_update fuel i st).m.mProbes.length ≤ i1 := by
  intro fuel
  induction fuel with
  | zero =>
    intro i st hP hlen
    exact ⟨i, hP, by simpa [scanProbes] using hlen⟩
  | succ fuel ih =>
    intro i st hP hlen
    unfold scanProbes
    cases hget : st.m.mProbes[i]? with
    | none =>
      simp only []
      exact ⟨i, hP, List.getElem?_eq_none_iff.mp hget⟩
    | some probe =>
      simp only []
      have hi : i < st.m.mProbes.length := by
        by_contra hcon
        rw [List.getElem?_eq_none (by omega)] at hget
        exact absurd hget (by simp)
      by_cases hr : env.getNumRefs probe = 1
      · rw [if_pos hr]
        apply ih i _ (hdel i st probe hP hget hr)
        show (st.m.deleteProbe i).mProbes.length ≤ i + fuel
        rw [deleteProbe_length _ _ hi]
        omega
      · rw [if_neg hr]
        apply ih (i + 1) _ (hvisit i st probe hP hget hr)
        rw [visitProbe_mProbes]
        omega

theorem visitProbe_inv {N : Nat} (env : Env) (did_update : Bool) (st : Scan) (i : Nat)
    (probe : ProbePtr) (h : ManagerInv N st.m) :
    ManagerInv N (visitProbe N env did_update st i probe).m := by
  unfold visitProbe
  simp only []
  refine store_inv (store_inv h probe _ ?_ ?_) probe _ ?_ ?_ <;> rfl

/-- What holds during the scan of `update`, at index `i`. -/
theorem scanProbes_spec {N : Nat} (env : Env) (did_update : Bool) (s : LLReflectionMapManager)
    (h : ManagerInv N s) :
    ∃ i1,
      ManagerInv N (scanProbes N env did_update s.mProbes.length 0
        { m := s, oldestProbe := none, closestDynamic := none }).m ∧
      (∀ o, (scanProbes N env did_update s.mProbes.length 0
          { m := s, oldestProbe := none, closestDynamic := none }).oldestProbe = some o →
        did_update = false ∧ ∃ j, j < N ∧
          (scanProbes N env did_update s.mProbes.length 0
            { m := s, oldestProbe := none, closestDynamic := none }).m.mProbes[j]? = some o) ∧
      (∀ c, (scanProbes N env did_update s.mProbes.length 0
          { m := s, oldestProbe := none, closestDynamic := none }).closestDynamic = some c →
        c ∈ (scanProbes N env did_update s.mProbes.length 0
            { m := s, oldestProbe := none, closestDynamic := none }).m.mProbes) ∧
      (scanProbes N env did_update s.mProbes.length 0
        { m := s, oldestProbe := none, closestDynamic := none }).m.mProbes.length ≤ i1 := by
  have key := scanProbes_induct N env did_update
    (fun i st => ManagerInv N st.m ∧
      (∀ o, st.oldestProbe = some o → did_update = false ∧
        ∃ j, j < i ∧ j < N ∧ st.m.mProbes[j]? = some o) ∧
      (∀ c, st.closestDynamic = some c → ∃ j, j < i ∧ st.m.mProbes[j]? = some c))
    ?_ ?_ s.mProbes.length 0 { m := s, oldestProbe := none, closestDynamic := none }
    ⟨h, fun o ho => absurd ho (by simp), fun c hc => absurd hc (by simp)⟩ (by simp)
  · obtain ⟨i1, ⟨h1, h2, h3⟩, h4⟩ := key
    refine ⟨i1, h1, ?_, ?_, h4⟩
    · intro o ho
      obtain ⟨hd, j, _, hjN, hj⟩ := h2 o ho
      exact ⟨hd, j, hjN, hj⟩
    · intro c hc
      obtain ⟨j, _, hj⟩ := h3 c hc
      exact List.getElem?_mem hj
  · intro i st probe ⟨h1, h2, h3⟩ hget _
    have hi : i < st.m.mProbes.length := by
      by_contra hcon
      rw [List.getElem?_eq_none (by omega)] at hget
      exact absurd hget (by simp)
    have hP : (st.m.deleteProbe i).mProbes = st.m.mProbes.eraseIdx i :=
      (deleteProbe_spec st.m h1.nbr i hi).1
    refine ⟨deleteProbe_inv h1 i hi, ?_, ?_⟩
    · intro o ho
      obtain ⟨hd, j, hji, hjN, hj⟩ := h2 o ho
      refine ⟨hd, j, hji, hjN, ?_⟩
      show (st.m.deleteProbe i).mProbes[j]? = some o
      rw [hP, List.getElem?_eraseIdx_of_lt _ _ _ hji]; exact hj
    · intro c hc
      obtain ⟨j, hji, hj⟩ := h3 c hc
      refine ⟨j, hji, ?_⟩
      show (st.m.deleteProbe i).mProbes[j]? = some c
      rw [hP, List.getElem?_eraseIdx_of_lt _ _ _ hji]; exact hj
  · intro i st probe ⟨h1, h2, h3⟩ hget _
    refine ⟨visitProbe_inv env did_update st i probe h1, ?_, ?_⟩
    · intro o ho
      rw [visitProbe_mProbes]
      unfold visitProbe at ho
      simp only [] at ho
      split_ifs at ho with hc
      · have : probe = o := by simpa using ho
        subst this
        exact ⟨hc.1, i, by omega, hc.2.1, hget⟩
      · obtain ⟨hd, j, hji, hjN, hj⟩ := h2 o ho
        exact ⟨hd, j, by omega, hjN, hj⟩
    · intro c hc
      rw [visitProbe_mProbes]
      unfold visitProbe at hc
      simp only [] at hc
      split_ifs at hc with hcond
      · have : probe = c := by simpa using hc
        subst this
        exact ⟨i, by omega, hget⟩
      · obtain ⟨j, hji, hj⟩ := h3 c hc
        exact ⟨j, by omega, hj⟩

theorem faceLoop_inv {N : Nat} (env : Env) (probe : ProbePtr) :
    ∀ (L : List Nat) (s : LLReflectionMapManager), ManagerInv N s →
      ManagerInv N (L.foldl (fun m face => updateProbeFace env m probe face) s) ∧
      (L.foldl (fun m face => updateProbeFace env m probe face) s).mProbes = s.mProbes := by
  intro L
  induction L with
  | nil => intro s h; exact ⟨h, rfl⟩
  | cons a t ih =>
    intro s h
    rw [List.foldl_cons]
    obtain ⟨h1, h2⟩ := ih _ (updateProbeFace_inv env h probe a)
    exact ⟨h1, by rw [h2]; rfl⟩

theorem updateRealtime_inv {N : Nat} (env : Env) {s : LLReflectionMapManager}
    (h : ManagerInv N s) (closestDynamic : Option ProbePtr) :
    ManagerInv N (updateRealtime env s closestDynamic) ∧
    (updateRealtime env s closestDynamic).mProbes = s.mProbes := by
  unfold updateRealtime
  cases closestDynamic with
  | none => exact ⟨h, rfl⟩
  | some probe =>
    simp only []
    split_ifs with hr
    · obtain ⟨h1, h2⟩ := faceLoop_inv (N := N) env probe (List.range 6) _
        (store_inv h probe
          { s.heap probe with
            mOrigin := (env.autoAdjustOrigin probe).1
            mRadius := (env.autoAdjustOrigin probe).2 } rfl rfl)
      exact ⟨h1, by rw [h2]; rfl⟩
    · exact ⟨h, rfl⟩

theorem allocateCubeIndex_mProbes (N : Nat) (s : LLReflectionMapManager) :
    (allocateCubeIndex N s).1.mProbes = s.mProbes := by
  rcases allocateCubeIndex_cases N s with ⟨j, _, _, _, heq⟩ | ⟨_, k, _, _, _, _, heq⟩ | ⟨_, _, heq⟩
  all_goals (rw [heq]; first | done | rfl)

theorem updateNeighbors_mProbes (env : Env) (s : LLReflectionMapManager) (probe : ProbePtr) :
    (s.updateNeighbors env probe).mProbes = s.mProbes := by
  obtain ⟨h, b, heq, _⟩ := updateNeighbors_eq env s probe
  rw [heq]

theorem doProbeUpdate_mProbes (env : Env) (s : LLReflectionMapManager) :
    (doProbeUpdate env s).mProbes = s.mProbes := by
  unfold doProbeUpdate
  cases s.mUpdatingProbe with
  | none => rfl
  | some probe =>
    simp only []
    split_ifs
    · show (updateNeighbors env _ probe).mProbes = s.mProbes
      rw [updateNeighbors_mProbes]; rfl
    · rfl

/-- The last two statements of the block "switch to updating the next oldest
probe": re-centre the probe, put the cursor on it and capture a face. -/
theorem startCapture_inv {N : Nat} (env : Env) {s : LLReflectionMapManager}
    (h : ManagerInv N s) (probe : ProbePtr) (hp : probe ∈ s.mProbes) (v : LLReflectionMap)
    (hc : v.mCubeIndex = (s.heap probe).mCubeIndex)
    (hn : v.mNeighbors = (s.heap probe).mNeighbors) :
    ManagerInv N (doProbeUpdate env { s.store probe v with mUpdatingProbe := some probe }) := by
  have h3 : ManagerInv N (s.store probe v) := store_inv h probe v hc hn
  exact doProbeUpdate_inv env
    (h3.nbr.congrNbr (List.Perm.refl _) (fun _ => rfl))
    (h3.pool.congrPool (List.Perm.refl _) rfl (fun _ => rfl))
    (h3.queue.congrQueue (List.Perm.refl _) rfl rfl (fun _ _ => rfl) (fun _ _ => rfl))
    probe rfl hp h.cursor.face

theorem switchToOldest_inv {N : Nat} (env : Env) (did_update : Bool)
    {s : LLReflectionMapManager} (h : ManagerInv N s) (oldestProbe : Option ProbePtr)
    (ho : ∀ o, oldestProbe = some o → o ∈ s.mProbes) :
    ManagerInv N (switchToOldest N env did_update s oldestProbe) ∧
    (switchToOldest N env did_update s oldestProbe).mProbes = s.mProbes := by
  unfold switchToOldest
  cases oldestProbe with
  | none => exact ⟨h, rfl⟩
  | some probe =>
    have hp : probe ∈ s.mProbes := ho probe rfl
    simp only []
    by_cases hd : did_update = false
    · rw [if_pos hd]
      by_cases hc : (s.heap probe).mCubeIndex = -1
      · rw [if_pos hc]
        have h1 : ManagerInv N (s.store probe { s.heap probe with mCubeArray := true }) :=
          store_inv h probe _ rfl rfl
        have hc1 : ((s.store probe { s.heap probe with mCubeArray := true }).heap probe).mCubeIndex
            = -1 := by
          simp [store, hc]
        have h2 := claimSlot_inv h1 probe hp hc1
        have hP2 : ((allocateCubeIndex N
              (s.store probe { s.heap probe with mCubeArray := true })).1.store probe
            { (allocateCubeIndex N
                (s.store probe { s.heap probe with mCubeArray := true })).1.heap probe with
              mCubeIndex := (allocateCubeIndex N
                (s.store probe { s.heap probe with mCubeArray := true })).2 }).mProbes
            = s.mProbes := by
          show (allocateCubeIndex N _).1.mProbes = s.mProbes
          rw [allocateCubeIndex_mProbes]; rfl
        generalize (allocateCubeIndex N
              (s.store probe { s.heap probe with mCubeArray := true })).1.store probe
            { (allocateCubeIndex N
                (s.store probe { s.heap probe with mCubeArray := true })).1.heap probe with
              mCubeIndex := (allocateCubeIndex N
                (s.store probe { s.heap probe with mCubeArray := true })).2 } = s2 at h2 hP2 ⊢
        refine ⟨startCapture_inv env h2 probe (by rw [hP2]; exact hp) _ rfl rfl, ?_⟩
        rw [doProbeUpdate_mProbes]; exact hP2
      · rw [if_neg hc]
        refine ⟨startCapture_inv env h probe hp _ rfl rfl, ?_⟩
        rw [doProbeUpdate_mProbes]; rfl
    · rw [if_neg hd]
      exact ⟨h, rfl⟩

/-- A suspended call of `update` (no PBR, teleport, or logout) does nothing. -/
theorem update_suspended (N : Nat) (env : Env) (s : LLReflectionMapManager)
    (hg : env.sRenderPBR = false ∨ env.gTeleportDisplay = true ∨ env.logoutRequestSent = true) :
    s.update N env = s := by
  unfold update
  by_cases hg1 : env.sRenderPBR = false ∨ env.gTeleportDisplay = true
  · rw [if_pos hg1]
  · rw [if_neg hg1]
    have hg2 : env.logoutRequestSent = true := by tauto
    rw [if_pos hg2]

/-- A call of `update` that is not suspended and finds no probe after
draining the queues stops there. -/
theorem update_empty (N : Nat) (env : Env) (s s2 : LLReflectionMapManager)
    (hg1 : env.sRenderPBR = true) (hg2 : env.gTeleportDisplay = false)
    (hg3 : env.logoutRequestSent = false)
    (hs2 : s2 = { processCreateList { processKillList s with mKillList := [] } with
      mCreateList := [] })
    (he : s2.mProbes.isEmpty = true) : s.update N env = s2 := by
  subst hs2
  unfold update
  simp only [hg1, hg2, hg3, Bool.true_eq_false, Bool.false_eq_true, or_self, if_false]
  rw [if_pos he]

/-- A call of `update` that is not suspended and has probes, stage by stage. -/
theorem update_run (N : Nat) (env : Env) (s s2 s3 s4 s5 : LLReflectionMapManager) (st : Scan)
    (hg1 : env.sRenderPBR = true) (hg2 : env.gTeleportDisplay = false)
    (hg3 : env.logoutRequestSent = false)
    (hs2 : s2 = { processCreateList { processKillList s with mKillList := [] } with
      mCreateList := [] })
    (he : s2.mProbes.isEmpty = false)
    (hs3 : s3 = if s2.mUpdatingProbe.isSome = true then doProbeUpdate env s2 else s2)
    (hst : st = scanProbes N env s2.mUpdatingProbe.isSome s3.mProbes.length 0
      { m := s3, oldestProbe := none, closestDynamic := none })
    (hs4 : s4 = updateRealtime env st.m st.closestDynamic)
    (hs5 : s5 = switchToOldest N env s2.mUpdatingProbe.isSome s4 st.oldestProbe) :
    s.update N env = { s5 with mProbes := env.stdSort (CompareProbeDistance s5) s5.mProbes } := by
  subst hs5 hs4 hst hs3 hs2
  unfold update
  simp only [hg1, hg2, hg3, Bool.true_eq_false, Bool.false_eq_true, or_self, if_false]
  rw [if_neg (by rw [he]; decide)]

/-- One call of `update` keeps the invariants. -/
theorem update_inv {N : Nat} (env : Env) (hsort : StdSortSpec env.stdSort)
    {s : LLReflectionMapManager} (h : ManagerInv N s) : ManagerInv N (s.update N env) := by
  by_cases hg : env.sRenderPBR = false ∨ env.gTeleportDisplay = true ∨ env.logoutRequestSent = true
  · rw [update_suspended N env s hg]; exact h
  have hg1 : env.sRenderPBR = true := by
    cases hx : env.sRenderPBR
    · exact absurd (Or.inl hx) hg
    · rfl
  have hg2 : env.gTeleportDisplay = false := by
    cases hx : env.gTeleportDisplay
    · rfl
    · exact absurd (Or.inr (Or.inl hx)) hg
  have hg3 : env.logoutRequestSent = false := by
    cases hx : env.logoutRequestSent
    · rfl
    · exact absurd (Or.inr (Or.inr hx)) hg
  have h1 := processKillList_inv h
  have h2 := processCreateList_inv h1
  generalize hs2 : ({ processCreateList { processKillList s with mKillList := [] } with
      mCreateList := [] } : LLReflectionMapManager) = s2 at h2
  by_cases he : s2.mProbes.isEmpty = true
  · rw [update_empty N env s s2 hg1 hg2 hg3 hs2.symm he]; exact h2
  have he2 : s2.mProbes.isEmpty = false := by
    cases hx : s2.mProbes.isEmpty
    · rfl
    · exact absurd hx he
  have h3 : ManagerInv N (if s2.mUpdatingProbe.isSome = true then doProbeUpdate env s2 else s2) := by
    split_ifs with hu
    · obtain ⟨p, hp⟩ := Option.isSome_iff_exists.mp hu
      exact doProbeUpdate_inv env h2.nbr h2.pool h2.queue p hp (h2.cursor.live p hp) h2.cursor.face
    · exact h2
  generalize hs3 : (if s2.mUpdatingProbe.isSome = true then doProbeUpdate env s2 else s2) = s3 at h3
  obtain ⟨_, h4, ho, _, _⟩ := scanProbes_spec env s2.mUpdatingProbe.isSome s3 h3
  generalize hst : scanProbes N env s2.mUpdatingProbe.isSome s3.mProbes.length 0
    { m := s3, oldestProbe := none, closestDynamic := none } = st at h4 ho
  obtain ⟨h5, hP5⟩ := updateRealtime_inv env h4 st.closestDynamic
  have ho5 : ∀ o, st.oldestProbe = some o → o ∈ (updateRealtime env st.m st.closestDynamic).mProbes := by
    intro o hoo
    obtain ⟨_, j, _, hj⟩ := ho o hoo
    rw [hP5]
    exact List.getElem?_mem hj
  generalize hs4 : updateRealtime env st.m st.closestDynamic = s4 at h5 ho5
  obtain ⟨h6, _⟩ := switchToOldest_inv env s2.mUpdatingProbe.isSome h5 st.oldestProbe ho5
  generalize hs5 : switchToOldest N env s2.mUpdatingProbe.isSome s4 st.oldestProbe = s5 at h6
  rw [update_run N env s s2 s3 s4 s5 st hg1 hg2 hg3 hs2.symm he2 hs3.symm hst.symm hs4.symm hs5.symm]
  exact h6.congrAll (hsort.perm _ _) rfl rfl rfl rfl rfl (fun _ => rfl) (fun _ => rfl)

theorem bindProbe_spec (env : Env) (b : Bind) (i : Nat) (probe : ProbePtr) :
    (∀ q, q ≠ probe → (bindProbe env b i probe).m.heap q = b.m.heap q) ∧
    (bindProbe env b i probe).m.heap probe =
      { b.m.heap probe with
        mLastBindTime := env.gFrameTimeSeconds
        mProbeIndex := if (b.m.heap probe).mCubeIndex ≠ -1 then (b.count : Int) else -1 } ∧
    (bindProbe env b i probe).maps =
      (if (b.m.heap probe).mCubeIndex ≠ -1 then b.maps.set b.count (some probe) else b.maps) ∧
    (bindProbe env b i probe).count =
      (if (b.m.heap probe).mCubeIndex ≠ -1 then b.count + 1 else b.count) ∧
    (bindProbe env b i probe).lastIdx = i ∧
    (bindProbe env b i probe).m = { b.m with heap := (bindProbe env b i probe).m.heap } := by
  unfold bindProbe
  by_cases hc : (b.m.heap probe).mCubeIndex ≠ -1
  · simp only [store, Function.update_same, hc, ne_eq, not_false_eq_true, if_true]
    refine ⟨?_, ?_, trivial, trivial, trivial, trivial⟩
    · intro q hq
      simp [Function.update_noteq hq]
    · simp
  · simp only [store, Function.update_same, hc, ne_eq, not_false_eq_true, if_false]
    refine ⟨?_, ?_, trivial, trivial, trivial, trivial⟩
    · intro q hq
      simp [Function.update_noteq hq]
    · simp

/-- The first loop of `getReflectionMaps`: the buffer and the count it
leaves, in terms of the probes it runs over. -/
theorem bindLoop_spec (env : Env) (cube : ProbePtr → Int) :
    ∀ (L : List ProbePtr) (i : Nat) (b : Bind), b.count ≤ b.maps.length →
      (∀ q, (b.m.heap q).mCubeIndex = cube q) →
      (∀ q, ((bindLoop env L i b).m.heap q).mCubeIndex = cube q) ∧
      (bindLoop env L i b).m = { b.m with heap := (bindLoop env L i b).m.heap } ∧
      (bindLoop env L i b).maps.length = b.maps.length ∧
      (bindLoop env L i b).count =
        min b.maps.length (b.count + (L.filter (fun p => decide (cube p ≠ -1))).length) ∧
      (∀ j, j < b.count ∨ (bindLoop env L i b).count ≤ j →
        (bindLoop env L i b).maps[j]? = b.maps[j]?) ∧
      (∀ j, b.count ≤ j → j < (bindLoop env L i b).count →
        (bindLoop env L i b).maps[j]? =
          some ((L.filter (fun p => decide (cube p ≠ -1)))[j - b.count]?)) := by
  intro L
  induction L with
  | nil =>
    intro i b hle hcube
    refine ⟨hcube, rfl, rfl, ?_, fun _ _ => rfl, ?_⟩
    · show b.count = _
      simp [hle]
    · intro j h1 h2
      exact absurd h2 (not_lt.mpr h1)
  | cons p rest ih =>
    intro i b hle hcube
    unfold bindLoop
    by_cases hlt : b.count < b.maps.length
    · rw [if_pos hlt]
      obtain ⟨hne, heq, hmaps, hcount, -, hm⟩ := bindProbe_spec env b i p
      rw [hcube p] at hmaps hcount
      have hcube' : ∀ q, ((bindProbe env b i p).m.heap q).mCubeIndex = cube q := by
        intro q
        by_cases hq : q = p
        · subst hq; rw [heq]; exact hcube q
        · rw [hne q hq]; exact hcube q
      by_cases hc : cube p ≠ -1
      · rw [if_pos hc] at hmaps hcount
        have hle' : (bindProbe env b i p).count ≤ (bindProbe env b i p).maps.length := by
          rw [hmaps, hcount, List.length_set]; exact hlt
        obtain ⟨h1, h2, h3, h4, h5, h6⟩ := ih (i + 1) (bindProbe env b i p) hle' hcube'
        have hfil : (p :: rest).filter (fun p => decide (cube p ≠ -1)) =
            p :: rest.filter (fun p => decide (cube p ≠ -1)) := by
          rw [List.filter_cons_of_pos (by simpa using hc)]
        rw [hfil]
        rw [hmaps] at h3
        rw [hmaps, hcount] at h4 h5
        rw [hcount] at h6
        rw [List.length_set] at h3 h4
        refine ⟨h1, ?_, h3, ?_, ?_, ?_⟩
        · rw [h2, hm]
        · rw [h4, List.length_cons]; congr 1; omega
        · intro j hj
          rw [h5 j (by omega), List.getElem?_set_ne (by omega)]
        · intro j hj1 hj2
          by_cases hjc : j = b.count
          · subst hjc
            rw [h5 b.count (Or.inl (Nat.lt_succ_self _)), List.getElem?_set_self hlt, Nat.sub_self,
              List.getElem?_cons_zero]
          · rw [h6 j (by omega) hj2]
            have : j - b.count = (j - (b.count + 1)) + 1 := by omega
            rw [this, List.getElem?_cons_succ]
      · rw [if_neg hc] at hmaps hcount
        have hle' : (bindProbe env b i p).count ≤ (bindProbe env b i p).maps.length := by
          rw [hmaps, hcount]; exact hle
        obtain ⟨h1, h2, h3, h4, h5, h6⟩ := ih (i + 1) (bindProbe env b i p) hle' hcube'
        have hfil : (p :: rest).filter (fun p => decide (cube p ≠ -1)) =
            rest.filter (fun p => decide (cube p ≠ -1)) := by
          rw [List.filter_cons_of_neg (by simpa using hc)]
        rw [hfil]
        rw [hmaps] at h3
        rw [hmaps, hcount] at h4 h5
        rw [hcount] at h6
        refine ⟨h1, ?_, h3, h4, h5, h6⟩
        rw [h2, hm]
    · rw [if_neg hlt]
      have he : b.count = b.maps.length := by omega
      refine ⟨hcube, rfl, rfl, ?_, fun _ _ => rfl, ?_⟩
      · rw [he]; simp
      · intro j h1 h2
        exact absurd h2 (not_lt.mpr h1)

/-- A bind time written by `getReflectionMaps` stays until the loop ends. -/
theorem bindLoop_keeps_time (env : Env) : ∀ (L : List ProbePtr) (i : Nat) (b : Bind) (q : ProbePtr),
    (b.m.heap q).mLastBindTime = env.gFrameTimeSeconds →
    ((bindLoop env L i b).m.heap q).mLastBindTime = env.gFrameTimeSeconds := by
  intro L
  induction L with
  | nil => intro i b q h; exact h
  | cons p rest ih =>
    intro i b q h
    unfold bindLoop
    split_ifs with hlt
    · apply ih
      obtain ⟨hne, heq, -⟩ := bindProbe_spec env b i p
      by_cases hq : q = p
      · subst hq; rw [heq]
      · rw [hne q hq]; exact h
    · exact h

/-- Every probe the first loop of `getReflectionMaps` reaches while the
buffer has room gets the bind time of the frame. -/
theorem bindLoop_examined (env : Env) (cube : ProbePtr → Int) :
    ∀ (L : List ProbePtr) (i : Nat) (b : Bind), b.count ≤ b.maps.length →
      (∀ q, (b.m.heap q).mCubeIndex = cube q) →
      ∀ (k : Nat) (p : ProbePtr), L[k]? = some p →
        b.count + ((L.take k).filter (fun p => decide (cube p ≠ -1))).length < b.maps.length →
        ((bindLoop env L i b).m.heap p).mLastBindTime = env.gFrameTimeSeconds := by
  intro L
  induction L with
  | nil => intro i b _ _ k p hk; simp at hk
  | cons a rest ih =>
    intro i b hle hcube k p hk hroom
    have hlt : b.count < b.maps.length := by omega
    unfold bindLoop
    rw [if_pos hlt]
    obtain ⟨hne, heq, hmaps, hcount, -, hm⟩ := bindProbe_spec env b i a
    rw [hcube a] at hmaps hcount
    have hcube' : ∀ q, ((bindProbe env b i a).m.heap q).mCubeIndex = cube q := by
      intro q
      by_cases hq : q = a
      · subst hq; rw [heq]; exact hcube q
      · rw [hne q hq]; exact hcube q
    have hle' : (bindProbe env b i a).count ≤ (bindProbe env b i a).maps.length := by
      rw [hmaps, hcount]
      split_ifs
      · rw [List.length_set]; exact hlt
      · exact hle
    cases k with
    | zero =>
      have hpa : a = p := by simpa using hk
      subst hpa
      apply bindLoop_keeps_time
      rw [heq]
    | succ k =>
      rw [List.getElem?_cons_succ] at hk
      apply ih (i + 1) _ hle' hcube' k p hk
      rw [hmaps, hcount]
      rw [List.take_succ_cons] at hroom
      by_cases hc : cube a ≠ -1
      · rw [List.filter_cons_of_pos (by simpa using hc), List.length_cons] at hroom
        rw [if_pos hc, if_pos hc, List.length_set]
        omega
      · rw [List.filter_cons_of_neg (by simpa using hc)] at hroom
        rw [if_neg hc, if_neg hc]
        exact hroom

/-- The second loop of `getReflectionMaps` writes `mProbeIndex = -1` into the
probes it runs over and nothing else. -/
theorem resetLoop_spec : ∀ (L : List ProbePtr) (m : LLReflectionMapManager),
    L.foldl (fun m probe => m.store probe { m.heap probe with mProbeIndex := -1 }) m =
      { m with heap := fun q =>
          if q ∈ L then { m.heap q with mProbeIndex := -1 } else m.heap q } := by
  intro L
  induction L with
  | nil => intro m; simp
  | cons a rest ih =>
    intro m
    rw [List.foldl_cons, ih]
    unfold store
    simp only [LLReflectionMapManager.mk.injEq, and_true, true_and]
    funext q
    by_cases hqa : q = a
    · subst hqa
      simp
    · simp [Function.update_noteq hqa, hqa]

/-- The buffer `getReflectionMaps` leaves, entry by entry. -/
theorem getReflectionMaps_buffer (env : Env) (s : LLReflectionMapManager)
    (maps : List (Option ProbePtr)) :
    (bindLoop env s.mProbes 0 { m := s, maps := maps, count := 0, lastIdx := 0 }).count =
      min maps.length (s.mProbes.filter (fun p => decide ((s.heap p).mCubeIndex ≠ -1))).length ∧
    (getReflectionMaps env s maps).2.length = maps.length ∧
    (∀ j, j < min maps.length
        (s.mProbes.filter (fun p => decide ((s.heap p).mCubeIndex ≠ -1))).length →
      (getReflectionMaps env s maps).2[j]? =
        some ((s.mProbes.filter (fun p => decide ((s.heap p).mCubeIndex ≠ -1)))[j]?)) ∧
    (min maps.length (s.mProbes.filter (fun p => decide ((s.heap p).mCubeIndex ≠ -1))).length
        < maps.length →
      (getReflectionMaps env s maps).2[min maps.length
        (s.mProbes.filter (fun p => decide ((s.heap p).mCubeIndex ≠ -1))).length]? = some none) ∧
    (∀ j, min maps.length
        (s.mProbes.filter (fun p => decide ((s.heap p).mCubeIndex ≠ -1))).length < j →
      (getReflectionMaps env s maps).2[j]? = maps[j]?) := by
  obtain ⟨-, -, hlen, hcount, hold, hnew⟩ := bindLoop_spec env (fun q => (s.heap q).mCubeIndex)
    s.mProbes 0 { m := s, maps := maps, count := 0, lastIdx := 0 } (Nat.zero_le _) (fun _ => rfl)
  simp only [Nat.zero_add, Nat.sub_zero] at hlen hcount hold hnew
  unfold getReflectionMaps
  simp only []
  generalize bindLoop env s.mProbes 0 { m := s, maps := maps, count := 0, lastIdx := 0 } = b
    at hlen hcount hold hnew
  rw [← hcount, ← hlen]
  refine ⟨rfl, ?_, ?_, ?_, ?_⟩
  · split_ifs <;> simp
  · intro j hj
    rw [← hnew j (Nat.zero_le _) hj]
    split_ifs
    · rw [List.getElem?_set_ne (by omega)]
    · rfl
  · intro hlt
    rw [if_pos hlt, List.getElem?_set_self hlt]
  · intro j hj
    rw [← hold j (Or.inr (Nat.le_of_lt hj))]
    split_ifs
    · rw [List.getElem?_set_ne (by omega)]
    · rfl

/-- Two overwrites of the bind time and the probe index amount to one. -/
theorem bind_frame_trans {a b c : LLReflectionMap}
    (h1 : b = { a with mLastBindTime := b.mLastBindTime, mProbeIndex := b.mProbeIndex })
    (h2 : c = { b with mLastBindTime := c.mLastBindTime, mProbeIndex := c.mProbeIndex }) :
    c = { a with mLastBindTime := c.mLastBindTime, mProbeIndex := c.mProbeIndex } := by
  cases a; cases b; cases c
  simp only [LLReflectionMap.mk.injEq] at *
  simp_all

/-- A reset of the probe index after such an overwrite. -/
theorem bind_reset_frame {a b : LLReflectionMap}
    (h : b = { a with mLastBindTime := b.mLastBindTime, mProbeIndex := b.mProbeIndex }) :
    ({ b with mProbeIndex := -1 } : LLReflectionMap) =
      { a with mLastBindTime := b.mLastBindTime, mProbeIndex := -1 } := by
  cases a; cases b
  simp only [LLReflectionMap.mk.injEq] at *
  simp_all

/-- The first loop of `getReflectionMaps` writes the bind time and the probe
index of a probe and nothing else. -/
theorem bindLoop_frame (env : Env) : ∀ (L : List ProbePtr) (i : Nat) (b : Bind) (q : ProbePtr),
    (bindLoop env L i b).m.heap q =
      { b.m.heap q with
        mLastBindTime := ((bindLoop env L i b).m.heap q).mLastBindTime
        mProbeIndex := ((bindLoop env L i b).m.heap q).mProbeIndex } := by
  intro L
  induction L with
  | nil => intro i b q; rfl
  | cons p rest ih =>
    intro i b q
    unfold bindLoop
    split_ifs with hlt
    · refine bind_frame_trans ?_ (ih (i + 1) (bindProbe env b i p) q)
      obtain ⟨hne, heq, -⟩ := bindProbe_spec env b i p
      by_cases hq : q = p
      · subst hq; rw [heq]
      · rw [hne q hq]
    · rfl

/-- The method `getReflectionMaps` changes nothing of the manager but the
bind time and the probe index of probes. -/
theorem getReflectionMaps_frame (env : Env) (s : LLReflectionMapManager)
    (maps : List (Option ProbePtr)) :
    (getReflectionMaps env s maps).1 = { s with heap := (getReflectionMaps env s maps).1.heap } ∧
    ∀ q, (getReflectionMaps env s maps).1.heap q =
      { s.heap q with
        mLastBindTime := ((getReflectionMaps env s maps).1.heap q).mLastBindTime
        mProbeIndex := ((getReflectionMaps env s maps).1.heap q).mProbeIndex } := by
  obtain ⟨-, hm, -⟩ := bindLoop_spec env (fun q => (s.heap q).mCubeIndex)
    s.mProbes 0 { m := s, maps := maps, count := 0, lastIdx := 0 } (Nat.zero_le _) (fun _ => rfl)
  have hf := bindLoop_frame env s.mProbes 0 { m := s, maps := maps, count := 0, lastIdx := 0 }
  unfold getReflectionMaps
  simp only []
  rw [resetLoop_spec]
  generalize bindLoop env s.mProbes 0 { m := s, maps := maps, count := 0, lastIdx := 0 } = b
    at hm hf
  constructor
  · show _ = { s with heap := _ }
    rw [hm]
  · intro q
    have hq := hf q
    by_cases hmem : q ∈ List.drop (b.lastIdx + 1) b.m.mProbes
    · simp only [if_pos hmem]
      exact bind_reset_frame hq
    · simp only [if_neg hmem]
      exact hq

/-- The method `getReflectionMaps` keeps the invariants. -/
theorem getReflectionMaps_inv {N : Nat} (env : Env) {s : LLReflectionMapManager}
    (h : ManagerInv N s) (maps : List (Option ProbePtr)) :
    ManagerInv N (getReflectionMaps env s maps).1 := by
  obtain ⟨hm, hq⟩ := getReflectionMaps_frame env s maps
  refine h.congrAll ?_ ?_ ?_ ?_ ?_ ?_ ?_ ?_
  · rw [hm]
  · rw [hm]
  · rw [hm]
  · rw [hm]
  · rw [hm]
  · rw [hm]
  · intro q; rw [hq q]
  · intro q; rw [hq q]

/-- The first loop of `getReflectionMaps`, probe by probe: when the loop body
runs at all, `lastIdx` is the position of the last probe examined; an
examined probe with a slot has the buffer position it was written to as its
`mProbeIndex`, an examined probe without a slot has `-1`, and every buffer
position the loop filled holds such a probe. -/
theorem bindLoop_index (env : Env) (cube : ProbePtr → Int) :
    ∀ (L : List ProbePtr) (i : Nat) (b : Bind), L.Nodup → b.count ≤ b.maps.length →
      (∀ q, (b.m.heap q).mCubeIndex = cube q) →
      (∀ q, q ∉ L → (bindLoop env L i b).m.heap q = b.m.heap q) ∧
      ((L = [] ∨ ¬ b.count < b.maps.length) → bindLoop env L i b = b) ∧
      (L ≠ [] → b.count < b.maps.length →
        i ≤ (bindLoop env L i b).lastIdx ∧ (bindLoop env L i b).lastIdx < i + L.length ∧
        (∀ p ∈ L.take ((bindLoop env L i b).lastIdx + 1 - i),
          (cube p ≠ -1 → ∃ j, b.count ≤ j ∧ j < (bindLoop env L i b).count ∧
            (bindLoop env L i b).maps[j]? = some (some p) ∧
            ((bindLoop env L i b).m.heap p).mProbeIndex = (j : Int)) ∧
          (cube p = -1 → ((bindLoop env L i b).m.heap p).mProbeIndex = -1)) ∧
        (∀ j, b.count ≤ j → j < (bindLoop env L i b).count →
          ∃ p ∈ L.take ((bindLoop env L i b).lastIdx + 1 - i), cube p ≠ -1 ∧
            (bindLoop env L i b).maps[j]? = some (some p) ∧
            ((bindLoop env L i b).m.heap p).mProbeIndex = (j : Int))) := by
  intro L
  induction L with
  | nil =>
    intro i b _ _ _
    exact ⟨fun _ _ => rfl, fun _ => rfl, fun h => absurd rfl h⟩
  | cons p rest ih =>
    intro i b hnd hle hcube
    have hp : p ∉ rest := (List.nodup_cons.mp hnd).1
    have hnd' : rest.Nodup := (List.nodup_cons.mp hnd).2
    obtain ⟨hne, heq, hmaps, hcount, hlast, hm⟩ := bindProbe_spec env b i p
    rw [hcube p] at hmaps hcount heq
    have hcube' : ∀ q, ((bindProbe env b i p).m.heap q).mCubeIndex = cube q := by
      intro q
      by_cases hq : q = p
      · subst hq; rw [heq]; exact hcube q
      · rw [hne q hq]; exact hcube q
    refine ⟨?_, ?_, ?_⟩
    · intro q hq
      unfold bindLoop
      split_ifs with hlt
      · have hle' : (bindProbe env b i p).count ≤ (bindProbe env b i p).maps.length := by
          rw [hmaps, hcount]
          split_ifs
          · rw [List.length_set]; exact hlt
          · exact hle
        rw [(ih (i + 1) _ hnd' hle' hcube').1 q (fun h => hq (List.mem_cons_of_mem _ h))]
        exact hne q (fun h => hq (h ▸ List.mem_cons_self _ _))
      · rfl
    · intro h
      rcases h with h | h
      · exact absurd h (List.cons_ne_nil _ _)
      · unfold bindLoop
        rw [if_neg h]
    · intro _ hlt
      have hle' : (bindProbe env b i p).count ≤ (bindProbe env b i p).maps.length := by
        rw [hmaps, hcount]
        split_ifs
        · rw [List.length_set]; exact hlt
        · exact hle
      obtain ⟨ih1, ih2, ih3⟩ := ih (i + 1) _ hnd' hle' hcube'
      obtain ⟨-, -, -, hcnt, hold, -⟩ := bindLoop_spec env cube rest (i + 1) _ hle' hcube'
      have hmono : (bindProbe env b i p).count ≤
          (bindLoop env rest (i + 1) (bindProbe env b i p)).count := by
        rw [hcnt]; exact le_min hle' (Nat.le_add_right _ _)
      have hb1 : b.count ≤ (bindProbe env b i p).count := by
        rw [hcount]; split_ifs <;> omega
      -- the probe at the head
      have hhead : (cube p ≠ -1 → ∃ j, b.count ≤ j ∧
            j < (bindLoop env rest (i + 1) (bindProbe env b i p)).count ∧
            (bindLoop env rest (i + 1) (bindProbe env b i p)).maps[j]? = some (some p) ∧
            ((bindLoop env rest (i + 1) (bindProbe env b i p)).m.heap p).mProbeIndex = (j : Int)) ∧
          (cube p = -1 →
            ((bindLoop env rest (i + 1) (bindProbe env b i p)).m.heap p).mProbeIndex = -1) := by
        constructor
        · intro hc
          rw [if_pos hc] at hmaps hcount heq
          refine ⟨b.count, le_refl _, by omega, ?_, ?_⟩
          · rw [hold b.count (Or.inl (by omega)), hmaps, List.getElem?_set_self hlt]
          · rw [ih1 p hp, heq]
        · intro hc
          rw [if_neg (not_not.mpr hc)] at heq
          rw [ih1 p hp, heq]
      have hunf : bindLoop env (p :: rest) i b =
          bindLoop env rest (i + 1) (bindProbe env b i p) := by
        conv_lhs => unfold bindLoop
        rw [if_pos hlt]
      rw [hunf]
      by_cases hrun : rest ≠ [] ∧ (bindProbe env b i p).count < (bindProbe env b i p).maps.length
      · obtain ⟨hl1, hl2, hC, hD⟩ := ih3 hrun.1 hrun.2
        generalize bindLoop env rest (i + 1) (bindProbe env b i p) = b2 at *
        have he : b2.lastIdx + 1 - i = (b2.lastIdx + 1 - (i + 1)) + 1 := by omega
        refine ⟨by omega, by rw [List.length_cons]; omega, ?_, ?_⟩
        · intro q hq
          rw [he, List.take_succ_cons, List.mem_cons] at hq
          rcases hq with hq | hq
          · subst hq; exact hhead
          · obtain ⟨h1, h2⟩ := hC q hq
            refine ⟨fun hc => ?_, h2⟩
            obtain ⟨j, hj1, hj2, hj3, hj4⟩ := h1 hc
            exact ⟨j, by omega, hj2, hj3, hj4⟩
        · intro j hj1 hj2
          rw [he, List.take_succ_cons]
          by_cases hj : (bindProbe env b i p).count ≤ j
          · obtain ⟨q, hq, hq2⟩ := hD j hj hj2
            exact ⟨q, List.mem_cons_of_mem _ hq, hq2⟩
          · have hc : cube p ≠ -1 := by
              intro hc
              rw [if_neg (not_not.mpr hc)] at hcount
              omega
            obtain ⟨j', hj1', hj2', hj3', hj4'⟩ := hhead.1 hc
            rw [if_pos hc] at hcount
            have hjj : j = b.count := by omega
            have hjb : (b2.m.heap p).mProbeIndex = (b.count : Int) := by
              rw [ih1 p hp, heq, if_pos hc]
            have hj' : j' = b.count := by rw [hjb] at hj4'; exact_mod_cast hj4'.symm
            subst hjj
            rw [hj'] at hj3'
            exact ⟨p, List.mem_cons_self _ _, hc, hj3', hjb⟩
      · have hb2 : bindLoop env rest (i + 1) (bindProbe env b i p) = bindProbe env b i p := by
          apply ih2
          by_cases hr : rest = []
          · exact Or.inl hr
          · exact Or.inr (fun h => hrun ⟨hr, h⟩)
        rw [hb2] at hhead ⊢
        rw [hlast]
        have he : i + 1 - i = 1 := by omega
        refine ⟨le_refl _, by rw [List.length_cons]; omega, ?_, ?_⟩
        · intro q hq
          rw [he, List.take_succ_cons, List.take_zero, List.mem_singleton] at hq
          subst hq; exact hhead
        · intro j hj1 hj2
          rw [he, List.take_succ_cons, List.take_zero]
          have hc : cube p ≠ -1 := by
            intro hc
            rw [if_neg (not_not.mpr hc)] at hcount
            omega
          obtain ⟨j', hj1', hj2', hj3', hj4'⟩ := hhead.1 hc
          have hjj : j = j' := by
            rw [if_pos hc] at hcount
            omega
          subst hjj
          exact ⟨p, List.mem_singleton_self _, hc, hj3', hj4'⟩

theorem bindCount_eq (env : Env) (s : LLReflectionMapManager) (maps : List (Option ProbePtr)) :
    bindCount env s maps =
      min maps.length (s.mProbes.filter (fun p => decide ((s.heap p).mCubeIndex ≠ -1))).length :=
  (getReflectionMaps_buffer env s maps).1

/-- After `getReflectionMaps` on a buffer with room for at least one entry,
the `mProbeIndex` of every live probe says where the probe stands in the
buffer: position `j` if it was written to `maps[j]`, and `-1` if it was not
written; every position below `count` holds a live probe with a slot. -/
theorem getReflectionMaps_index (env : Env) (s : LLReflectionMapManager)
    (maps : List (Option ProbePtr)) (hnd : s.mProbes.Nodup) (hc : 0 < maps.length) :
    (∀ p ∈ s.mProbes,
      (∃ j, j < bindCount env s maps ∧ (getReflectionMaps env s maps).2[j]? = some (some p) ∧
        ((getReflectionMaps env s maps).1.heap p).mProbeIndex = (j : Int)) ∨
      (((getReflectionMaps env s maps).1.heap p).mProbeIndex = -1 ∧
        ∀ j, j < bindCount env s maps → (getReflectionMaps env s maps).2[j]? ≠ some (some p))) ∧
    (∀ j, j < bindCount env s maps → ∃ p ∈ s.mProbes, (s.heap p).mCubeIndex ≠ -1 ∧
      (getReflectionMaps env s maps).2[j]? = some (some p) ∧
      ((getReflectionMaps env s maps).1.heap p).mProbeIndex = (j : Int)) := by
  obtain ⟨-, hrun, hwin⟩ := bindLoop_index env (fun q => (s.heap q).mCubeIndex) s.mProbes 0
    { m := s, maps := maps, count := 0, lastIdx := 0 } hnd (Nat.zero_le _) (fun _ => rfl)
  obtain ⟨-, hm, hlen, -⟩ := bindLoop_spec env (fun q => (s.heap q).mCubeIndex)
    s.mProbes 0 { m := s, maps := maps, count := 0, lastIdx := 0 } (Nat.zero_le _) (fun _ => rfl)
  have hP : (bindLoop env s.mProbes 0
      { m := s, maps := maps, count := 0, lastIdx := 0 }).m.mProbes = s.mProbes := by rw [hm]
  unfold bindCount getReflectionMaps
  simp only []
  rw [resetLoop_spec, hP]
  by_cases hnil : s.mProbes = []
  · have hb := hrun (Or.inl hnil)
    rw [hb, hnil]
    exact ⟨fun p hp => absurd hp (List.not_mem_nil p), fun j hj => absurd hj (Nat.not_lt_zero j)⟩
  · obtain ⟨-, hl, hC, hD⟩ := hwin hnil hc
    simp only [Nat.sub_zero, Nat.zero_add] at hl hC hD
    generalize bindLoop env s.mProbes 0 { m := s, maps := maps, count := 0, lastIdx := 0 } = b
      at hl hC hD hlen
    have hdisj : ∀ q, q ∈ s.mProbes.take (b.lastIdx + 1) → q ∉ s.mProbes.drop (b.lastIdx + 1) :=
      fun q h1 h2 => List.disjoint_take_drop hnd (le_refl _) h1 h2
    have hbuf : ∀ j, j < b.count →
        (if b.count < b.maps.length then b.maps.set b.count none else b.maps)[j]? = b.maps[j]? := by
      intro j hj
      split_ifs
      · rw [List.getElem?_set_ne (by omega)]
      · rfl
    constructor
    · intro p hp
      rw [← List.take_append_drop (b.lastIdx + 1) s.mProbes, List.mem_append] at hp
      rcases hp with hp | hp
      · have hnot := hdisj p hp
        obtain ⟨h1, h2⟩ := hC p hp
        by_cases hcp : (s.heap p).mCubeIndex ≠ -1
        · left
          obtain ⟨j, -, hj2, hj3, hj4⟩ := h1 hcp
          refine ⟨j, hj2, ?_, ?_⟩
          · rw [hbuf j hj2]; exact hj3
          · show ((if p ∈ _ then _ else _ : LLReflectionMap)).mProbeIndex = _
            rw [if_neg hnot]; exact hj4
        · right
          constructor
          · show ((if p ∈ _ then _ else _ : LLReflectionMap)).mProbeIndex = _
            rw [if_neg hnot]; exact h2 (not_not.mp hcp)
          · intro j hj hcon
            obtain ⟨q, -, hq2, hq3, -⟩ := hD j (Nat.zero_le _) hj
            rw [hbuf j hj, hq3] at hcon
            have hqp : q = p := by simpa using hcon
            subst hqp
            exact hcp hq2
      · right
        constructor
        · show ((if p ∈ _ then _ else _ : LLReflectionMap)).mProbeIndex = _
          rw [if_pos hp]
        · intro j hj hcon
          obtain ⟨q, hq1, -, hq3, -⟩ := hD j (Nat.zero_le _) hj
          rw [hbuf j hj, hq3] at hcon
          have hqp : q = p := by simpa using hcon
          subst hqp
          exact hdisj q hq1 hp
    · intro j hj
      obtain ⟨q, hq1, hq2, hq3, hq4⟩ := hD j (Nat.zero_le _) hj
      refine ⟨q, List.mem_of_mem_take hq1, hq2, ?_, ?_⟩
      · rw [hbuf j hj]; exact hq3
      · show ((if q ∈ _ then _ else _ : LLReflectionMap)).mProbeIndex = _
        rw [if_neg (hdisj q hq1)]; exact hq4

/-- The inner loop of the packing: with `act` the indices of the neighbours
whose `mProbeIndex` is not `-1`, the loop writes the first `min |act| (4096 -
ni)` of them from position `ni` on and returns the position after them. -/
theorem packNeighbors_spec (s : LLReflectionMapManager) :
    ∀ (nbrs : List ProbePtr) (ni : Nat) (rn : Nat → Option Int),
      (packNeighbors s nbrs ni rn).1 =
        ni + min ((nbrs.map (fun q => (s.heap q).mProbeIndex)).filter
          (fun idx => decide (idx ≠ -1))).length (4096 - ni) ∧
      ∀ x, (packNeighbors s nbrs ni rn).2 x =
        if ni ≤ x ∧ x < ni + min ((nbrs.map (fun q => (s.heap q).mProbeIndex)).filter
            (fun idx => decide (idx ≠ -1))).length (4096 - ni)
        then ((nbrs.map (fun q => (s.heap q).mProbeIndex)).filter
            (fun idx => decide (idx ≠ -1)))[x - ni]?
        else rn x := by
  intro nbrs
  induction nbrs with
  | nil =>
    intro ni rn
    refine ⟨by simp [packNeighbors], fun x => ?_⟩
    rw [if_neg (by simp only [List.map_nil, List.filter_nil, List.length_nil]; omega)]
    rfl
  | cons nb rest ih =>
    intro ni rn
    unfold packNeighbors
    by_cases hcap : 4096 ≤ ni
    · rw [if_pos hcap]
      have h0 : 4096 - ni = 0 := by omega
      rw [h0, Nat.min_zero]
      refine ⟨rfl, fun x => ?_⟩
      rw [if_neg (by omega)]
    · rw [if_neg hcap]
      by_cases hidx : (s.heap nb).mProbeIndex = -1
      · rw [if_pos hidx]
        have hact : ((nb :: rest).map (fun q => (s.heap q).mProbeIndex)).filter
            (fun idx => decide (idx ≠ -1)) =
            (rest.map (fun q => (s.heap q).mProbeIndex)).filter
              (fun idx => decide (idx ≠ -1)) := by
          rw [List.map_cons, List.filter_cons_of_neg (by simpa using hidx)]
        rw [hact]
        exact ih ni rn
      · rw [if_neg hidx]
        have hact : ((nb :: rest).map (fun q => (s.heap q).mProbeIndex)).filter
            (fun idx => decide (idx ≠ -1)) =
            (s.heap nb).mProbeIndex :: (rest.map (fun q => (s.heap q).mProbeIndex)).filter
              (fun idx => decide (idx ≠ -1)) := by
          rw [List.map_cons, List.filter_cons_of_pos (by simpa using hidx)]
        rw [hact]
        obtain ⟨h1, h2⟩ := ih (ni + 1) (Function.update rn ni (some (s.heap nb).mProbeIndex))
        generalize (rest.map (fun q => (s.heap q).mProbeIndex)).filter
          (fun idx => decide (idx ≠ -1)) = act at h1 h2 ⊢
        constructor
        · rw [h1, List.length_cons]; omega
        · intro x
          rw [h2 x, List.length_cons]
          by_cases hx : x = ni
          · subst hx
            rw [if_neg (by omega), if_pos (by omega), Function.update_same, Nat.sub_self,
              List.getElem?_cons_zero]
          · rw [Function.update_noteq hx]
            by_cases hin : ni + 1 ≤ x ∧ x < ni + 1 + min act.length (4096 - (ni + 1))
            · rw [if_pos hin, if_pos (by omega)]
              have hsub : x - ni = (x - (ni + 1)) + 1 := by omega
              rw [hsub, List.getElem?_cons_succ]
            · rw [if_neg hin, if_neg (by omega)]

theorem setIndex_spec (rpd : ReflectionProbeData) (row col : Nat) (v : Int) :
    (rpd.setIndex row col v).refNeighbor = rpd.refNeighbor ∧
    (rpd.setIndex row col v).refmapCount = rpd.refmapCount ∧
    (rpd.setIndex row col v).refIndex row col = some v ∧
    (∀ r c, (r ≠ row ∨ c ≠ col) → (rpd.setIndex row col v).refIndex r c = rpd.refIndex r c) := by
  refine ⟨rfl, rfl, ?_, ?_⟩
  · simp [ReflectionProbeData.setIndex]
  · intro r c h
    unfold ReflectionProbeData.setIndex
    by_cases hr : r = row
    · subst hr
      have hc : c ≠ col := by
        rcases h with h | h
        · exact absurd rfl h
        · exact h
      simp [Function.update_noteq hc]
    · simp [Function.update_noteq hr]

/-- One round of the packing loop, field by field. -/
theorem packProbe_spec (env : Env) (s : LLReflectionMapManager) (k : Pack) (p : ProbePtr) :
    (packProbe env s k p).count = k.count + 1 ∧
    (packProbe env s k p).nc =
      (if runLength s k.nc p = 0 then k.nc
        else if (k.nc + runLength s k.nc p) % 4 ≠ 0 then
          k.nc + runLength s k.nc p + (4 - (k.nc + runLength s k.nc p) % 4)
        else k.nc + runLength s k.nc p) ∧
    (packProbe env s k p).llassertFailed =
      (k.llassertFailed || !(decide ((s.heap p).mProbeIndex = (k.count : Int)) &&
        decide (0 ≤ (s.heap p).mProbeIndex ∧
          s.mReflectionMaps[(s.heap p).mProbeIndex.toNat]? = some (some p)) &&
        decide (0 ≤ (s.heap p).mCubeIndex) && decide (k.nc % 4 = 0))) ∧
    (packProbe env s k p).rpd.refmapCount = k.rpd.refmapCount ∧
    (∀ x, (packProbe env s k p).rpd.refNeighbor x =
      if k.nc ≤ x ∧ x < k.nc + runLength s k.nc p then (activeNeighbors s p)[x - k.nc]?
      else k.rpd.refNeighbor x) ∧
    (∀ row, row ≠ k.count → ∀ col,
      (packProbe env s k p).rpd.refIndex row col = k.rpd.refIndex row col) ∧
    (packProbe env s k p).rpd.refIndex k.count 0 = some (s.heap p).mCubeIndex ∧
    (packProbe env s k p).rpd.refIndex k.count 1 =
      some (if runLength s k.nc p = 0 then -1 else ((k.nc / 4 : Nat) : Int)) ∧
    (runLength s k.nc p ≠ 0 →
      (packProbe env s k p).rpd.refIndex k.count 2 = some ((runLength s k.nc p : Nat) : Int)) ∧
    (packProbe env s k p).rpd.refIndex k.count 3 =
      some (if env.getBox p = true then -(s.heap p).mPriority else (s.heap p).mPriority) := by
  obtain ⟨hn1, hn2⟩ := packNeighbors_spec s (s.heap p).mNeighbors k.nc
    (if env.getBox p = true then
      (((k.rpd.setIndex k.count 0 (s.heap p).mCubeIndex).setIndex k.count 1
        ((k.nc / 4 : Nat) : Int)).setIndex k.count 3 (s.heap p).mPriority).setIndex k.count 3
          (-(s.heap p).mPriority)
     else ((k.rpd.setIndex k.count 0 (s.heap p).mCubeIndex).setIndex k.count 1
        ((k.nc / 4 : Nat) : Int)).setIndex k.count 3 (s.heap p).mPriority).refNeighbor
  have hrn : (if env.getBox p = true then
      (((k.rpd.setIndex k.count 0 (s.heap p).mCubeIndex).setIndex k.count 1
        ((k.nc / 4 : Nat) : Int)).setIndex k.count 3 (s.heap p).mPriority).setIndex k.count 3
          (-(s.heap p).mPriority)
     else ((k.rpd.setIndex k.count 0 (s.heap p).mCubeIndex).setIndex k.count 1
        ((k.nc / 4 : Nat) : Int)).setIndex k.count 3 (s.heap p).mPriority).refNeighbor =
      k.rpd.refNeighbor := by
    split_ifs <;> rfl
  rw [hrn] at hn1 hn2
  change _ = k.nc + runLength s k.nc p at hn1
  change ∀ x, _ = if k.nc ≤ x ∧ x < k.nc + runLength s k.nc p then (activeNeighbors s p)[x - k.nc]?
    else k.rpd.refNeighbor x at hn2
  unfold packProbe
  simp only [hrn]
  generalize packNeighbors s (s.heap p).mNeighbors k.nc k.rpd.refNeighbor = n at hn1 hn2
  generalize runLength s k.nc p = len at hn1 hn2
  by_cases hlen : len = 0
  · have he : k.nc = n.1 := by rw [hn1, hlen]; rfl
    rw [if_pos he, if_pos hlen, if_pos hlen]
    refine ⟨rfl, rfl, rfl, ?_, ?_, ?_, ?_, ?_, fun h => absurd hlen h, ?_⟩
    · split_ifs <;> rfl
    · intro x; exact hn2 x
    · intro row hrow col
      split_ifs <;> simp [ReflectionProbeData.setIndex, Function.update_noteq hrow]
    · split_ifs <;> simp [ReflectionProbeData.setIndex]
    · split_ifs <;> simp [ReflectionProbeData.setIndex]
    · split_ifs <;> simp [ReflectionProbeData.setIndex]
  · have he : ¬ k.nc = n.1 := by rw [hn1]; omega
    rw [if_neg he, if_neg hlen, if_neg hlen]
    refine ⟨rfl, ?_, rfl, ?_, ?_, ?_, ?_, ?_, fun _ => ?_, ?_⟩
    · show (if n.1 % 4 ≠ 0 then _ else _) = _
      rw [hn1]
    · split_ifs <;> rfl
    · intro x; exact hn2 x
    · intro row hrow col
      split_ifs <;> simp [ReflectionProbeData.setIndex, Function.update_noteq hrow]
    · split_ifs <;> simp [ReflectionProbeData.setIndex]
    · split_ifs <;> simp [ReflectionProbeData.setIndex]
    · have : ((n.1 : Int) - (k.nc : Int)) = (len : Int) := by rw [hn1]; push_cast; ring
      split_ifs <;> simp [ReflectionProbeData.setIndex, this]
    · split_ifs <;> simp [ReflectionProbeData.setIndex]

/-- The packing loop over probes `P`, as a whole: the counter, the cursor
(it only grows, stays a multiple of four and stays within the array), the
rows and cells it leaves alone, and where a written cell comes from. -/
theorem packFold_frame (env : Env) (s : LLReflectionMapManager) :
    ∀ (P : List ProbePtr) (k : Pack),
      (P.foldl (packProbe env s) k).count = k.count + P.length ∧
      k.nc ≤ (P.foldl (packProbe env s) k).nc ∧
      (k.nc % 4 = 0 → (P.foldl (packProbe env s) k).nc % 4 = 0) ∧
      (k.nc ≤ 4096 → (P.foldl (packProbe env s) k).nc ≤ 4096) ∧
      (P.foldl (packProbe env s) k).rpd.refmapCount = k.rpd.refmapCount ∧
      (∀ row, row < k.count → ∀ col,
        (P.foldl (packProbe env s) k).rpd.refIndex row col = k.rpd.refIndex row col) ∧
      (∀ x, x < k.nc ∨ (P.foldl (packProbe env s) k).nc ≤ x →
        (P.foldl (packProbe env s) k).rpd.refNeighbor x = k.rpd.refNeighbor x) ∧
      (∀ x v, (P.foldl (packProbe env s) k).rpd.refNeighbor x = some v →
        k.rpd.refNeighbor x = some v ∨ ∃ p ∈ P, v ∈ activeNeighbors s p) := by
  intro P
  induction P with
  | nil =>
    intro k
    exact ⟨rfl, le_refl _, fun h => h, fun h => h, rfl, fun _ _ _ => rfl, fun _ _ => rfl,
      fun _ _ h => Or.inl h⟩
  | cons p rest ih =>
    intro k
    rw [List.foldl_cons]
    obtain ⟨h1, h2, h3, h4, h5, h6, h7, h8⟩ := ih (packProbe env s k p)
    obtain ⟨g1, g2, -, g4, g5, g6, -⟩ := packProbe_spec env s k p
    have hlen : runLength s k.nc p ≤ 4096 - k.nc := Nat.min_le_right _ _
    generalize runLength s k.nc p = len at g2 g5 hlen
    have hnc : k.nc + len ≤ (packProbe env s k p).nc := by
      rw [g2]; split_ifs <;> omega
    have hmod : k.nc % 4 = 0 → (packProbe env s k p).nc % 4 = 0 := by
      intro h; rw [g2]; split_ifs <;> omega
    have hcap : k.nc ≤ 4096 → (packProbe env s k p).nc ≤ 4096 := by
      intro h; rw [g2]; split_ifs <;> omega
    refine ⟨?_, ?_, ?_, ?_, ?_, ?_, ?_, ?_⟩
    · rw [h1, g1, List.length_cons]; omega
    · omega
    · exact fun h => h3 (hmod h)
    · exact fun h => h4 (hcap h)
    · rw [h5, g4]
    · intro row hrow col
      rw [h6 row (by omega) col, g6 row (by omega) col]
    · intro x hx
      rw [h7 x (by omega), g5 x, if_neg (by omega)]
    · intro x v hv
      rcases h8 x v hv with h | ⟨q, hq, hq2⟩
      · rw [g5 x] at h
        split_ifs at h with hin
        · obtain ⟨hlt, he⟩ := List.getElem?_eq_some_iff.mp h
          exact Or.inr ⟨p, List.mem_cons_self _ _, he ▸ List.getElem_mem hlt⟩
        · exact Or.inl h
      · exact Or.inr ⟨q, List.mem_cons_of_mem _ hq, hq2⟩

/-- The packing loop over probes `P`, round `i`: the row and the run written
for `P[i]` are still there when the loop ends. -/
theorem packFold_at (env : Env) (s : LLReflectionMapManager) (P : List ProbePtr) (k : Pack)
    (i : Nat) (p : ProbePtr) (hi : P[i]? = some p) :
    ((P.take i).foldl (packProbe env s) k).count = k.count + i ∧
    (P.take (i + 1)).foldl (packProbe env s) k =
      packProbe env s ((P.take i).foldl (packProbe env s) k) p ∧
    (∀ col, (P.foldl (packProbe env s) k).rpd.refIndex (k.count + i) col =
      (packProbe env s ((P.take i).foldl (packProbe env s) k) p).rpd.refIndex (k.count + i) col) ∧
    (∀ x, x < ((P.take (i + 1)).foldl (packProbe env s) k).nc →
      (P.foldl (packProbe env s) k).rpd.refNeighbor x =
        (packProbe env s ((P.take i).foldl (packProbe env s) k) p).rpd.refNeighbor x) ∧
    ((P.take (i + 1)).foldl (packProbe env s) k).nc ≤ (P.foldl (packProbe env s) k).nc := by
  have hlt : i < P.length := by
    by_contra h
    rw [List.getElem?_eq_none (by omega)] at hi
    exact absurd hi (by simp)
  have htake : P.take (i + 1) = P.take i ++ [p] := by
    rw [List.take_succ, hi]; rfl
  have hsplit : P = P.take (i + 1) ++ P.drop (i + 1) := (List.take_append_drop _ _).symm
  have hfold : P.foldl (packProbe env s) k =
      (P.drop (i + 1)).foldl (packProbe env s) ((P.take (i + 1)).foldl (packProbe env s) k) := by
    conv_lhs => rw [hsplit]
    rw [List.foldl_append]
  have hstep : (P.take (i + 1)).foldl (packProbe env s) k =
      packProbe env s ((P.take i).foldl (packProbe env s) k) p := by
    rw [htake, List.foldl_append]; rfl
  obtain ⟨c1, -⟩ := packFold_frame env s (P.take i) k
  rw [List.length_take, Nat.min_eq_left (Nat.le_of_lt hlt)] at c1
  obtain ⟨-, f2, -, -, -, f6, f7, -⟩ := packFold_frame env s (P.drop (i + 1))
    ((P.take (i + 1)).foldl (packProbe env s) k)
  rw [← hfold] at f2 f6 f7
  have hc1 : ((P.take (i + 1)).foldl (packProbe env s) k).count = k.count + i + 1 := by
    rw [hstep, (packProbe_spec env s _ p).1, c1]
  refine ⟨c1, hstep, ?_, ?_, f2⟩
  · intro col
    rw [f6 (k.count + i) (by omega) col, hstep]
  · intro x hx
    rw [f7 x (Or.inl hx), hstep]

/-- The packing loop stops at the first null entry: on a buffer that starts
with the probes `P` and goes on with nothing or with a null entry, it is the
loop over `P`. -/
theorem packLoop_fold (env : Env) (s : LLReflectionMapManager) :
    ∀ (P : List ProbePtr) (rest : List (Option ProbePtr)) (k : Pack),
      (rest = [] ∨ ∃ tl, rest = none :: tl) →
      packLoop env s (P.map some ++ rest) k = P.foldl (packProbe env s) k := by
  intro P
  induction P with
  | nil =>
    intro rest k h
    rcases h with h | ⟨tl, h⟩
    · subst h; rfl
    · subst h; rfl
  | cons p tl ih =>
    intro rest k h
    rw [List.map_cons, List.cons_append, List.foldl_cons]
    unfold packLoop
    exact ih rest _ h

/-- No assertion of the packing loop fails when the cursor starts at a
multiple of four and every probe it runs over holds a slot, stands in the
buffer at its `mProbeIndex`, and has the round number as `mProbeIndex`. -/
theorem packFold_flag (env : Env) (s : LLReflectionMapManager) :
    ∀ (P : List ProbePtr) (k : Pack), k.nc % 4 = 0 →
      (∀ (j : Nat) (p : ProbePtr), P[j]? = some p →
        (s.heap p).mProbeIndex = ((k.count + j : Nat) : Int) ∧
        s.mReflectionMaps[k.count + j]? = some (some p) ∧ 0 ≤ (s.heap p).mCubeIndex) →
      (P.foldl (packProbe env s) k).llassertFailed = k.llassertFailed := by
  intro P
  induction P with
  | nil => intro k _ _; rfl
  | cons p rest ih =>
    intro k hnc hall
    rw [List.foldl_cons]
    obtain ⟨g1, g2, g3, -⟩ := packProbe_spec env s k p
    have hlen : runLength s k.nc p ≤ 4096 - k.nc := Nat.min_le_right _ _
    generalize runLength s k.nc p = len at g2 hlen
    have hmod : (packProbe env s k p).nc % 4 = 0 := by
      rw [g2]; split_ifs <;> omega
    rw [ih _ hmod, g3]
    · obtain ⟨a1, a2, a3⟩ := hall 0 p (List.getElem?_cons_zero)
      rw [Nat.add_zero] at a1 a2
      have a2' : s.mReflectionMaps[(s.heap p).mProbeIndex.toNat]? = some (some p) := by
        rw [a1]; exact a2
      have a0 : 0 ≤ (s.heap p).mProbeIndex := by rw [a1]; exact Int.natCast_nonneg _
      rw [decide_eq_true a1, decide_eq_true (And.intro a0 a2'), decide_eq_true a3,
        decide_eq_true hnc]
      simp
    · intro j q hq
      have := hall (j + 1) q (by rw [List.getElem?_cons_succ]; exact hq)
      rw [g1]
      have he : k.count + 1 + j = k.count + (j + 1) := by omega
      rw [he]
      exact this

theorem resize_length (maps : List (Option ProbePtr)) (n : Nat) : (resize maps n).length = n := by
  unfold resize
  rw [List.length_append, List.length_take, List.length_replicate]
  omega

/-- The state `updateUniforms` packs: the manager with the bind time and the
probe index of probes rewritten, and the buffer `mReflectionMaps` of `N`
entries that starts with the first `min(N, k)` probes holding a slot and goes
on, if there is room, with a null entry. -/
theorem bindUniforms_spec (N : Nat) (env : Env) (s : LLReflectionMapManager) :
    bindUniforms N env s =
      { s with heap := (bindUniforms N env s).heap
               mReflectionMaps := (bindUniforms N env s).mReflectionMaps } ∧
    (∀ q, (bindUniforms N env s).heap q =
      { s.heap q with
        mLastBindTime := ((bindUniforms N env s).heap q).mLastBindTime
        mProbeIndex := ((bindUniforms N env s).heap q).mProbeIndex }) ∧
    (bindUniforms N env s).mReflectionMaps.length = N ∧
    ∃ rest, (bindUniforms N env s).mReflectionMaps =
        ((s.mProbes.filter (fun p => decide ((s.heap p).mCubeIndex ≠ -1))).take
          (min N (s.mProbes.filter (fun p => decide ((s.heap p).mCubeIndex ≠ -1))).length)).map
            some ++ rest ∧
      (rest = [] ∨ ∃ tl, rest = none :: tl) := by
  obtain ⟨hm, hq⟩ := getReflectionMaps_frame env
    { s with mReflectionMaps := resize s.mReflectionMaps N } (resize s.mReflectionMaps N)
  obtain ⟨-, hlen, hnew, hnull, -⟩ := getReflectionMaps_buffer env
    { s with mReflectionMaps := resize s.mReflectionMaps N } (resize s.mReflectionMaps N)
  rw [resize_length] at hlen hnew hnull
  simp only [] at hnew hnull
  unfold bindUniforms
  simp only []
  generalize getReflectionMaps env { s with mReflectionMaps := resize s.mReflectionMaps N }
    (resize s.mReflectionMaps N) = r at hm hq hlen hnew hnull
  generalize s.mProbes.filter (fun p => decide ((s.heap p).mCubeIndex ≠ -1)) = F at hnew hnull ⊢
  refine ⟨?_, hq, hlen, r.2.drop (min N F.length), ?_, ?_⟩
  · conv_lhs => rw [hm]
  · have htake : r.2.take (min N F.length) = (F.take (min N F.length)).map some := by
      apply List.ext_getElem?
      intro j
      by_cases hj : j < min N F.length
      · rw [List.getElem?_take_of_lt hj, hnew j hj, List.getElem?_map,
          List.getElem?_take_of_lt hj]
        have hj2 : j < F.length := lt_of_lt_of_le hj (Nat.min_le_right _ _)
        rw [List.getElem?_eq_getElem hj2]
        rfl
      · rw [List.getElem?_eq_none (le_trans (by rw [List.length_take]; exact Nat.min_le_left _ _)
            (not_lt.mp hj)),
          List.getElem?_eq_none (le_trans (by
            rw [List.length_map, List.length_take]; exact Nat.min_le_left _ _) (not_lt.mp hj))]
    rw [← htake, List.take_append_drop]
  · by_cases hlt : min N F.length < N
    · right
      have h := hnull hlt
      have hlt2 : min N F.length < r.2.length := by rw [hlen]; exact hlt
      refine ⟨r.2.drop (min N F.length + 1), ?_⟩
      rw [List.drop_eq_getElem_cons hlt2]
      rw [List.getElem?_eq_getElem hlt2] at h
      have h2 : r.2[min N F.length] = none := by simpa using h
      rw [h2]
    · left
      apply List.drop_eq_nil_of_le
      rw [hlen]
      have := Nat.min_le_left N F.length
      omega

/-- After the rebinding in `updateUniforms` with a pool that is not empty,
the `mProbeIndex` of every live probe is its position in `mReflectionMaps`,
or `-1` if it is not there. -/
theorem bindUniforms_index (N : Nat) (env : Env) (s : LLReflectionMapManager)
    (hnd : s.mProbes.Nodup) (hN : 0 < N) :
    (∀ p ∈ s.mProbes,
      (∃ j, j < min N (s.mProbes.filter (fun p => decide ((s.heap p).mCubeIndex ≠ -1))).length ∧
        (bindUniforms N env s).mReflectionMaps[j]? = some (some p) ∧
        ((bindUniforms N env s).heap p).mProbeIndex = (j : Int)) ∨
      (((bindUniforms N env s).heap p).mProbeIndex = -1 ∧
        ∀ j, j < min N (s.mProbes.filter (fun p => decide ((s.heap p).mCubeIndex ≠ -1))).length →
          (bindUniforms N env s).mReflectionMaps[j]? ≠ some (some p))) ∧
    (∀ j, j < min N (s.mProbes.filter (fun p => decide ((s.heap p).mCubeIndex ≠ -1))).length →
      ∃ p ∈ s.mProbes, (s.heap p).mCubeIndex ≠ -1 ∧
        (bindUniforms N env s).mReflectionMaps[j]? = some (some p) ∧
        ((bindUniforms N env s).heap p).mProbeIndex = (j : Int)) := by
  have h := getReflectionMaps_index env
    { s with mReflectionMaps := resize s.mReflectionMaps N } (resize s.mReflectionMaps N) hnd
    (by rw [resize_length]; exact hN)
  rw [bindCount_eq, resize_length] at h
  exact h

/-- The locals of the packing loop after `i` rounds, as a loop over probes. -/
theorem packedAt_fold (env : Env) (m : LLReflectionMapManager) (P : List ProbePtr)
    (rest : List (Option ProbePtr)) (hmaps : m.mReflectionMaps = P.map some ++ rest)
    (i : Nat) (hi : i ≤ P.length) :
    packedAt env m i = (P.take i).foldl (packProbe env m) packStart := by
  unfold packedAt
  rw [hmaps, List.take_append_of_le_length (by rw [List.length_map]; exact hi), ← List.map_take]
  have h := packLoop_fold env m (P.take i) [] packStart (Or.inl rfl)
  rw [List.append_nil] at h
  exact h

/-- The assertions of the packing loop of `updateUniforms` hold in a state
that satisfies the invariants. -/
theorem updateUniforms_flag {N : Nat} (env : Env) {s : LLReflectionMapManager}
    (h : ManagerInv N s) : (updateUniforms N env s).llassertFailed = s.llassertFailed := by
  obtain ⟨hm, hq, hlen, rest, hmaps, hrest⟩ := bindUniforms_spec N env s
  have hflag : (bindUniforms N env s).llassertFailed = s.llassertFailed := by rw [hm]
  show ((bindUniforms N env s).llassertFailed ||
    (packLoop env (bindUniforms N env s) (bindUniforms N env s).mReflectionMaps
      packStart).llassertFailed) = _
  rw [hflag]
  have hpack : (packLoop env (bindUniforms N env s) (bindUniforms N env s).mReflectionMaps
      packStart).llassertFailed = false := by
    rw [hmaps, packLoop_fold env _ _ rest packStart hrest]
    rw [packFold_flag env _ _ packStart rfl]
    · rfl
    · intro j p hj
      have hjlt : j < min N
          (s.mProbes.filter (fun p => decide ((s.heap p).mCubeIndex ≠ -1))).length := by
        by_contra hcon
        rw [List.getElem?_eq_none (by rw [List.length_take]; omega)] at hj
        exact absurd hj (by simp)
      have hN : 0 < N := lt_of_le_of_lt (Nat.zero_le _) (lt_of_lt_of_le hjlt (Nat.min_le_left _ _))
      obtain ⟨q, hq1, hq2, hq3, hq4⟩ := (bindUniforms_index N env s h.nbr.nodup hN).2 j hjlt
      have hpj : (bindUniforms N env s).mReflectionMaps[j]? = some (some p) := by
        rw [hmaps, List.getElem?_append_left (by rw [List.length_map, List.length_take]; omega),
          List.getElem?_map, hj]
        rfl
      have hqp : q = p := by
        rw [hq3] at hpj
        simpa using hpj
      subst hqp
      have hz : packStart.count + j = j := by show 0 + j = j; omega
      rw [hz]
      refine ⟨hq4, hq3, ?_⟩
      rw [hq q]
      show 0 ≤ (s.heap q).mCubeIndex
      rcases h.pool.valid q hq1 with hv | hv
      · exact absurd hv hq2
      · exact hv.1
  rw [hpack, Bool.or_false]

/-- The method `updateUniforms` keeps the invariants. -/
theorem updateUniforms_inv {N : Nat} (env : Env) {s : LLReflectionMapManager}
    (h : ManagerInv N s) : ManagerInv N (updateUniforms N env s) := by
  obtain ⟨hm, hq, -⟩ := bindUniforms_spec N env s
  have hP : (updateUniforms N env s).mProbes = s.mProbes := by
    show (bindUniforms N env s).mProbes = _; rw [hm]
  have hC : (updateUniforms N env s).mCreateList = s.mCreateList := by
    show (bindUniforms N env s).mCreateList = _; rw [hm]
  have hF : (updateUniforms N env s).mCubeFree = s.mCubeFree := by
    show (bindUniforms N env s).mCubeFree = _; rw [hm]
  have hn : (updateUniforms N env s).nextPtr = s.nextPtr := by
    show (bindUniforms N env s).nextPtr = _; rw [hm]
  have hU : (updateUniforms N env s).mUpdatingProbe = s.mUpdatingProbe := by
    show (bindUniforms N env s).mUpdatingProbe = _; rw [hm]
  have hUF : (updateUniforms N env s).mUpdatingFace = s.mUpdatingFace := by
    show (bindUniforms N env s).mUpdatingFace = _; rw [hm]
  refine h.congrAll (by rw [hP]) hC hF hn hU hUF ?_ ?_
  · intro q
    show ((bindUniforms N env s).heap q).mCubeIndex = _
    rw [hq q]
  · intro q
    show ((bindUniforms N env s).heap q).mNeighbors = _
    rw [hq q]

/-- Every reachable state satisfies the invariants. -/
theorem reachable_inv {N : Nat} {s : LLReflectionMapManager} (h : Reachable N s) :
    ManagerInv N s := by
  induction h with
  | init => exact new_inv N
  | addProbe gCubeSnapshot group center _ ih => exact insertNew_inv ih gCubeSnapshot _ rfl rfl
  | registerViewerObject gCubeSnapshot vobj pos _ ih =>
    exact insertNew_inv ih gCubeSnapshot _ rfl rfl
  | queueKill probe _ ih => exact queueKill_inv ih probe
  | update env hsort _ ih => exact update_inv env hsort ih
  | deleteProbe i hi _ ih => exact deleteProbe_inv ih i hi
  | updateNeighbors env probe hp _ ih => exact updateNeighbors_inv env ih probe hp
  | rebuild _ ih => exact rebuild_inv ih
  | shift offset _ ih => exact shift_inv ih offset
  | getReflectionMaps env maps _ ih => exact getReflectionMaps_inv env ih maps
  | updateUniforms env _ ih => exact updateUniforms_inv env ih

/-- With every slot of the pool in use, a live probe without a slot among
the first `N` list positions forces a slot owner at a position `>= N`:
the `N` owners cannot all sit in the `N - 1` other positions. -/
theorem stealable_of_exhausted {N : Nat} {s : LLReflectionMapManager} (h : PoolInv N s)
    (j : Nat) (hjN : j < N) (probe : ProbePtr) (hj : s.mProbes[j]? = some probe)
    (hc : (s.heap probe).mCubeIndex = -1)
    (hfree : ∀ i : Nat, i < N → s.mCubeFree (i : Int) = false) :
    ∃ k : Nat, N ≤ k ∧ k < s.mProbes.length ∧ (s.heap (s.probeAt k)).mCubeIndex ≠ -1 := by
  by_contra hno
  have hback : ∀ k : Nat, N ≤ k → k < s.mProbes.length →
      (s.heap (s.probeAt k)).mCubeIndex = -1 := by
    intro k hk hlen
    by_contra hne
    exact hno ⟨k, hk, hlen, hne⟩
  have hpos : ∀ i : Fin N, ∃ pos : Fin N, ∃ hlt : pos.val < s.mProbes.length,
      (s.heap (s.mProbes[pos.val])).mCubeIndex = (i.val : Int) := by
    intro i
    obtain ⟨p, hp, hpc⟩ := (h.used (i.val : Int) (by omega) (by have := i.isLt; omega)).mp
      (hfree i.val i.isLt)
    obtain ⟨pos, hlt, hget⟩ := List.getElem_of_mem hp
    have hposN : pos < N := by
      by_contra hge
      have := hback pos (by omega) hlt
      rw [probeAt_eq s pos hlt, hget, hpc] at this
      omega
    exact ⟨⟨pos, hposN⟩, hlt, by rw [hget]; exact hpc⟩
  choose f hf using hpos
  have hinj : Function.Injective f := by
    intro a b hab
    obtain ⟨ha1, ha2⟩ := hf a
    obtain ⟨hb1, hb2⟩ := hf b
    have : ((a.val : Nat) : Int) = (b.val : Int) := by
      rw [← ha2, ← hb2]
      simp only [hab]
    exact Fin.ext (by omega)
  have hsurj : Function.Surjective f := Finite.injective_iff_surjective.mp hinj
  obtain ⟨i, hi⟩ := hsurj ⟨j, hjN⟩
  obtain ⟨h1, h2⟩ := hf i
  have hval : (f i).val = j := by rw [hi]
  have hjlen : j < s.mProbes.length := by rw [← hval]; exact h1
  have hprobe : s.mProbes[j] = probe := by
    have := List.getElem?_eq_getElem hjlen
    rw [hj] at this
    exact (Option.some.inj this).symm
  have : (s.heap (s.mProbes[j])).mCubeIndex = (i.val : Int) := by
    have h3 := h2
    simp only [hval] at h3
    exact h3
  rw [hprobe, hc] at this
  omega

theorem killLoop_flag {N : Nat} : ∀ (L : List ProbePtr) (s : LLReflectionMapManager),
    ManagerInv N s →
    (L.foldl
      (fun m probe =>
        if m.mProbes.indexOf probe < m.mProbes.length
        then m.deleteProbe (m.mProbes.indexOf probe) else m) s).llassertFailed
      = s.llassertFailed := by
  intro L
  induction L with
  | nil => intro s _; rfl
  | cons a t ih =>
    intro s h
    rw [List.foldl_cons]
    by_cases hlt : s.mProbes.indexOf a < s.mProbes.length
    · simp only [if_pos hlt]
      rw [ih _ (deleteProbe_inv h _ hlt)]
      exact (deleteProbe_spec s h.nbr _ hlt).2.2.2.2.2.1
    · simp only [if_neg hlt]
      exact ih s h

theorem store_foldl_flag (f : LLReflectionMapManager → ProbePtr → LLReflectionMap) :
    ∀ (L : List ProbePtr) (s : LLReflectionMapManager),
      (L.foldl (fun m p => m.store p (f m p)) s).llassertFailed = s.llassertFailed := by
  intro L
  induction L with
  | nil => intro s; rfl
  | cons a t ih => intro s; rw [List.foldl_cons, ih]; rfl

theorem faceLoop_flag (env : Env) (probe : ProbePtr) :
    ∀ (L : List Nat) (s : LLReflectionMapManager),
      (L.foldl (fun m face => updateProbeFace env m probe face) s).llassertFailed
        = s.llassertFailed := by
  intro L
  induction L with
  | nil => intro s; rfl
  | cons a t ih => intro s; rw [List.foldl_cons, ih]; rfl

theorem updateRealtime_flag (env : Env) (s : LLReflectionMapManager)
    (closestDynamic : Option ProbePtr) :
    (updateRealtime env s closestDynamic).llassertFailed = s.llassertFailed := by
  unfold updateRealtime
  cases closestDynamic with
  | none => rfl
  | some probe =>
    simp only []
    split_ifs
    · rw [faceLoop_flag]; rfl
    · rfl

/-- `doProbeUpdate` with a live probe under the cursor fails no assertion. -/
theorem doProbeUpdate_flag (env : Env) {s : LLReflectionMapManager} (hn : NeighborInv s)
    (probe : ProbePtr) (hU : s.mUpdatingProbe = some probe) (hp : probe ∈ s.mProbes) :
    (doProbeUpdate env s).llassertFailed = s.llassertFailed := by
  unfold doProbeUpdate
  simp only [hU]
  split_ifs with h6
  · have hn2 : NeighborInv
        ({ updateProbeFace env s probe s.mUpdatingFace with
           mUpdatingFace := ((updateProbeFace env s probe s.mUpdatingFace).mUpdatingFace + 1)
             % 2 ^ 32 } : LLReflectionMapManager) :=
      hn.congrNbr (List.Perm.refl _) (fun q => update_nbrs_eq s.heap probe q _ rfl)
    show (updateNeighbors env _ probe).llassertFailed = s.llassertFailed
    rw [updateNeighbors_flag env _ probe hn2 hp]
    rfl
  · rfl

/-- The scan of `update` fails no assertion. -/
theorem scanProbes_flag {N : Nat} (env : Env) (did_update : Bool) (s : LLReflectionMapManager)
    (h : ManagerInv N s) :
    (scanProbes N env did_update s.mProbes.length 0
      { m := s, oldestProbe := none, closestDynamic := none }).m.llassertFailed
      = s.llassertFailed := by
  have key := scanProbes_induct N env did_update
    (fun _ st => ManagerInv N st.m ∧ st.m.llassertFailed = s.llassertFailed)
    ?_ ?_ s.mProbes.length 0 { m := s, oldestProbe := none, closestDynamic := none }
    ⟨h, rfl⟩ (by simp)
  · obtain ⟨_, ⟨_, h2⟩, _⟩ := key
    exact h2
  · intro i st probe ⟨h1, h2⟩ hget _
    have hi : i < st.m.mProbes.length := by
      by_contra hcon
      rw [List.getElem?_eq_none (by omega)] at hget
      exact absurd hget (by simp)
    refine ⟨deleteProbe_inv h1 i hi, ?_⟩
    show (st.m.deleteProbe i).llassertFailed = s.llassertFailed
    rw [(deleteProbe_spec st.m h1.nbr i hi).2.2.2.2.2.1]
    exact h2
  · intro i st probe ⟨h1, h2⟩ _ _
    exact ⟨visitProbe_inv env did_update st i probe h1, h2⟩

theorem startCapture_flag (env : Env) {s : LLReflectionMapManager} (hn : NeighborInv s)
    (probe : ProbePtr) (hp : probe ∈ s.mProbes) (v : LLReflectionMap)
    (hv : v.mNeighbors = (s.heap probe).mNeighbors) :
    (doProbeUpdate env { s.store probe v with mUpdatingProbe := some probe }).llassertFailed
      = s.llassertFailed := by
  have hn3 : NeighborInv ({ s.store probe v with mUpdatingProbe := some probe } :
      LLReflectionMapManager) :=
    hn.congrNbr (List.Perm.refl _) (fun q => update_nbrs_eq s.heap probe q v hv)
  rw [doProbeUpdate_flag env hn3 probe rfl hp]
  rfl

/-- The block "switch to updating the next oldest probe" fails no assertion
when the chosen probe sits among the first `N` list positions: the
allocation it may need always finds a free slot or a slot to steal. -/
theorem switchToOldest_flag {N : Nat} (env : Env) (did_update : Bool)
    {s : LLReflectionMapManager} (h : ManagerInv N s) (oldestProbe : Option ProbePtr)
    (ho : ∀ o, oldestProbe = some o → ∃ j, j < N ∧ s.mProbes[j]? = some o) :
    (switchToOldest N env did_update s oldestProbe).llassertFailed = s.llassertFailed := by
  unfold switchToOldest
  cases oldestProbe with
  | none => rfl
  | some probe =>
    obtain ⟨j, hjN, hj⟩ := ho probe rfl
    have hp : probe ∈ s.mProbes := List.getElem?_mem hj
    simp only []
    by_cases hd : did_update = false
    · rw [if_pos hd]
      by_cases hc : (s.heap probe).mCubeIndex = -1
      · rw [if_pos hc]
        have h1 : ManagerInv N (s.store probe { s.heap probe with mCubeArray := true }) :=
          store_inv h probe _ rfl rfl
        have hc1 : ((s.store probe { s.heap probe with mCubeArray := true }).heap probe).mCubeIndex
            = -1 := by
          simp [store, hc]
        have h2 := claimSlot_inv h1 probe hp hc1
        have hP2 := allocateCubeIndex_mProbes N
          (s.store probe { s.heap probe with mCubeArray := true })
        have hflag : (allocateCubeIndex N
            (s.store probe { s.heap probe with mCubeArray := true })).1.llassertFailed
            = s.llassertFailed := by
          rcases allocateCubeIndex_cases N (s.store probe { s.heap probe with mCubeArray := true })
            with ⟨_, _, _, _, heq⟩ | ⟨_, _, _, _, _, _, heq⟩ | ⟨hnofree, hnosteal, _⟩
          · rw [heq]; rfl
          · rw [heq]; rfl
          · exfalso
            obtain ⟨k, hkN, hklen, hkc⟩ := stealable_of_exhausted h1.pool j hjN probe hj hc1 hnofree
            exact hkc (hnosteal k hkN hklen)
        generalize hs2 : (allocateCubeIndex N
              (s.store probe { s.heap probe with mCubeArray := true })).1.store probe
            { (allocateCubeIndex N
                (s.store probe { s.heap probe with mCubeArray := true })).1.heap probe with
              mCubeIndex := (allocateCubeIndex N
                (s.store probe { s.heap probe with mCubeArray := true })).2 } = s2 at h2
        have hP : s2.mProbes = s.mProbes := by
          rw [← hs2]
          show (allocateCubeIndex N _).1.mProbes = s.mProbes
          rw [hP2]; rfl
        have hf2 : s2.llassertFailed = s.llassertFailed := by
          rw [← hs2]; exact hflag
        exact (startCapture_flag env h2.nbr probe (by rw [hP]; exact hp)
          { s2.heap probe with
            mOrigin := (env.autoAdjustOrigin probe).1
            mRadius := (env.autoAdjustOrigin probe).2 } rfl).trans hf2
      · rw [if_neg hc]
        exact startCapture_flag env h.nbr probe hp
          { s.heap probe with
            mOrigin := (env.autoAdjustOrigin probe).1
            mRadius := (env.autoAdjustOrigin probe).2 } rfl
    · rw [if_neg hd]

/-- One call of `update` on a state that satisfies the invariants fails no
assertion. -/
theorem update_flag {N : Nat} (env : Env) {s : LLReflectionMapManager} (h : ManagerInv N s) :
    (s.update N env).llassertFailed = s.llassertFailed := by
  by_cases hg : env.sRenderPBR = false ∨ env.gTeleportDisplay = true ∨ env.logoutRequestSent = true
  · rw [update_suspended N env s hg]
  have hg1 : env.sRenderPBR = true := by
    cases hx : env.sRenderPBR
    · exact absurd (Or.inl hx) hg
    · rfl
  have hg2 : env.gTeleportDisplay = false := by
    cases hx : env.gTeleportDisplay
    · rfl
    · exact absurd (Or.inr (Or.inl hx)) hg
  have hg3 : env.logoutRequestSent = false := by
    cases hx : env.logoutRequestSent
    · rfl
    · exact absurd (Or.inr (Or.inr hx)) hg
  have h1 := processKillList_inv h
  have h2 := processCreateList_inv h1
  have hf2 : ({ processCreateList { processKillList s with mKillList := [] } with
      mCreateList := [] } : LLReflectionMapManager).llassertFailed = s.llassertFailed := by
    rw [processCreateList_eq]
    exact killLoop_flag s.mKillList s h
  generalize hs2 : ({ processCreateList { processKillList s with mKillList := [] } with
      mCreateList := [] } : LLReflectionMapManager) = s2 at h2 hf2
  by_cases he : s2.mProbes.isEmpty = true
  · rw [update_empty N env s s2 hg1 hg2 hg3 hs2.symm he]; exact hf2
  have he2 : s2.mProbes.isEmpty = false := by
    cases hx : s2.mProbes.isEmpty
    · rfl
    · exact absurd hx he
  have h3 : ManagerInv N (if s2.mUpdatingProbe.isSome = true then doProbeUpdate env s2 else s2) := by
    split_ifs with hu
    · obtain ⟨p, hp⟩ := Option.isSome_iff_exists.mp hu
      exact doProbeUpdate_inv env h2.nbr h2.pool h2.queue p hp (h2.cursor.live p hp) h2.cursor.face
    · exact h2
  have hf3 : (if s2.mUpdatingProbe.isSome = true then doProbeUpdate env s2 else s2).llassertFailed
      = s.llassertFailed := by
    split_ifs with hu
    · obtain ⟨p, hp⟩ := Option.isSome_iff_exists.mp hu
      rw [doProbeUpdate_flag env h2.nbr p hp (h2.cursor.live p hp)]; exact hf2
    · exact hf2
  generalize hs3 : (if s2.mUpdatingProbe.isSome = true then doProbeUpdate env s2 else s2) = s3
    at h3 hf3
  obtain ⟨_, h4, ho, _, _⟩ := scanProbes_spec env s2.mUpdatingProbe.isSome s3 h3
  have hf4 := scanProbes_flag env s2.mUpdatingProbe.isSome s3 h3
  generalize hst : scanProbes N env s2.mUpdatingProbe.isSome s3.mProbes.length 0
    { m := s3, oldestProbe := none, closestDynamic := none } = st at h4 ho hf4
  obtain ⟨h5, hP5⟩ := updateRealtime_inv env h4 st.closestDynamic
  have hf5 := updateRealtime_flag env st.m st.closestDynamic
  have ho5 : ∀ o, st.oldestProbe = some o →
      ∃ j, j < N ∧ (updateRealtime env st.m st.closestDynamic).mProbes[j]? = some o := by
    intro o hoo
    obtain ⟨_, j, hjN, hj⟩ := ho o hoo
    exact ⟨j, hjN, by rw [hP5]; exact hj⟩
  generalize hs4 : updateRealtime env st.m st.closestDynamic = s4 at h5 ho5 hf5
  have hf6 := switchToOldest_flag env s2.mUpdatingProbe.isSome h5 st.oldestProbe ho5
  generalize hs5 : switchToOldest N env s2.mUpdatingProbe.isSome s4 st.oldestProbe = s5 at hf6
  rw [update_run N env s s2 s3 s4 s5 st hg1 hg2 hg3 hs2.symm he2 hs3.symm hst.symm hs4.symm hs5.symm]
  show s5.llassertFailed = s.llassertFailed
  rw [hf6, hf5, hf4, hf3]

/-- No assertion of the manager fails on the way to a reachable state. -/
theorem reachable_no_assert {N : Nat} {s : LLReflectionMapManager} (h : Reachable N s) :
    s.llassertFailed = false := by
  induction h with
  | init => rfl
  | addProbe gCubeSnapshot group center _ ih =>
    unfold addProbe
    rw [(insertNew_spec _ gCubeSnapshot _).2.2.2.2.2.2.2.2.2.2.2]; exact ih
  | registerViewerObject gCubeSnapshot vobj pos _ ih =>
    unfold registerViewerObject
    rw [(insertNew_spec _ gCubeSnapshot _).2.2.2.2.2.2.2.2.2.2.2]; exact ih
  | queueKill probe _ ih => exact ih
  | update env _ hr ih => rw [update_flag env (reachable_inv hr)]; exact ih
  | deleteProbe i hi hr ih =>
    rw [(deleteProbe_spec _ (reachable_inv hr).nbr i hi).2.2.2.2.2.1]; exact ih
  | updateNeighbors env probe hp hr ih =>
    rw [updateNeighbors_flag env _ probe (reachable_inv hr).nbr hp]; exact ih
  | rebuild _ ih =>
    unfold rebuild
    rw [store_foldl_flag (fun m probe => { m.heap probe with mLastUpdateTime := 0 })]; exact ih
  | shift offset _ ih =>
    unfold shift
    rw [store_foldl_flag
      (fun m probe => { m.heap probe with mOrigin := LLVector4a.add (m.heap probe).mOrigin offset })]
    exact ih
  | getReflectionMaps env maps _ ih =>
    rw [(getReflectionMaps_frame env _ maps).1]; exact ih
  | updateUniforms env hr ih => rw [updateUniforms_flag env (reachable_inv hr)]; exact ih

/-- The scan of `update` has enough fuel with `mProbes.size() - i` rounds:
more fuel does not change its result. -/
theorem scanProbes_fuel (N : Nat) (env : Env) (did_update : Bool) :
    ∀ (fuel extra i : Nat) (st : Scan), st.m.mProbes.length ≤ i + fuel →
      scanProbes N env did_update (fuel + extra) i st = scanProbes N env did_update fuel i st := by
  intro fuel
  induction fuel with
  | zero =>
    intro extra i st hlen
    have hnone : st.m.mProbes[i]? = none := List.getElem?_eq_none (by omega)
    cases extra with
    | zero => rfl
    | succ e =>
      rw [Nat.zero_add]
      simp only [scanProbes, hnone]
  | succ fuel ih =>
    intro extra i st hlen
    have hadd : fuel + 1 + extra = (fuel + extra) + 1 := by omega
    rw [hadd]
    unfold scanProbes
    cases hget : st.m.mProbes[i]? with
    | none => rfl
    | some probe =>
      simp only []
      have hi : i < st.m.mProbes.length := by
        by_contra hcon
        rw [List.getElem?_eq_none (by omega)] at hget
        exact absurd hget (by simp)
      by_cases hr : env.getNumRefs probe = 1
      · rw [if_pos hr, if_pos hr]
        apply ih
        show (st.m.deleteProbe i).mProbes.length ≤ i + fuel
        rw [deleteProbe_length _ _ hi]
        omega
      · rw [if_neg hr, if_neg hr]
        apply ih
        rw [visitProbe_mProbes]
        omega

/-- Insertion sort meets the contract of `std::sort`. -/
theorem exampleSort_spec : StdSortSpec exampleSort := by
  constructor
  · intro cmp l
    exact List.perm_insertionSort _ l
  · intro cmp l hkey
    obtain ⟨key, hk⟩ := hkey
    have hr : ∀ a b, (cmp b a = false) ↔ key a ≤ key b := by
      intro a b
      rw [hk b a]
      simp
    haveI : IsTotal ProbePtr (fun a b => cmp b a = false) :=
      ⟨fun a b => by
        show cmp b a = false ∨ cmp a b = false
        rw [hr a b, hr b a]; exact le_total _ _⟩
    haveI : IsTrans ProbePtr (fun a b => cmp b a = false) :=
      ⟨fun a b c h1 h2 => by
        show cmp c a = false
        change cmp b a = false at h1
        change cmp c b = false at h2
        rw [hr] at h1 h2 ⊢
        exact le_trans h1 h2⟩
    exact List.sorted_insertionSort _ l

/-- The example start state is reachable. -/
theorem exampleStart_reachable : Reachable 2 exampleStart :=
  Reachable.addProbe true 2 (1, 0, 0)
    (Reachable.addProbe false 1 (3, 0, 0)
      (Reachable.addProbe false 0 (5, 0, 0) Reachable.init))

/-- Every tick of the example is reachable. -/
theorem exampleTicks_reachable : ∀ n, Reachable 2 (exampleTicks n)
  | 0 => exampleStart_reachable
  | n + 1 => Reachable.update exampleEnv exampleSort_spec (exampleTicks_reachable n)

/-- The example with two linked probes is reachable. -/
theorem exampleLinked_reachable : Reachable 2 exampleLinked :=
  Reachable.updateNeighbors exampleEnv 0 (by decide) exampleStart_reachable

/-- C1: in every state reachable from a freshly constructed manager through
`addProbe`, `registerViewerObject`, `update` (with the `allocateCubeIndex` and
`deleteProbe` calls it makes), queued kills, `rebuild` and `shift`, the live
collection lists every probe once and no two different live probes have the
same `mCubeIndex` other than -1. -/
theorem reachable_slot_unique (N : Nat) (s : LLReflectionMapManager) (h : Reachable N s) :
    s.mProbes.Nodup ∧
    ∀ p ∈ s.mProbes, ∀ q ∈ s.mProbes, p ≠ q → (s.heap p).mCubeIndex ≠ -1 →
      (s.heap p).mCubeIndex ≠ (s.heap q).mCubeIndex := by
  have hinv := reachable_inv h
  refine ⟨hinv.nbr.nodup, ?_⟩
  intro p hp q hq hpq hc he
  exact hpq (hinv.pool.unique p hp q hq he hc)

/-- Slot uniqueness in the example after its first tick. -/
theorem reachable_slot_unique_witness :
    Reachable 2 (exampleTicks 1) ∧
    ((exampleTicks 1).mProbes.Nodup ∧
      ∀ p ∈ (exampleTicks 1).mProbes, ∀ q ∈ (exampleTicks 1).mProbes, p ≠ q →
        ((exampleTicks 1).heap p).mCubeIndex ≠ -1 →
        ((exampleTicks 1).heap p).mCubeIndex ≠ ((exampleTicks 1).heap q).mCubeIndex) :=
  ⟨exampleTicks_reachable 1, reachable_slot_unique 2 (exampleTicks 1) (exampleTicks_reachable 1)⟩

/-- C2: in every reachable state (reached through `update`, `updateNeighbors`,
`deleteProbe` and the registration methods), for all live probes `A` and `B`,
`B` occurs in `A.mNeighbors` if and only if `A` occurs in `B.mNeighbors`. -/
theorem reachable_neighbors_symmetric (N : Nat) (s : LLReflectionMapManager)
    (h : Reachable N s) :
    ∀ a ∈ s.mProbes, ∀ b ∈ s.mProbes,
      (b ∈ (s.heap a).mNeighbors ↔ a ∈ (s.heap b).mNeighbors) := by
  have hinv := reachable_inv h
  intro a ha b hb
  exact ⟨fun hab => hinv.nbr.nbrSymm a ha b hab, fun hba => hinv.nbr.nbrSymm b hb a hba⟩

/-- Neighbour symmetry in the example with two linked probes. -/
theorem reachable_neighbors_symmetric_witness :
    Reachable 2 exampleLinked ∧
    ∀ a ∈ exampleLinked.mProbes, ∀ b ∈ exampleLinked.mProbes,
      (b ∈ (exampleLinked.heap a).mNeighbors ↔ a ∈ (exampleLinked.heap b).mNeighbors) :=
  ⟨exampleLinked_reachable,
    reachable_neighbors_symmetric 2 exampleLinked exampleLinked_reachable⟩

/-- C4: in every reachable state, so initially and after every call of
`update` whatever was registered, killed or collected, `mUpdatingProbe` is
null if and only if `mUpdatingFace == 0`, and `mUpdatingFace` is at most 5. -/
theorem reachable_cursor (N : Nat) (s : LLReflectionMapManager) (h : Reachable N s) :
    (s.mUpdatingProbe = none ↔ s.mUpdatingFace = 0) ∧ s.mUpdatingFace ≤ 5 := by
  have hinv := reachable_inv h
  exact ⟨hinv.cursor.idle, Nat.lt_succ_iff.mp hinv.cursor.face⟩

/-- The cursor invariant in the example after its first tick. -/
theorem reachable_cursor_witness :
    Reachable 2 (exampleTicks 1) ∧
    (((exampleTicks 1).mUpdatingProbe = none ↔ (exampleTicks 1).mUpdatingFace = 0) ∧
      (exampleTicks 1).mUpdatingFace ≤ 5) :=
  ⟨exampleTicks_reachable 1, reachable_cursor 2 (exampleTicks 1) (exampleTicks_reachable 1)⟩

/-- C5: in every reachable state, for every index `i` of the pool
`mCubeFree[i]` is false if and only if some live probe has `mCubeIndex == i`,
and every live probe has `mCubeIndex == -1` or a slot in `[0, N)`. -/
theorem reachable_pool (N : Nat) (s : LLReflectionMapManager) (h : Reachable N s) :
    (∀ i : Int, 0 ≤ i → i < (N : Int) →
      (s.mCubeFree i = false ↔ ∃ p ∈ s.mProbes, (s.heap p).mCubeIndex = i)) ∧
    (∀ p ∈ s.mProbes, (s.heap p).mCubeIndex = -1 ∨
      (0 ≤ (s.heap p).mCubeIndex ∧ (s.heap p).mCubeIndex < (N : Int))) := by
  have hinv := reachable_inv h
  exact ⟨hinv.pool.used, hinv.pool.valid⟩

/-- The pool invariant in the example after its first tick. -/
theorem reachable_pool_witness :
    Reachable 2 (exampleTicks 1) ∧
    ((∀ i : Int, 0 ≤ i → i < ((2 : Nat) : Int) →
      ((exampleTicks 1).mCubeFree i = false ↔
        ∃ p ∈ (exampleTicks 1).mProbes, ((exampleTicks 1).heap p).mCubeIndex = i)) ∧
    (∀ p ∈ (exampleTicks 1).mProbes, ((exampleTicks 1).heap p).mCubeIndex = -1 ∨
      (0 ≤ ((exampleTicks 1).heap p).mCubeIndex ∧
        ((exampleTicks 1).heap p).mCubeIndex < ((2 : Nat) : Int)))) :=
  ⟨exampleTicks_reachable 1, reachable_pool 2 (exampleTicks 1) (exampleTicks_reachable 1)⟩

/-- C7: in every reachable state and for every valid index `i`,
`deleteProbe(i)` leaves the live collection with exactly the element at index
`i` removed and the others in their order, no remaining probe keeps the
deleted probe in its `mNeighbors`, and the assertion that each neighbour link
is found does not fail. -/
theorem deleteProbe_removes (N : Nat) (s : LLReflectionMapManager) (h : Reachable N s)
    (i : Nat) (hi : i < s.mProbes.length) :
    (s.deleteProbe i).mProbes = s.mProbes.eraseIdx i ∧
    (∀ q ∈ (s.deleteProbe i).mProbes, s.probeAt i ∉ ((s.deleteProbe i).heap q).mNeighbors) ∧
    (s.deleteProbe i).llassertFailed = false := by
  have hinv := reachable_inv h
  obtain ⟨hP, hmem, _, hnbr, _, hflag, _⟩ := deleteProbe_spec s hinv.nbr i hi
  refine ⟨hP, ?_, hflag.trans (reachable_no_assert h)⟩
  intro q hq hcontra
  have hql := ((hmem q).mp hq).1
  rw [hnbr q hql] at hcontra
  exact ((List.Nodup.mem_erase_iff (hinv.nbr.nbrNodup q hql)).mp hcontra).1 rfl

/-- Erasing the first of the two linked probes of the example. -/
theorem deleteProbe_removes_witness :
    (Reachable 2 exampleLinked ∧ 0 < exampleLinked.mProbes.length) ∧
    ((exampleLinked.deleteProbe 0).mProbes = exampleLinked.mProbes.eraseIdx 0 ∧
    (∀ q ∈ (exampleLinked.deleteProbe 0).mProbes,
      exampleLinked.probeAt 0 ∉ ((exampleLinked.deleteProbe 0).heap q).mNeighbors) ∧
    (exampleLinked.deleteProbe 0).llassertFailed = false) :=
  ⟨⟨exampleLinked_reachable, by decide⟩,
    deleteProbe_removes 2 exampleLinked exampleLinked_reachable 0 (by decide)⟩

/-- Rebuilding the neighbours of the second of the two linked probes of the example. -/
theorem updateNeighbors_exact_witness :
    (NeighborInv exampleLinked ∧ 1 ∈ exampleLinked.mProbes) ∧
    (((exampleLinked.updateNeighbors exampleEnv 1).heap 1).mNeighbors =
      exampleLinked.mProbes.filter (fun q => decide (q ≠ 1) && exampleEnv.intersects 1 q) ∧
    ((exampleLinked.updateNeighbors exampleEnv 1).heap 1).mNeighbors.Nodup ∧
    (∀ q, q ∈ ((exampleLinked.updateNeighbors exampleEnv 1).heap 1).mNeighbors ↔
      (q ∈ exampleLinked.mProbes ∧ q ≠ 1 ∧ exampleEnv.intersects 1 q = true)) ∧
    (exampleLinked.updateNeighbors exampleEnv 1).mProbes = exampleLinked.mProbes ∧
    (exampleLinked.updateNeighbors exampleEnv 1).llassertFailed = exampleLinked.llassertFailed) :=
  ⟨⟨(reachable_inv exampleLinked_reachable).nbr, by decide⟩,
    updateNeighbors_exact exampleEnv exampleLinked 1
      (reachable_inv exampleLinked_reachable).nbr (by decide)⟩

/-- Erasing the probe under capture in `exampleCapture`. -/
theorem deleteProbe_resets_cursor_witness :
    0 < exampleCapture.mProbes.length ∧
    ((exampleCapture.mUpdatingProbe = some (exampleCapture.probeAt 0) →
      (exampleCapture.deleteProbe 0).mUpdatingProbe = none ∧
      (exampleCapture.deleteProbe 0).mUpdatingFace = 0 ∧
      ((exampleCapture.heap (exampleCapture.probeAt 0)).mCubeIndex ≠ -1 →
        (exampleCapture.deleteProbe 0).mCubeFree
          (exampleCapture.heap (exampleCapture.probeAt 0)).mCubeIndex = true)) ∧
    (exampleCapture.mUpdatingProbe ≠ some (exampleCapture.probeAt 0) →
      (exampleCapture.deleteProbe 0).mUpdatingProbe = exampleCapture.mUpdatingProbe ∧
      (exampleCapture.deleteProbe 0).mUpdatingFace = exampleCapture.mUpdatingFace)) :=
  ⟨by decide, deleteProbe_resets_cursor exampleCapture 0 (by decide)⟩

/-- Allocation in `exampleCapture`, where slot 0 is free. -/
theorem allocateCubeIndex_takes_first_free_witness :
    (∃ i : Nat, i < 2 ∧ exampleCapture.mCubeFree (i : Int) = true) ∧
    ∃ j : Nat, j < 2 ∧ exampleCapture.mCubeFree (j : Int) = true ∧
      (∀ k : Nat, k < j → exampleCapture.mCubeFree (k : Int) = false) ∧
      (allocateCubeIndex 2 exampleCapture).2 = (j : Int) ∧
      (allocateCubeIndex 2 exampleCapture).1 =
        { exampleCapture with
          mCubeFree := Function.update exampleCapture.mCubeFree (j : Int) false } ∧
      (allocateCubeIndex 2 exampleCapture).1.mCubeFree (j : Int) = false ∧
      (∀ k : Int, k ≠ (j : Int) →
        (allocateCubeIndex 2 exampleCapture).1.mCubeFree k = exampleCapture.mCubeFree k) ∧
      (∀ p, ((allocateCubeIndex 2 exampleCapture).1.heap p).mCubeIndex =
        (exampleCapture.heap p).mCubeIndex) :=
  ⟨⟨0, by decide, by decide⟩,
    allocateCubeIndex_takes_first_free 2 exampleCapture ⟨0, by decide, by decide⟩⟩

/-- Allocation in `exampleStolen`, where the only slot has to be stolen. -/
theorem allocateCubeIndex_steals_from_back_witness :
    ((∀ i : Nat, i < 1 → exampleStolen.mCubeFree (i : Int) = false) ∧
      (∃ k : Nat, 1 ≤ k ∧ k < exampleStolen.mProbes.length ∧
        (exampleStolen.heap (exampleStolen.probeAt k)).mCubeIndex ≠ -1)) ∧
    ∃ k : Nat, 1 ≤ k ∧ k < exampleStolen.mProbes.length ∧
      (exampleStolen.heap (exampleStolen.probeAt k)).mCubeIndex ≠ -1 ∧
      (∀ m : Nat, k < m → m < exampleStolen.mProbes.length →
        (exampleStolen.heap (exampleStolen.probeAt m)).mCubeIndex = -1) ∧
      (allocateCubeIndex 1 exampleStolen).2 =
        (exampleStolen.heap (exampleStolen.probeAt k)).mCubeIndex ∧
      ((allocateCubeIndex 1 exampleStolen).1.heap (exampleStolen.probeAt k)).mCubeIndex = -1 ∧
      (∀ p, p ≠ exampleStolen.probeAt k →
        (allocateCubeIndex 1 exampleStolen).1.heap p = exampleStolen.heap p) ∧
      (exampleStolen.mProbes.Nodup → ∀ j : Nat, j < 1 → j < exampleStolen.mProbes.length →
        (allocateCubeIndex 1 exampleStolen).1.heap (exampleStolen.probeAt j) =
          exampleStolen.heap (exampleStolen.probeAt j)) ∧
      (allocateCubeIndex 1 exampleStolen).1.mCubeFree = exampleStolen.mCubeFree ∧
      (allocateCubeIndex 1 exampleStolen).1.mProbes = exampleStolen.mProbes ∧
      (allocateCubeIndex 1 exampleStolen).1.llassertFailed = exampleStolen.llassertFailed :=
  ⟨⟨by decide, ⟨1, by decide, by decide, by decide⟩⟩,
    allocateCubeIndex_steals_from_back 1 exampleStolen (by decide)
      ⟨1, by decide, by decide, by decide⟩⟩

/-- Allocation fails in `exampleExhausted` and returns slot 0 in `exampleStolen`. -/
theorem allocateCubeIndex_fails_iff_witness :
    allocateCubeIndex 1 exampleExhausted =
      ({ exampleExhausted with llassertFailed := true }, -1) ∧
    (0 ≤ (allocateCubeIndex 1 exampleStolen).2 ∧ (allocateCubeIndex 1 exampleStolen).2 < 1) :=
  ⟨(allocateCubeIndex_fails_iff 1 exampleExhausted).2.1
      ((allocateCubeIndex_fails_iff 1 exampleExhausted).1.mpr ⟨by decide, by decide⟩),
    (allocateCubeIndex_fails_iff 1 exampleStolen).2.2.2 (by decide) (by decide)⟩

/-- Worked example: the steal in `exampleStolen` returns slot 0 and takes it
from the probe at position 1. -/
theorem exampleStolen_steal :
    (allocateCubeIndex 1 exampleStolen).2 = 0 ∧
    ((allocateCubeIndex 1 exampleStolen).1.heap 11).mCubeIndex = -1 := by
  decide

/-- Worked example: deleting the probe under capture in `exampleCapture`
frees its slot 1 and resets the cursor. -/
theorem exampleCapture_delete :
    (exampleCapture.deleteProbe 0).mProbes = [11] ∧
    (exampleCapture.deleteProbe 0).mUpdatingProbe = none ∧
    (exampleCapture.deleteProbe 0).mUpdatingFace = 0 ∧
    (exampleCapture.deleteProbe 0).mCubeFree 1 = true := by
  decide

/-- Worked example: `exampleLinked` and the erase of its first probe. -/
theorem exampleLinked_delete :
    exampleLinked.mProbes = [0, 1] ∧
    (exampleLinked.heap 0).mNeighbors = [1] ∧
    (exampleLinked.heap 1).mNeighbors = [0] ∧
    (exampleLinked.deleteProbe 0).mProbes = [1] ∧
    ((exampleLinked.deleteProbe 0).heap 1).mNeighbors = [] := by
  decide

/-- Worked example: the first tick on `exampleStart` drains the queue, picks
the first probe, gives it slot 0 and captures its face 0. -/
theorem exampleTicks_one :
    (exampleTicks 1).mProbes = [2, 1, 0] ∧
    (exampleTicks 1).mCreateList = [] ∧
    ((exampleTicks 1).heap 0).mCubeIndex = 0 ∧
    (exampleTicks 1).mCubeFree 0 = false ∧
    (exampleTicks 1).mUpdatingProbe = some 0 ∧
    (exampleTicks 1).mUpdatingFace = 1 ∧
    (exampleTicks 1).faceLog = [(0, 0)] ∧
    (exampleTicks 1).llassertFailed = false := by
  decide

theorem eraseIdx_append_cons (pre : List ProbePtr) (p : ProbePtr) (rest : List ProbePtr) :
    (pre ++ p :: rest).eraseIdx pre.length = pre ++ rest := by
  induction pre with
  | nil => rfl
  | cons a t ih => simp [ih]

theorem getElem?_append_cons (pre : List ProbePtr) (p : ProbePtr) (rest : List ProbePtr) :
    (pre ++ p :: rest)[pre.length]? = some p := by
  rw [List.getElem?_append_right (Nat.le_refl _), Nat.sub_self]
  exact List.getElem?_cons_zero

theorem deleteProbe_mProbes (s : LLReflectionMapManager) (i : Nat) (hi : i < s.mProbes.length) :
    (s.deleteProbe i).mProbes = s.mProbes.eraseIdx i := by
  obtain ⟨h, b, heq, _, _⟩ := deleteProbe_eq s i hi
  rw [heq]

/-- The scan of `update` handles the probes of `mProbes` one after the other,
each of them once: it is the fold of `scanRound` over the list it starts
with, and it is over after as many rounds as that list has elements. -/
theorem scanProbes_eq_foldl (N : Nat) (env : Env) (did_update : Bool) :
    ∀ (rest pre : List ProbePtr) (st : Scan) (extra : Nat), st.m.mProbes = pre ++ rest →
      scanProbes N env did_update (rest.length + extra) pre.length st =
        (rest.foldl (scanRound N env did_update) (st, pre.length)).1 := by
  intro rest
  induction rest with
  | nil =>
    intro pre st extra hP
    have hnone : st.m.mProbes[pre.length]? = none := by
      rw [hP]; simp
    cases extra with
    | zero => rfl
    | succ e =>
      show scanProbes N env did_update (0 + (e + 1)) pre.length st = st
      rw [Nat.zero_add]
      simp only [scanProbes, hnone]
  | cons p rest ih =>
    intro pre st extra hP
    have hget : st.m.mProbes[pre.length]? = some p := by
      rw [hP]; exact getElem?_append_cons pre p rest
    have hlen : pre.length < st.m.mProbes.length := by
      rw [hP]; simp
    have hfuel : (p :: rest).length + extra = (rest.length + extra) + 1 := by
      simp only [List.length_cons]; omega
    rw [hfuel, List.foldl_cons]
    unfold scanProbes
    simp only [hget]
    by_cases hr : env.getNumRefs p = 1
    · rw [if_pos hr]
      have hstep : scanRound N env did_update (st, pre.length) p =
          ({ st with m := st.m.deleteProbe pre.length }, pre.length) := by
        simp [scanRound, hr]
      rw [hstep]
      apply ih
      show (st.m.deleteProbe pre.length).mProbes = pre ++ rest
      rw [deleteProbe_mProbes _ _ hlen, hP, eraseIdx_append_cons]
    · rw [if_neg hr]
      have hstep : scanRound N env did_update (st, pre.length) p =
          (visitProbe N env did_update st pre.length p, (pre ++ [p]).length) := by
        simp [scanRound, hr]
      rw [hstep]
      have := ih (pre ++ [p]) (visitProbe N env did_update st pre.length p) extra
        (by rw [visitProbe_mProbes, hP]; simp)
      rw [← this]
      simp

/-- Induction over the rounds of the scan: `Q pre st` is kept by the erase of
the probe that follows the kept probes `pre`, and by its visit, which adds
it to the kept probes. -/
theorem scanRound_foldl_induct (N : Nat) (env : Env) (did_update : Bool)
    (Q : List ProbePtr → Scan → Prop)
    (hdel : ∀ pre st probe rest, Q pre st → st.m.mProbes = pre ++ probe :: rest →
      env.getNumRefs probe = 1 → Q pre { st with m := st.m.deleteProbe pre.length })
    (hvisit : ∀ pre st probe rest, Q pre st → st.m.mProbes = pre ++ probe :: rest →
      env.getNumRefs probe ≠ 1 →
      Q (pre ++ [probe]) (visitProbe N env did_update st pre.length probe)) :
    ∀ (rest pre : List ProbePtr) (st : Scan), Q pre st → st.m.mProbes = pre ++ rest →
      Q (pre ++ rest.filter (fun p => decide (env.getNumRefs p ≠ 1)))
          (rest.foldl (scanRound N env did_update) (st, pre.length)).1 ∧
        (rest.foldl (scanRound N env did_update) (st, pre.length)).1.m.mProbes =
          pre ++ rest.filter (fun p => decide (env.getNumRefs p ≠ 1)) := by
  intro rest
  induction rest with
  | nil =>
    intro pre st hQ hP
    simp only [List.filter_nil, List.append_nil, List.foldl_nil] at hP ⊢
    exact ⟨hQ, hP⟩
  | cons p rest ih =>
    intro pre st hQ hP
    have hlen : pre.length < st.m.mProbes.length := by
      rw [hP]; simp
    rw [List.foldl_cons]
    by_cases hr : env.getNumRefs p = 1
    · have hstep : scanRound N env did_update (st, pre.length) p =
          ({ st with m := st.m.deleteProbe pre.length }, pre.length) := by
        simp [scanRound, hr]
      rw [hstep]
      have hf : (p :: rest).filter (fun p => decide (env.getNumRefs p ≠ 1)) =
          rest.filter (fun p => decide (env.getNumRefs p ≠ 1)) := by
        simp [List.filter_cons, hr]
      rw [hf]
      apply ih pre _ (hdel pre st p rest hQ hP hr)
      show (st.m.deleteProbe pre.length).mProbes = pre ++ rest
      rw [deleteProbe_mProbes _ _ hlen, hP, eraseIdx_append_cons]
    · have hstep : scanRound N env did_update (st, pre.length) p =
          (visitProbe N env did_update st pre.length p, (pre ++ [p]).length) := by
        simp [scanRound, hr]
      rw [hstep]
      have hf : pre ++ (p :: rest).filter (fun p => decide (env.getNumRefs p ≠ 1)) =
          (pre ++ [p]) ++ rest.filter (fun p => decide (env.getNumRefs p ≠ 1)) := by
        simp [List.filter_cons, hr]
      rw [hf]
      apply ih (pre ++ [p]) _ (hvisit pre st p rest hQ hP hr)
      rw [visitProbe_mProbes, hP]; simp

/-- The visit of a kept probe, field by field. -/
theorem visitProbe_spec (N : Nat) (env : Env) (did_update : Bool) (st : Scan) (i : Nat)
    (probe : ProbePtr) :
    (∀ q, q ≠ probe → (visitProbe N env did_update st i probe).m.heap q = st.m.heap q) ∧
    (visitProbe N env did_update st i probe).m.heap probe =
      { st.m.heap probe with
        mProbeIndex := (i : Int)
        mDistance := env.getLength3 (LLVector4a.sub env.camera_pos (st.m.heap probe).mOrigin)
          - (st.m.heap probe).mRadius } ∧
    (visitProbe N env did_update st i probe).m =
      { st.m with heap := (visitProbe N env did_update st i probe).m.heap } ∧
    (visitProbe N env did_update st i probe).oldestProbe =
      (if did_update = false ∧ i < N ∧ olderThan st.m probe st.oldestProbe = true
        then some probe else st.oldestProbe) ∧
    (visitProbe N env did_update st i probe).closestDynamic =
      (if env.realtime = true ∧ st.closestDynamic = none ∧
          (st.m.heap probe).mCubeArray = true ∧ env.getIsDynamic probe = true
        then some probe else st.closestDynamic) := by
  refine ⟨?_, ?_, rfl, ?_, ?_⟩
  · intro q hq
    simp [visitProbe, store, Function.update_noteq hq]
  · simp [visitProbe, store]
  · have h : olderThan (st.m.store probe { st.m.heap probe with mProbeIndex := (i : Int) }) probe
        st.oldestProbe = olderThan st.m probe st.oldestProbe := by
      cases ho : st.oldestProbe with
      | none => rfl
      | some o =>
        by_cases hpo : o = probe
        · subst hpo; simp [olderThan, store]
        · simp [olderThan, store, Function.update_noteq hpo]
    simp only [visitProbe, h]
  · simp [visitProbe, store]

theorem scanInv_start {N : Nat} (env : Env) (did_update : Bool) (s : LLReflectionMapManager)
    (h : ManagerInv N s) :
    ScanInv N env did_update s [] { m := s, oldestProbe := none, closestDynamic := none } where
  inv := h
  frame := fun _ => rfl
  visited := by intro k q hk; simp at hk
  unvisited := fun _ _ => ⟨rfl, rfl⟩
  sub := fun _ hq => hq
  nbrs := by
    intro q hq
    symm
    rw [List.filter_eq_self]
    intro r hr
    simpa using h.nbr.nbrLive q hq r hr
  dead := fun _ _ => rfl
  cursorKept := fun _ hp _ => ⟨hp, rfl⟩
  cursorGone := fun p hp hn => absurd (h.cursor.live p hp) hn
  cursorIdle := fun hp => ⟨hp, rfl⟩
  free := by
    intro i
    constructor
    · intro hi; exact Or.inl hi
    · rintro (hi | ⟨p, hp, hnp, _⟩)
      · exact hi
      · exact absurd hp hnp
  oldest := fun _ => by simp [IsOldest]
  oldestNone := fun _ => rfl
  closest := fun _ => rfl
  closestNone := fun _ => rfl
  queues := ⟨rfl, rfl⟩
  ghost := ⟨rfl, rfl⟩
  other := ⟨rfl, rfl⟩

theorem probeAt_append_cons (s : LLReflectionMapManager) (pre : List ProbePtr) (p : ProbePtr)
    (rest : List ProbePtr) (hP : s.mProbes = pre ++ p :: rest) : s.probeAt pre.length = p := by
  unfold probeAt
  rw [hP, List.getD_eq_getElem?_getD, getElem?_append_cons]
  rfl

theorem frame_of_nbrs (a b c : LLReflectionMap)
    (h1 : a = { b with mNeighbors := a.mNeighbors })
    (h2 : b = { c with mProbeIndex := b.mProbeIndex, mDistance := b.mDistance,
                       mNeighbors := b.mNeighbors }) :
    a = { c with mProbeIndex := a.mProbeIndex, mDistance := a.mDistance,
                 mNeighbors := a.mNeighbors } := by
  cases a; cases b; cases c
  simp only [LLReflectionMap.mk.injEq] at *
  simp_all

/-- The scan invariant survives the erase of a probe nobody else holds. -/
theorem scanInv_del {N : Nat} {env : Env} {did_update : Bool} {s : LLReflectionMapManager}
    {pre : List ProbePtr} {st : Scan} (hQ : ScanInv N env did_update s pre st)
    (probe : ProbePtr) (rest : List ProbePtr) (hP : st.m.mProbes = pre ++ probe :: rest) :
    ScanInv N env did_update s pre { st with m := st.m.deleteProbe pre.length } := by
  have hi : pre.length < st.m.mProbes.length := by rw [hP]; simp
  obtain ⟨hP', hmem, hheap, hnbr, hout, hfl, hF, hU, hUF, hC, hK, hnext, hlog, hmaps⟩ :=
    deleteProbe_spec st.m hQ.inv.nbr pre.length hi
  have hpa : st.m.probeAt pre.length = probe := probeAt_append_cons st.m pre probe rest hP
  rw [hpa] at hmem hnbr hF hU hUF
  have hpl : probe ∈ st.m.mProbes := by rw [hP]; simp
  have hcube : (st.m.heap probe).mCubeIndex = (s.heap probe).mCubeIndex := by
    rw [hQ.frame probe]
  refine
    { inv := deleteProbe_inv hQ.inv pre.length hi
      frame := ?_, visited := ?_, unvisited := ?_, sub := ?_, nbrs := ?_, dead := ?_
      cursorKept := ?_, cursorGone := ?_, cursorIdle := ?_, free := ?_
      oldest := hQ.oldest, oldestNone := hQ.oldestNone
      closest := hQ.closest, closestNone := hQ.closestNone
      queues := ⟨hK.trans hQ.queues.1, hC.trans hQ.queues.2⟩
      ghost := ⟨hlog.trans hQ.ghost.1, hfl.trans hQ.ghost.2⟩
      other := ⟨hnext.trans hQ.other.1, hmaps.trans hQ.other.2⟩ }
  · intro q
    exact frame_of_nbrs _ _ _ (hheap q) (hQ.frame q)
  · intro k q hk
    show ((st.m.deleteProbe pre.length).heap q).mProbeIndex = _ ∧
      ((st.m.deleteProbe pre.length).heap q).mDistance = _
    rw [hheap q]
    exact hQ.visited k q hk
  · intro q hq
    show ((st.m.deleteProbe pre.length).heap q).mProbeIndex = _ ∧
      ((st.m.deleteProbe pre.length).heap q).mDistance = _
    rw [hheap q]
    exact hQ.unvisited q hq
  · intro q hq
    exact hQ.sub q ((hmem q).mp hq).1
  · intro q hq
    have hq' := (hmem q).mp hq
    show ((st.m.deleteProbe pre.length).heap q).mNeighbors = _
    rw [hnbr q hq'.1, (hQ.inv.nbr.nbrNodup q hq'.1).erase_eq_filter, hQ.nbrs q hq'.1,
      List.filter_filter]
    apply List.filter_congr
    intro r _
    show _ = decide (r ∈ (st.m.deleteProbe pre.length).mProbes)
    rw [Bool.eq_iff_iff]
    simp only [Bool.and_eq_true, decide_eq_true_eq, bne_iff_ne, ne_eq, hmem r]
    tauto
  · intro q hq
    show (st.m.deleteProbe pre.length).heap q = _
    rw [hout q (fun hql => hq (hQ.sub q hql))]
    exact hQ.dead q hq
  · intro p hp hpl'
    have hp' := (hmem p).mp hpl'
    obtain ⟨h1, h2⟩ := hQ.cursorKept p hp hp'.1
    have hne : st.m.mUpdatingProbe ≠ some probe := by
      rw [h1]; intro h; exact hp'.2 (Option.some.inj h)
    show (st.m.deleteProbe pre.length).mUpdatingProbe = _ ∧
      (st.m.deleteProbe pre.length).mUpdatingFace = _
    rw [hU, hUF, if_neg hne, if_neg hne]
    exact ⟨h1, h2⟩
  · intro p hp hnl
    show (st.m.deleteProbe pre.length).mUpdatingProbe = _ ∧
      (st.m.deleteProbe pre.length).mUpdatingFace = _
    rw [hU, hUF]
    by_cases hpl2 : p ∈ st.m.mProbes
    · have hpe : p = probe := by
        by_contra hne
        exact hnl ((hmem p).mpr ⟨hpl2, hne⟩)
      obtain ⟨h1, _⟩ := hQ.cursorKept p hp hpl2
      rw [hpe] at h1
      rw [if_pos h1, if_pos h1]
      exact ⟨rfl, rfl⟩
    · obtain ⟨h1, h2⟩ := hQ.cursorGone p hp hpl2
      have hne : st.m.mUpdatingProbe ≠ some probe := by rw [h1]; simp
      rw [if_neg hne, if_neg hne]
      exact ⟨h1, h2⟩
  · intro hp
    obtain ⟨h1, h2⟩ := hQ.cursorIdle hp
    have hne : st.m.mUpdatingProbe ≠ some probe := by rw [h1]; simp
    show (st.m.deleteProbe pre.length).mUpdatingProbe = _ ∧
      (st.m.deleteProbe pre.length).mUpdatingFace = _
    rw [hU, hUF, if_neg hne, if_neg hne]
    exact ⟨h1, h2⟩
  · intro i
    show (st.m.deleteProbe pre.length).mCubeFree i = true ↔ _
    rw [hF, hcube]
    have hfree := hQ.free i
    constructor
    · intro h
      by_cases hc : (s.heap probe).mCubeIndex ≠ -1 ∧ i = (s.heap probe).mCubeIndex
      · right
        refine ⟨probe, hQ.sub probe hpl, ?_, hc.2.symm, ?_⟩
        · intro hm; exact ((hmem probe).mp hm).2 rfl
        · rw [hc.2]; exact hc.1
      · have h' : st.m.mCubeFree i = true := by
          by_cases hc1 : (s.heap probe).mCubeIndex ≠ -1
          · rw [if_pos hc1] at h
            have hne : i ≠ (s.heap probe).mCubeIndex := fun he => hc ⟨hc1, he⟩
            rwa [Function.update_noteq hne] at h
          · rwa [if_neg hc1] at h
        rcases hfree.mp h' with h0 | ⟨p, hp, hnp, hpc, hi1⟩
        · exact Or.inl h0
        · exact Or.inr ⟨p, hp, fun hm => hnp ((hmem p).mp hm).1, hpc, hi1⟩
    · intro h
      have key : st.m.mCubeFree i = true ∨
          ((s.heap probe).mCubeIndex ≠ -1 ∧ i = (s.heap probe).mCubeIndex) := by
        rcases h with h0 | ⟨p, hp, hnp, hpc, hi1⟩
        · exact Or.inl (hfree.mpr (Or.inl h0))
        · by_cases hpl2 : p ∈ st.m.mProbes
          · have hpe : p = probe := by
              by_contra hne
              exact hnp ((hmem p).mpr ⟨hpl2, hne⟩)
            right
            rw [← hpe, hpc]
            exact ⟨hi1, rfl⟩
          · exact Or.inl (hfree.mpr (Or.inr ⟨p, hp, hpl2, hpc, hi1⟩))
      rcases key with h0 | ⟨hc1, hc2⟩
      · split_ifs with hc
        · by_cases he : i = (s.heap probe).mCubeIndex
          · rw [he, Function.update_same]
          · rw [Function.update_noteq he]; exact h0
        · exact h0
      · rw [if_pos hc1, hc2, Function.update_same]
theorem frame_of_idx (a b c : LLReflectionMap) (x : Int) (y : Int)
    (h1 : a = { b with mProbeIndex := x, mDistance := y })
    (h2 : b = { c with mProbeIndex := b.mProbeIndex, mDistance := b.mDistance,
                       mNeighbors := b.mNeighbors }) :
    a = { c with mProbeIndex := a.mProbeIndex, mDistance := a.mDistance,
                 mNeighbors := a.mNeighbors } := by
  cases a; cases b; cases c
  simp only [LLReflectionMap.mk.injEq] at *
  simp_all

/-- The choice among the candidates when one more probe is scanned. -/
theorem isOldest_snoc (time : ProbePtr → Int) (N : Nat) (pre : List ProbePtr) (p : ProbePtr)
    (o : Option ProbePtr) (h : IsOldest time (pre.take N) o) (older : Bool)
    (hold : older = true ↔ ∀ x, o = some x → time p < time x) :
    IsOldest time ((pre ++ [p]).take N)
      (if pre.length < N ∧ older = true then some p else o) := by
  by_cases hN : pre.length < N
  · have h1 : pre.take N = pre := List.take_of_length_le (Nat.le_of_lt hN)
    have h2 : (pre ++ [p]).take N = pre ++ [p] := List.take_of_length_le (by simp; omega)
    rw [h1] at h
    rw [h2]
    cases o with
    | none =>
      have hpre : pre = [] := h
      rw [if_pos ⟨hN, hold.mpr (fun x hx => Option.noConfusion hx)⟩]
      subst hpre
      exact ⟨[], [], rfl, by simp, by simp⟩
    | some x =>
      obtain ⟨a, b, hab, ha, hb⟩ := h
      by_cases hlt : time p < time x
      · rw [if_pos ⟨hN, hold.mpr (fun y hy => by cases hy; exact hlt)⟩]
        refine ⟨pre, [], rfl, ?_, by simp⟩
        intro q hq
        rw [hab] at hq
        rcases List.mem_append.mp hq with hqa | hqb
        · exact lt_trans hlt (ha q hqa)
        · rcases List.mem_cons.mp hqb with rfl | hqb'
          · exact hlt
          · exact lt_of_lt_of_le hlt (hb q hqb')
      · rw [if_neg (fun hc => hlt (hold.mp hc.2 x rfl))]
        refine ⟨a, b ++ [p], by rw [hab]; simp, ha, ?_⟩
        intro q hq
        rcases List.mem_append.mp hq with hqb | hqp
        · exact hb q hqb
        · rw [List.mem_singleton.mp hqp]; exact not_lt.mp hlt
  · rw [List.take_append_of_le_length (not_lt.mp hN), if_neg (fun hc => hN hc.1)]
    exact h

theorem olderThan_eq (m : LLReflectionMapManager) (p : ProbePtr) (o : Option ProbePtr) :
    olderThan m p o =
      (match o with
       | none => true
       | some x => decide ((m.heap p).mLastUpdateTime < (m.heap x).mLastUpdateTime)) := by
  cases o <;> rfl

/-- The scan invariant survives the visit of a kept probe. -/
theorem scanInv_visit {N : Nat} {env : Env} {did_update : Bool} {s : LLReflectionMapManager}
    {pre : List ProbePtr} {st : Scan} (hQ : ScanInv N env did_update s pre st)
    (probe : ProbePtr) (rest : List ProbePtr) (hP : st.m.mProbes = pre ++ probe :: rest) :
    ScanInv N env did_update s (pre ++ [probe]) (visitProbe N env did_update st pre.length probe) := by
  obtain ⟨hne, heq, -, hold, hclose⟩ := visitProbe_spec N env did_update st pre.length probe
  have hpl : probe ∈ st.m.mProbes := by rw [hP]; simp
  have hnd : (pre ++ probe :: rest).Nodup := hP ▸ hQ.inv.nbr.nodup
  have hnp : probe ∉ pre := by
    intro hp
    have := List.nodup_append.mp hnd
    exact this.2.2 hp (List.mem_cons_self _ _)
  have htime : ∀ q, (st.m.heap q).mLastUpdateTime = (s.heap q).mLastUpdateTime := by
    intro q; rw [hQ.frame q]
  have hnb : ∀ q, ((visitProbe N env did_update st pre.length probe).m.heap q).mNeighbors =
      (st.m.heap q).mNeighbors := by
    intro q
    by_cases hq : q = probe
    · subst hq; rw [heq]
    · rw [hne q hq]
  refine
    { inv := visitProbe_inv env did_update st pre.length probe hQ.inv
      frame := ?_, visited := ?_, unvisited := ?_, sub := hQ.sub, nbrs := ?_, dead := ?_
      cursorKept := hQ.cursorKept, cursorGone := hQ.cursorGone, cursorIdle := hQ.cursorIdle
      free := hQ.free
      oldest := ?_, oldestNone := ?_
      closest := ?_, closestNone := ?_
      queues := hQ.queues
      ghost := hQ.ghost
      other := hQ.other }
  · intro q
    by_cases hq : q = probe
    · subst hq
      exact frame_of_idx _ _ _ _ _ heq (hQ.frame q)
    · rw [hne q hq]; exact hQ.frame q
  · intro k q hk
    by_cases hkl : k < pre.length
    · rw [List.getElem?_append_left hkl] at hk
      have hqp : q ∈ pre := by
        obtain ⟨hlt, he⟩ := List.getElem?_eq_some_iff.mp hk
        exact he ▸ List.getElem_mem hlt
      have hq : q ≠ probe := fun h => hnp (h ▸ hqp)
      rw [hne q hq]
      exact hQ.visited k q hk
    · have hk2 : k = pre.length := by
        have := (List.getElem?_eq_some_iff.mp hk).1
        simp at this
        omega
      subst hk2
      rw [getElem?_append_cons] at hk
      have hq : probe = q := Option.some.inj hk
      subst hq
      rw [heq]
      refine ⟨rfl, ?_⟩
      show env.getLength3 (LLVector4a.sub env.camera_pos (st.m.heap probe).mOrigin)
        - (st.m.heap probe).mRadius = _
      rw [hQ.frame probe]
  · intro q hq
    have hq1 : q ∉ pre := fun h => hq (List.mem_append_left _ h)
    have hq2 : q ≠ probe := fun h => hq (h ▸ by simp)
    rw [hne q hq2]
    exact hQ.unvisited q hq1
  · intro q hq
    rw [hnb q]
    exact hQ.nbrs q hq
  · intro q hq
    have hq2 : q ≠ probe := fun h => hq (h ▸ hQ.sub probe hpl)
    rw [hne q hq2]
    exact hQ.dead q hq
  · intro hd
    rw [hold]
    have h := isOldest_snoc (fun q => (s.heap q).mLastUpdateTime) N pre probe st.oldestProbe
      (hQ.oldest hd) (olderThan st.m probe st.oldestProbe) (by
        rw [olderThan_eq]
        cases st.oldestProbe with
        | none => simp
        | some x => simp [htime])
    simp only [hd, true_and]
    exact h
  · intro hd
    rw [hold, if_neg (fun hc => by rw [hd] at hc; exact Bool.noConfusion hc.1)]
    exact hQ.oldestNone hd
  · intro hrt
    have hcub : (st.m.heap probe).mCubeArray = (s.heap probe).mCubeArray := by
      rw [hQ.frame probe]
    rw [hclose, hQ.closest hrt, List.find?_append, hcub]
    cases hf : pre.find? (fun q => (s.heap q).mCubeArray && env.getIsDynamic q) with
    | some c => simp
    | none =>
      by_cases hc : (s.heap probe).mCubeArray = true ∧ env.getIsDynamic probe = true
      · simp [hrt, hc.1, hc.2]
      · have hc2 : ((s.heap probe).mCubeArray && env.getIsDynamic probe) = false := by
          rw [Bool.and_eq_false_iff]
          by_contra hcon
          push_neg at hcon
          exact hc ⟨by simpa using hcon.1, by simpa using hcon.2⟩
        rw [if_neg (fun h => hc h.2.2)]
        simp [hc2]
  · intro hrt
    rw [hclose, if_neg (fun hc => by rw [hrt] at hc; exact Bool.noConfusion hc.1)]
    exact hQ.closestNone hrt

/-- The scan of `update`, run with `mProbes.size()` rounds of fuel from index
0, ends with exactly the probes somebody else still holds, in their order,
and in the state the scan invariant describes. -/
theorem scanProbes_scanInv {N : Nat} (env : Env) (did_update : Bool) (s : LLReflectionMapManager)
    (h : ManagerInv N s) :
    ScanInv N env did_update s (s.mProbes.filter (fun p => decide (env.getNumRefs p ≠ 1)))
      (scanProbes N env did_update s.mProbes.length 0
        { m := s, oldestProbe := none, closestDynamic := none }) ∧
    (scanProbes N env did_update s.mProbes.length 0
        { m := s, oldestProbe := none, closestDynamic := none }).m.mProbes =
      s.mProbes.filter (fun p => decide (env.getNumRefs p ≠ 1)) := by
  have hfold := scanProbes_eq_foldl N env did_update s.mProbes []
    { m := s, oldestProbe := none, closestDynamic := none } 0 rfl
  have hind := scanRound_foldl_induct N env did_update (ScanInv N env did_update s)
    (fun pre st probe rest hQ hP _ => scanInv_del hQ probe rest hP)
    (fun pre st probe rest hQ hP _ => scanInv_visit hQ probe rest hP)
    s.mProbes [] { m := s, oldestProbe := none, closestDynamic := none }
    (scanInv_start env did_update s h) rfl
  simp only [List.length_nil, Nat.add_zero, List.nil_append] at hfold hind
  rw [hfold]
  exact hind

/-- C19: `getReflectionMaps` writes into `maps[0..count)` the first
`min(c, k)` probes of `mProbes` that hold a slot, in list order, where `c` is
the capacity of the buffer and `k` the number of live probes with a slot;
`count` is `min(c, k)`, so it never exceeds `c`, the buffer keeps its size,
and every probe the scan examines (the probes before which fewer than `c`
probes with a slot stand) has `mLastBindTime` equal to the frame time. -/
theorem getReflectionMaps_fills (env : Env) (s : LLReflectionMapManager)
    (maps : List (Option ProbePtr)) :
    (bindLoop env s.mProbes 0 { m := s, maps := maps, count := 0, lastIdx := 0 }).count =
      min maps.length (s.mProbes.filter (fun p => decide ((s.heap p).mCubeIndex ≠ -1))).length ∧
    (bindLoop env s.mProbes 0 { m := s, maps := maps, count := 0, lastIdx := 0 }).count
      ≤ maps.length ∧
    (getReflectionMaps env s maps).2.length = maps.length ∧
    (getReflectionMaps env s maps).2.take
        (bindLoop env s.mProbes 0 { m := s, maps := maps, count := 0, lastIdx := 0 }).count =
      ((s.mProbes.filter (fun p => decide ((s.heap p).mCubeIndex ≠ -1))).take
        (min maps.length
          (s.mProbes.filter (fun p => decide ((s.heap p).mCubeIndex ≠ -1))).length)).map some ∧
    (∀ (i : Nat) (p : ProbePtr), s.mProbes[i]? = some p →
      ((s.mProbes.take i).filter (fun p => decide ((s.heap p).mCubeIndex ≠ -1))).length
        < maps.length →
      ((getReflectionMaps env s maps).1.heap p).mLastBindTime = env.gFrameTimeSeconds) := by
  obtain ⟨hcount, hlen, hnew, -, -⟩ := getReflectionMaps_buffer env s maps
  refine ⟨hcount, ?_, hlen, ?_, ?_⟩
  · rw [hcount]; exact Nat.min_le_left _ _
  · rw [hcount]
    apply List.ext_getElem?
    intro j
    by_cases hj : j < min maps.length
        (s.mProbes.filter (fun p => decide ((s.heap p).mCubeIndex ≠ -1))).length
    · rw [List.getElem?_take_of_lt hj, hnew j hj, List.getElem?_map, List.getElem?_take_of_lt hj]
      have hj2 : j < (s.mProbes.filter (fun p => decide ((s.heap p).mCubeIndex ≠ -1))).length :=
        lt_of_lt_of_le hj (Nat.min_le_right _ _)
      rw [List.getElem?_eq_getElem hj2]
      rfl
    · rw [List.getElem?_eq_none (le_trans (by rw [List.length_take]; exact Nat.min_le_left _ _)
          (not_lt.mp hj)),
        List.getElem?_eq_none (le_trans (by
          rw [List.length_map, List.length_take]; exact Nat.min_le_left _ _) (not_lt.mp hj))]
  · intro i p hi hroom
    have h := bindLoop_examined env (fun q => (s.heap q).mCubeIndex) s.mProbes 0
      { m := s, maps := maps, count := 0, lastIdx := 0 } (Nat.zero_le _) (fun _ => rfl) i p hi
      (by simpa using hroom)
    unfold getReflectionMaps
    simp only []
    rw [resetLoop_spec]
    show (if p ∈ _ then _ else _ : LLReflectionMap).mLastBindTime = _
    split_ifs
    · exact h
    · exact h

/-- C20, counterexample: only the entry `maps[count]` is set to null.  With
three probes holding a slot `updateUniforms` fills `mReflectionMaps` with
the three probes; after two of them are destroyed the next `updateUniforms`
writes one probe (`count = 1`) and the terminator `maps[1]`, and `maps[2]`
still holds the destroyed probe 12 although `count <= 2 < 3`. -/
theorem getReflectionMaps_no_padding :
    (updateUniforms 3 exampleEnv exampleBound).mReflectionMaps = [some 10, some 11, some 12] ∧
    (((updateUniforms 3 exampleEnv exampleBound).deleteProbe 1).deleteProbe 1).mProbes = [10] ∧
    exampleRebound.mReflectionMaps = [some 10, none, some 12] ∧
    (getReflectionMaps exampleEnv (LLReflectionMapManager.new 3) [some 7, some 8, some 9]).2 =
      [none, some 8, some 9] := by
  refine ⟨?_, ?_, ?_, ?_⟩ <;> decide

/-- C20, amended: when `getReflectionMaps` has written `count < c` probes, the
entry `maps[count]` is null, and every entry behind it keeps what the buffer
held before the call. -/
theorem getReflectionMaps_null_terminates (env : Env) (s : LLReflectionMapManager)
    (maps : List (Option ProbePtr))
    (h : (bindLoop env s.mProbes 0 { m := s, maps := maps, count := 0, lastIdx := 0 }).count
      < maps.length) :
    (getReflectionMaps env s maps).2[(bindLoop env s.mProbes 0
        { m := s, maps := maps, count := 0, lastIdx := 0 }).count]? = some none ∧
    (∀ j, (bindLoop env s.mProbes 0 { m := s, maps := maps, count := 0, lastIdx := 0 }).count < j →
      (getReflectionMaps env s maps).2[j]? = maps[j]?) := by
  obtain ⟨hcount, -, -, hnull, hkeep⟩ := getReflectionMaps_buffer env s maps
  rw [hcount] at h ⊢
  exact ⟨hnull h, hkeep⟩

theorem getReflectionMaps_null_terminates_witness :
    (bindLoop exampleEnv exampleBound.mProbes 0
        { m := exampleBound, maps := [none, none, none, some 7, some 8], count := 0,
          lastIdx := 0 }).count < [none, none, none, some 7, some (8 : ProbePtr)].length ∧
    (getReflectionMaps exampleEnv exampleBound [none, none, none, some 7, some 8]).2[(bindLoop
        exampleEnv exampleBound.mProbes 0
        { m := exampleBound, maps := [none, none, none, some 7, some 8], count := 0,
          lastIdx := 0 }).count]? = some none ∧
    (∀ j, (bindLoop exampleEnv exampleBound.mProbes 0
        { m := exampleBound, maps := [none, none, none, some 7, some 8], count := 0,
          lastIdx := 0 }).count < j →
      (getReflectionMaps exampleEnv exampleBound [none, none, none, some 7, some 8]).2[j]? =
        [none, none, none, some 7, some (8 : ProbePtr)][j]?) :=
  ⟨by decide, getReflectionMaps_null_terminates exampleEnv exampleBound
    [none, none, none, some 7, some 8] (by decide)⟩

/-- The common part of `addProbe` and `registerViewerObject` on a state that
meets the invariants: the object is new, and it is queued or made live. -/
theorem insertNew_deferred {N : Nat} {s : LLReflectionMapManager} (h : ManagerInv N s)
    (gCubeSnapshot : Bool) (v : LLReflectionMap) (hc : v.mCubeIndex = -1)
    (hn : v.mNeighbors = []) :
    (s.insertNew gCubeSnapshot v).2 ∉ s.mProbes ∧
    (s.insertNew gCubeSnapshot v).2 ∉ s.mCreateList ∧
    ((s.insertNew gCubeSnapshot v).1.heap (s.insertNew gCubeSnapshot v).2).mCubeIndex = -1 ∧
    ((s.insertNew gCubeSnapshot v).1.heap (s.insertNew gCubeSnapshot v).2).mNeighbors = [] ∧
    (gCubeSnapshot = true →
      (s.insertNew gCubeSnapshot v).1.mCreateList =
        s.mCreateList ++ [(s.insertNew gCubeSnapshot v).2] ∧
      (s.insertNew gCubeSnapshot v).1.mProbes = s.mProbes) ∧
    (gCubeSnapshot = false →
      (s.insertNew gCubeSnapshot v).1.mProbes = s.mProbes ++ [(s.insertNew gCubeSnapshot v).2] ∧
      (s.insertNew gCubeSnapshot v).1.mCreateList = s.mCreateList) ∧
    (∀ q, q ≠ (s.insertNew gCubeSnapshot v).2 →
      (s.insertNew gCubeSnapshot v).1.heap q = s.heap q) ∧
    (s.insertNew gCubeSnapshot v).1.mCubeFree = s.mCubeFree ∧
    (s.insertNew gCubeSnapshot v).1.mUpdatingProbe = s.mUpdatingProbe ∧
    (s.insertNew gCubeSnapshot v).1.mUpdatingFace = s.mUpdatingFace ∧
    (s.insertNew gCubeSnapshot v).1.mKillList = s.mKillList := by
  obtain ⟨h2, hheap, -, hP, hC, hF, hU, hUF, hK, -, -, -⟩ := insertNew_spec s gCubeSnapshot v
  have hfresh : ∀ q ∈ s.mProbes ++ s.mCreateList, q ≠ s.nextPtr := fun q hq =>
    Nat.ne_of_lt (h.queue.allocated q hq)
  rw [h2, hheap]
  refine ⟨?_, ?_, ?_, ?_, ?_, ?_, ?_, hF, hU, hUF, hK⟩
  · intro hm; exact hfresh _ (List.mem_append_left _ hm) rfl
  · intro hm; exact hfresh _ (List.mem_append_right _ hm) rfl
  · rw [Function.update_same]; exact hc
  · rw [Function.update_same]; exact hn
  · intro hs
    rw [hC, hP, if_pos hs, if_pos hs]
    exact ⟨rfl, rfl⟩
  · intro hs
    have hs' : ¬ gCubeSnapshot = true := by rw [hs]; exact Bool.false_ne_true
    rw [hC, hP, if_neg hs', if_neg hs']
    exact ⟨rfl, rfl⟩
  · intro q hq
    exact Function.update_noteq hq _ _

/-- C16: in every reachable state `addProbe` and `registerViewerObject`
construct one probe that is neither live nor queued so far, without slot and
without neighbours; while a snapshot is in progress they append it to
`mCreateList` and leave `mProbes` as it is, otherwise they append it to
`mProbes` and leave `mCreateList` as it is; in both cases every other
object, the pool, the cursor and the kill list are unchanged. -/
theorem insertion_deferred {N : Nat} (s : LLReflectionMapManager) (hr : Reachable N s)
    (gCubeSnapshot : Bool) (group : Nat) (center : LLVector4a) (vobj : Nat) (pos : LLVector4a) :
    ((s.addProbe gCubeSnapshot group center).2 ∉ s.mProbes ∧
      (s.addProbe gCubeSnapshot group center).2 ∉ s.mCreateList ∧
      ((s.addProbe gCubeSnapshot group center).1.heap
        (s.addProbe gCubeSnapshot group center).2).mCubeIndex = -1 ∧
      ((s.addProbe gCubeSnapshot group center).1.heap
        (s.addProbe gCubeSnapshot group center).2).mNeighbors = [] ∧
      (gCubeSnapshot = true →
        (s.addProbe gCubeSnapshot group center).1.mCreateList =
          s.mCreateList ++ [(s.addProbe gCubeSnapshot group center).2] ∧
        (s.addProbe gCubeSnapshot group center).1.mProbes = s.mProbes) ∧
      (gCubeSnapshot = false →
        (s.addProbe gCubeSnapshot group center).1.mProbes =
          s.mProbes ++ [(s.addProbe gCubeSnapshot group center).2] ∧
        (s.addProbe gCubeSnapshot group center).1.mCreateList = s.mCreateList) ∧
      (∀ q, q ≠ (s.addProbe gCubeSnapshot group center).2 →
        (s.addProbe gCubeSnapshot group center).1.heap q = s.heap q) ∧
      (s.addProbe gCubeSnapshot group center).1.mCubeFree = s.mCubeFree ∧
      (s.addProbe gCubeSnapshot group center).1.mUpdatingProbe = s.mUpdatingProbe ∧
      (s.addProbe gCubeSnapshot group center).1.mUpdatingFace = s.mUpdatingFace ∧
      (s.addProbe gCubeSnapshot group center).1.mKillList = s.mKillList) ∧
    ((s.registerViewerObject gCubeSnapshot vobj pos).2 ∉ s.mProbes ∧
      (s.registerViewerObject gCubeSnapshot vobj pos).2 ∉ s.mCreateList ∧
      ((s.registerViewerObject gCubeSnapshot vobj pos).1.heap
        (s.registerViewerObject gCubeSnapshot vobj pos).2).mCubeIndex = -1 ∧
      ((s.registerViewerObject gCubeSnapshot vobj pos).1.heap
        (s.registerViewerObject gCubeSnapshot vobj pos).2).mNeighbors = [] ∧
      (gCubeSnapshot = true →
        (s.registerViewerObject gCubeSnapshot vobj pos).1.mCreateList =
          s.mCreateList ++ [(s.registerViewerObject gCubeSnapshot vobj pos).2] ∧
        (s.registerViewerObject gCubeSnapshot vobj pos).1.mProbes = s.mProbes) ∧
      (gCubeSnapshot = false →
        (s.registerViewerObject gCubeSnapshot vobj pos).1.mProbes =
          s.mProbes ++ [(s.registerViewerObject gCubeSnapshot vobj pos).2] ∧
        (s.registerViewerObject gCubeSnapshot vobj pos).1.mCreateList = s.mCreateList) ∧
      (∀ q, q ≠ (s.registerViewerObject gCubeSnapshot vobj pos).2 →
        (s.registerViewerObject gCubeSnapshot vobj pos).1.heap q = s.heap q) ∧
      (s.registerViewerObject gCubeSnapshot vobj pos).1.mCubeFree = s.mCubeFree ∧
      (s.registerViewerObject gCubeSnapshot vobj pos).1.mUpdatingProbe = s.mUpdatingProbe ∧
      (s.registerViewerObject gCubeSnapshot vobj pos).1.mUpdatingFace = s.mUpdatingFace ∧
      (s.registerViewerObject gCubeSnapshot vobj pos).1.mKillList = s.mKillList) :=
  ⟨insertNew_deferred (reachable_inv hr) gCubeSnapshot _ rfl rfl,
    insertNew_deferred (reachable_inv hr) gCubeSnapshot _ rfl rfl⟩

theorem insertion_deferred_witness :
    Reachable 2 exampleStart ∧
    ((exampleStart.addProbe true 3 (7, 0, 0)).1.mCreateList = [2, 3] ∧
      (exampleStart.addProbe true 3 (7, 0, 0)).1.mProbes = [0, 1]) ∧
    ((exampleStart.registerViewerObject false 4 (7, 0, 0)).1.mProbes = [0, 1, 3] ∧
      (exampleStart.registerViewerObject false 4 (7, 0, 0)).1.mCreateList = [2]) :=
  ⟨exampleStart_reachable,
    ((insertion_deferred exampleStart exampleStart_reachable true 3 (7, 0, 0) 4 (7, 0, 0)).1).2.2.2.2.1
      rfl,
    ((insertion_deferred exampleStart exampleStart_reachable false 3 (7, 0, 0) 4
      (7, 0, 0)).2).2.2.2.2.2.1 rfl⟩

/-- A call of `update` that is not suspended and has probes after draining
the queues is the scheduler run on the drained state, then the sort. -/
theorem update_stages (N : Nat) (env : Env) (s : LLReflectionMapManager)
    (hg1 : env.sRenderPBR = true) (hg2 : env.gTeleportDisplay = false)
    (hg3 : env.logoutRequestSent = false) :
    ((drained s).mProbes = [] → s.update N env = drained s) ∧
    ((drained s).mProbes ≠ [] → s.update N env =
      { scheduled N env (drained s) with
        mProbes := env.stdSort (CompareProbeDistance (scheduled N env (drained s)))
          (scheduled N env (drained s)).mProbes }) := by
  constructor
  · intro he
    have he2 : (drained s).mProbes.isEmpty = true := by rw [he]; rfl
    exact update_empty N env s _ hg1 hg2 hg3 rfl he2
  · intro he
    have he2 : (drained s).mProbes.isEmpty = false := by
      cases hl : (drained s).mProbes with
      | nil => exact absurd hl he
      | cons a t => rfl
    exact update_run N env s _ _ _ _ _ hg1 hg2 hg3 rfl he2 rfl rfl rfl rfl

theorem killInv_start {N : Nat} (s : LLReflectionMapManager) (h : ManagerInv N s) :
    KillInv N s s where
  inv := h
  frame := fun _ => rfl
  sub := fun _ hq => hq
  nbrs := by
    intro q hq
    symm
    rw [List.filter_eq_self]
    intro r hr
    simpa using h.nbr.nbrLive q hq r hr
  dead := fun _ _ => rfl
  cursorKept := fun _ hp _ => ⟨hp, rfl⟩
  cursorGone := fun p hp hn => absurd (h.cursor.live p hp) hn
  cursorIdle := fun hp => ⟨hp, rfl⟩
  free := by
    intro i
    constructor
    · intro hi; exact Or.inl hi
    · rintro (hi | ⟨p, hp, hnp, _⟩)
      · exact hi
      · exact absurd hp hnp
  queues := ⟨rfl, rfl⟩
  ghost := ⟨rfl, rfl⟩
  other := ⟨rfl, rfl⟩

theorem frame_nbrs_trans (a b c : LLReflectionMap)
    (h1 : a = { b with mNeighbors := a.mNeighbors })
    (h2 : b = { c with mNeighbors := b.mNeighbors }) :
    a = { c with mNeighbors := a.mNeighbors } := by
  cases a; cases b; cases c
  simp only [LLReflectionMap.mk.injEq] at *
  simp_all

/-- The kill invariant survives one more call of `deleteProbe`. -/
theorem killInv_del {N : Nat} {s m : LLReflectionMapManager} (hQ : KillInv N s m) (i : Nat)
    (hi : i < m.mProbes.length) : KillInv N s (m.deleteProbe i) := by
  obtain ⟨hP', hmem, hheap, hnbr, hout, hfl, hF, hU, hUF, hC, hK, hnext, hlog, hmaps⟩ :=
    deleteProbe_spec m hQ.inv.nbr i hi
  generalize hpa : m.probeAt i = probe at hmem hnbr hF hU hUF
  have hpl : probe ∈ m.mProbes := hpa ▸ probeAt_mem m i hi
  have hcube : (m.heap probe).mCubeIndex = (s.heap probe).mCubeIndex := by
    rw [hQ.frame probe]
  refine
    { inv := deleteProbe_inv hQ.inv i hi
      frame := ?_, sub := ?_, nbrs := ?_, dead := ?_
      cursorKept := ?_, cursorGone := ?_, cursorIdle := ?_, free := ?_
      queues := ⟨hK.trans hQ.queues.1, hC.trans hQ.queues.2⟩
      ghost := ⟨hlog.trans hQ.ghost.1, hfl.trans hQ.ghost.2⟩
      other := ⟨hnext.trans hQ.other.1, hmaps.trans hQ.other.2⟩ }
  · intro q
    exact frame_nbrs_trans _ _ _ (hheap q) (hQ.frame q)
  · intro q hq
    exact hQ.sub q ((hmem q).mp hq).1
  · intro q hq
    have hq' := (hmem q).mp hq
    rw [hnbr q hq'.1, (hQ.inv.nbr.nbrNodup q hq'.1).erase_eq_filter, hQ.nbrs q hq'.1,
      List.filter_filter]
    apply List.filter_congr
    intro r _
    rw [Bool.eq_iff_iff]
    simp only [Bool.and_eq_true, decide_eq_true_eq, bne_iff_ne, ne_eq, hmem r]
    tauto
  · intro q hq
    rw [hout q (fun hql => hq (hQ.sub q hql))]
    exact hQ.dead q hq
  · intro p hp hpl'
    have hp' := (hmem p).mp hpl'
    obtain ⟨h1, h2⟩ := hQ.cursorKept p hp hp'.1
    have hne : m.mUpdatingProbe ≠ some probe := by
      rw [h1]; intro h; exact hp'.2 (Option.some.inj h)
    rw [hU, hUF, if_neg hne, if_neg hne]
    exact ⟨h1, h2⟩
  · intro p hp hnl
    rw [hU, hUF]
    by_cases hpl2 : p ∈ m.mProbes
    · have hpe : p = probe := by
        by_contra hne
        exact hnl ((hmem p).mpr ⟨hpl2, hne⟩)
      obtain ⟨h1, _⟩ := hQ.cursorKept p hp hpl2
      rw [hpe] at h1
      rw [if_pos h1, if_pos h1]
      exact ⟨rfl, rfl⟩
    · obtain ⟨h1, h2⟩ := hQ.cursorGone p hp hpl2
      have hne : m.mUpdatingProbe ≠ some probe := by rw [h1]; simp
      rw [if_neg hne, if_neg hne]
      exact ⟨h1, h2⟩
  · intro hp
    obtain ⟨h1, h2⟩ := hQ.cursorIdle hp
    have hne : m.mUpdatingProbe ≠ some probe := by rw [h1]; simp
    rw [hU, hUF, if_neg hne, if_neg hne]
    exact ⟨h1, h2⟩
  · intro i
    rw [hF, hcube]
    have hfree := hQ.free i
    constructor
    · intro h
      by_cases hc : (s.heap probe).mCubeIndex ≠ -1 ∧ i = (s.heap probe).mCubeIndex
      · right
        refine ⟨probe, hQ.sub probe hpl, ?_, hc.2.symm, ?_⟩
        · intro hm; exact ((hmem probe).mp hm).2 rfl
        · rw [hc.2]; exact hc.1
      · have h' : m.mCubeFree i = true := by
          by_cases hc1 : (s.heap probe).mCubeIndex ≠ -1
          · rw [if_pos hc1] at h
            have hne : i ≠ (s.heap probe).mCubeIndex := fun he => hc ⟨hc1, he⟩
            rwa [Function.update_noteq hne] at h
          · rwa [if_neg hc1] at h
        rcases hfree.mp h' with h0 | ⟨p, hp, hnp, hpc, hi1⟩
        · exact Or.inl h0
        · exact Or.inr ⟨p, hp, fun hm => hnp ((hmem p).mp hm).1, hpc, hi1⟩
    · intro h
      have key : m.mCubeFree i = true ∨
          ((s.heap probe).mCubeIndex ≠ -1 ∧ i = (s.heap probe).mCubeIndex) := by
        rcases h with h0 | ⟨p, hp, hnp, hpc, hi1⟩
        · exact Or.inl (hfree.mpr (Or.inl h0))
        · by_cases hpl2 : p ∈ m.mProbes
          · have hpe : p = probe := by
              by_contra hne
              exact hnp ((hmem p).mpr ⟨hpl2, hne⟩)
            right
            rw [← hpe, hpc]
            exact ⟨hi1, rfl⟩
          · exact Or.inl (hfree.mpr (Or.inr ⟨p, hp, hpl2, hpc, hi1⟩))
      rcases key with h0 | ⟨hc1, hc2⟩
      · split_ifs with hc
        · by_cases he : i = (s.heap probe).mCubeIndex
          · rw [he, Function.update_same]
          · rw [Function.update_noteq he]; exact h0
        · exact h0
      · rw [if_pos hc1, hc2, Function.update_same]

/-- The kill loop removes from `mProbes` exactly the probes the list names,
keeps the order of the others, and keeps the kill invariant. -/
theorem killLoop_spec {N : Nat} (s : LLReflectionMapManager) :
    ∀ (L : List ProbePtr) (m : LLReflectionMapManager), KillInv N s m →
      KillInv N s (L.foldl
        (fun m probe =>
          if m.mProbes.indexOf probe < m.mProbes.length
          then m.deleteProbe (m.mProbes.indexOf probe) else m) m) ∧
      (L.foldl
        (fun m probe =>
          if m.mProbes.indexOf probe < m.mProbes.length
          then m.deleteProbe (m.mProbes.indexOf probe) else m) m).mProbes =
        m.mProbes.filter (fun q => decide (q ∉ L)) := by
  intro L
  induction L with
  | nil => intro m h; exact ⟨h, by simp⟩
  | cons a t ih =>
    intro m h
    rw [List.foldl_cons]
    have hstep : KillInv N s (if m.mProbes.indexOf a < m.mProbes.length
          then m.deleteProbe (m.mProbes.indexOf a) else m) ∧
        (if m.mProbes.indexOf a < m.mProbes.length
          then m.deleteProbe (m.mProbes.indexOf a) else m).mProbes =
          m.mProbes.filter (fun q => decide (q ≠ a)) := by
      by_cases hlt : m.mProbes.indexOf a < m.mProbes.length
      · rw [if_pos hlt]
        refine ⟨killInv_del h _ hlt, ?_⟩
        rw [deleteProbe_mProbes m _ hlt, List.eraseIdx_indexOf_eq_erase,
          h.inv.nbr.nodup.erase_eq_filter]
        apply List.filter_congr
        intro q _
        by_cases hqa : q = a <;> simp [hqa]
      · rw [if_neg hlt]
        refine ⟨h, ?_⟩
        symm
        rw [List.filter_eq_self]
        intro q hq
        have ha : a ∉ m.mProbes := fun hm => hlt (List.indexOf_lt_length.mpr hm)
        simpa using fun he : q = a => ha (he ▸ hq)
    obtain ⟨h1, h2⟩ := ih _ hstep.1
    refine ⟨h1, ?_⟩
    rw [h2, hstep.2, List.filter_filter]
    apply List.filter_congr
    intro q _
    rw [Bool.eq_iff_iff]
    simp only [Bool.and_eq_true, decide_eq_true_eq, List.mem_cons, not_or, ne_eq]
    tauto

/-- The method `doProbeUpdate` on a live probe and a face below 6: it renders
the face of the cursor, stamps the probe, and moves the cursor on; after face
5 it rebuilds the neighbours of the probe and goes idle. -/
theorem doProbeUpdate_spec (env : Env) {s : LLReflectionMapManager} (hn : NeighborInv s)
    (probe : ProbePtr) (hU : s.mUpdatingProbe = some probe) (hp : probe ∈ s.mProbes)
    (hf : s.mUpdatingFace < 6) :
    doProbeUpdate env s =
      { s with
        heap := (doProbeUpdate env s).heap
        mUpdatingProbe := (doProbeUpdate env s).mUpdatingProbe
        mUpdatingFace := (doProbeUpdate env s).mUpdatingFace
        faceLog := s.faceLog ++ [(probe, s.mUpdatingFace)] } ∧
    (∀ q, (doProbeUpdate env s).heap q =
      { s.heap q with
        mNeighbors := ((doProbeUpdate env s).heap q).mNeighbors
        mLastUpdateTime :=
          if q = probe then env.gFrameTimeSeconds else (s.heap q).mLastUpdateTime }) ∧
    (s.mUpdatingFace < 5 →
      (doProbeUpdate env s).mUpdatingProbe = some probe ∧
      (doProbeUpdate env s).mUpdatingFace = s.mUpdatingFace + 1 ∧
      ∀ q, ((doProbeUpdate env s).heap q).mNeighbors = (s.heap q).mNeighbors) ∧
    (s.mUpdatingFace = 5 →
      (doProbeUpdate env s).mUpdatingProbe = none ∧
      (doProbeUpdate env s).mUpdatingFace = 0 ∧
      ((doProbeUpdate env s).heap probe).mNeighbors =
        s.mProbes.filter (fun o => decide (o ≠ probe) && env.intersects probe o)) := by
  have hn1 : NeighborInv { updateProbeFace env s probe s.mUpdatingFace with
      mUpdatingFace := s.mUpdatingFace + 1 } :=
    hn.congrNbr (List.Perm.refl _) (fun q => update_nbrs_eq s.heap probe q _ rfl)
  have hmod : (s.mUpdatingFace + 1) % 2 ^ 32 = s.mUpdatingFace + 1 := by omega
  have hface : (updateProbeFace env s probe s.mUpdatingFace).mUpdatingFace = s.mUpdatingFace := rfl
  have hheap1 : ∀ q, (updateProbeFace env s probe s.mUpdatingFace).heap q =
      { s.heap q with
        mLastUpdateTime :=
          if q = probe then env.gFrameTimeSeconds else (s.heap q).mLastUpdateTime } := by
    intro q
    by_cases hq : q = probe
    · subst hq; simp [updateProbeFace]
    · simp [updateProbeFace, Function.update_noteq hq, hq]
  unfold doProbeUpdate
  simp only [hU]
  rw [hface, hmod]
  by_cases h6 : s.mUpdatingFace + 1 = 6
  · rw [if_pos h6]
    obtain ⟨h, b, heq, hfr, hnb, hrest⟩ := updateNeighbors_eq env
      { updateProbeFace env s probe s.mUpdatingFace with mUpdatingFace := s.mUpdatingFace + 1 }
      probe
    obtain ⟨hb, -⟩ := hrest hn1 hp
    rw [heq]
    refine ⟨?_, ?_, fun h5 => absurd h5 (by omega), fun _ => ⟨rfl, rfl, hnb⟩⟩
    · simp only [LLReflectionMapManager.mk.injEq, true_and, and_true]
      have hb2 : b = s.llassertFailed := hb
      subst hb2
      repeat' constructor
    · intro q
      show h q = _
      rw [hfr q]
      show ({ (updateProbeFace env s probe s.mUpdatingFace).heap q with
        mNeighbors := (h q).mNeighbors } : LLReflectionMap) = _
      rw [hheap1 q]
  · rw [if_neg h6]
    refine ⟨rfl, ?_, fun _ => ⟨hU, rfl, ?_⟩, fun h5 => absurd h5 (by omega)⟩
    · intro q
      show (updateProbeFace env s probe s.mUpdatingFace).heap q = _
      rw [hheap1 q]
    · intro q
      show ((updateProbeFace env s probe s.mUpdatingFace).heap q).mNeighbors = _
      rw [hheap1 q]

/-- The realtime block of `update`: nothing without realtime detail or
without a closest dynamic probe; else the probe is re-centred, stamped, and
its six faces are rendered in order. -/
theorem updateRealtime_spec (env : Env) (s : LLReflectionMapManager)
    (closestDynamic : Option ProbePtr) :
    ((env.realtime = false ∨ closestDynamic = none) →
      updateRealtime env s closestDynamic = s) ∧
    (∀ c, env.realtime = true → closestDynamic = some c →
      updateRealtime env s closestDynamic =
        { s with
          heap := Function.update s.heap c
            { s.heap c with
              mOrigin := (env.autoAdjustOrigin c).1
              mRadius := (env.autoAdjustOrigin c).2
              mLastUpdateTime := env.gFrameTimeSeconds }
          faceLog := s.faceLog ++ [(c, 0), (c, 1), (c, 2), (c, 3), (c, 4), (c, 5)] }) := by
  constructor
  · intro h
    unfold updateRealtime
    cases closestDynamic with
    | none => rfl
    | some c =>
      rcases h with h | h
      · simp [h]
      · exact absurd h (by simp)
  · intro c hrt hc
    subst hc
    have hr : List.range 6 = [0, 1, 2, 3, 4, 5] := by decide
    unfold updateRealtime
    simp only [hrt, if_true, hr, List.foldl_cons, List.foldl_nil, updateProbeFace, store,
      Function.update_same, Function.update_idem, List.append_assoc, List.singleton_append,
      List.cons_append, List.nil_append]

theorem mem_of_getElem?_some {l : List ProbePtr} {i : Nat} {p : ProbePtr} (h : l[i]? = some p) :
    p ∈ l := by
  obtain ⟨hlt, he⟩ := List.getElem?_eq_some_iff.mp h
  exact he ▸ List.getElem_mem hlt

/-- The claim of a slot by the selected probe, `probe->mCubeArray = mTexture;
probe->mCubeIndex = allocateCubeIndex()`, for a probe without slot among the
first `N` positions: the probe gets the first free slot, or else the slot of
the last probe behind position `N` that holds one. -/
theorem claimSlot_spec {N : Nat} {s : LLReflectionMapManager} (h : ManagerInv N s)
    (j : Nat) (hjN : j < N) (probe : ProbePtr) (hj : s.mProbes[j]? = some probe)
    (hc : (s.heap probe).mCubeIndex = -1) :
    ∃ (slot : Int) (heap2 : ProbePtr → LLReflectionMap) (free2 : Int → Bool),
      (allocateCubeIndex N (s.store probe { s.heap probe with mCubeArray := true })).1.store probe
        { (allocateCubeIndex N (s.store probe { s.heap probe with mCubeArray := true })).1.heap
            probe with
          mCubeIndex :=
            (allocateCubeIndex N (s.store probe { s.heap probe with mCubeArray := true })).2 } =
        { s with heap := heap2, mCubeFree := free2 } ∧
      0 ≤ slot ∧ slot < (N : Int) ∧
      heap2 probe = { s.heap probe with mCubeArray := true, mCubeIndex := slot } ∧
      (((∃ i : Nat, slot = (i : Int) ∧ s.mCubeFree (i : Int) = true ∧
            (∀ k : Nat, k < i → s.mCubeFree (k : Int) = false)) ∧
          free2 = Function.update s.mCubeFree slot false ∧
          (∀ q, q ≠ probe → heap2 q = s.heap q)) ∨
        ((∀ i : Nat, i < N → s.mCubeFree (i : Int) = false) ∧ free2 = s.mCubeFree ∧
          ∃ k : Nat, N ≤ k ∧ k < s.mProbes.length ∧ s.probeAt k ≠ probe ∧
            (s.heap (s.probeAt k)).mCubeIndex = slot ∧
            (∀ m : Nat, k < m → m < s.mProbes.length → (s.heap (s.probeAt m)).mCubeIndex = -1) ∧
            heap2 (s.probeAt k) = { s.heap (s.probeAt k) with mCubeIndex := -1 } ∧
            (∀ q, q ≠ probe → q ≠ s.probeAt k → heap2 q = s.heap q))) := by
  have hp : probe ∈ s.mProbes := mem_of_getElem?_some hj
  have h1 : ManagerInv N (s.store probe { s.heap probe with mCubeArray := true }) :=
    store_inv h probe _ rfl rfl
  have hc1 : ((s.store probe { s.heap probe with mCubeArray := true }).heap probe).mCubeIndex
      = -1 := by
    simp only [store, Function.update_same]; exact hc
  have hcube1 : ∀ q, ((s.store probe { s.heap probe with mCubeArray := true }).heap q).mCubeIndex
      = (s.heap q).mCubeIndex := fun q => update_cube_eq s.heap probe q _ rfl
  rcases allocateCubeIndex_cases N (s.store probe { s.heap probe with mCubeArray := true }) with
    ⟨i, hiN, hfree, hmin, heq⟩ | ⟨hnofree, k, hkN, hklen, hkc, hlast, heq⟩ | ⟨hnofree, hnone, -⟩
  · rw [heq]
    refine ⟨(i : Int), _, _, rfl, Int.natCast_nonneg i, Int.ofNat_lt.mpr hiN, ?_,
      Or.inl ⟨⟨i, rfl, hfree, hmin⟩, rfl, ?_⟩⟩
    · simp [store]
    · intro q hq
      simp [store, Function.update_noteq hq]
  · rw [heq]
    have hpa : (s.store probe { s.heap probe with mCubeArray := true }).probeAt k = s.probeAt k :=
      rfl
    rw [hpa] at hkc heq ⊢
    rw [hcube1] at hkc
    have hvp : s.probeAt k ≠ probe := by
      intro he
      rw [he] at hkc
      exact hkc hc
    have hv : s.probeAt k ∈ s.mProbes := probeAt_mem s k hklen
    have hvalid := h.pool.valid _ hv
    have hrange : 0 ≤ (s.heap (s.probeAt k)).mCubeIndex ∧
        (s.heap (s.probeAt k)).mCubeIndex < (N : Int) := by
      rcases hvalid with hm | hr
      · exact absurd hm hkc
      · exact hr
    refine ⟨(s.heap (s.probeAt k)).mCubeIndex, _, _, rfl, hrange.1, hrange.2, ?_,
      Or.inr ⟨hnofree, rfl, k, hkN, hklen, hvp, rfl, ?_, ?_, ?_⟩⟩
    · simp [store, Function.update_noteq hvp, Function.update_noteq hvp.symm]
    · intro m hkm hml
      have := hlast m hkm hml
      rw [show (s.store probe { s.heap probe with mCubeArray := true }).probeAt m = s.probeAt m
        from rfl, hcube1] at this
      exact this
    · simp [store, Function.update_noteq hvp, Function.update_noteq hvp.symm]
    · intro q hq hqv
      simp [store, Function.update_noteq hq, Function.update_noteq hqv]
  · exfalso
    obtain ⟨k, hkN, hklen, hkc⟩ := stealable_of_exhausted h1.pool j hjN probe hj hc1 hnofree
    exact hkc (hnone k hkN hklen)

/-- The first step of a capture: face 0 is rendered and the cursor moves to
face 1. -/
theorem doProbeUpdate_first (env : Env) (m : LLReflectionMapManager) (probe : ProbePtr)
    (hU : m.mUpdatingProbe = some probe) (hF : m.mUpdatingFace = 0) :
    doProbeUpdate env m =
      { m with
        heap := Function.update m.heap probe
          { m.heap probe with mLastUpdateTime := env.gFrameTimeSeconds }
        faceLog := m.faceLog ++ [(probe, 0)]
        mUpdatingFace := 1 } := by
  unfold doProbeUpdate
  simp only [hU]
  have hface : (updateProbeFace env m probe m.mUpdatingFace).mUpdatingFace = 0 := hF
  rw [hface]
  simp [updateProbeFace, hF]
  exact hU

/-- The block "switch to updating the next oldest probe" of `update`, for an
idle cursor and a selected probe among the first `N` positions. -/
theorem switchToOldest_spec {N : Nat} (env : Env) {s : LLReflectionMapManager}
    (h : ManagerInv N s) (hU : s.mUpdatingProbe = none)
    (j : Nat) (hjN : j < N) (probe : ProbePtr) (hj : s.mProbes[j]? = some probe) :
    ∃ (slot : Int) (heap2 : ProbePtr → LLReflectionMap) (free2 : Int → Bool),
      switchToOldest N env false s (some probe) =
        doProbeUpdate env
          { s with
            heap := Function.update heap2 probe
              { heap2 probe with
                mOrigin := (env.autoAdjustOrigin probe).1
                mRadius := (env.autoAdjustOrigin probe).2 }
            mCubeFree := free2
            mUpdatingProbe := some probe } ∧
      switchToOldest N env false s (some probe) =
        { s with
          heap := Function.update heap2 probe
            { heap2 probe with
              mOrigin := (env.autoAdjustOrigin probe).1
              mRadius := (env.autoAdjustOrigin probe).2
              mLastUpdateTime := env.gFrameTimeSeconds }
          mCubeFree := free2
          mUpdatingProbe := some probe
          mUpdatingFace := 1
          faceLog := s.faceLog ++ [(probe, 0)] } ∧
      0 ≤ slot ∧ slot < (N : Int) ∧
      heap2 probe =
        { s.heap probe with
          mCubeArray := if (s.heap probe).mCubeIndex = -1 then true else (s.heap probe).mCubeArray
          mCubeIndex := slot } ∧
      ((s.heap probe).mCubeIndex ≠ -1 → slot = (s.heap probe).mCubeIndex ∧
        heap2 = s.heap ∧ free2 = s.mCubeFree) ∧
      ((s.heap probe).mCubeIndex = -1 →
        (((∃ i : Nat, slot = (i : Int) ∧ s.mCubeFree (i : Int) = true ∧
            (∀ k : Nat, k < i → s.mCubeFree (k : Int) = false)) ∧
          free2 = Function.update s.mCubeFree slot false ∧
          (∀ q, q ≠ probe → heap2 q = s.heap q)) ∨
        ((∀ i : Nat, i < N → s.mCubeFree (i : Int) = false) ∧ free2 = s.mCubeFree ∧
          ∃ k : Nat, N ≤ k ∧ k < s.mProbes.length ∧ s.probeAt k ≠ probe ∧
            (s.heap (s.probeAt k)).mCubeIndex = slot ∧
            (∀ m : Nat, k < m → m < s.mProbes.length → (s.heap (s.probeAt m)).mCubeIndex = -1) ∧
            heap2 (s.probeAt k) = { s.heap (s.probeAt k) with mCubeIndex := -1 } ∧
            (∀ q, q ≠ probe → q ≠ s.probeAt k → heap2 q = s.heap q)))) := by
  have hp : probe ∈ s.mProbes := mem_of_getElem?_some hj
  have hF : s.mUpdatingFace = 0 := h.cursor.idle.mp hU
  by_cases hc : (s.heap probe).mCubeIndex = -1
  · obtain ⟨slot, heap2, free2, heq, h0, hN, hprobe, hcases⟩ := claimSlot_spec h j hjN probe hj hc
    have hsw : switchToOldest N env false s (some probe) =
        doProbeUpdate env
          { s with
            heap := Function.update heap2 probe
              { heap2 probe with
                mOrigin := (env.autoAdjustOrigin probe).1
                mRadius := (env.autoAdjustOrigin probe).2 }
            mCubeFree := free2
            mUpdatingProbe := some probe } := by
      unfold switchToOldest
      simp only [if_true, if_pos hc]
      rw [heq]
      rfl
    refine ⟨slot, heap2, free2, hsw, ?_, h0, hN, ?_, fun hne => absurd hc hne, fun _ => hcases⟩
    · rw [hsw, doProbeUpdate_first env
        { s with
          heap := Function.update heap2 probe
            { heap2 probe with
              mOrigin := (env.autoAdjustOrigin probe).1
              mRadius := (env.autoAdjustOrigin probe).2 }
          mCubeFree := free2
          mUpdatingProbe := some probe } probe rfl hF]
      simp
    · rw [hprobe, if_pos hc]
  · have hsw : switchToOldest N env false s (some probe) =
        doProbeUpdate env
          { s with
            heap := Function.update s.heap probe
              { s.heap probe with
                mOrigin := (env.autoAdjustOrigin probe).1
                mRadius := (env.autoAdjustOrigin probe).2 }
            mCubeFree := s.mCubeFree
            mUpdatingProbe := some probe } := by
      unfold switchToOldest
      simp only [if_true, if_neg hc]
      rfl
    have hvalid := h.pool.valid probe hp
    have hrange : 0 ≤ (s.heap probe).mCubeIndex ∧ (s.heap probe).mCubeIndex < (N : Int) := by
      rcases hvalid with hm | hr
      · exact absurd hm hc
      · exact hr
    refine ⟨(s.heap probe).mCubeIndex, s.heap, s.mCubeFree, hsw, ?_, hrange.1, hrange.2, ?_,
      fun _ => ⟨rfl, rfl, rfl⟩, fun he => absurd he hc⟩
    · rw [hsw, doProbeUpdate_first env
        { s with
          heap := Function.update s.heap probe
            { s.heap probe with
              mOrigin := (env.autoAdjustOrigin probe).1
              mRadius := (env.autoAdjustOrigin probe).2 }
          mCubeFree := s.mCubeFree
          mUpdatingProbe := some probe } probe rfl hF]
      simp
    · rw [if_neg hc]

/-- The state of `update` after the queues are drained: the killed live
probes are gone as `deleteProbe` removes them (links removed, slot freed,
cursor reset), the others keep their order, and the created probes follow in
queue order. -/
theorem drained_spec {N : Nat} {s : LLReflectionMapManager} (h : ManagerInv N s) :
    ManagerInv N (drained s) ∧
    (drained s).mProbes =
      s.mProbes.filter (fun q => decide (q ∉ s.mKillList)) ++ s.mCreateList ∧
    (drained s).mKillList = [] ∧ (drained s).mCreateList = [] ∧
    (∀ q, (drained s).heap q =
      { s.heap q with mNeighbors := ((drained s).heap q).mNeighbors }) ∧
    (∀ q ∈ (drained s).mProbes, ((drained s).heap q).mNeighbors =
      (s.heap q).mNeighbors.filter (fun r => decide (r ∉ s.mKillList))) ∧
    (∀ i, (drained s).mCubeFree i = true ↔
      s.mCubeFree i = true ∨
        ∃ p ∈ s.mProbes, p ∈ s.mKillList ∧ (s.heap p).mCubeIndex = i ∧ i ≠ -1) ∧
    (∀ p, s.mUpdatingProbe = some p → p ∉ s.mKillList →
      (drained s).mUpdatingProbe = some p ∧ (drained s).mUpdatingFace = s.mUpdatingFace) ∧
    (∀ p, s.mUpdatingProbe = some p → p ∈ s.mKillList →
      (drained s).mUpdatingProbe = none ∧ (drained s).mUpdatingFace = 0) ∧
    (s.mUpdatingProbe = none →
      (drained s).mUpdatingProbe = none ∧ (drained s).mUpdatingFace = s.mUpdatingFace) ∧
    (drained s).faceLog = s.faceLog ∧ (drained s).llassertFailed = s.llassertFailed ∧
    (drained s).nextPtr = s.nextPtr ∧ (drained s).mReflectionMaps = s.mReflectionMaps := by
  obtain ⟨hK, hkP⟩ := killLoop_spec s s.mKillList s (killInv_start s h)
  have hd : drained s =
      { processKillList s with
        mProbes := (processKillList s).mProbes ++ (processKillList s).mCreateList
        mKillList := []
        mCreateList := [] } :=
    processCreateList_eq { processKillList s with mKillList := [] }
  have hk : processKillList s = s.mKillList.foldl
      (fun m probe =>
        if m.mProbes.indexOf probe < m.mProbes.length
        then m.deleteProbe (m.mProbes.indexOf probe) else m) s := rfl
  rw [← hk] at hK hkP
  have hmem : ∀ q, q ∈ (processKillList s).mProbes ↔ q ∈ s.mProbes ∧ q ∉ s.mKillList := by
    intro q; rw [hkP]; simp
  have hdisj : ∀ p ∈ s.mCreateList, p ∉ s.mProbes := fun p hc hl =>
    (List.nodup_append.mp h.queue.nodup).2.2 hl hc
  refine ⟨processCreateList_inv (processKillList_inv h), ?_, ?_, ?_, ?_, ?_, ?_, ?_, ?_, ?_, ?_,
    ?_, ?_, ?_⟩
  · rw [hd]; show (processKillList s).mProbes ++ (processKillList s).mCreateList = _
    rw [hkP, hK.queues.2]
  · rw [hd]
  · rw [hd]
  · intro q; rw [hd]; exact hK.frame q
  · intro q hq
    rw [hd] at hq ⊢
    change q ∈ (processKillList s).mProbes ++ (processKillList s).mCreateList at hq
    show ((processKillList s).heap q).mNeighbors = _
    rcases List.mem_append.mp hq with hq | hq
    · rw [hK.nbrs q hq]
      apply List.filter_congr
      intro r hr
      have hrl : r ∈ s.mProbes := h.nbr.nbrLive q ((hmem q).mp hq).1 r hr
      rw [Bool.eq_iff_iff]
      simp only [decide_eq_true_eq, hmem r]
      tauto
    · rw [hK.queues.2] at hq
      rw [hK.dead q (hdisj q hq), h.queue.noNeighbors q hq]
      rfl
  · intro i
    rw [hd]
    show (processKillList s).mCubeFree i = true ↔ _
    rw [hK.free i]
    constructor
    · rintro (h0 | ⟨p, hp, hnp, hpc, hi⟩)
      · exact Or.inl h0
      · refine Or.inr ⟨p, hp, ?_, hpc, hi⟩
        by_contra hnk
        exact hnp ((hmem p).mpr ⟨hp, hnk⟩)
    · rintro (h0 | ⟨p, hp, hpk, hpc, hi⟩)
      · exact Or.inl h0
      · exact Or.inr ⟨p, hp, fun hm => ((hmem p).mp hm).2 hpk, hpc, hi⟩
  · intro p hp hnk
    rw [hd]
    exact hK.cursorKept p hp ((hmem p).mpr ⟨h.cursor.live p hp, hnk⟩)
  · intro p hp hk'
    rw [hd]
    exact hK.cursorGone p hp (fun hm => ((hmem p).mp hm).2 hk')
  · intro hp
    rw [hd]
    exact hK.cursorIdle hp
  · rw [hd]; exact hK.ghost.1
  · rw [hd]; exact hK.ghost.2
  · rw [hd]; exact hK.other.1
  · rw [hd]; exact hK.other.2

theorem frame_widen (a c : LLReflectionMap)
    (h : a = { c with mCubeIndex := a.mCubeIndex, mCubeArray := a.mCubeArray }) :
    a = { c with mCubeIndex := a.mCubeIndex, mCubeArray := a.mCubeArray, mOrigin := a.mOrigin,
                 mRadius := a.mRadius, mLastUpdateTime := a.mLastUpdateTime } := by
  cases a; cases c
  simp only [LLReflectionMap.mk.injEq] at *
  simp_all

/-- What the realtime block leaves alone. -/
theorem updateRealtime_frame (env : Env) (s : LLReflectionMapManager)
    (closestDynamic : Option ProbePtr) :
    updateRealtime env s closestDynamic =
      { s with
        heap := (updateRealtime env s closestDynamic).heap
        faceLog := (updateRealtime env s closestDynamic).faceLog } ∧
    (∀ q, (updateRealtime env s closestDynamic).heap q =
      { s.heap q with
        mOrigin := ((updateRealtime env s closestDynamic).heap q).mOrigin
        mRadius := ((updateRealtime env s closestDynamic).heap q).mRadius
        mLastUpdateTime := ((updateRealtime env s closestDynamic).heap q).mLastUpdateTime }) := by
  obtain ⟨hoff, hon⟩ := updateRealtime_spec env s closestDynamic
  by_cases hc : env.realtime = false ∨ closestDynamic = none
  · rw [hoff hc]
    exact ⟨rfl, fun _ => rfl⟩
  · have hrt : env.realtime = true := by
      cases hx : env.realtime
      · exact absurd (Or.inl hx) hc
      · rfl
    cases hcd : closestDynamic with
    | none => exact absurd (Or.inr hcd) hc
    | some c =>
      rw [← hcd, hon c hrt hcd]
      refine ⟨rfl, ?_⟩
      intro q
      by_cases hq : q = c
      · subst hq
        simp only [Function.update_same]
      · simp only [Function.update_noteq hq]

/-- What the block "switch to updating the next oldest probe" leaves alone. -/
theorem switchToOldest_frame {N : Nat} (env : Env) (did_update : Bool)
    {s : LLReflectionMapManager} (h : ManagerInv N s) (oldestProbe : Option ProbePtr)
    (ho : ∀ o, oldestProbe = some o → did_update = false →
      s.mUpdatingProbe = none ∧ ∃ j, j < N ∧ s.mProbes[j]? = some o) :
    switchToOldest N env did_update s oldestProbe =
      { s with
        heap := (switchToOldest N env did_update s oldestProbe).heap
        mCubeFree := (switchToOldest N env did_update s oldestProbe).mCubeFree
        mUpdatingProbe := (switchToOldest N env did_update s oldestProbe).mUpdatingProbe
        mUpdatingFace := (switchToOldest N env did_update s oldestProbe).mUpdatingFace
        faceLog := (switchToOldest N env did_update s oldestProbe).faceLog } ∧
    (∀ q, (switchToOldest N env did_update s oldestProbe).heap q =
      { s.heap q with
        mCubeIndex := ((switchToOldest N env did_update s oldestProbe).heap q).mCubeIndex
        mCubeArray := ((switchToOldest N env did_update s oldestProbe).heap q).mCubeArray
        mOrigin := ((switchToOldest N env did_update s oldestProbe).heap q).mOrigin
        mRadius := ((switchToOldest N env did_update s oldestProbe).heap q).mRadius
        mLastUpdateTime :=
          ((switchToOldest N env did_update s oldestProbe).heap q).mLastUpdateTime }) := by
  cases hod : oldestProbe with
  | none => exact ⟨rfl, fun _ => rfl⟩
  | some o =>
    cases hd : did_update with
    | true => exact ⟨rfl, fun _ => rfl⟩
    | false =>
      obtain ⟨hU, j, hjN, hj⟩ := ho o hod hd
      obtain ⟨slot, heap2, free2, -, heq, -, -, hprobe, hkeep, hclaim⟩ :=
        switchToOldest_spec env h hU j hjN o hj
      rw [heq]
      refine ⟨rfl, ?_⟩
      have hheap2 : ∀ q, heap2 q =
          { s.heap q with mCubeIndex := (heap2 q).mCubeIndex, mCubeArray := (heap2 q).mCubeArray } := by
        intro q
        by_cases hc : (s.heap o).mCubeIndex = -1
        · by_cases hq : q = o
          · subst hq; rw [hprobe]
          · rcases hclaim hc with ⟨-, -, hrest⟩ | ⟨-, -, k, -, -, -, -, -, hvict, hrest⟩
            · rw [hrest q hq]
            · by_cases hqv : q = s.probeAt k
              · rw [hqv, hvict]
              · rw [hrest q hq hqv]
        · rw [(hkeep hc).2.1]
      intro q
      by_cases hq : q = o
      · subst hq
        simp only [Function.update_same]
        rw [hheap2 q]
      · simp only [Function.update_noteq hq]
        exact frame_widen _ _ (hheap2 q)

theorem frame_compose (a b c : LLReflectionMap)
    (h1 : a = { b with mCubeIndex := a.mCubeIndex, mCubeArray := a.mCubeArray,
                       mOrigin := a.mOrigin, mRadius := a.mRadius,
                       mLastUpdateTime := a.mLastUpdateTime })
    (h2 : b = { c with mOrigin := b.mOrigin, mRadius := b.mRadius,
                       mLastUpdateTime := b.mLastUpdateTime }) :
    a = { c with mCubeIndex := a.mCubeIndex, mCubeArray := a.mCubeArray,
                 mOrigin := a.mOrigin, mRadius := a.mRadius,
                 mLastUpdateTime := a.mLastUpdateTime } := by
  cases a; cases b; cases c
  simp only [LLReflectionMap.mk.injEq] at *
  simp_all

theorem manager_frame_compose (a b c : LLReflectionMapManager)
    (h1 : a = { b with heap := a.heap, mCubeFree := a.mCubeFree,
                       mUpdatingProbe := a.mUpdatingProbe, mUpdatingFace := a.mUpdatingFace,
                       faceLog := a.faceLog })
    (h2 : b = { c with heap := b.heap, faceLog := b.faceLog }) :
    a = { c with heap := a.heap, mCubeFree := a.mCubeFree,
                 mUpdatingProbe := a.mUpdatingProbe, mUpdatingFace := a.mUpdatingFace,
                 faceLog := a.faceLog } := by
  cases a; cases b; cases c
  simp only [LLReflectionMapManager.mk.injEq] at *
  simp_all

/-- The scan of `update` on the drained state `s2`: the step of a capture in
progress keeps the invariants, and the scan then meets its invariant for the
probes somebody else still holds. -/
theorem scanned_spec {N : Nat} (env : Env) {s2 : LLReflectionMapManager} (h : ManagerInv N s2) :
    ManagerInv N (if s2.mUpdatingProbe.isSome = true then doProbeUpdate env s2 else s2) ∧
    ScanInv N env s2.mUpdatingProbe.isSome
      (if s2.mUpdatingProbe.isSome = true then doProbeUpdate env s2 else s2)
      (s2.mProbes.filter (fun p => decide (env.getNumRefs p ≠ 1))) (scanned N env s2) ∧
    (scanned N env s2).m.mProbes = s2.mProbes.filter (fun p => decide (env.getNumRefs p ≠ 1)) := by
  have h3 : ManagerInv N (if s2.mUpdatingProbe.isSome = true then doProbeUpdate env s2 else s2) := by
    cases hU : s2.mUpdatingProbe with
    | none => exact h
    | some p =>
      exact doProbeUpdate_inv env h.nbr h.pool h.queue p hU (h.cursor.live p hU) h.cursor.face
  have hP : (if s2.mUpdatingProbe.isSome = true then doProbeUpdate env s2 else s2).mProbes
      = s2.mProbes := by
    split_ifs
    · exact doProbeUpdate_mProbes env s2
    · rfl
  have hscan := scanProbes_scanInv env s2.mUpdatingProbe.isSome _ h3
  have hl : (if s2.mUpdatingProbe.isSome = true then doProbeUpdate env s2 else s2).mProbes.filter
      (fun p => decide (env.getNumRefs p ≠ 1)) =
      s2.mProbes.filter (fun p => decide (env.getNumRefs p ≠ 1)) := by rw [hP]
  exact ⟨h3, hl ▸ hscan.1, hscan.2.trans hl⟩

/-- The state of `update` before its sort, in terms of the state its scan
leaves: the probes are those the scan kept, and the realtime block and the
switch to the oldest probe touch the slot, the cube array, the origin, the
radius and the time stamp of probes only. -/
theorem scheduled_frame {N : Nat} (env : Env) {s2 : LLReflectionMapManager}
    (h : ManagerInv N s2) :
    ManagerInv N (updateRealtime env (scanned N env s2).m (scanned N env s2).closestDynamic) ∧
    (∀ o, (scanned N env s2).oldestProbe = some o → s2.mUpdatingProbe.isSome = false →
      (updateRealtime env (scanned N env s2).m (scanned N env s2).closestDynamic).mUpdatingProbe
        = none ∧
      ∃ j, j < N ∧
        (updateRealtime env (scanned N env s2).m
          (scanned N env s2).closestDynamic).mProbes[j]? = some o) ∧
    scheduled N env s2 =
      { (scanned N env s2).m with
        heap := (scheduled N env s2).heap
        mCubeFree := (scheduled N env s2).mCubeFree
        mUpdatingProbe := (scheduled N env s2).mUpdatingProbe
        mUpdatingFace := (scheduled N env s2).mUpdatingFace
        faceLog := (scheduled N env s2).faceLog } ∧
    (∀ q, (scheduled N env s2).heap q =
      { (scanned N env s2).m.heap q with
        mCubeIndex := ((scheduled N env s2).heap q).mCubeIndex
        mCubeArray := ((scheduled N env s2).heap q).mCubeArray
        mOrigin := ((scheduled N env s2).heap q).mOrigin
        mRadius := ((scheduled N env s2).heap q).mRadius
        mLastUpdateTime := ((scheduled N env s2).heap q).mLastUpdateTime }) := by
  obtain ⟨h3, hscan, hP⟩ := scanned_spec env h
  obtain ⟨h4, hP4⟩ := updateRealtime_inv env hscan.inv (scanned N env s2).closestDynamic
  obtain ⟨hrf, hrh⟩ := updateRealtime_frame env (scanned N env s2).m
    (scanned N env s2).closestDynamic
  have hpos : ∀ o, (scanned N env s2).oldestProbe = some o → s2.mUpdatingProbe.isSome = false →
      (updateRealtime env (scanned N env s2).m (scanned N env s2).closestDynamic).mUpdatingProbe
        = none ∧
      ∃ j, j < N ∧
        (updateRealtime env (scanned N env s2).m
          (scanned N env s2).closestDynamic).mProbes[j]? = some o := by
    intro o ho hd
    have hold := hscan.oldest hd
    rw [ho] at hold
    obtain ⟨a, b, hab, -, -⟩ := hold
    have hU2 : s2.mUpdatingProbe = none := by
      cases hx : s2.mUpdatingProbe with
      | none => rfl
      | some p => rw [hx] at hd; exact Bool.noConfusion hd
    have hU3 : (if s2.mUpdatingProbe.isSome = true then doProbeUpdate env s2 else s2).mUpdatingProbe
        = none := by
      rw [hd]; exact hU2
    constructor
    · rw [hrf]
      exact (hscan.cursorIdle hU3).1
    · have hget : ((s2.mProbes.filter (fun p => decide (env.getNumRefs p ≠ 1))).take N)[a.length]?
          = some o := by
        rw [hab]; exact getElem?_append_cons a o b
      have hlt : a.length < N := by
        have := (List.getElem?_eq_some_iff.mp hget).1
        rw [List.length_take] at this
        exact lt_of_lt_of_le this (Nat.min_le_left _ _)
      refine ⟨a.length, hlt, ?_⟩
      rw [hP4, hP, ← hget, List.getElem?_take_of_lt hlt]
  obtain ⟨hsf, hsh⟩ := switchToOldest_frame env s2.mUpdatingProbe.isSome h4
    (scanned N env s2).oldestProbe hpos
  refine ⟨h4, hpos, ?_, ?_⟩
  · exact manager_frame_compose _ _ _ hsf hrf
  · intro q
    exact frame_compose _ _ _ (hsh q) (hrh q)

/-- The queues, the allocator and the buffer of the manager are not touched
between the draining of the queues and the sort, and the probes left are
those somebody else still holds, in their order. -/
theorem scheduled_fields {N : Nat} (env : Env) {s2 : LLReflectionMapManager}
    (h : ManagerInv N s2) :
    (scheduled N env s2).mProbes = s2.mProbes.filter (fun p => decide (env.getNumRefs p ≠ 1)) ∧
    (scheduled N env s2).mKillList = s2.mKillList ∧
    (scheduled N env s2).mCreateList = s2.mCreateList ∧
    (scheduled N env s2).nextPtr = s2.nextPtr ∧
    (scheduled N env s2).mReflectionMaps = s2.mReflectionMaps := by
  obtain ⟨-, hscan, hP⟩ := scanned_spec env h
  obtain ⟨-, -, hf, -⟩ := scheduled_frame env h
  have h3 : (if s2.mUpdatingProbe.isSome = true then doProbeUpdate env s2 else s2).mKillList
        = s2.mKillList ∧
      (if s2.mUpdatingProbe.isSome = true then doProbeUpdate env s2 else s2).mCreateList
        = s2.mCreateList ∧
      (if s2.mUpdatingProbe.isSome = true then doProbeUpdate env s2 else s2).nextPtr
        = s2.nextPtr ∧
      (if s2.mUpdatingProbe.isSome = true then doProbeUpdate env s2 else s2).mReflectionMaps
        = s2.mReflectionMaps := by
    cases hU : s2.mUpdatingProbe with
    | none => exact ⟨rfl, rfl, rfl, rfl⟩
    | some p =>
      obtain ⟨heq, -⟩ := doProbeUpdate_spec env h.nbr p hU (h.cursor.live p hU) h.cursor.face
      simp only [Option.isSome_some, if_true]
      rw [heq]
      exact ⟨rfl, rfl, rfl, rfl⟩
  rw [hf]
  exact ⟨hP, hscan.queues.1.trans h3.1, hscan.queues.2.trans h3.2.1,
    hscan.other.1.trans h3.2.2.1, hscan.other.2.trans h3.2.2.2⟩

/-- C17: a call of `update` that is not suspended leaves `mKillList` and
`mCreateList` empty.  The kills come first: after the two queue loops the
live probes named in the kill list are gone as `deleteProbe` removes them
(no neighbour list of a live probe names them, their slots are free again,
a cursor on one of them is reset), the other live probes keep their order,
and the probes of the create list follow them in queue order.  The rest of
`update` runs on that state. -/
theorem update_drains_queues {N : Nat} (s : LLReflectionMapManager) (hr : Reachable N s)
    (env : Env) (hg1 : env.sRenderPBR = true) (hg2 : env.gTeleportDisplay = false)
    (hg3 : env.logoutRequestSent = false) :
    (s.update N env).mKillList = [] ∧ (s.update N env).mCreateList = [] ∧
    (drained s).mProbes =
      s.mProbes.filter (fun q => decide (q ∉ s.mKillList)) ++ s.mCreateList ∧
    (∀ q ∈ (drained s).mProbes, ((drained s).heap q).mNeighbors =
      (s.heap q).mNeighbors.filter (fun r => decide (r ∉ s.mKillList))) ∧
    (∀ i, (drained s).mCubeFree i = true ↔
      s.mCubeFree i = true ∨
        ∃ p ∈ s.mProbes, p ∈ s.mKillList ∧ (s.heap p).mCubeIndex = i ∧ i ≠ -1) ∧
    (∀ p, s.mUpdatingProbe = some p → p ∈ s.mKillList →
      (drained s).mUpdatingProbe = none ∧ (drained s).mUpdatingFace = 0) ∧
    (∀ q, (drained s).heap q =
      { s.heap q with mNeighbors := ((drained s).heap q).mNeighbors }) ∧
    ((drained s).mProbes = [] → s.update N env = drained s) ∧
    ((drained s).mProbes ≠ [] → s.update N env =
      { scheduled N env (drained s) with
        mProbes := env.stdSort (CompareProbeDistance (scheduled N env (drained s)))
          (scheduled N env (drained s)).mProbes }) := by
  have h := reachable_inv hr
  obtain ⟨h2, hP, hK, hC, hframe, hnbr, hfree, -, hgone, -, -, -, -, -⟩ := drained_spec h
  obtain ⟨hempty, hrun⟩ := update_stages N env s hg1 hg2 hg3
  obtain ⟨-, hsK, hsC, -, -⟩ := scheduled_fields env h2
  refine ⟨?_, ?_, hP, hnbr, hfree, hgone, hframe, hempty, hrun⟩
  · by_cases he : (drained s).mProbes = []
    · rw [hempty he]; exact hK
    · rw [hrun he]; exact hsK.trans hK
  · by_cases he : (drained s).mProbes = []
    · rw [hempty he]; exact hC
    · rw [hrun he]; exact hsC.trans hC

theorem update_drains_queues_witness :
    (Reachable 2 exampleStart ∧ exampleEnv.sRenderPBR = true ∧
      exampleEnv.gTeleportDisplay = false ∧ exampleEnv.logoutRequestSent = false) ∧
    ((exampleStart.update 2 exampleEnv).mKillList = [] ∧
      (exampleStart.update 2 exampleEnv).mCreateList = [] ∧
      (drained exampleStart).mProbes = [0, 1, 2]) :=
  ⟨⟨exampleStart_reachable, rfl, rfl, rfl⟩,
    (update_drains_queues exampleStart exampleStart_reachable exampleEnv rfl rfl rfl).1,
    (update_drains_queues exampleStart exampleStart_reachable exampleEnv rfl rfl rfl).2.1,
    (update_drains_queues exampleStart exampleStart_reachable exampleEnv rfl rfl rfl).2.2.1⟩

theorem frame_prescan (a b c : LLReflectionMap) (n : List ProbePtr) (t : Int)
    (h1 : a = { b with mNeighbors := n, mLastUpdateTime := t })
    (h2 : b = { c with mNeighbors := b.mNeighbors }) :
    a = { c with mNeighbors := a.mNeighbors, mLastUpdateTime := a.mLastUpdateTime } := by
  subst h1
  cases b; cases c
  simp only [LLReflectionMap.mk.injEq] at *
  simp_all

/-- Up to the scan, `update` changes neighbour lists and the time stamp of
the probe under capture only. -/
theorem prescan_frame {N : Nat} (env : Env) {s : LLReflectionMapManager} (h : ManagerInv N s)
    (q : ProbePtr) :
    (if (drained s).mUpdatingProbe.isSome = true then doProbeUpdate env (drained s)
      else drained s).heap q =
      { s.heap q with
        mNeighbors := ((if (drained s).mUpdatingProbe.isSome = true
          then doProbeUpdate env (drained s) else drained s).heap q).mNeighbors
        mLastUpdateTime := ((if (drained s).mUpdatingProbe.isSome = true
          then doProbeUpdate env (drained s) else drained s).heap q).mLastUpdateTime } := by
  obtain ⟨h2, -, -, -, hframe, -⟩ := drained_spec h
  cases hU : (drained s).mUpdatingProbe with
  | none =>
    simp only [Option.isSome_none, Bool.false_eq_true, if_false]
    have := hframe q
    generalize (drained s).heap q = a at this ⊢
    cases a
    simp only [LLReflectionMap.mk.injEq] at *
    simp_all
  | some p =>
    simp only [Option.isSome_some, if_true]
    obtain ⟨-, hheap, -⟩ := doProbeUpdate_spec env h2.nbr p hU (h2.cursor.live p hU) h2.cursor.face
    exact frame_prescan _ _ _ _ _ (hheap q) (hframe q)

/-- The index and the distance `update` leaves in the probes its scan kept:
the position among the kept probes, and the distance of the camera to the
sphere of the probe as it was when the tick started. -/
theorem scheduled_survivor {N : Nat} (env : Env) {s : LLReflectionMapManager}
    (h : ManagerInv N s) (k : Nat) (q : ProbePtr)
    (hk : ((drained s).mProbes.filter (fun p => decide (env.getNumRefs p ≠ 1)))[k]? = some q) :
    ((scheduled N env (drained s)).heap q).mProbeIndex = (k : Int) ∧
    ((scheduled N env (drained s)).heap q).mDistance =
      env.getLength3 (LLVector4a.sub env.camera_pos (s.heap q).mOrigin) - (s.heap q).mRadius := by
  obtain ⟨h2, -⟩ := drained_spec h
  obtain ⟨-, hscan, -⟩ := scanned_spec env h2
  obtain ⟨-, -, -, hheap⟩ := scheduled_frame env h2
  obtain ⟨hv1, hv2⟩ := hscan.visited k q hk
  have hpre := prescan_frame env h q
  rw [hheap q]
  refine ⟨hv1, ?_⟩
  show ((scanned N env (drained s)).m.heap q).mDistance = _
  rw [hv2, hpre]

/-- The result of a tick that reaches the sort: the heap is the one the
scheduler left, and `mProbes` is a rearrangement of the probes the scan kept
in which no probe stands before a probe with a smaller distance. -/
theorem update_sorted {N : Nat} {s : LLReflectionMapManager} (h : ManagerInv N s)
    (env : Env) (hg1 : env.sRenderPBR = true) (hg2 : env.gTeleportDisplay = false)
    (hg3 : env.logoutRequestSent = false) (hsort : StdSortSpec env.stdSort)
    (hne : (drained s).mProbes ≠ []) :
    (s.update N env).heap = (scheduled N env (drained s)).heap ∧
    (s.update N env).mProbes.Perm
      ((drained s).mProbes.filter (fun p => decide (env.getNumRefs p ≠ 1))) ∧
    (s.update N env).mProbes.Pairwise
      (fun a b => ((s.update N env).heap a).mDistance ≤ ((s.update N env).heap b).mDistance) := by
  obtain ⟨h2, -⟩ := drained_spec h
  obtain ⟨hP, -⟩ := scheduled_fields env h2
  rw [(update_stages N env s hg1 hg2 hg3).2 hne]
  refine ⟨rfl, ?_, ?_⟩
  · show (env.stdSort _ (scheduled N env (drained s)).mProbes).Perm _
    rw [← hP]
    exact hsort.perm _ _
  · show (env.stdSort _ (scheduled N env (drained s)).mProbes).Pairwise _
    have := hsort.sorted (CompareProbeDistance (scheduled N env (drained s)))
      (scheduled N env (drained s)).mProbes
      ⟨fun a => ((scheduled N env (drained s)).heap a).mDistance, fun _ _ => rfl⟩
    refine List.Pairwise.imp ?_ this
    intro a b hab
    have hab' : ¬ ((scheduled N env (drained s)).heap b).mDistance <
        ((scheduled N env (drained s)).heap a).mDistance := by
      simpa [CompareProbeDistance] using hab
    exact not_lt.mp hab'

/-- C14: in every tick of `update` that reaches the scheduler with a
non-empty collection, every surviving probe (live after the queues are
drained, and held by somebody else) gets `mDistance = |camera_pos - mOrigin|
- mRadius`, with its origin and radius as they are when the scan reads them
(those of the start of the tick), and on return `mProbes` is a permutation
of the surviving probes in which `mDistance` ascends: for all positions
`i < j`, `mProbes[i].mDistance <= mProbes[j].mDistance`. -/
theorem update_sorts_by_distance {N : Nat} (s : LLReflectionMapManager) (hr : Reachable N s)
    (env : Env) (hg1 : env.sRenderPBR = true) (hg2 : env.gTeleportDisplay = false)
    (hg3 : env.logoutRequestSent = false) (hsort : StdSortSpec env.stdSort)
    (hne : (drained s).mProbes ≠ []) :
    (∀ q ∈ (drained s).mProbes.filter (fun p => decide (env.getNumRefs p ≠ 1)),
      ((s.update N env).heap q).mDistance =
        env.getLength3 (LLVector4a.sub env.camera_pos (s.heap q).mOrigin) - (s.heap q).mRadius) ∧
    (s.update N env).mProbes.Perm
      ((drained s).mProbes.filter (fun p => decide (env.getNumRefs p ≠ 1))) ∧
    (∀ (i j : Nat) (a b : ProbePtr), i < j →
      (s.update N env).mProbes[i]? = some a → (s.update N env).mProbes[j]? = some b →
      ((s.update N env).heap a).mDistance ≤ ((s.update N env).heap b).mDistance) := by
  have h := reachable_inv hr
  obtain ⟨hheap, hperm, hpair⟩ := update_sorted h env hg1 hg2 hg3 hsort hne
  refine ⟨?_, hperm, ?_⟩
  · intro q hq
    obtain ⟨k, hk, hkq⟩ := List.getElem_of_mem hq
    rw [hheap]
    exact (scheduled_survivor env h k q (by rw [List.getElem?_eq_getElem hk, hkq])).2
  · intro i j a b hij hi hj
    obtain ⟨hil, hia⟩ := List.getElem?_eq_some_iff.mp hi
    obtain ⟨hjl, hjb⟩ := List.getElem?_eq_some_iff.mp hj
    have := List.pairwise_iff_getElem.mp hpair i j hil hjl hij
    rw [hia, hjb] at this
    exact this

theorem update_sorts_by_distance_witness :
    (Reachable 2 exampleStart ∧ exampleEnv.sRenderPBR = true ∧
      exampleEnv.gTeleportDisplay = false ∧ exampleEnv.logoutRequestSent = false ∧
      StdSortSpec exampleEnv.stdSort ∧ (drained exampleStart).mProbes ≠ []) ∧
    ((exampleStart.update 2 exampleEnv).mProbes.Perm [0, 1, 2] ∧
      ∀ (i j : Nat) (a b : ProbePtr), i < j →
        (exampleStart.update 2 exampleEnv).mProbes[i]? = some a →
        (exampleStart.update 2 exampleEnv).mProbes[j]? = some b →
        ((exampleStart.update 2 exampleEnv).heap a).mDistance ≤
          ((exampleStart.update 2 exampleEnv).heap b).mDistance) :=
  ⟨⟨exampleStart_reachable, rfl, rfl, rfl, exampleSort_spec, by decide⟩,
    (update_sorts_by_distance exampleStart exampleStart_reachable exampleEnv rfl rfl rfl
      exampleSort_spec (by decide)).2⟩

theorem tieSort_spec : StdSortSpec tieSort where
  perm := fun cmp l => (exampleSort_spec.perm cmp l.reverse).trans (List.reverse_perm l)
  sorted := fun cmp l hkey => exampleSort_spec.sorted cmp l.reverse hkey

theorem tieStart_reachable : Reachable 2 tieStart :=
  Reachable.addProbe false 1 (3, 0, 0) (Reachable.addProbe false 0 (3, 0, 0) Reachable.init)

/-- C15, counterexample: `std::sort` promises no order among equal elements.
With a sort that meets its contract and reverses ties, two probes at the
same distance, in the collection in the order 0, 1 before the sort, leave
`update` in the order 1, 0. -/
theorem update_sort_unstable :
    StdSortSpec tieEnv.stdSort ∧ Reachable 2 tieStart ∧
    (scheduled 2 tieEnv (drained tieStart)).mProbes = [0, 1] ∧
    (tieStart.update 2 tieEnv).mProbes = [1, 0] ∧
    ((tieStart.update 2 tieEnv).heap 0).mDistance = 3 ∧
    ((tieStart.update 2 tieEnv).heap 1).mDistance = 3 := by
  refine ⟨tieSort_spec, tieStart_reachable, ?_, ?_, ?_, ?_⟩ <;> decide

/-- C15, amended: after a tick of `update` that reaches the sort, a probe
with a strictly smaller `mDistance` stands before every probe with a larger
one; the order of probes with equal `mDistance` is whatever `std::sort`
leaves. -/
theorem update_orders_strictly {N : Nat} (s : LLReflectionMapManager) (hr : Reachable N s)
    (env : Env) (hg1 : env.sRenderPBR = true) (hg2 : env.gTeleportDisplay = false)
    (hg3 : env.logoutRequestSent = false) (hsort : StdSortSpec env.stdSort)
    (hne : (drained s).mProbes ≠ []) :
    ∀ (i j : Nat) (a b : ProbePtr),
      (s.update N env).mProbes[i]? = some a → (s.update N env).mProbes[j]? = some b →
      ((s.update N env).heap a).mDistance < ((s.update N env).heap b).mDistance → i < j := by
  obtain ⟨-, -, hpair⟩ := update_sorted (reachable_inv hr) env hg1 hg2 hg3 hsort hne
  intro i j a b hi hj hlt
  obtain ⟨hil, hia⟩ := List.getElem?_eq_some_iff.mp hi
  obtain ⟨hjl, hjb⟩ := List.getElem?_eq_some_iff.mp hj
  by_contra hij
  rcases Nat.lt_or_ge j i with hji | hji
  · have := List.pairwise_iff_getElem.mp hpair j i hjl hil hji
    rw [hia, hjb] at this
    exact absurd hlt (not_lt.mpr this)
  · have hije : i = j := by omega
    subst hije
    rw [hia] at hjb
    subst hjb
    exact lt_irrefl _ hlt

theorem update_orders_strictly_witness :
    (Reachable 2 exampleStart ∧ exampleEnv.sRenderPBR = true ∧
      exampleEnv.gTeleportDisplay = false ∧ exampleEnv.logoutRequestSent = false ∧
      StdSortSpec exampleEnv.stdSort ∧ (drained exampleStart).mProbes ≠ []) ∧
    (∀ (i j : Nat) (a b : ProbePtr),
      (exampleStart.update 2 exampleEnv).mProbes[i]? = some a →
      (exampleStart.update 2 exampleEnv).mProbes[j]? = some b →
      ((exampleStart.update 2 exampleEnv).heap a).mDistance <
        ((exampleStart.update 2 exampleEnv).heap b).mDistance → i < j) :=
  ⟨⟨exampleStart_reachable, rfl, rfl, rfl, exampleSort_spec, by decide⟩,
    update_orders_strictly exampleStart exampleStart_reachable exampleEnv rfl rfl rfl
      exampleSort_spec (by decide)⟩

/-- The step of a capture in progress leaves the collection, the queues and
the allocator as they are. -/
theorem stepped_fields {N : Nat} (env : Env) {s2 : LLReflectionMapManager}
    (h : ManagerInv N s2) :
    (stepped env s2).mProbes = s2.mProbes ∧ (stepped env s2).mCubeFree = s2.mCubeFree ∧
    (∀ q, ((stepped env s2).heap q).mCubeIndex = (s2.heap q).mCubeIndex) := by
  unfold stepped
  cases hU : s2.mUpdatingProbe with
  | none => exact ⟨rfl, rfl, fun _ => rfl⟩
  | some p =>
    obtain ⟨heq, hheap, -⟩ := doProbeUpdate_spec env h.nbr p hU (h.cursor.live p hU) h.cursor.face
    simp only [Option.isSome_some, if_true]
    refine ⟨?_, ?_, ?_⟩
    · rw [heq]
    · rw [heq]
    · intro q; rw [hheap q]

/-- C18: in every tick of `update` that is not suspended and has probes
after the queues are drained, the scan is one round for each probe of the
collection, in order, and ends within `mProbes.size()` rounds (more fuel
changes nothing); it removes exactly the probes whose reference count is 1
and keeps the others in their order; the removal is that of `deleteProbe`:
no neighbour list of a kept probe names a removed probe, the slots of the
removed probes are free when the scan ends, and a cursor on a removed probe
is reset; on return `mProbes` is a permutation of the kept probes, and each
of them has `mProbeIndex` equal to its position before the sort. -/
theorem update_collects_garbage {N : Nat} (s : LLReflectionMapManager) (hr : Reachable N s)
    (env : Env) (hg1 : env.sRenderPBR = true) (hg2 : env.gTeleportDisplay = false)
    (hg3 : env.logoutRequestSent = false) (hsort : StdSortSpec env.stdSort)
    (hne : (drained s).mProbes ≠ []) :
    scanned N env (drained s) =
      ((stepped env (drained s)).mProbes.foldl
        (scanRound N env (drained s).mUpdatingProbe.isSome)
        ({ m := stepped env (drained s), oldestProbe := none, closestDynamic := none }, 0)).1 ∧
    (∀ extra, scanProbes N env (drained s).mUpdatingProbe.isSome
        ((stepped env (drained s)).mProbes.length + extra) 0
        { m := stepped env (drained s), oldestProbe := none, closestDynamic := none } =
      scanned N env (drained s)) ∧
    (scanned N env (drained s)).m.mProbes =
      (drained s).mProbes.filter (fun p => decide (env.getNumRefs p ≠ 1)) ∧
    (∀ q ∈ (scanned N env (drained s)).m.mProbes,
      ((scanned N env (drained s)).m.heap q).mNeighbors =
        ((stepped env (drained s)).heap q).mNeighbors.filter
          (fun p => decide (env.getNumRefs p ≠ 1))) ∧
    (∀ i, (scanned N env (drained s)).m.mCubeFree i = true ↔
      (drained s).mCubeFree i = true ∨
        ∃ p ∈ (drained s).mProbes, env.getNumRefs p = 1 ∧ (s.heap p).mCubeIndex = i ∧ i ≠ -1) ∧
    (∀ p, (stepped env (drained s)).mUpdatingProbe = some p → env.getNumRefs p = 1 →
      (scanned N env (drained s)).m.mUpdatingProbe = none ∧
      (scanned N env (drained s)).m.mUpdatingFace = 0) ∧
    (s.update N env).mProbes.Perm
      ((drained s).mProbes.filter (fun p => decide (env.getNumRefs p ≠ 1))) ∧
    (∀ (k : Nat) (q : ProbePtr),
      ((drained s).mProbes.filter (fun p => decide (env.getNumRefs p ≠ 1)))[k]? = some q →
      ((s.update N env).heap q).mProbeIndex = (k : Int)) := by
  have h := reachable_inv hr
  obtain ⟨h2, -, -, -, hframe, -⟩ := drained_spec h
  obtain ⟨h3, hscan, hP⟩ := scanned_spec env h2
  obtain ⟨hsP, hsF, hsC⟩ := stepped_fields env h2
  obtain ⟨hheap, hperm, -⟩ := update_sorted h env hg1 hg2 hg3 hsort hne
  have hfold := fun extra => scanProbes_eq_foldl N env (drained s).mUpdatingProbe.isSome
    (stepped env (drained s)).mProbes []
    { m := stepped env (drained s), oldestProbe := none, closestDynamic := none } extra rfl
  have hmem : ∀ r, r ∈ (scanned N env (drained s)).m.mProbes ↔
      r ∈ (drained s).mProbes ∧ env.getNumRefs r ≠ 1 := by
    intro r; rw [hP]; simp
  refine ⟨?_, ?_, hP, ?_, ?_, ?_, hperm, ?_⟩
  · have := hfold 0
    rw [Nat.add_zero, List.length_nil] at this
    exact this
  · intro extra
    have h0 := hfold 0
    have he := hfold extra
    rw [Nat.add_zero, List.length_nil] at h0
    rw [List.length_nil] at he
    rw [he]
    exact h0.symm
  · intro q hq
    rw [hscan.nbrs q hq]
    apply List.filter_congr
    intro r hr
    have hrl : r ∈ (drained s).mProbes := by
      have := h3.nbr.nbrLive q (hscan.sub q hq) r hr
      exact hsP ▸ this
    rw [Bool.eq_iff_iff]
    simp only [decide_eq_true_eq, hmem r]
    tauto
  · intro i
    rw [hscan.free i]
    show (stepped env (drained s)).mCubeFree i = true ∨ _ ↔ _
    rw [hsF]
    constructor
    · rintro (h0 | ⟨p, hp, hnp, hpc, hi⟩)
      · exact Or.inl h0
      · have hp2 : p ∈ (drained s).mProbes := hsP ▸ hp
        refine Or.inr ⟨p, hp2, ?_, ?_, hi⟩
        · by_contra hk
          exact hnp ((hmem p).mpr ⟨hp2, hk⟩)
        · have hc := hsC p
          rw [hframe p] at hc
          exact hc.symm.trans hpc
    · rintro (h0 | ⟨p, hp, hk, hpc, hi⟩)
      · exact Or.inl h0
      · refine Or.inr ⟨p, hsP.symm ▸ hp, fun hm => ((hmem p).mp hm).2 hk, ?_, hi⟩
        have hc := hsC p
        rw [hframe p] at hc
        exact hc.trans hpc
  · intro p hp hk
    exact hscan.cursorGone p hp (fun hm => ((hmem p).mp hm).2 hk)
  · intro k q hk
    rw [hheap]
    exact (scheduled_survivor env h k q hk).1

theorem update_collects_garbage_witness :
    (Reachable 2 exampleStart ∧ gcEnv.sRenderPBR = true ∧
      gcEnv.gTeleportDisplay = false ∧ gcEnv.logoutRequestSent = false ∧
      StdSortSpec gcEnv.stdSort ∧ (drained exampleStart).mProbes ≠ []) ∧
    ((scanned 2 gcEnv (drained exampleStart)).m.mProbes = [1, 2] ∧
      (exampleStart.update 2 gcEnv).mProbes.Perm [1, 2] ∧
      ((exampleStart.update 2 gcEnv).heap 2).mProbeIndex = 1) :=
  ⟨⟨exampleStart_reachable, rfl, rfl, rfl, exampleSort_spec, by decide⟩,
    (update_collects_garbage exampleStart exampleStart_reachable gcEnv rfl rfl rfl
      exampleSort_spec (by decide)).2.2.1,
    (update_collects_garbage exampleStart exampleStart_reachable gcEnv rfl rfl rfl
      exampleSort_spec (by decide)).2.2.2.2.2.2.1,
    (update_collects_garbage exampleStart exampleStart_reachable gcEnv rfl rfl rfl
      exampleSort_spec (by decide)).2.2.2.2.2.2.2 1 2 rfl⟩

/-- The realtime block appends its six faces to the render trace and leaves
the cursor, the allocator and the slots alone. -/
theorem updateRealtime_log (env : Env) (s : LLReflectionMapManager)
    (closestDynamic : Option ProbePtr) :
    (updateRealtime env s closestDynamic).faceLog =
      s.faceLog ++ realtimeFaces env closestDynamic ∧
    (updateRealtime env s closestDynamic).mUpdatingProbe = s.mUpdatingProbe ∧
    (updateRealtime env s closestDynamic).mUpdatingFace = s.mUpdatingFace ∧
    (updateRealtime env s closestDynamic).mCubeFree = s.mCubeFree ∧
    (updateRealtime env s closestDynamic).mProbes = s.mProbes ∧
    (∀ q, (updateRealtime env s closestDynamic).heap q =
      { s.heap q with
        mOrigin := ((updateRealtime env s closestDynamic).heap q).mOrigin
        mRadius := ((updateRealtime env s closestDynamic).heap q).mRadius
        mLastUpdateTime := ((updateRealtime env s closestDynamic).heap q).mLastUpdateTime }) := by
  obtain ⟨hrf, hrh⟩ := updateRealtime_frame env s closestDynamic
  refine ⟨?_, ?_, ?_, ?_, ?_, hrh⟩
  · obtain ⟨hoff, hon⟩ := updateRealtime_spec env s closestDynamic
    cases hc : closestDynamic with
    | none =>
      rw [← hc, hoff (Or.inr hc), hc]
      simp [realtimeFaces]
    | some c =>
      cases hrt : env.realtime with
      | false =>
        rw [← hc, hoff (Or.inl hrt), hc]
        simp [realtimeFaces, hrt]
      | true =>
        rw [← hc, hon c hrt hc, hc]
        simp [realtimeFaces, hrt]
  · rw [hrf]
  · rw [hrf]
  · rw [hrf]
  · rw [hrf]

/-- The scheduler on a drained state with a capture in progress whose probe
somebody else still holds: the face of the cursor is rendered, then the
realtime faces; the cursor moves to the next face, or after face 5 goes idle
with the neighbours of the probe rebuilt among the probes the scan keeps. -/
theorem scheduled_capturing {N : Nat} (env : Env) {s2 : LLReflectionMapManager}
    (h : ManagerInv N s2) (p : ProbePtr) (hU : s2.mUpdatingProbe = some p)
    (hgc : env.getNumRefs p ≠ 1) :
    (scheduled N env s2).faceLog =
      s2.faceLog ++ (p, s2.mUpdatingFace) ::
        realtimeFaces env (scanned N env s2).closestDynamic ∧
    (s2.mUpdatingFace < 5 →
      (scheduled N env s2).mUpdatingProbe = some p ∧
      (scheduled N env s2).mUpdatingFace = s2.mUpdatingFace + 1) ∧
    (s2.mUpdatingFace = 5 →
      (scheduled N env s2).mUpdatingProbe = none ∧
      (scheduled N env s2).mUpdatingFace = 0 ∧
      ((scheduled N env s2).heap p).mNeighbors =
        (s2.mProbes.filter (fun q => decide (env.getNumRefs q ≠ 1))).filter
          (fun o => decide (o ≠ p) && env.intersects p o)) := by
  have hp : p ∈ s2.mProbes := h.cursor.live p hU
  obtain ⟨h3, hscan, hP⟩ := scanned_spec env h
  obtain ⟨-, -, -, hheap⟩ := scheduled_frame env h
  obtain ⟨heq, -, hlt5, h5⟩ := doProbeUpdate_spec env h.nbr p hU hp h.cursor.face
  have hsome : s2.mUpdatingProbe.isSome = true := by rw [hU]; rfl
  have hs3 : (if s2.mUpdatingProbe.isSome = true then doProbeUpdate env s2 else s2)
      = doProbeUpdate env s2 := by rw [if_pos hsome]
  rw [hs3] at hscan h3
  obtain ⟨hlog, hcU, hcF, -, -, -⟩ := updateRealtime_log env (scanned N env s2).m
    (scanned N env s2).closestDynamic
  have hout : scheduled N env s2 =
      updateRealtime env (scanned N env s2).m (scanned N env s2).closestDynamic := by
    show switchToOldest N env s2.mUpdatingProbe.isSome _ _ = _
    rw [hsome]
    unfold switchToOldest
    cases (scanned N env s2).oldestProbe <;> simp
  have hpl : p ∈ (scanned N env s2).m.mProbes := by
    rw [hP]; simp [hp, hgc]
  refine ⟨?_, ?_, ?_⟩
  · rw [hout, hlog, hscan.ghost.1, heq]
    simp
  · intro hf
    obtain ⟨h1, h2, -⟩ := hlt5 hf
    obtain ⟨k1, k2⟩ := hscan.cursorKept p h1 hpl
    rw [hout, hcU, hcF, k1, k2, h2]
    exact ⟨rfl, rfl⟩
  · intro hf
    obtain ⟨h1, h2, h3n⟩ := h5 hf
    obtain ⟨k1, k2⟩ := hscan.cursorIdle h1
    rw [hout, hcU, hcF, k1, k2, h2]
    refine ⟨rfl, rfl, ?_⟩
    have hnb : ((updateRealtime env (scanned N env s2).m
        (scanned N env s2).closestDynamic).heap p).mNeighbors =
        ((scanned N env s2).m.heap p).mNeighbors := by
      rw [← hout, hheap p]
    rw [hnb, hscan.nbrs p hpl, h3n, List.filter_filter, List.filter_filter]
    apply List.filter_congr
    intro r hr
    rw [Bool.eq_iff_iff]
    simp only [Bool.and_eq_true, decide_eq_true_eq, hP, List.mem_filter]
    tauto

/-- The scheduler on a drained state with an idle cursor: the probe it puts
under the cursor is the oldest of the first `N` probes the scan keeps (the
earliest among equals, none when no probe is kept); the selected probe holds
a slot of the pool when `doProbeUpdate` renders its face 0, after the
realtime faces, and the cursor ends on its face 1. -/
theorem scheduled_idle {N : Nat} (env : Env) {s2 : LLReflectionMapManager}
    (h : ManagerInv N s2) (hU : s2.mUpdatingProbe = none) :
    IsOldest (fun q => (s2.heap q).mLastUpdateTime)
      ((s2.mProbes.filter (fun q => decide (env.getNumRefs q ≠ 1))).take N)
      (scheduled N env s2).mUpdatingProbe ∧
    ((scheduled N env s2).mUpdatingProbe = none →
      (scheduled N env s2).mUpdatingFace = 0 ∧
      (scheduled N env s2).faceLog =
        s2.faceLog ++ realtimeFaces env (scanned N env s2).closestDynamic) ∧
    (∀ p, (scheduled N env s2).mUpdatingProbe = some p →
      (scheduled N env s2).mUpdatingFace = 1 ∧
      (scheduled N env s2).faceLog =
        s2.faceLog ++ realtimeFaces env (scanned N env s2).closestDynamic ++ [(p, 0)] ∧
      0 ≤ ((scheduled N env s2).heap p).mCubeIndex ∧
      ((scheduled N env s2).heap p).mCubeIndex < (N : Int) ∧
      ((s2.heap p).mCubeIndex ≠ -1 →
        ((scheduled N env s2).heap p).mCubeIndex = (s2.heap p).mCubeIndex) ∧
      ∃ m, scheduled N env s2 = doProbeUpdate env m ∧
        m.mUpdatingProbe = some p ∧ m.mUpdatingFace = 0 ∧
        m.faceLog = s2.faceLog ++ realtimeFaces env (scanned N env s2).closestDynamic ∧
        (m.heap p).mCubeIndex = ((scheduled N env s2).heap p).mCubeIndex) := by
  obtain ⟨h3, hscan, hP⟩ := scanned_spec env h
  obtain ⟨h4, hpos, -, -⟩ := scheduled_frame env h
  have hnone : s2.mUpdatingProbe.isSome = false := by rw [hU]; rfl
  have hs3 : (if s2.mUpdatingProbe.isSome = true then doProbeUpdate env s2 else s2) = s2 := by
    rw [hnone]; rfl
  rw [hs3] at hscan
  rw [hnone] at hscan
  obtain ⟨hlog, hcU, hcF, -, -, hrh⟩ := updateRealtime_log env (scanned N env s2).m
    (scanned N env s2).closestDynamic
  obtain ⟨k1, k2⟩ := hscan.cursorIdle hU
  have hF0 : s2.mUpdatingFace = 0 := h.cursor.idle.mp hU
  have hold := hscan.oldest rfl
  have hsched : scheduled N env s2 = switchToOldest N env false
      (updateRealtime env (scanned N env s2).m (scanned N env s2).closestDynamic)
      (scanned N env s2).oldestProbe := by
    show switchToOldest N env s2.mUpdatingProbe.isSome _ _ = _
    rw [hnone]
  cases ho : (scanned N env s2).oldestProbe with
  | none =>
    have hout : scheduled N env s2 =
        updateRealtime env (scanned N env s2).m (scanned N env s2).closestDynamic := by
      rw [hsched, ho]; rfl
    have hcur : (scheduled N env s2).mUpdatingProbe = none := by rw [hout, hcU, k1]
    rw [ho] at hold
    refine ⟨hcur ▸ hold, fun _ => ⟨?_, ?_⟩, fun p hp => ?_⟩
    · rw [hout, hcF, k2, hF0]
    · rw [hout, hlog, hscan.ghost.1]
    · rw [hcur] at hp; exact Option.noConfusion hp
  | some o =>
    obtain ⟨hU4, j, hjN, hj⟩ := hpos o ho hnone
    obtain ⟨slot, heap2, free2, hsw, heq, h0, hN, hprobe, hkeep, -⟩ :=
      switchToOldest_spec env h4 hU4 j hjN o hj
    have hsched2 : scheduled N env s2 = switchToOldest N env false
        (updateRealtime env (scanned N env s2).m (scanned N env s2).closestDynamic)
        (some o) := by rw [hsched, ho]
    rw [← hsched2] at hsw heq
    have hcur : (scheduled N env s2).mUpdatingProbe = some o := by rw [heq]
    have hcube : ((scheduled N env s2).heap o).mCubeIndex = slot := by
      rw [heq]
      simp only [Function.update_same]
      rw [hprobe]
    have hc4 : ((updateRealtime env (scanned N env s2).m
        (scanned N env s2).closestDynamic).heap o).mCubeIndex = (s2.heap o).mCubeIndex := by
      rw [hrh o]
      show ((scanned N env s2).m.heap o).mCubeIndex = _
      rw [hscan.frame o]
    rw [ho] at hold
    refine ⟨hcur ▸ hold, fun hn => ?_, fun p hp => ?_⟩
    · rw [hcur] at hn; exact Option.noConfusion hn
    · rw [hcur] at hp
      have hpo : o = p := Option.some.inj hp
      subst hpo
      refine ⟨?_, ?_, hcube ▸ h0, hcube ▸ hN, ?_, _, hsw, rfl, ?_, ?_, ?_⟩
      · rw [heq]
      · rw [heq]
        show (updateRealtime env (scanned N env s2).m (scanned N env s2).closestDynamic).faceLog
          ++ [(o, 0)] = _
        rw [hlog, hscan.ghost.1]
      · intro hne
        rw [hcube, (hkeep (by rw [hc4]; exact hne)).1, hc4]
      · show (updateRealtime env (scanned N env s2).m
          (scanned N env s2).closestDynamic).mUpdatingFace = 0
        rw [hcF, k2, hF0]
      · show (updateRealtime env (scanned N env s2).m (scanned N env s2).closestDynamic).faceLog
          = _
        rw [hlog, hscan.ghost.1]
      · rw [hcube]
        simp only [Function.update_same]
        rw [hprobe]

/-- The slot a selected probe without slot ends with is the result of
`allocateCubeIndex`. -/
theorem switchToOldest_slot {N : Nat} (env : Env) {s : LLReflectionMapManager}
    (h : ManagerInv N s) (hU : s.mUpdatingProbe = none) (probe : ProbePtr)
    (hc : (s.heap probe).mCubeIndex = -1) :
    ((switchToOldest N env false s (some probe)).heap probe).mCubeIndex =
      (allocateCubeIndex N (s.store probe { s.heap probe with mCubeArray := true })).2 := by
  have hF : s.mUpdatingFace = 0 := h.cursor.idle.mp hU
  have hsw : switchToOldest N env false s (some probe) =
      doProbeUpdate env
        { ((allocateCubeIndex N (s.store probe { s.heap probe with mCubeArray := true })).1.store
              probe
              { (allocateCubeIndex N
                  (s.store probe { s.heap probe with mCubeArray := true })).1.heap probe with
                mCubeIndex := (allocateCubeIndex N
                  (s.store probe { s.heap probe with mCubeArray := true })).2 }).store probe
            { ((allocateCubeIndex N
                (s.store probe { s.heap probe with mCubeArray := true })).1.store probe
                  { (allocateCubeIndex N
                      (s.store probe { s.heap probe with mCubeArray := true })).1.heap probe with
                    mCubeIndex := (allocateCubeIndex N
                      (s.store probe { s.heap probe with mCubeArray := true })).2 }).heap probe with
              mOrigin := (env.autoAdjustOrigin probe).1
              mRadius := (env.autoAdjustOrigin probe).2 } with
          mUpdatingProbe := some probe } := by
    unfold switchToOldest
    simp only [if_true, if_pos hc]
  have hface : ∀ m : LLReflectionMapManager, (allocateCubeIndex N m).1.mUpdatingFace
      = m.mUpdatingFace := by
    intro m
    rcases allocateCubeIndex_cases N m with ⟨_, _, _, _, heq⟩ | ⟨_, _, _, _, _, _, heq⟩ |
      ⟨_, _, heq⟩ <;> (rw [heq]; try rfl)
  rw [hsw, doProbeUpdate_first env _ probe rfl (by
    show (allocateCubeIndex N (s.store probe { s.heap probe with mCubeArray := true })).1.mUpdatingFace
      = 0
    rw [hface]; exact hF)]
  simp [store]

/-- The cursor, the render trace and the heap `update` returns are those its
scheduler leaves; the sort only rearranges `mProbes`. -/
theorem update_scheduled (N : Nat) (env : Env) (s : LLReflectionMapManager)
    (hg1 : env.sRenderPBR = true) (hg2 : env.gTeleportDisplay = false)
    (hg3 : env.logoutRequestSent = false) (hne : (drained s).mProbes ≠ []) :
    (s.update N env).heap = (scheduled N env (drained s)).heap ∧
    (s.update N env).mUpdatingProbe = (scheduled N env (drained s)).mUpdatingProbe ∧
    (s.update N env).mUpdatingFace = (scheduled N env (drained s)).mUpdatingFace ∧
    (s.update N env).faceLog = (scheduled N env (drained s)).faceLog ∧
    (s.update N env).mCubeFree = (scheduled N env (drained s)).mCubeFree := by
  rw [(update_stages N env s hg1 hg2 hg3).2 hne]
  exact ⟨rfl, rfl, rfl, rfl, rfl⟩

/-- C11: in a tick of `update` that starts with no capture in progress and
has probes after the queues are drained, the probe under the cursor on
return is the choice among the first `LL_REFLECTION_PROBE_COUNT` surviving
probes in list order: it is one of them, no candidate before it is as old
and no candidate behind it is older by `mLastUpdateTime` as of the start of
the tick (no probe is chosen only when no probe survives).  The chosen
probe ends on face 1 with a slot of the pool: its own when it had one, else
the result of `allocateCubeIndex`; it holds that slot in the state on which
`doProbeUpdate` renders its face 0. -/
theorem update_selects_oldest {N : Nat} (s : LLReflectionMapManager) (hr : Reachable N s)
    (env : Env) (hg1 : env.sRenderPBR = true) (hg2 : env.gTeleportDisplay = false)
    (hg3 : env.logoutRequestSent = false) (hidle : s.mUpdatingProbe = none)
    (hne : (drained s).mProbes ≠ []) :
    IsOldest (fun q => (s.heap q).mLastUpdateTime)
      (((drained s).mProbes.filter (fun q => decide (env.getNumRefs q ≠ 1))).take N)
      (s.update N env).mUpdatingProbe ∧
    (∀ p, (s.update N env).mUpdatingProbe = some p →
      (s.update N env).mUpdatingFace = 1 ∧
      0 ≤ ((s.update N env).heap p).mCubeIndex ∧
      ((s.update N env).heap p).mCubeIndex < (N : Int) ∧
      ((s.heap p).mCubeIndex ≠ -1 →
        ((s.update N env).heap p).mCubeIndex = (s.heap p).mCubeIndex) ∧
      ((s.heap p).mCubeIndex = -1 →
        ((s.update N env).heap p).mCubeIndex =
          (allocateCubeIndex N
            ((updateRealtime env (scanned N env (drained s)).m
                (scanned N env (drained s)).closestDynamic).store p
              { (updateRealtime env (scanned N env (drained s)).m
                  (scanned N env (drained s)).closestDynamic).heap p with
                mCubeArray := true })).2) ∧
      ∃ m, scheduled N env (drained s) = doProbeUpdate env m ∧
        m.mUpdatingProbe = some p ∧ m.mUpdatingFace = 0 ∧
        (m.heap p).mCubeIndex = ((s.update N env).heap p).mCubeIndex ∧
        (s.update N env).faceLog = m.faceLog ++ [(p, 0)]) := by
  have h := reachable_inv hr
  obtain ⟨h2, -, -, -, hframe, -, -, -, -, hcur, -⟩ := drained_spec h
  obtain ⟨hheap, hU, hF, hlog, -⟩ := update_scheduled N env s hg1 hg2 hg3 hne
  have hU2 : (drained s).mUpdatingProbe = none := (hcur hidle).1
  obtain ⟨hold, -, hsel⟩ := scheduled_idle env h2 hU2
  have htime : (fun q => ((drained s).heap q).mLastUpdateTime) =
      (fun q => (s.heap q).mLastUpdateTime) := by
    funext q; rw [hframe q]
  have hcube : ∀ q, ((drained s).heap q).mCubeIndex = (s.heap q).mCubeIndex := by
    intro q; rw [hframe q]
  rw [htime] at hold
  rw [hheap, hU, hF, hlog]
  refine ⟨hold, ?_⟩
  intro p hp
  obtain ⟨a1, a2, a3, a4, a5, m, b1, b2, b3, b4, b5⟩ := hsel p hp
  refine ⟨a1, a3, a4, ?_, ?_, m, b1, b2, b3, b5, ?_⟩
  · intro hne'
    rw [← hcube p]
    exact a5 (by rw [hcube p]; exact hne')
  · intro hc
    obtain ⟨h3, hscan, hP⟩ := scanned_spec env h2
    obtain ⟨h4, -, -, -⟩ := scheduled_frame env h2
    obtain ⟨-, hcU, -, -, -, hrh⟩ := updateRealtime_log env (scanned N env (drained s)).m
      (scanned N env (drained s)).closestDynamic
    have hnone : (drained s).mUpdatingProbe.isSome = false := by rw [hU2]; rfl
    have hs3 : (if (drained s).mUpdatingProbe.isSome = true then doProbeUpdate env (drained s)
        else drained s) = drained s := by rw [hnone]; rfl
    rw [hs3] at hscan
    have hU4 : (updateRealtime env (scanned N env (drained s)).m
        (scanned N env (drained s)).closestDynamic).mUpdatingProbe = none := by
      rw [hcU]; exact (hscan.cursorIdle hU2).1
    have hc4 : ((updateRealtime env (scanned N env (drained s)).m
        (scanned N env (drained s)).closestDynamic).heap p).mCubeIndex = -1 := by
      rw [hrh p]
      show ((scanned N env (drained s)).m.heap p).mCubeIndex = _
      rw [hscan.frame p]
      exact (hcube p).trans hc
    have hsched : scheduled N env (drained s) = switchToOldest N env false
        (updateRealtime env (scanned N env (drained s)).m
          (scanned N env (drained s)).closestDynamic) (some p) := by
      show switchToOldest N env (drained s).mUpdatingProbe.isSome _ _ = _
      rw [hnone]
      have ho : (scanned N env (drained s)).oldestProbe = some p := by
        cases hx : (scanned N env (drained s)).oldestProbe with
        | none =>
          have hout : scheduled N env (drained s) =
              updateRealtime env (scanned N env (drained s)).m
                (scanned N env (drained s)).closestDynamic := by
            show switchToOldest N env (drained s).mUpdatingProbe.isSome _ _ = _
            rw [hx]; rfl
          rw [hout, hU4] at hp
          exact Option.noConfusion hp
        | some o =>
          obtain ⟨-, hposo, -, -⟩ := scheduled_frame env h2
          obtain ⟨hU4', j, hjN, hj⟩ := hposo o hx hnone
          obtain ⟨_, _, _, -, heq, -⟩ := switchToOldest_spec env h4 hU4' j hjN o hj
          have hout : scheduled N env (drained s) = switchToOldest N env false
              (updateRealtime env (scanned N env (drained s)).m
                (scanned N env (drained s)).closestDynamic) (some o) := by
            show switchToOldest N env (drained s).mUpdatingProbe.isSome _ _ = _
            rw [hnone, hx]
          rw [hout, heq] at hp
          exact congrArg some (Option.some.inj hp)
      rw [ho]
    rw [hsched]
    exact switchToOldest_slot env h4 hU4 p hc4
  · rw [a2, b4]

theorem update_selects_oldest_witness :
    (Reachable 2 exampleStart ∧ exampleEnv.sRenderPBR = true ∧
      exampleEnv.gTeleportDisplay = false ∧ exampleEnv.logoutRequestSent = false ∧
      exampleStart.mUpdatingProbe = none ∧ (drained exampleStart).mProbes ≠ []) ∧
    IsOldest (fun q => (exampleStart.heap q).mLastUpdateTime)
      (((drained exampleStart).mProbes.filter
        (fun q => decide (exampleEnv.getNumRefs q ≠ 1))).take 2)
      (exampleStart.update 2 exampleEnv).mUpdatingProbe :=
  ⟨⟨exampleStart_reachable, rfl, rfl, rfl, rfl, by decide⟩,
    (update_selects_oldest exampleStart exampleStart_reachable exampleEnv rfl rfl rfl rfl
      (by decide)).1⟩

/-- A call of `update` that is not suspended returns with empty queues. -/
theorem update_queues_empty {N : Nat} {s : LLReflectionMapManager} (h : ManagerInv N s)
    (env : Env) (hg1 : env.sRenderPBR = true) (hg2 : env.gTeleportDisplay = false)
    (hg3 : env.logoutRequestSent = false) :
    (s.update N env).mKillList = [] ∧ (s.update N env).mCreateList = [] := by
  obtain ⟨h2, -, hK, hC, -⟩ := drained_spec h
  obtain ⟨hempty, hrun⟩ := update_stages N env s hg1 hg2 hg3
  obtain ⟨-, hsK, hsC, -, -⟩ := scheduled_fields env h2
  by_cases he : (drained s).mProbes = []
  · rw [hempty he]; exact ⟨hK, hC⟩
  · rw [hrun he]; exact ⟨hsK.trans hK, hsC.trans hC⟩

/-- One tick of `update` with a capture in progress on a probe that is not
in the kill list and that somebody else still holds. -/
theorem update_capturing {N : Nat} {s : LLReflectionMapManager} (h : ManagerInv N s)
    (env : Env) (hg1 : env.sRenderPBR = true) (hg2 : env.gTeleportDisplay = false)
    (hg3 : env.logoutRequestSent = false) (p : ProbePtr) (hU : s.mUpdatingProbe = some p)
    (hk : p ∉ s.mKillList) (hgc : env.getNumRefs p ≠ 1) :
    (s.update N env).faceLog =
      s.faceLog ++ (p, s.mUpdatingFace) ::
        realtimeFaces env (scanned N env (drained s)).closestDynamic ∧
    (s.mUpdatingFace < 5 →
      (s.update N env).mUpdatingProbe = some p ∧
      (s.update N env).mUpdatingFace = s.mUpdatingFace + 1) ∧
    (s.mUpdatingFace = 5 →
      (s.update N env).mUpdatingProbe = none ∧
      (s.update N env).mUpdatingFace = 0 ∧
      ((s.update N env).heap p).mNeighbors =
        ((drained s).mProbes.filter (fun q => decide (env.getNumRefs q ≠ 1))).filter
          (fun o => decide (o ≠ p) && env.intersects p o)) := by
  obtain ⟨h2, -, -, -, -, -, -, hkept, -, -, hlog, -⟩ := drained_spec h
  obtain ⟨hU2, hF2⟩ := hkept p hU hk
  have hne : (drained s).mProbes ≠ [] := List.ne_nil_of_mem (h2.cursor.live p hU2)
  obtain ⟨hheap, hcU, hcF, hfl, -⟩ := update_scheduled N env s hg1 hg2 hg3 hne
  obtain ⟨a1, a2, a3⟩ := scheduled_capturing env h2 p hU2 hgc
  rw [hheap, hcU, hcF, hfl, a1, hF2, hlog]
  rw [hF2] at a2 a3
  exact ⟨rfl, a2, a3⟩

/-- One tick of `update` with an idle cursor that ends with a probe under
the cursor: face 0 of the probe is rendered, after the realtime faces. -/
theorem update_starting {N : Nat} {s : LLReflectionMapManager} (h : ManagerInv N s)
    (env : Env) (hg1 : env.sRenderPBR = true) (hg2 : env.gTeleportDisplay = false)
    (hg3 : env.logoutRequestSent = false) (hU : s.mUpdatingProbe = none) (p : ProbePtr)
    (hp : (s.update N env).mUpdatingProbe = some p) :
    (s.update N env).mUpdatingFace = 1 ∧
    (s.update N env).faceLog =
      s.faceLog ++ realtimeFaces env (scanned N env (drained s)).closestDynamic ++ [(p, 0)] := by
  obtain ⟨h2, -, -, -, -, -, -, -, -, hidle, hlog, -⟩ := drained_spec h
  obtain ⟨hU2, -⟩ := hidle hU
  obtain ⟨hempty, -⟩ := update_stages N env s hg1 hg2 hg3
  have hne : (drained s).mProbes ≠ [] := by
    intro he
    rw [hempty he, hU2] at hp
    exact Option.noConfusion hp
  obtain ⟨-, hcU, hcF, hfl, -⟩ := update_scheduled N env s hg1 hg2 hg3 hne
  obtain ⟨-, -, hsel⟩ := scheduled_idle env h2 hU2
  rw [hcU] at hp
  obtain ⟨a1, a2, -⟩ := hsel p hp
  rw [hcF, hfl, a1, a2, hlog]
  exact ⟨rfl, rfl⟩

theorem ticks_reachable {N : Nat} {s : LLReflectionMapManager} (hr : Reachable N s)
    (e : Nat → Env) (hsort : ∀ k, StdSortSpec (e k).stdSort) :
    ∀ k, Reachable N (ticks N e k s) := by
  intro k
  induction k with
  | zero => exact hr
  | succ k ih => exact Reachable.update (e k) (hsort k) ih

/-- The ticks of a capture: once the cursor is on face 1 of a probe that
somebody else keeps holding, tick after tick moves the cursor one face on. -/
theorem capture_run {N : Nat} {s : LLReflectionMapManager} (hr : Reachable N s)
    (e : Nat → Env)
    (hg : ∀ k, (e k).sRenderPBR = true ∧ (e k).gTeleportDisplay = false ∧
      (e k).logoutRequestSent = false ∧ StdSortSpec (e k).stdSort)
    (p : ProbePtr) (h1 : (ticks N e 1 s).mUpdatingProbe = some p)
    (hf1 : (ticks N e 1 s).mUpdatingFace = 1)
    (hgc : ∀ k, 1 ≤ k → k < 6 → (e k).getNumRefs p ≠ 1) :
    ∀ k, 1 ≤ k → k ≤ 5 →
      (ticks N e k s).mUpdatingProbe = some p ∧ (ticks N e k s).mUpdatingFace = k ∧
      (ticks N e k s).mKillList = [] := by
  have hreach := ticks_reachable hr e (fun k => (hg k).2.2.2)
  intro k hk
  induction k, hk using Nat.le_induction with
  | base =>
    intro _
    refine ⟨h1, hf1, ?_⟩
    exact (update_queues_empty (reachable_inv hr) (e 0) (hg 0).1 (hg 0).2.1 (hg 0).2.2.1).1
  | succ k hk1 ih =>
    intro hk5
    obtain ⟨hU, hF, hK⟩ := ih (by omega)
    have hinv := reachable_inv (hreach k)
    obtain ⟨-, hstep, -⟩ := update_capturing hinv (e k) (hg k).1 (hg k).2.1 (hg k).2.2.1 p hU
      (by rw [hK]; exact List.not_mem_nil p) (hgc k hk1 (by omega))
    obtain ⟨a1, a2⟩ := hstep (by rw [hF]; omega)
    refine ⟨a1, ?_, ?_⟩
    · show ((ticks N e k s).update N (e k)).mUpdatingFace = k + 1
      rw [a2, hF]
    · exact (update_queues_empty hinv (e k) (hg k).1 (hg k).2.1 (hg k).2.2.1).1

/-- C12, counterexample: a probe under capture that is not in the kill list
can still leave in the tick.  After one tick of the example the cursor is on
face 1 of probe 0; in the next tick nobody but the manager holds probe 0:
its face 1 is rendered, then the scan removes the probe and resets the
cursor, and the tick ends idle instead of on face 2. -/
theorem update_capture_collected :
    Reachable 2 (exampleTicks 1) ∧
    (exampleTicks 1).mUpdatingProbe = some 0 ∧ (exampleTicks 1).mUpdatingFace = 1 ∧
    (exampleTicks 1).mKillList = [] ∧
    gcEnv.sRenderPBR = true ∧ gcEnv.gTeleportDisplay = false ∧
    gcEnv.logoutRequestSent = false ∧ StdSortSpec gcEnv.stdSort ∧
    ((exampleTicks 1).update 2 gcEnv).faceLog = (exampleTicks 1).faceLog ++ [(0, 1)] ∧
    ((exampleTicks 1).update 2 gcEnv).mUpdatingProbe = none ∧
    ((exampleTicks 1).update 2 gcEnv).mUpdatingFace = 0 ∧
    ((exampleTicks 1).update 2 gcEnv).mProbes = [2, 1] := by
  refine ⟨exampleTicks_reachable 1, ?_, ?_, ?_, rfl, rfl, rfl, exampleSort_spec, ?_, ?_, ?_, ?_⟩
    <;> decide

/-- C12, amended: a tick of `update` (not suspended) that starts with the
cursor on face `f` of a probe `p` that is neither in the kill list nor left
to the manager alone (reference count 1) renders exactly face `f` of `p`
through the cursor, before the realtime faces, and ends on face `f + 1` of
`p` when `f < 5`, and idle, with the neighbours of `p` rebuilt by
`updateNeighbors`, when `f = 5`.  A tick that starts idle and ends with `p`
under the cursor has rendered face 0 of `p` and ends on face 1.  Hence, when
`p` stays held by somebody else, the five ticks that follow render the faces
1, 2, 3, 4, 5 of `p`, one per tick, and the tick that renders face 5 ends
idle: it selects no probe. -/
theorem update_advances_capture {N : Nat} (s : LLReflectionMapManager) (hr : Reachable N s)
    (e : Nat → Env)
    (hg : ∀ k, (e k).sRenderPBR = true ∧ (e k).gTeleportDisplay = false ∧
      (e k).logoutRequestSent = false ∧ StdSortSpec (e k).stdSort) :
    (∀ p, s.mUpdatingProbe = some p → p ∉ s.mKillList → (e 0).getNumRefs p ≠ 1 →
      (s.update N (e 0)).faceLog =
        s.faceLog ++ (p, s.mUpdatingFace) ::
          realtimeFaces (e 0) (scanned N (e 0) (drained s)).closestDynamic ∧
      (s.mUpdatingFace < 5 →
        (s.update N (e 0)).mUpdatingProbe = some p ∧
        (s.update N (e 0)).mUpdatingFace = s.mUpdatingFace + 1) ∧
      (s.mUpdatingFace = 5 →
        (s.update N (e 0)).mUpdatingProbe = none ∧
        (s.update N (e 0)).mUpdatingFace = 0 ∧
        ((s.update N (e 0)).heap p).mNeighbors =
          ((drained s).mProbes.filter (fun q => decide ((e 0).getNumRefs q ≠ 1))).filter
            (fun o => decide (o ≠ p) && (e 0).intersects p o))) ∧
    (s.mUpdatingProbe = none → ∀ p, (s.update N (e 0)).mUpdatingProbe = some p →
      (s.update N (e 0)).mUpdatingFace = 1 ∧
      (s.update N (e 0)).faceLog =
        s.faceLog ++ realtimeFaces (e 0) (scanned N (e 0) (drained s)).closestDynamic
          ++ [(p, 0)] ∧
      ((∀ k, 1 ≤ k → k < 6 → (e k).getNumRefs p ≠ 1) →
        (∀ k, 1 ≤ k → k < 6 →
          (ticks N e k s).mUpdatingProbe = some p ∧ (ticks N e k s).mUpdatingFace = k ∧
          (ticks N e (k + 1) s).faceLog =
            (ticks N e k s).faceLog ++ (p, k) ::
              realtimeFaces (e k)
                (scanned N (e k) (drained (ticks N e k s))).closestDynamic) ∧
        (ticks N e 6 s).mUpdatingProbe = none ∧ (ticks N e 6 s).mUpdatingFace = 0)) := by
  have h := reachable_inv hr
  have hreach := ticks_reachable hr e (fun k => (hg k).2.2.2)
  refine ⟨fun p hU hk hgc =>
    update_capturing h (e 0) (hg 0).1 (hg 0).2.1 (hg 0).2.2.1 p hU hk hgc, ?_⟩
  intro hU p hp
  obtain ⟨a1, a2⟩ := update_starting h (e 0) (hg 0).1 (hg 0).2.1 (hg 0).2.2.1 hU p hp
  refine ⟨a1, a2, ?_⟩
  intro hgc
  have hrun := capture_run hr e hg p hp a1 hgc
  have hstep : ∀ k, 1 ≤ k → k < 6 →
      (ticks N e (k + 1) s).faceLog =
          (ticks N e k s).faceLog ++ (p, k) ::
            realtimeFaces (e k) (scanned N (e k) (drained (ticks N e k s))).closestDynamic ∧
        (k = 5 → (ticks N e (k + 1) s).mUpdatingProbe = none ∧
          (ticks N e (k + 1) s).mUpdatingFace = 0) := by
    intro k hk1 hk6
    obtain ⟨b1, b2, b3⟩ := hrun k hk1 (by omega)
    obtain ⟨c1, -, c3⟩ := update_capturing (reachable_inv (hreach k)) (e k)
      (hg k).1 (hg k).2.1 (hg k).2.2.1 p b1 (by rw [b3]; exact List.not_mem_nil p)
      (hgc k hk1 hk6)
    rw [b2] at c1 c3
    refine ⟨c1, fun h5 => ?_⟩
    obtain ⟨d1, d2, -⟩ := c3 h5
    exact ⟨d1, d2⟩
  refine ⟨fun k hk1 hk6 => ?_, ?_, ?_⟩
  · obtain ⟨b1, b2, -⟩ := hrun k hk1 (by omega)
    exact ⟨b1, b2, (hstep k hk1 hk6).1⟩
  · exact ((hstep 5 (by omega) (by omega)).2 rfl).1
  · exact ((hstep 5 (by omega) (by omega)).2 rfl).2

theorem update_advances_capture_witness :
    (Reachable 2 exampleStart ∧
      ∀ _ : Nat, exampleEnv.sRenderPBR = true ∧ exampleEnv.gTeleportDisplay = false ∧
        exampleEnv.logoutRequestSent = false ∧ StdSortSpec exampleEnv.stdSort) ∧
    (exampleStart.mUpdatingProbe = none ∧
      (exampleStart.update 2 exampleEnv).mUpdatingProbe = some 0 ∧
      ∀ k, 1 ≤ k → k < 6 → exampleEnv.getNumRefs 0 ≠ 1) ∧
    ((ticks 2 (fun _ => exampleEnv) 6 exampleStart).mUpdatingProbe = none ∧
      (ticks 2 (fun _ => exampleEnv) 6 exampleStart).mUpdatingFace = 0) :=
  ⟨⟨exampleStart_reachable, fun _ => ⟨rfl, rfl, rfl, exampleSort_spec⟩⟩,
    ⟨rfl, by decide, fun _ _ _ => by decide⟩,
    ((update_advances_capture exampleStart exampleStart_reachable (fun _ => exampleEnv)
      (fun _ => ⟨rfl, rfl, rfl, exampleSort_spec⟩)).2 rfl 0 (by decide)).2.2
      (fun _ _ _ => by decide) |>.2⟩

/-- The closest dynamic probe the scan of `update` finds: with realtime
detail, the first probe the scan keeps that has a cube array and is dynamic;
none without realtime detail. -/
theorem scanned_closest {N : Nat} (env : Env) {s2 : LLReflectionMapManager}
    (h : ManagerInv N s2) :
    (env.realtime = true → (scanned N env s2).closestDynamic =
      (s2.mProbes.filter (fun q => decide (env.getNumRefs q ≠ 1))).find?
        (fun q => (s2.heap q).mCubeArray && env.getIsDynamic q)) ∧
    (env.realtime = false → (scanned N env s2).closestDynamic = none) := by
  obtain ⟨-, hscan, -⟩ := scanned_spec env h
  have harr : ∀ q, ((if s2.mUpdatingProbe.isSome = true then doProbeUpdate env s2 else s2).heap
      q).mCubeArray = (s2.heap q).mCubeArray := by
    intro q
    cases hU : s2.mUpdatingProbe with
    | none => rfl
    | some p =>
      obtain ⟨-, hheap, -⟩ := doProbeUpdate_spec env h.nbr p hU (h.cursor.live p hU) h.cursor.face
      simp only [Option.isSome_some, if_true]
      rw [hheap q]
  refine ⟨fun hrt => ?_, hscan.closestNone⟩
  rw [hscan.closest hrt]
  congr 1
  funext q
  rw [harr q]

/-- The origin, the radius, the cube array and the slot of a probe across
the scheduler: the origin and the radius are kept or set by
`autoAdjustOrigin`, a cube array once set stays, and with a capture in
progress no slot changes. -/
theorem scheduled_heap_fields {N : Nat} (env : Env) {s2 : LLReflectionMapManager}
    (h : ManagerInv N s2) (q : ProbePtr) :
    (((scheduled N env s2).heap q).mOrigin = (s2.heap q).mOrigin ∨
      ((scheduled N env s2).heap q).mOrigin = (env.autoAdjustOrigin q).1) ∧
    (((scheduled N env s2).heap q).mRadius = (s2.heap q).mRadius ∨
      ((scheduled N env s2).heap q).mRadius = (env.autoAdjustOrigin q).2) ∧
    ((s2.heap q).mCubeArray = true → ((scheduled N env s2).heap q).mCubeArray = true) ∧
    (s2.mUpdatingProbe.isSome = true →
      ((scheduled N env s2).heap q).mCubeIndex = (s2.heap q).mCubeIndex) := by
  obtain ⟨h3, hscan, hP⟩ := scanned_spec env h
  obtain ⟨h4, hpos, -, -⟩ := scheduled_frame env h
  -- the state when the scan ends
  have hpre : ∀ r, ((scanned N env s2).m.heap r).mOrigin = (s2.heap r).mOrigin ∧
      ((scanned N env s2).m.heap r).mRadius = (s2.heap r).mRadius ∧
      ((scanned N env s2).m.heap r).mCubeArray = (s2.heap r).mCubeArray ∧
      ((scanned N env s2).m.heap r).mCubeIndex = (s2.heap r).mCubeIndex := by
    intro r
    rw [hscan.frame r]
    cases hU : s2.mUpdatingProbe with
    | none => exact ⟨rfl, rfl, rfl, rfl⟩
    | some p =>
      obtain ⟨-, hheap, -⟩ := doProbeUpdate_spec env h.nbr p hU (h.cursor.live p hU) h.cursor.face
      simp only [Option.isSome_some, if_true]
      rw [hheap r]
      exact ⟨rfl, rfl, rfl, rfl⟩
  -- the realtime block
  have hrt : ∀ r, ((updateRealtime env (scanned N env s2).m
        (scanned N env s2).closestDynamic).heap r).mOrigin = (s2.heap r).mOrigin ∨
      ((updateRealtime env (scanned N env s2).m
        (scanned N env s2).closestDynamic).heap r).mOrigin = (env.autoAdjustOrigin r).1 := by
    intro r
    obtain ⟨hoff, hon⟩ := updateRealtime_spec env (scanned N env s2).m
      (scanned N env s2).closestDynamic
    by_cases hc : env.realtime = false ∨ (scanned N env s2).closestDynamic = none
    · rw [hoff hc]; exact Or.inl (hpre r).1
    · have hrt1 : env.realtime = true := by
        cases hx : env.realtime
        · exact absurd (Or.inl hx) hc
        · rfl
      cases hcd : (scanned N env s2).closestDynamic with
      | none => exact absurd (Or.inr hcd) hc
      | some c =>
        rw [← hcd, hon c hrt1 hcd]
        by_cases hr : r = c
        · subst hr; right; simp only [Function.update_same]
        · left; simp only [Function.update_noteq hr]; exact (hpre r).1
  have hrr : ∀ r, ((updateRealtime env (scanned N env s2).m
        (scanned N env s2).closestDynamic).heap r).mRadius = (s2.heap r).mRadius ∨
      ((updateRealtime env (scanned N env s2).m
        (scanned N env s2).closestDynamic).heap r).mRadius = (env.autoAdjustOrigin r).2 := by
    intro r
    obtain ⟨hoff, hon⟩ := updateRealtime_spec env (scanned N env s2).m
      (scanned N env s2).closestDynamic
    by_cases hc : env.realtime = false ∨ (scanned N env s2).closestDynamic = none
    · rw [hoff hc]; exact Or.inl (hpre r).2.1
    · have hrt1 : env.realtime = true := by
        cases hx : env.realtime
        · exact absurd (Or.inl hx) hc
        · rfl
      cases hcd : (scanned N env s2).closestDynamic with
      | none => exact absurd (Or.inr hcd) hc
      | some c =>
        rw [← hcd, hon c hrt1 hcd]
        by_cases hr : r = c
        · subst hr; right; simp only [Function.update_same]
        · left; simp only [Function.update_noteq hr]; exact (hpre r).2.1
  obtain ⟨-, -, -, -, -, hrh⟩ := updateRealtime_log env (scanned N env s2).m
    (scanned N env s2).closestDynamic
  have hra : ∀ r, ((updateRealtime env (scanned N env s2).m
        (scanned N env s2).closestDynamic).heap r).mCubeArray = (s2.heap r).mCubeArray ∧
      ((updateRealtime env (scanned N env s2).m
        (scanned N env s2).closestDynamic).heap r).mCubeIndex = (s2.heap r).mCubeIndex := by
    intro r
    rw [hrh r]
    exact ⟨(hpre r).2.2.1, (hpre r).2.2.2⟩
  -- the switch to the oldest probe
  cases hd : s2.mUpdatingProbe.isSome with
  | true =>
    have hout : scheduled N env s2 =
        updateRealtime env (scanned N env s2).m (scanned N env s2).closestDynamic := by
      show switchToOldest N env s2.mUpdatingProbe.isSome _ _ = _
      rw [hd]
      unfold switchToOldest
      cases (scanned N env s2).oldestProbe <;> simp
    rw [hout]
    exact ⟨hrt q, hrr q, fun ha => by rw [(hra q).1]; exact ha, fun _ => (hra q).2⟩
  | false =>
    cases ho : (scanned N env s2).oldestProbe with
    | none =>
      have hout : scheduled N env s2 =
          updateRealtime env (scanned N env s2).m (scanned N env s2).closestDynamic := by
        show switchToOldest N env s2.mUpdatingProbe.isSome _ _ = _
        rw [ho]; rfl
      rw [hout]
      exact ⟨hrt q, hrr q, fun ha => by rw [(hra q).1]; exact ha,
        fun hx => Bool.noConfusion hx⟩
    | some o =>
      obtain ⟨hU4, j, hjN, hj⟩ := hpos o ho hd
      obtain ⟨slot, heap2, free2, -, heq, -, -, hprobe, hkeep, hclaim⟩ :=
        switchToOldest_spec env h4 hU4 j hjN o hj
      have hout : scheduled N env s2 = switchToOldest N env false
          (updateRealtime env (scanned N env s2).m (scanned N env s2).closestDynamic)
          (some o) := by
        show switchToOldest N env s2.mUpdatingProbe.isSome _ _ = _
        rw [hd, ho]
      rw [hout, heq]
      have hheap2 : ∀ r, r ≠ o →
          (heap2 r).mOrigin = ((updateRealtime env (scanned N env s2).m
            (scanned N env s2).closestDynamic).heap r).mOrigin ∧
          (heap2 r).mRadius = ((updateRealtime env (scanned N env s2).m
            (scanned N env s2).closestDynamic).heap r).mRadius ∧
          (heap2 r).mCubeArray = ((updateRealtime env (scanned N env s2).m
            (scanned N env s2).closestDynamic).heap r).mCubeArray := by
        intro r hr
        by_cases hc : ((updateRealtime env (scanned N env s2).m
            (scanned N env s2).closestDynamic).heap o).mCubeIndex = -1
        · rcases hclaim hc with ⟨-, -, hrest⟩ | ⟨-, -, k, -, -, -, -, -, hvict, hrest⟩
          · rw [hrest r hr]; exact ⟨rfl, rfl, rfl⟩
          · by_cases hrv : r = (updateRealtime env (scanned N env s2).m
                (scanned N env s2).closestDynamic).probeAt k
            · rw [hrv, hvict]; exact ⟨rfl, rfl, rfl⟩
            · rw [hrest r hr hrv]; exact ⟨rfl, rfl, rfl⟩
        · rw [(hkeep hc).2.1]; exact ⟨rfl, rfl, rfl⟩
      by_cases hq : q = o
      · subst hq
        simp only [Function.update_same]
        refine ⟨Or.inr trivial, Or.inr trivial, fun ha => ?_, fun hx => Bool.noConfusion hx⟩
        rw [hprobe]
        show (if _ then true else _) = true
        split_ifs
        · rfl
        · rw [(hra q).1]; exact ha
      · simp only [Function.update_noteq hq]
        obtain ⟨e1, e2, e3⟩ := hheap2 q hq
        rw [e1, e2, e3]
        exact ⟨hrt q, hrr q, fun ha => by rw [(hra q).1]; exact ha,
          fun hx => Bool.noConfusion hx⟩

theorem bugStart_reachable : Reachable 1 bugStart :=
  Reachable.registerViewerObject false 1 (3, 0, 0)
    (Reachable.registerViewerObject false 0 (5, 0, 0) Reachable.init)

theorem perm_pair (l : List ProbePtr) (h : l.Perm [0, 1]) : l = [0, 1] ∨ l = [1, 0] := by
  have hlen := h.length_eq
  have hnd : l.Nodup := h.nodup_iff.mpr (by decide)
  match l, hlen with
  | [a, b], _ =>
    have ha : a ∈ [0, 1] := h.mem_iff.mp (by simp)
    have hb : b ∈ [0, 1] := h.mem_iff.mp (by simp)
    have hab : a ≠ b := by
      intro he; subst he; simp at hnd
    simp only [List.mem_cons, List.mem_singleton, List.not_mem_nil, or_false] at ha hb
    rcases ha with rfl | rfl <;> rcases hb with rfl | rfl
    · exact absurd rfl hab
    · exact Or.inl rfl
    · exact Or.inr rfl
    · exact absurd rfl hab

/-- One tick of the scenario: with the two probes live at their places and
nothing queued, `update` leaves probe 1 before probe 0, the places and the
queues as they are, a cube array that is set, and, with a capture in
progress, every slot. -/
theorem bug_step (s : LLReflectionMapManager) (hr : Reachable 1 s)
    (hP : s.mProbes.Perm [0, 1]) (hK : s.mKillList = []) (hC : s.mCreateList = [])
    (ho0 : (s.heap 0).mOrigin = (5, 0, 0)) (ho1 : (s.heap 1).mOrigin = (3, 0, 0))
    (hr0 : (s.heap 0).mRadius = 0) (hr1 : (s.heap 1).mRadius = 0) :
    (drained s).mProbes.filter (fun q => decide (bugEnv.getNumRefs q ≠ 1)) = s.mProbes ∧
    (s.update 1 bugEnv).mProbes = [1, 0] ∧
    (s.update 1 bugEnv).mKillList = [] ∧ (s.update 1 bugEnv).mCreateList = [] ∧
    ((s.update 1 bugEnv).heap 0).mOrigin = (5, 0, 0) ∧
    ((s.update 1 bugEnv).heap 1).mOrigin = (3, 0, 0) ∧
    ((s.update 1 bugEnv).heap 0).mRadius = 0 ∧ ((s.update 1 bugEnv).heap 1).mRadius = 0 ∧
    (∀ q, (s.heap q).mCubeArray = true → ((s.update 1 bugEnv).heap q).mCubeArray = true) ∧
    (s.mUpdatingProbe.isSome = true →
      ∀ q, ((s.update 1 bugEnv).heap q).mCubeIndex = (s.heap q).mCubeIndex) := by
  have h := reachable_inv hr
  obtain ⟨h2, hdP, -, -, hframe, -, -, hkept, -, hidle, -⟩ := drained_spec h
  have hdP2 : (drained s).mProbes = s.mProbes := by
    rw [hdP, hK, hC]; simp
  have hsurv : (drained s).mProbes.filter (fun q => decide (bugEnv.getNumRefs q ≠ 1))
      = s.mProbes := by
    rw [hdP2, List.filter_eq_self]
    intro q _; rfl
  have hne : (drained s).mProbes ≠ [] := by
    rw [hdP2]; intro he; rw [he] at hP; exact absurd hP.length_eq (by decide)
  obtain ⟨hheap, hperm, hpair⟩ := update_sorted h bugEnv rfl rfl rfl exampleSort_spec hne
  obtain ⟨hempty, hcre⟩ := update_queues_empty h bugEnv rfl rfl rfl
  have hsome : (drained s).mUpdatingProbe.isSome = s.mUpdatingProbe.isSome := by
    cases hU : s.mUpdatingProbe with
    | none => rw [(hidle hU).1]
    | some p => rw [(hkept p hU (by rw [hK]; exact List.not_mem_nil p)).1]
  have hfields := fun q => scheduled_heap_fields (N := 1) bugEnv h2 q
  have hsrc : ∀ q, ((drained s).heap q).mOrigin = (s.heap q).mOrigin ∧
      ((drained s).heap q).mRadius = (s.heap q).mRadius ∧
      ((drained s).heap q).mCubeArray = (s.heap q).mCubeArray ∧
      ((drained s).heap q).mCubeIndex = (s.heap q).mCubeIndex := by
    intro q; rw [hframe q]; exact ⟨rfl, rfl, rfl, rfl⟩
  have hmem0 : (0 : ProbePtr) ∈ s.mProbes := hP.mem_iff.mpr (by simp)
  have hmem1 : (1 : ProbePtr) ∈ s.mProbes := hP.mem_iff.mpr (by simp)
  have hdist : ∀ q ∈ s.mProbes, ((s.update 1 bugEnv).heap q).mDistance =
      bugEnv.getLength3 (LLVector4a.sub bugEnv.camera_pos (s.heap q).mOrigin)
        - (s.heap q).mRadius := by
    intro q hq
    rw [← hsurv] at hq
    obtain ⟨k, hk, hkq⟩ := List.getElem_of_mem hq
    rw [hheap]
    exact (scheduled_survivor bugEnv h k q (by rw [List.getElem?_eq_getElem hk, hkq])).2
  have hd0 : ((s.update 1 bugEnv).heap 0).mDistance = 5 := by
    rw [hdist 0 hmem0, ho0, hr0]; rfl
  have hd1 : ((s.update 1 bugEnv).heap 1).mDistance = 3 := by
    rw [hdist 1 hmem1, ho1, hr1]; rfl
  rw [hsurv] at hperm
  have horder : (s.update 1 bugEnv).mProbes = [1, 0] := by
    rcases perm_pair _ (hperm.trans hP) with h01 | h10
    · rw [h01] at hpair
      have := (List.pairwise_cons.mp hpair).1 1 (by simp)
      rw [hd0, hd1] at this
      exact absurd this (by decide)
    · exact h10
  refine ⟨hsurv, horder, hempty, hcre, ?_, ?_, ?_, ?_, ?_, ?_⟩
  · rw [hheap]
    rcases (hfields 0).1 with he | he
    · rw [he, (hsrc 0).1, ho0]
    · rw [he]; rfl
  · rw [hheap]
    rcases (hfields 1).1 with he | he
    · rw [he, (hsrc 1).1, ho1]
    · rw [he]; rfl
  · rw [hheap]
    rcases (hfields 0).2.1 with he | he
    · rw [he, (hsrc 0).2.1, hr0]
    · rw [he]; rfl
  · rw [hheap]
    rcases (hfields 1).2.1 with he | he
    · rw [he, (hsrc 1).2.1, hr1]
    · rw [he]; rfl
  · intro q hq
    rw [hheap]
    exact (hfields q).2.2.1 (by rw [(hsrc q).2.2.1]; exact hq)
  · intro hs q
    rw [hheap, (hfields q).2.2.2 (by rw [hsome]; exact hs), (hsrc q).2.2.2]

/-- The states of the scenario from the first tick on: probe 1 stands before
probe 0, nothing is queued, the probes are at their places, and probe 0 has
its cube array. -/
theorem bug_ticks : ∀ k, 1 ≤ k →
    (ticks 1 (fun _ => bugEnv) k bugStart).mProbes = [1, 0] ∧
    (ticks 1 (fun _ => bugEnv) k bugStart).mKillList = [] ∧
    (ticks 1 (fun _ => bugEnv) k bugStart).mCreateList = [] ∧
    ((ticks 1 (fun _ => bugEnv) k bugStart).heap 0).mOrigin = (5, 0, 0) ∧
    ((ticks 1 (fun _ => bugEnv) k bugStart).heap 1).mOrigin = (3, 0, 0) ∧
    ((ticks 1 (fun _ => bugEnv) k bugStart).heap 0).mRadius = 0 ∧
    ((ticks 1 (fun _ => bugEnv) k bugStart).heap 1).mRadius = 0 ∧
    ((ticks 1 (fun _ => bugEnv) k bugStart).heap 0).mCubeArray = true := by
  have hreach := ticks_reachable bugStart_reachable (fun _ => bugEnv) (fun _ => exampleSort_spec)
  intro k hk
  induction k, hk using Nat.le_induction with
  | base => refine ⟨?_, ?_, ?_, ?_, ?_, ?_, ?_, ?_⟩ <;> decide
  | succ k hk1 ih =>
    obtain ⟨a1, a2, a3, a4, a5, a6, a7, a8⟩ := ih
    obtain ⟨-, b1, b2, b3, b4, b5, b6, b7, b8, -⟩ :=
      bug_step (ticks 1 (fun _ => bugEnv) k bugStart) (hreach k)
        (by rw [a1]; exact List.Perm.swap 0 1 []) a2 a3 a4 a5 a6 a7
    exact ⟨b1, b2, b3, b4, b5, b6, b7, b8 0 a8⟩

/-- The cursor of the scenario: tick 1 selects probe 0, the ticks 2 to 6
render its faces 1 to 5, and tick 7 starts idle. -/
theorem bug_cursor :
    (∀ k, 1 ≤ k → k ≤ 5 →
      (ticks 1 (fun _ => bugEnv) k bugStart).mUpdatingProbe = some 0 ∧
      (ticks 1 (fun _ => bugEnv) k bugStart).mUpdatingFace = k) ∧
    (ticks 1 (fun _ => bugEnv) 6 bugStart).mUpdatingProbe = none := by
  have hreach := ticks_reachable bugStart_reachable (fun _ => bugEnv) (fun _ => exampleSort_spec)
  have hrun := capture_run bugStart_reachable (fun _ => bugEnv)
    (fun _ => ⟨rfl, rfl, rfl, exampleSort_spec⟩) 0 (by decide) (by decide)
    (fun _ _ _ => (by decide : bugEnv.getNumRefs 0 ≠ 1))
  refine ⟨fun k h1 h5 => ⟨(hrun k h1 h5).1, (hrun k h1 h5).2.1⟩, ?_⟩
  obtain ⟨b1, b2, b3⟩ := hrun 5 (by omega) (by omega)
  obtain ⟨-, -, c3⟩ := update_capturing (reachable_inv (hreach 5)) bugEnv rfl rfl rfl 0 b1
    (by rw [b3]; exact List.not_mem_nil 0) (by decide)
  exact (c3 b2).1

theorem ticks_succ (N : Nat) (e : Nat → Env) (k : Nat) (s : LLReflectionMapManager) :
    ticks N e (k + 1) s = (ticks N e k s).update N (e k) := rfl

/-- An idle tick of the scenario with probe 1 before probe 0 selects probe 1
and takes the only slot from probe 0. -/
theorem bug_steal_step (s : LLReflectionMapManager) (hr : Reachable 1 s)
    (hP : s.mProbes = [1, 0]) (hK : s.mKillList = []) (hC : s.mCreateList = [])
    (ho0 : (s.heap 0).mOrigin = (5, 0, 0)) (ho1 : (s.heap 1).mOrigin = (3, 0, 0))
    (hr0 : (s.heap 0).mRadius = 0) (hr1 : (s.heap 1).mRadius = 0)
    (hidle : s.mUpdatingProbe = none) :
    (s.update 1 bugEnv).mUpdatingProbe = some 1 ∧
    (s.update 1 bugEnv).mUpdatingFace = 1 ∧
    ((s.update 1 bugEnv).heap 1).mCubeIndex = 0 ∧
    ((s.update 1 bugEnv).heap 0).mCubeIndex = -1 := by
  have h6 := reachable_inv hr
  have h7 := reachable_inv (Reachable.update bugEnv exampleSort_spec hr)
  obtain ⟨hsurv, b1, -⟩ := bug_step s hr (by rw [hP]; exact List.Perm.swap 0 1 [])
    hK hC ho0 ho1 hr0 hr1
  obtain ⟨h2, -, -, -, -, -, -, -, -, hdi, -⟩ := drained_spec h6
  have hne : (drained s).mProbes ≠ [] := by
    intro he
    rw [he, hP] at hsurv
    exact absurd hsurv (by decide)
  obtain ⟨hheap, hcU, hcF, -, -⟩ := update_scheduled 1 bugEnv s rfl rfl rfl hne
  obtain ⟨hold, -, hsel⟩ := scheduled_idle (N := 1) bugEnv h2 (hdi hidle).1
  rw [hsurv, hP] at hold
  have hcur : (scheduled 1 bugEnv (drained s)).mUpdatingProbe = some 1 := by
    cases hx : (scheduled 1 bugEnv (drained s)).mUpdatingProbe with
    | none =>
      rw [hx] at hold
      have hnil : List.take 1 [(1 : ProbePtr), 0] = [] := hold
      exact absurd hnil (by decide)
    | some p =>
      rw [hx] at hold
      obtain ⟨a, b, hab, -, -⟩ := hold
      have hp : p ∈ [(1 : ProbePtr)] := by
        have : List.take 1 [(1 : ProbePtr), 0] = [1] := rfl
        rw [← this, hab]; simp
      rw [List.mem_singleton.mp hp]
  obtain ⟨c1, -, c3, c4, -⟩ := hsel 1 hcur
  have hc1 : ((s.update 1 bugEnv).heap 1).mCubeIndex = 0 := by
    rw [hheap]
    have c4' : ((scheduled 1 bugEnv (drained s)).heap 1).mCubeIndex < 1 := c4
    omega
  have hm0 : (0 : ProbePtr) ∈ (s.update 1 bugEnv).mProbes := by
    rw [b1]; simp
  have hm1 : (1 : ProbePtr) ∈ (s.update 1 bugEnv).mProbes := by
    rw [b1]; simp
  refine ⟨hcU.trans hcur, hcF.trans c1, hc1, ?_⟩
  rcases h7.pool.valid 0 hm0 with hneg | ⟨hlo, hhi⟩
  · exact hneg
  · exfalso
    have hz : ((s.update 1 bugEnv).heap 0).mCubeIndex = 0 := by
      have hhi' : ((s.update 1 bugEnv).heap 0).mCubeIndex < 1 := hhi
      omega
    have := h7.pool.unique 0 hm0 1 hm1 (hz.trans hc1.symm) (by rw [hz]; decide)
    exact absurd this (by decide)

/-- A tick of the scenario with the cursor on probe 1 while probe 0 has a
cube array and no slot: the realtime block renders the six faces of probe 0,
which still has no slot when the tick ends. -/
theorem bug_render_step (s : LLReflectionMapManager) (hr : Reachable 1 s)
    (hP : s.mProbes = [1, 0]) (hK : s.mKillList = []) (hC : s.mCreateList = [])
    (ho0 : (s.heap 0).mOrigin = (5, 0, 0)) (ho1 : (s.heap 1).mOrigin = (3, 0, 0))
    (hr0 : (s.heap 0).mRadius = 0) (hr1 : (s.heap 1).mRadius = 0)
    (hU : s.mUpdatingProbe = some 1) (ha : (s.heap 0).mCubeArray = true)
    (hc : (s.heap 0).mCubeIndex = -1) :
    (scanned 1 bugEnv (drained s)).closestDynamic = some 0 ∧
    (s.update 1 bugEnv).faceLog =
      s.faceLog ++ [(1, s.mUpdatingFace), (0, 0), (0, 1), (0, 2), (0, 3), (0, 4), (0, 5)] ∧
    ((s.update 1 bugEnv).heap 0).mCubeIndex = -1 := by
  have h := reachable_inv hr
  obtain ⟨hsurv, -, -, -, -, -, -, -, -, hcube⟩ := bug_step s hr
    (by rw [hP]; exact List.Perm.swap 0 1 []) hK hC ho0 ho1 hr0 hr1
  obtain ⟨h2, -, -, -, hframe, -⟩ := drained_spec h
  have hclosest : (scanned 1 bugEnv (drained s)).closestDynamic = some 0 := by
    rw [(scanned_closest (N := 1) bugEnv h2).1 rfl, hsurv, hP]
    have ha0 : ((drained s).heap 0).mCubeArray = true := by rw [hframe 0]; exact ha
    have hd1 : bugEnv.getIsDynamic 1 = false := rfl
    have hd0 : bugEnv.getIsDynamic 0 = true := rfl
    simp [List.find?, ha0, hd1, hd0]
  obtain ⟨hlog, -, -⟩ := update_capturing h bugEnv rfl rfl rfl 1 hU
    (by rw [hK]; exact List.not_mem_nil 1) (by decide)
  refine ⟨hclosest, ?_, ?_⟩
  · rw [hlog, hclosest]
    rfl
  · rw [hcube (by rw [hU]; rfl) 0]
    exact hc

/-- C13, failing input: a manager with a pool of one slot, probe 0 (dynamic,
at distance 5) and probe 1 (static, at distance 3) registered, realtime
detail on.  Tick 1 selects probe 0 and gives it the slot and a cube array;
the ticks 2 to 6 finish its capture; tick 7 selects probe 1, now first in
the list, and `allocateCubeIndex` steals the slot from probe 0, which keeps
its cube array.  In tick 8 the realtime block takes probe 0, whose
`mCubeIndex` is -1, and renders its six faces. -/
theorem realtime_renders_unslotted :
    Reachable 1 (ticks 1 (fun _ => bugEnv) 7 bugStart) ∧
    bugEnv.realtime = true ∧ bugEnv.getIsDynamic 0 = true ∧
    (ticks 1 (fun _ => bugEnv) 7 bugStart).mProbes = [1, 0] ∧
    ((ticks 1 (fun _ => bugEnv) 7 bugStart).heap 1).mCubeIndex = 0 ∧
    ((ticks 1 (fun _ => bugEnv) 7 bugStart).heap 0).mCubeIndex = -1 ∧
    ((ticks 1 (fun _ => bugEnv) 7 bugStart).heap 0).mCubeArray = true ∧
    (scanned 1 bugEnv (drained (ticks 1 (fun _ => bugEnv) 7 bugStart))).closestDynamic = some 0 ∧
    (ticks 1 (fun _ => bugEnv) 8 bugStart).faceLog =
      (ticks 1 (fun _ => bugEnv) 7 bugStart).faceLog ++
        [(1, 1), (0, 0), (0, 1), (0, 2), (0, 3), (0, 4), (0, 5)] ∧
    ((ticks 1 (fun _ => bugEnv) 8 bugStart).heap 0).mCubeIndex = -1 := by
  have hreach := ticks_reachable bugStart_reachable (fun _ => bugEnv) (fun _ => exampleSort_spec)
  have e7 : ticks 1 (fun _ => bugEnv) 7 bugStart =
      (ticks 1 (fun _ => bugEnv) 6 bugStart).update 1 bugEnv := rfl
  have e8 : ticks 1 (fun _ => bugEnv) 8 bugStart =
      (ticks 1 (fun _ => bugEnv) 7 bugStart).update 1 bugEnv := rfl
  obtain ⟨a1, a2, a3, a4, a5, a6, a7, -⟩ := bug_ticks 6 (by omega)
  obtain ⟨b1, b2, b3, b4, b5, b6, b7, b8⟩ := bug_ticks 7 (by omega)
  obtain ⟨-, hidle⟩ := bug_cursor
  have hsteal := bug_steal_step _ (hreach 6) a1 a2 a3 a4 a5 a6 a7 hidle
  rw [← e7] at hsteal
  obtain ⟨c1, c2, c3, c4⟩ := hsteal
  have hrender := bug_render_step _ (hreach 7) b1 b2 b3 b4 b5 b6 b7 c1 b8 c4
  rw [← e8, c2] at hrender
  exact ⟨hreach 7, rfl, rfl, b1, c3, c4, b8, hrender.1, hrender.2.1, hrender.2.2⟩

/-- C25: `registerSpatialGroup` creates and returns a probe exactly when the
partition type of the group is volume or terrain and the x-size of its octree
node lies in the band `15 <= size <= 17`.  The probe then is the one
`addProbe` makes: a fresh object that carries the group and has the centre of
the node as its origin, queued in `mCreateList` during a snapshot and
appended to `mProbes` otherwise.  In every other case the method returns null
and leaves the manager, so `mProbes` and `mCreateList`, as they were. -/
theorem registerSpatialGroup_band (s : LLReflectionMapManager) (gCubeSnapshot : Bool)
    (group : LLSpatialGroup) :
    ((s.registerSpatialGroup gCubeSnapshot group).2.isSome = true ↔
      ((group.mPartitionType = PartitionType.PARTITION_VOLUME ∨
        group.mPartitionType = PartitionType.PARTITION_TERRAIN) ∧
        15 ≤ group.size ∧ group.size ≤ 17)) ∧
    (((group.mPartitionType = PartitionType.PARTITION_VOLUME ∨
        group.mPartitionType = PartitionType.PARTITION_TERRAIN) ∧
        15 ≤ group.size ∧ group.size ≤ 17) →
      s.registerSpatialGroup gCubeSnapshot group =
        ((s.addProbe gCubeSnapshot group.id group.center).1,
          some (s.addProbe gCubeSnapshot group.id group.center).2) ∧
      (s.registerSpatialGroup gCubeSnapshot group).2 = some s.nextPtr ∧
      (s.registerSpatialGroup gCubeSnapshot group).1.heap s.nextPtr =
        { LLReflectionMap.new with mGroup := some group.id, mOrigin := group.center } ∧
      (s.registerSpatialGroup gCubeSnapshot group).1.mProbes =
        (if gCubeSnapshot = true then s.mProbes else s.mProbes ++ [s.nextPtr]) ∧
      (s.registerSpatialGroup gCubeSnapshot group).1.mCreateList =
        (if gCubeSnapshot = true then s.mCreateList ++ [s.nextPtr] else s.mCreateList)) ∧
    (¬ ((group.mPartitionType = PartitionType.PARTITION_VOLUME ∨
        group.mPartitionType = PartitionType.PARTITION_TERRAIN) ∧
        15 ≤ group.size ∧ group.size ≤ 17) →
      s.registerSpatialGroup gCubeSnapshot group = (s, none) ∧
      (s.registerSpatialGroup gCubeSnapshot group).1.mProbes = s.mProbes ∧
      (s.registerSpatialGroup gCubeSnapshot group).1.mCreateList = s.mCreateList) := by
  have hyes : ((group.mPartitionType = PartitionType.PARTITION_VOLUME ∨
        group.mPartitionType = PartitionType.PARTITION_TERRAIN) ∧
        15 ≤ group.size ∧ group.size ≤ 17) →
      s.registerSpatialGroup gCubeSnapshot group =
        ((s.addProbe gCubeSnapshot group.id group.center).1,
          some (s.addProbe gCubeSnapshot group.id group.center).2) := by
    rintro ⟨ht, hs⟩
    unfold registerSpatialGroup
    rcases ht with ht | ht
    · rw [if_pos ⟨ht, hs⟩]
    · split_ifs <;> first | rfl | (exfalso; simp_all)
  have hno : ¬ ((group.mPartitionType = PartitionType.PARTITION_VOLUME ∨
        group.mPartitionType = PartitionType.PARTITION_TERRAIN) ∧
        15 ≤ group.size ∧ group.size ≤ 17) →
      s.registerSpatialGroup gCubeSnapshot group = (s, none) := by
    intro h
    unfold registerSpatialGroup
    rw [if_neg (fun hc => h ⟨Or.inl hc.1, hc.2⟩), if_neg (fun hc => h ⟨Or.inr hc.1, hc.2⟩)]
  obtain ⟨a1, a2, -, a4, a5, -⟩ := insertNew_spec s gCubeSnapshot
    { LLReflectionMap.new with mGroup := some group.id, mOrigin := group.center }
  refine ⟨?_, ?_, ?_⟩
  · constructor
    · intro h
      by_contra hc
      rw [hno hc] at h
      exact absurd h (by simp)
    · intro h
      rw [hyes h]
      rfl
  · intro h
    rw [hyes h]
    refine ⟨rfl, ?_, ?_, ?_, ?_⟩
    · show some (s.insertNew gCubeSnapshot _).2 = _
      rw [a1]
    · show (s.insertNew gCubeSnapshot _).1.heap s.nextPtr = _
      rw [a2, Function.update_same]
    · exact a4
    · exact a5
  · intro h
    rw [hno h]
    exact ⟨rfl, rfl, rfl⟩

/-- A kill of a probe that is live when `update` starts takes effect: after a
call that is not suspended the probe is not in `mProbes`. -/
theorem update_kills_live {N : Nat} {s : LLReflectionMapManager} (h : ManagerInv N s)
    (env : Env) (hg1 : env.sRenderPBR = true) (hg2 : env.gTeleportDisplay = false)
    (hg3 : env.logoutRequestSent = false) (hsort : StdSortSpec env.stdSort)
    (p : ProbePtr) (hk : p ∈ s.mKillList) (hp : p ∈ s.mProbes) :
    p ∉ (s.update N env).mProbes := by
  obtain ⟨-, hP, -⟩ := drained_spec h
  have hnot : p ∉ (drained s).mProbes := by
    rw [hP, List.mem_append]
    rintro (hin | hin)
    · rw [List.mem_filter] at hin
      exact absurd hk (by simpa using hin.2)
    · exact List.disjoint_of_nodup_append h.queue.nodup hp hin
  by_cases he : (drained s).mProbes = []
  · rw [(update_stages N env s hg1 hg2 hg3).1 he, he]
    exact List.not_mem_nil p
  · obtain ⟨-, hperm, -⟩ := update_sorted h env hg1 hg2 hg3 hsort he
    intro hin
    exact hnot (List.mem_of_mem_filter (hperm.mem_iff.mp hin))

/-- The state `bindStale` is reachable. -/
theorem bindStale_reachable : Reachable 1 bindStale :=
  Reachable.update exampleEnv exampleSort_spec
    (Reachable.registerViewerObject false 0 (3, 0, 0) Reachable.init)

/-- C29: the code at a buffer of capacity 0.  The first loop of
`getReflectionMaps` does not run, `lastIdx` keeps its initial value 0, and
the second loop, which starts at `lastIdx + 1`, skips `mProbes[0]`: the probe
is written to no entry of the buffer and yet keeps `mProbeIndex == 0`
instead of `-1`. -/
theorem getReflectionMaps_stale_index :
    Reachable 1 bindStale ∧ bindStale.mProbes = [0] ∧
    (bindStale.heap 0).mProbeIndex = 0 ∧
    (getReflectionMaps exampleEnv bindStale []).2 = [] ∧
    bindCount exampleEnv bindStale [] = 0 ∧
    ((getReflectionMaps exampleEnv bindStale []).1.heap 0).mProbeIndex = 0 :=
  ⟨bindStale_reachable, by decide, by decide, by decide, by decide, by decide⟩

/-- The struct `updateUniforms` packs, row by row: the counter is the number
of probes `getReflectionMaps` returned, and the row of the `i`-th of them is
the one the packing loop wrote in its round `i`. -/
theorem uniformData_row (N : Nat) (env : Env) (s : LLReflectionMapManager) :
    (uniformData N env s).refmapCount =
      some ((min N (s.mProbes.filter
        (fun p => decide ((s.heap p).mCubeIndex ≠ -1))).length : Nat) : Int) ∧
    ∀ (i : Nat) (p : ProbePtr),
      ((s.mProbes.filter (fun p => decide ((s.heap p).mCubeIndex ≠ -1))).take
        (min N (s.mProbes.filter (fun p => decide ((s.heap p).mCubeIndex ≠ -1))).length))[i]?
        = some p →
      (bindUniforms N env s).mReflectionMaps[i]? = some (some p) ∧
      (packedAt env (bindUniforms N env s) i).count = i ∧
      packedAt env (bindUniforms N env s) (i + 1) =
        packProbe env (bindUniforms N env s) (packedAt env (bindUniforms N env s) i) p ∧
      (∀ col, (uniformData N env s).refIndex i col =
        (packProbe env (bindUniforms N env s)
          (packedAt env (bindUniforms N env s) i) p).rpd.refIndex i col) ∧
      (∀ x, x < (packedAt env (bindUniforms N env s) (i + 1)).nc →
        (uniformData N env s).refNeighbor x =
          (packProbe env (bindUniforms N env s)
            (packedAt env (bindUniforms N env s) i) p).rpd.refNeighbor x) := by
  obtain ⟨-, -, -, rest, hmaps, hrest⟩ := bindUniforms_spec N env s
  have hlenP : ((s.mProbes.filter (fun p => decide ((s.heap p).mCubeIndex ≠ -1))).take
      (min N (s.mProbes.filter (fun p => decide ((s.heap p).mCubeIndex ≠ -1))).length)).length =
      min N (s.mProbes.filter (fun p => decide ((s.heap p).mCubeIndex ≠ -1))).length := by
    rw [List.length_take, Nat.min_eq_left (Nat.min_le_right _ _)]
  generalize (s.mProbes.filter (fun p => decide ((s.heap p).mCubeIndex ≠ -1))).take
      (min N (s.mProbes.filter (fun p => decide ((s.heap p).mCubeIndex ≠ -1))).length) = P
    at hmaps hlenP ⊢
  have hloop := packLoop_fold env (bindUniforms N env s) P rest packStart hrest
  rw [← hmaps] at hloop
  have hdata : (uniformData N env s).refIndex =
      (packLoop env (bindUniforms N env s) (bindUniforms N env s).mReflectionMaps
        packStart).rpd.refIndex := rfl
  have hdata2 : (uniformData N env s).refNeighbor =
      (packLoop env (bindUniforms N env s) (bindUniforms N env s).mReflectionMaps
        packStart).rpd.refNeighbor := rfl
  have hcnt : (uniformData N env s).refmapCount =
      some ((packLoop env (bindUniforms N env s) (bindUniforms N env s).mReflectionMaps
        packStart).count : Int) := rfl
  constructor
  · rw [hcnt, hloop, (packFold_frame env _ P packStart).1, hlenP]
    have hz : packStart.count = 0 := rfl
    rw [hz, Nat.zero_add]
  · intro i p hi
    have hlt : i < P.length := by
      by_contra hcon
      rw [List.getElem?_eq_none (by omega)] at hi
      exact absurd hi (by simp)
    obtain ⟨c1, c2, c3, c4, -⟩ := packFold_at env (bindUniforms N env s) P packStart i p hi
    rw [← packedAt_fold env _ P rest hmaps i (Nat.le_of_lt hlt)] at c1 c2 c3 c4
    rw [← packedAt_fold env _ P rest hmaps (i + 1) hlt] at c2 c4
    have hz : packStart.count = 0 := rfl
    rw [hz, Nat.zero_add] at c1 c3
    rw [← hloop] at c3 c4
    refine ⟨?_, c1, c2, ?_, ?_⟩
    · rw [hmaps, List.getElem?_append_left (by rw [List.length_map]; exact hlt),
        List.getElem?_map, hi]
      rfl
    · intro col; rw [hdata]; exact c3 col
    · intro x hx; rw [hdata2]; exact c4 x hx

/-- The cursor of the packing loop only grows from round to round. -/
theorem packedAt_mono (env : Env) (m : LLReflectionMapManager) (P : List ProbePtr)
    (rest : List (Option ProbePtr)) (hmaps : m.mReflectionMaps = P.map some ++ rest)
    (i j : Nat) (hij : i ≤ j) (hj : j ≤ P.length) :
    (packedAt env m i).nc ≤ (packedAt env m j).nc := by
  rw [packedAt_fold env m P rest hmaps i (le_trans hij hj), packedAt_fold env m P rest hmaps j hj]
  have hsplit : P.take j = P.take i ++ (P.take j).drop i := by
    conv_lhs => rw [← List.take_append_drop i (P.take j)]
    rw [List.take_take, Nat.min_eq_left hij]
  rw [hsplit, List.foldl_append]
  exact (packFold_frame env m _ _).2.1

/-- The cursor of the packing loop is a multiple of four within the array in
every round, and nothing is written from the cursor on. -/
theorem packedAt_aligned (env : Env) (m : LLReflectionMapManager) (P : List ProbePtr)
    (rest : List (Option ProbePtr)) (hmaps : m.mReflectionMaps = P.map some ++ rest)
    (i : Nat) (hi : i ≤ P.length) :
    (packedAt env m i).nc % 4 = 0 ∧ (packedAt env m i).nc ≤ 4096 ∧
    ∀ x, (packedAt env m i).nc ≤ x → (packedAt env m i).rpd.refNeighbor x = none := by
  rw [packedAt_fold env m P rest hmaps i hi]
  obtain ⟨-, -, h3, h4, -, -, h7, -⟩ := packFold_frame env m (P.take i) packStart
  exact ⟨h3 rfl, h4 (by show 0 ≤ 4096; omega), fun x hx => by rw [h7 x (Or.inr hx)]; rfl⟩

/-- C22: the neighbour runs `updateUniforms` packs.  Let `nc` be the cursor
at the start of the round of the `i`-th packed probe and `act` the
`mProbeIndex` values of its neighbours whose `mProbeIndex` is not `-1`, in
the order of `mNeighbors`.  The cursor is a multiple of four, so the
assertion `nc % 4 == 0` holds.  When `act` is not empty and the cursor is
below 4096, `refIndex[i][1]` is `nc / 4`, so that `refIndex[i][1] * 4` is the
start `nc` of the run, `refIndex[i][2]` is the length of the run, which is
the length of `act` cut at the end of the array, and the cells of the run
hold `act` in order; the run ends at or before the cursor of the next round,
and the cursor of every later round is not below that one, so runs do not
overlap.  A probe with empty `act` gets `refIndex[i][1] == -1`.  No cell at
an index of 4096 or more is written. -/
theorem updateUniforms_neighbor_runs (N : Nat) (env : Env) (s : LLReflectionMapManager)
    (i : Nat) (p : ProbePtr)
    (hi : ((s.mProbes.filter (fun p => decide ((s.heap p).mCubeIndex ≠ -1))).take
        (min N (s.mProbes.filter (fun p => decide ((s.heap p).mCubeIndex ≠ -1))).length))[i]?
        = some p) :
    (packedAt env (bindUniforms N env s) i).nc % 4 = 0 ∧
    (activeNeighbors (bindUniforms N env s) p ≠ [] →
      (packedAt env (bindUniforms N env s) i).nc < 4096 →
      (uniformData N env s).refIndex i 1 =
        some (((packedAt env (bindUniforms N env s) i).nc / 4 : Nat) : Int) ∧
      4 * ((packedAt env (bindUniforms N env s) i).nc / 4) =
        (packedAt env (bindUniforms N env s) i).nc ∧
      0 < runLength (bindUniforms N env s) (packedAt env (bindUniforms N env s) i).nc p ∧
      runLength (bindUniforms N env s) (packedAt env (bindUniforms N env s) i).nc p =
        min (activeNeighbors (bindUniforms N env s) p).length
          (4096 - (packedAt env (bindUniforms N env s) i).nc) ∧
      (uniformData N env s).refIndex i 2 =
        some ((runLength (bindUniforms N env s)
          (packedAt env (bindUniforms N env s) i).nc p : Nat) : Int) ∧
      (∀ t, t < runLength (bindUniforms N env s) (packedAt env (bindUniforms N env s) i).nc p →
        (uniformData N env s).refNeighbor ((packedAt env (bindUniforms N env s) i).nc + t) =
          (activeNeighbors (bindUniforms N env s) p)[t]?) ∧
      (packedAt env (bindUniforms N env s) i).nc +
          runLength (bindUniforms N env s) (packedAt env (bindUniforms N env s) i).nc p ≤
        (packedAt env (bindUniforms N env s) (i + 1)).nc) ∧
    (activeNeighbors (bindUniforms N env s) p = [] →
      (uniformData N env s).refIndex i 1 = some (-1)) ∧
    (∀ j, i < j → j ≤ min N
        (s.mProbes.filter (fun p => decide ((s.heap p).mCubeIndex ≠ -1))).length →
      (packedAt env (bindUniforms N env s) (i + 1)).nc ≤
        (packedAt env (bindUniforms N env s) j).nc) ∧
    (∀ x, 4096 ≤ x → (uniformData N env s).refNeighbor x = none) := by
  obtain ⟨-, hrow⟩ := uniformData_row N env s
  obtain ⟨-, hc, hnext, hcol, hcell⟩ := hrow i p hi
  obtain ⟨-, -, -, rest, hmaps, hrest⟩ := bindUniforms_spec N env s
  have hlenP : ((s.mProbes.filter (fun p => decide ((s.heap p).mCubeIndex ≠ -1))).take
      (min N (s.mProbes.filter (fun p => decide ((s.heap p).mCubeIndex ≠ -1))).length)).length =
      min N (s.mProbes.filter (fun p => decide ((s.heap p).mCubeIndex ≠ -1))).length := by
    rw [List.length_take, Nat.min_eq_left (Nat.min_le_right _ _)]
  generalize (s.mProbes.filter (fun p => decide ((s.heap p).mCubeIndex ≠ -1))).take
      (min N (s.mProbes.filter (fun p => decide ((s.heap p).mCubeIndex ≠ -1))).length) = P
    at hmaps hlenP hi
  have hlt : i < P.length := by
    by_contra hcon
    rw [List.getElem?_eq_none (by omega)] at hi
    exact absurd hi (by simp)
  obtain ⟨hal, -, -⟩ := packedAt_aligned env _ P rest hmaps i (Nat.le_of_lt hlt)
  obtain ⟨-, g2, -, -, g5, -, -, g8, g9, -⟩ := packProbe_spec env (bindUniforms N env s)
    (packedAt env (bindUniforms N env s) i) p
  rw [hc] at g8 g9
  rw [← hnext] at g2
  have hrl : runLength (bindUniforms N env s) (packedAt env (bindUniforms N env s) i).nc p =
      min (activeNeighbors (bindUniforms N env s) p).length
        (4096 - (packedAt env (bindUniforms N env s) i).nc) := rfl
  have hend : (packedAt env (bindUniforms N env s) i).nc +
      runLength (bindUniforms N env s) (packedAt env (bindUniforms N env s) i).nc p ≤
      (packedAt env (bindUniforms N env s) (i + 1)).nc := by
    rw [g2]; split_ifs <;> omega
  refine ⟨hal, ?_, ?_, ?_, ?_⟩
  · intro hact hroom
    have hpos : 0 < runLength (bindUniforms N env s)
        (packedAt env (bindUniforms N env s) i).nc p := by
      rw [hrl]
      have := List.length_pos.mpr hact
      omega
    refine ⟨?_, by omega, hpos, hrl, ?_, ?_, hend⟩
    · rw [hcol 1, g8, if_neg (by omega)]
    · rw [hcol 2]; exact g9 (by omega)
    · intro t ht
      rw [hcell _ (by omega), g5, if_pos (by omega), Nat.add_sub_cancel_left]
  · intro hact
    have hz : runLength (bindUniforms N env s)
        (packedAt env (bindUniforms N env s) i).nc p = 0 := by
      rw [hrl, hact]; simp
    rw [hcol 1, g8, if_pos hz]
  · intro j hij hj
    exact packedAt_mono env _ P rest hmaps (i + 1) j hij (by rw [hlenP]; exact hj)
  · intro x hx
    obtain ⟨-, hcap, hnone⟩ := packedAt_aligned env _ P rest hmaps P.length (le_refl _)
    have hall : packedAt env (bindUniforms N env s) P.length =
        packLoop env (bindUniforms N env s) (bindUniforms N env s).mReflectionMaps packStart := by
      rw [packedAt_fold env _ P rest hmaps P.length (le_refl _), List.take_length, hmaps,
        packLoop_fold env _ P rest packStart hrest]
    rw [hall] at hcap hnone
    exact hnone x (by omega)

/-- C22, witness: three active probes, the first a neighbour of the other
two.  The run of the first probe is cells 0 and 1, the cursor of the second
round is 4, and the run of the second probe is cell 4. -/
theorem updateUniforms_neighbor_runs_witness :
    ((nbrBound.mProbes.filter (fun p => decide ((nbrBound.heap p).mCubeIndex ≠ -1))).take
        (min 3 (nbrBound.mProbes.filter
          (fun p => decide ((nbrBound.heap p).mCubeIndex ≠ -1))).length))[1]? = some 11 ∧
    activeNeighbors (bindUniforms 3 exampleEnv nbrBound) 11 = [0] ∧
    (packedAt exampleEnv (bindUniforms 3 exampleEnv nbrBound) 1).nc = 4 ∧
    (packedAt exampleEnv (bindUniforms 3 exampleEnv nbrBound) 1).nc % 4 = 0 ∧
    (uniformData 3 exampleEnv nbrBound).refIndex 1 1 =
      some (((packedAt exampleEnv (bindUniforms 3 exampleEnv nbrBound) 1).nc / 4 : Nat) : Int) ∧
    (uniformData 3 exampleEnv nbrBound).refIndex 1 2 =
      some ((runLength (bindUniforms 3 exampleEnv nbrBound)
        (packedAt exampleEnv (bindUniforms 3 exampleEnv nbrBound) 1).nc 11 : Nat) : Int) ∧
    (∀ x, 4096 ≤ x → (uniformData 3 exampleEnv nbrBound).refNeighbor x = none) :=
  ⟨by decide, by decide, by decide,
    (updateUniforms_neighbor_runs 3 exampleEnv nbrBound 1 11 (by decide)).1,
    ((updateUniforms_neighbor_runs 3 exampleEnv nbrBound 1 11 (by decide)).2.1 (by decide)
      (by decide)).1,
    ((updateUniforms_neighbor_runs 3 exampleEnv nbrBound 1 11 (by decide)).2.1 (by decide)
      (by decide)).2.2.2.2.1,
    (updateUniforms_neighbor_runs 3 exampleEnv nbrBound 1 11 (by decide)).2.2.2.2⟩

/-- C28: in every reachable state, every value `updateUniforms` writes into
`refNeighbor` is a position below `refmapCount`, and the probe packed at that
position is the neighbour the value stands for: a cell that holds `v` was
written for a neighbour `nb` of a packed probe `p`, `v` is the `mProbeIndex`
of `nb`, and `mReflectionMaps[v]` is `nb`, one of the `refmapCount` probes
that are packed. -/
theorem updateUniforms_neighbor_indices {N : Nat} (s : LLReflectionMapManager)
    (hr : Reachable N s) (env : Env) :
    ∃ cnt : Nat, (uniformData N env s).refmapCount = some (cnt : Int) ∧
      ∀ (x : Nat) (v : Int), (uniformData N env s).refNeighbor x = some v →
        ∃ (j i : Nat) (p nb : ProbePtr), v = (j : Int) ∧ j < cnt ∧ i < cnt ∧
          (bindUniforms N env s).mReflectionMaps[i]? = some (some p) ∧
          nb ∈ ((bindUniforms N env s).heap p).mNeighbors ∧
          ((bindUniforms N env s).heap nb).mProbeIndex = v ∧
          (bindUniforms N env s).mReflectionMaps[j]? = some (some nb) := by
  have h := reachable_inv hr
  obtain ⟨hcnt, hrow⟩ := uniformData_row N env s
  refine ⟨_, hcnt, ?_⟩
  intro x v hx
  obtain ⟨-, hq, -, rest, hmaps, hrest⟩ := bindUniforms_spec N env s
  have hcell : (packLoop env (bindUniforms N env s) (bindUniforms N env s).mReflectionMaps
      packStart).rpd.refNeighbor x = some v := hx
  rw [hmaps, packLoop_fold env _ _ rest packStart hrest] at hcell
  rcases (packFold_frame env (bindUniforms N env s) _ packStart).2.2.2.2.2.2.2 x v hcell with
    h0 | ⟨p, hp, hv⟩
  · exact absurd h0 (by show (none : Option Int) ≠ some v; simp)
  · obtain ⟨i, hilt, hi⟩ := List.getElem_of_mem hp
    have hi' : ((s.mProbes.filter (fun p => decide ((s.heap p).mCubeIndex ≠ -1))).take
        (min N (s.mProbes.filter
          (fun p => decide ((s.heap p).mCubeIndex ≠ -1))).length))[i]? = some p := by
      rw [List.getElem?_eq_getElem hilt, hi]
    have hicnt : i < min N
        (s.mProbes.filter (fun p => decide ((s.heap p).mCubeIndex ≠ -1))).length := by
      rw [List.length_take, Nat.min_eq_left (Nat.min_le_right _ _)] at hilt
      exact hilt
    have hN : 0 < N := lt_of_le_of_lt (Nat.zero_le _) (lt_of_lt_of_le hicnt (Nat.min_le_left _ _))
    have hplive : p ∈ s.mProbes :=
      List.mem_of_mem_filter (List.mem_of_mem_take hp)
    unfold activeNeighbors at hv
    rw [List.mem_filter, List.mem_map] at hv
    obtain ⟨⟨nb, hnb, hidx⟩, hne⟩ := hv
    have hne' : v ≠ -1 := by simpa using hne
    have hnbs : nb ∈ (s.heap p).mNeighbors := by
      rw [hq p] at hnb; exact hnb
    have hnblive : nb ∈ s.mProbes := h.nbr.nbrLive p hplive nb hnbs
    rcases (bindUniforms_index N env s h.nbr.nodup hN).1 nb hnblive with
      ⟨j, hj1, hj2, hj3⟩ | ⟨hneg, -⟩
    · refine ⟨j, i, p, nb, ?_, hj1, hicnt, (hrow i p hi').1, hnb, hidx, hj2⟩
      rw [← hidx, hj3]
    · rw [hidx] at hneg
      exact absurd hneg hne'

/-- C28, witness: the example with a pool of two slots after seven ticks, in
which two probes hold a slot. -/
theorem updateUniforms_neighbor_indices_witness :
    Reachable 2 (exampleTicks 7) ∧
    ∃ cnt : Nat, (uniformData 2 exampleEnv (exampleTicks 7)).refmapCount = some (cnt : Int) ∧
      ∀ (x : Nat) (v : Int),
        (uniformData 2 exampleEnv (exampleTicks 7)).refNeighbor x = some v →
        ∃ (j i : Nat) (p nb : ProbePtr), v = (j : Int) ∧ j < cnt ∧ i < cnt ∧
          (bindUniforms 2 exampleEnv (exampleTicks 7)).mReflectionMaps[i]? = some (some p) ∧
          nb ∈ ((bindUniforms 2 exampleEnv (exampleTicks 7)).heap p).mNeighbors ∧
          ((bindUniforms 2 exampleEnv (exampleTicks 7)).heap nb).mProbeIndex = v ∧
          (bindUniforms 2 exampleEnv (exampleTicks 7)).mReflectionMaps[j]? = some (some nb) :=
  ⟨exampleTicks_reachable 7,
    updateUniforms_neighbor_indices (exampleTicks 7) (exampleTicks_reachable 7) exampleEnv⟩

/-- C27: allocation never fails inside the scheduler.  In a reachable state,
when a call of `update` that is not suspended finds the cursor idle, selects
the probe `p` and `p` holds no slot, it calls `allocateCubeIndex` on
`allocState`.  There `p` stands among the first `N` positions, and a slot is
free or a probe at position `N` or later holds one; the call returns an
index in `[0, N)` without failing its assertion, this index is the slot of
`p` when `update` returns, and no assertion has failed. -/
theorem update_allocation_succeeds {N : Nat} (s : LLReflectionMapManager) (hr : Reachable N s)
    (env : Env) (hg1 : env.sRenderPBR = true) (hg2 : env.gTeleportDisplay = false)
    (hg3 : env.logoutRequestSent = false) (p : ProbePtr)
    (hidle : (drained s).mUpdatingProbe = none)
    (ho : (scanned N env (drained s)).oldestProbe = some p)
    (hc : ((updateRealtime env (scanned N env (drained s)).m
      (scanned N env (drained s)).closestDynamic).heap p).mCubeIndex = -1) :
    (∃ j, j < N ∧ (allocState N env s p).mProbes[j]? = some p) ∧
    ((∃ i : Nat, i < N ∧ (allocState N env s p).mCubeFree (i : Int) = true) ∨
      (∃ k : Nat, N ≤ k ∧ k < (allocState N env s p).mProbes.length ∧
        ((allocState N env s p).heap ((allocState N env s p).probeAt k)).mCubeIndex ≠ -1)) ∧
    0 ≤ (allocateCubeIndex N (allocState N env s p)).2 ∧
    (allocateCubeIndex N (allocState N env s p)).2 < (N : Int) ∧
    (allocateCubeIndex N (allocState N env s p)).1.llassertFailed = false ∧
    ((s.update N env).heap p).mCubeIndex = (allocateCubeIndex N (allocState N env s p)).2 ∧
    (s.update N env).llassertFailed = false := by
  have h := reachable_inv hr
  have hflag := reachable_no_assert hr
  obtain ⟨h2, -, -, -, -, -, -, -, -, -, -, hdf, -⟩ := drained_spec h
  obtain ⟨h4, hpos, -, -⟩ := scheduled_frame env h2
  have hsome : (drained s).mUpdatingProbe.isSome = false := by rw [hidle]; rfl
  obtain ⟨hU4, j, hjN, hj⟩ := hpos p ho hsome
  obtain ⟨-, hscan, hsP⟩ := scanned_spec env h2
  rw [hsome] at hscan
  simp only [Bool.false_eq_true, if_false] at hscan
  have hf4 : (updateRealtime env (scanned N env (drained s)).m
      (scanned N env (drained s)).closestDynamic).llassertFailed = false := by
    rw [(updateRealtime_frame env _ _).1]
    show (scanned N env (drained s)).m.llassertFailed = false
    rw [hscan.ghost.2, hdf, hflag]
  have hne : (drained s).mProbes ≠ [] := by
    intro he
    have hj' := hj
    rw [(updateRealtime_log env _ _).2.2.2.2.1, hsP, he] at hj'
    exact absurd hj' (by simp)
  have hslot := switchToOldest_slot env h4 hU4 p hc
  have hupd : ((s.update N env).heap p).mCubeIndex =
      (allocateCubeIndex N (allocState N env s p)).2 := by
    rw [(update_scheduled N env s hg1 hg2 hg3 hne).1]
    show ((switchToOldest N env (drained s).mUpdatingProbe.isSome _ _).heap p).mCubeIndex = _
    rw [hsome, ho]
    exact hslot
  generalize hs4 : updateRealtime env (scanned N env (drained s)).m
      (scanned N env (drained s)).closestDynamic = s4 at h4 hU4 hj hf4 hc hslot
  have ha : allocState N env s p = s4.store p { s4.heap p with mCubeArray := true } := by
    unfold allocState; rw [hs4]
  rw [ha] at hupd ⊢
  have hainv : ManagerInv N (s4.store p { s4.heap p with mCubeArray := true }) :=
    store_inv h4 p _ rfl rfl
  have haP : (s4.store p { s4.heap p with mCubeArray := true }).mProbes = s4.mProbes := rfl
  have hac : ((s4.store p { s4.heap p with mCubeArray := true }).heap p).mCubeIndex = -1 := by
    show (Function.update s4.heap p _ p).mCubeIndex = -1
    rw [Function.update_same]; exact hc
  have haf : (s4.store p { s4.heap p with mCubeArray := true }).llassertFailed = false := hf4
  generalize s4.store p { s4.heap p with mCubeArray := true } = a at hainv haP hac haf hupd ⊢
  have hja : a.mProbes[j]? = some p := by rw [haP]; exact hj
  have hfinal : (s.update N env).llassertFailed = false := by
    rw [update_flag env h]; exact hflag
  refine ⟨⟨j, hjN, hja⟩, ?_⟩
  rcases allocateCubeIndex_cases N a with ⟨i, hiN, hifree, -, heq⟩ |
      ⟨hnofree, k, hkN, hklen, hkc, -, heq⟩ | ⟨hnofree, hnone, -⟩
  · rw [heq] at hupd ⊢
    refine ⟨Or.inl ⟨i, hiN, hifree⟩, ?_, ?_, haf, hupd, hfinal⟩
    · show (0 : Int) ≤ (i : Int)
      exact Int.natCast_nonneg _
    · show (i : Int) < (N : Int)
      exact_mod_cast hiN
  · rw [heq] at hupd ⊢
    have hv := hainv.pool.valid (a.probeAt k) (probeAt_mem a k hklen)
    rcases hv with hv | hv
    · exact absurd hv hkc
    · exact ⟨Or.inr ⟨k, hkN, hklen, hkc⟩, hv.1, hv.2, haf, hupd, hfinal⟩
  · obtain ⟨k, hk1, hk2, hk3⟩ := stealable_of_exhausted hainv.pool j hjN p hja hac hnofree
    exact absurd (hnone k hk1 hk2) hk3

/-- C27, witness: the first tick of the example with a pool of two slots; the
scan selects probe 0, which holds no slot. -/
theorem update_allocation_succeeds_witness :
    Reachable 2 exampleStart ∧ (drained exampleStart).mUpdatingProbe = none ∧
    (scanned 2 exampleEnv (drained exampleStart)).oldestProbe = some 0 ∧
    ((updateRealtime exampleEnv (scanned 2 exampleEnv (drained exampleStart)).m
      (scanned 2 exampleEnv (drained exampleStart)).closestDynamic).heap 0).mCubeIndex = -1 ∧
    0 ≤ (allocateCubeIndex 2 (allocState 2 exampleEnv exampleStart 0)).2 ∧
    (allocateCubeIndex 2 (allocState 2 exampleEnv exampleStart 0)).2 < ((2 : Nat) : Int) ∧
    (allocateCubeIndex 2 (allocState 2 exampleEnv exampleStart 0)).1.llassertFailed = false ∧
    ((exampleStart.update 2 exampleEnv).heap 0).mCubeIndex =
      (allocateCubeIndex 2 (allocState 2 exampleEnv exampleStart 0)).2 ∧
    (exampleStart.update 2 exampleEnv).llassertFailed = false :=
  ⟨exampleStart_reachable, by decide, by decide, by decide,
    (update_allocation_succeeds exampleStart exampleStart_reachable exampleEnv rfl rfl rfl 0
      (by decide) (by decide) (by decide)).2.2⟩

/-- The slots of probes are the same before and after the queues are
drained, the scan and the realtime block. -/
theorem prescan_cube {N : Nat} (env : Env) {s : LLReflectionMapManager} (h : ManagerInv N s)
    (hU : (drained s).mUpdatingProbe = none) (q : ProbePtr) :
    ((updateRealtime env (scanned N env (drained s)).m
      (scanned N env (drained s)).closestDynamic).heap q).mCubeIndex = (s.heap q).mCubeIndex := by
  obtain ⟨h2, -, -, -, hdh, -⟩ := drained_spec h
  obtain ⟨-, hscan, -⟩ := scanned_spec env h2
  have hsome : (drained s).mUpdatingProbe.isSome = false := by rw [hU]; rfl
  rw [hsome] at hscan
  simp only [Bool.false_eq_true, if_false] at hscan
  rw [(updateRealtime_log env _ _).2.2.2.2.2 q]
  show ((scanned N env (drained s)).m.heap q).mCubeIndex = _
  rw [hscan.frame q]
  show ((drained s).heap q).mCubeIndex = _
  rw [hdh q]

/-- C24: what one tick does to the slot assignments.  A tick that is not
suspended, starts with a capture in progress, has no kill queued and
collects no probe leaves the `mCubeIndex` of every probe and the whole pool
`mCubeFree` as they are.  A tick that starts idle changes the `mCubeIndex` of
no probe but the selected one, which keeps the slot it has or goes from `-1`
to a slot of the pool, and of at most one other probe, the victim of a steal,
which goes from the slot the selected probe receives to `-1`. -/
theorem update_slots_step {N : Nat} (s : LLReflectionMapManager) (hr : Reachable N s)
    (env : Env) (hg1 : env.sRenderPBR = true) (hg2 : env.gTeleportDisplay = false)
    (hg3 : env.logoutRequestSent = false) :
    (∀ p, s.mUpdatingProbe = some p → s.mKillList = [] →
      (∀ q ∈ (drained s).mProbes, env.getNumRefs q ≠ 1) →
      (∀ q, ((s.update N env).heap q).mCubeIndex = (s.heap q).mCubeIndex) ∧
      (s.update N env).mCubeFree = s.mCubeFree) ∧
    (s.mUpdatingProbe = none →
      ((s.update N env).mUpdatingProbe = none →
        ∀ q, ((s.update N env).heap q).mCubeIndex = (s.heap q).mCubeIndex) ∧
      (∀ p, (s.update N env).mUpdatingProbe = some p →
        ((s.heap p).mCubeIndex ≠ -1 →
          ((s.update N env).heap p).mCubeIndex = (s.heap p).mCubeIndex) ∧
        ((s.heap p).mCubeIndex = -1 →
          0 ≤ ((s.update N env).heap p).mCubeIndex ∧
          ((s.update N env).heap p).mCubeIndex < (N : Int)) ∧
        ∃ victim : Option ProbePtr,
          (∀ q, q ≠ p → some q ≠ victim →
            ((s.update N env).heap q).mCubeIndex = (s.heap q).mCubeIndex) ∧
          (∀ v, victim = some v → v ≠ p ∧ (s.heap p).mCubeIndex = -1 ∧
            (s.heap v).mCubeIndex ≠ -1 ∧
            (s.heap v).mCubeIndex = ((s.update N env).heap p).mCubeIndex ∧
            ((s.update N env).heap v).mCubeIndex = -1))) := by
  have h := reachable_inv hr
  obtain ⟨h2, hdP, -, -, hdh, -, hdfree, hkeep, -, hdidle, -⟩ := drained_spec h
  constructor
  · intro p hU hK hgc
    obtain ⟨hcU, hcF⟩ := hkeep p hU (by rw [hK]; exact List.not_mem_nil p)
    have hpl : p ∈ (drained s).mProbes := h2.cursor.live p hcU
    have hne : (drained s).mProbes ≠ [] := List.ne_nil_of_mem hpl
    obtain ⟨hheap, -, -, -, hfree⟩ := update_scheduled N env s hg1 hg2 hg3 hne
    have hsome : (drained s).mUpdatingProbe.isSome = true := by rw [hcU]; rfl
    constructor
    · intro q
      rw [hheap, (scheduled_heap_fields env h2 q).2.2.2 hsome]
      show ((drained s).heap q).mCubeIndex = _
      rw [hdh q]
    · rw [hfree]
      have hsw : (scheduled N env (drained s)).mCubeFree =
          (scanned N env (drained s)).m.mCubeFree := by
        show (switchToOldest N env (drained s).mUpdatingProbe.isSome _ _).mCubeFree = _
        rw [hsome]
        unfold switchToOldest
        cases (scanned N env (drained s)).oldestProbe with
        | none => exact (updateRealtime_log env _ _).2.2.2.1
        | some o =>
          simp only [Bool.true_eq_false, if_false]
          exact (updateRealtime_log env _ _).2.2.2.1
      rw [hsw]
      obtain ⟨h3, hscan, hsP⟩ := scanned_spec env h2
      rw [hsome] at hscan h3
      simp only [if_true] at hscan h3
      have hall : (drained s).mProbes.filter (fun p => decide (env.getNumRefs p ≠ 1)) =
          (drained s).mProbes := by
        rw [List.filter_eq_self]
        intro q hq
        simpa using hgc q hq
      rw [hall] at hsP
      have hstep := stepped_fields env h2
      have hst : stepped env (drained s) = doProbeUpdate env (drained s) := by
        unfold stepped; rw [if_pos hsome]
      rw [hst] at hstep
      funext i
      have hiff := hscan.free i
      have hd := hdfree i
      rw [hstep.2.1] at hiff
      have hno : ¬ ∃ p ∈ (doProbeUpdate env (drained s)).mProbes,
          p ∉ (scanned N env (drained s)).m.mProbes ∧
          ((doProbeUpdate env (drained s)).heap p).mCubeIndex = i ∧ i ≠ -1 := by
        rintro ⟨r, hr1, hr2, -⟩
        rw [hsP, ← hstep.1] at hr2
        exact hr2 hr1
      have hno2 : ¬ ∃ p ∈ s.mProbes, p ∈ s.mKillList ∧ (s.heap p).mCubeIndex = i ∧ i ≠ -1 := by
        rintro ⟨r, -, hr2, -⟩
        rw [hK] at hr2
        exact absurd hr2 (List.not_mem_nil r)
      have e1 : (scanned N env (drained s)).m.mCubeFree i = true ↔ s.mCubeFree i = true := by
        rw [hiff, hd]
        constructor
        · rintro (hx | hx)
          · rcases hx with hx | hx
            · exact hx
            · exact absurd hx hno2
          · exact absurd hx hno
        · intro hx; exact Or.inl (Or.inl hx)
      cases hb : s.mCubeFree i with
      | true => exact e1.mpr hb
      | false =>
        cases hb2 : (scanned N env (drained s)).m.mCubeFree i with
        | true => rw [e1.mp hb2] at hb; exact absurd hb (by decide)
        | false => rfl
  · intro hU
    obtain ⟨hU2, hF2⟩ := hdidle hU
    have hsome : (drained s).mUpdatingProbe.isSome = false := by rw [hU2]; rfl
    by_cases hne : (drained s).mProbes = []
    · have hup := (update_stages N env s hg1 hg2 hg3).1 hne
      rw [hup]
      refine ⟨fun _ q => by rw [hdh q], fun p hp => ?_⟩
      rw [hU2] at hp
      exact absurd hp (by simp)
    · obtain ⟨hheap, hcur, -⟩ := update_scheduled N env s hg1 hg2 hg3 hne
      obtain ⟨h4, hpos, -, -⟩ := scheduled_frame env h2
      have hsch : scheduled N env (drained s) =
          switchToOldest N env false
            (updateRealtime env (scanned N env (drained s)).m
              (scanned N env (drained s)).closestDynamic)
            (scanned N env (drained s)).oldestProbe := by
        show switchToOldest N env (drained s).mUpdatingProbe.isSome _ _ = _
        rw [hsome]
      have hpre := prescan_cube env h hU2
      cases ho : (scanned N env (drained s)).oldestProbe with
      | none =>
        have hs4 : scheduled N env (drained s) =
            updateRealtime env (scanned N env (drained s)).m
              (scanned N env (drained s)).closestDynamic := by
          rw [hsch, ho]; rfl
        have hnone : (s.update N env).mUpdatingProbe = none := by
          rw [hcur, hs4, (updateRealtime_log env _ _).2.1]
          obtain ⟨-, hscan, -⟩ := scanned_spec env h2
          rw [hsome] at hscan
          simp only [Bool.false_eq_true, if_false] at hscan
          exact (hscan.cursorIdle hU2).1
        refine ⟨fun _ q => by rw [hheap, hs4]; exact hpre q, fun p hp => ?_⟩
        rw [hnone] at hp
        exact absurd hp (by simp)
      | some o =>
        obtain ⟨hU4, j, hjN, hj⟩ := hpos o ho hsome
        obtain ⟨slot, heap2, free2, -, heq, hs0, hsN, hh2, hkeepslot, hnew⟩ :=
          switchToOldest_spec env h4 hU4 j hjN o hj
        rw [← ho, ← hsch] at heq
        have hsel : (s.update N env).mUpdatingProbe = some o := by
          rw [hcur, heq]
          exact ho
        have hcube : ∀ q, ((s.update N env).heap q).mCubeIndex = (heap2 q).mCubeIndex := by
          intro q
          rw [hheap, heq]
          show (Function.update heap2 o _ q).mCubeIndex = _
          by_cases hq : q = o
          · subst hq; rw [Function.update_same]
          · rw [Function.update_noteq hq]
        refine ⟨fun hn => ?_, fun p hp => ?_⟩
        · rw [hsel] at hn
          exact absurd hn (by simp)
        · rw [hsel] at hp
          have hpo : o = p := by simpa using hp
          subst hpo
          have hco : ((s.update N env).heap o).mCubeIndex = slot := by
            rw [hcube o, hh2]
          rw [hpre o] at hkeepslot hnew
          refine ⟨fun hc => ?_, fun _ => ?_, ?_⟩
          · rw [hco, (hkeepslot hc).1]
          · rw [hco]; exact ⟨hs0, hsN⟩
          · by_cases hc : (s.heap o).mCubeIndex = -1
            · rcases hnew hc with ⟨-, -, hothers⟩ | ⟨-, -, k, -, -, hkne, hkslot, -, hkv, hothers⟩
              · refine ⟨none, fun q hq _ => ?_, fun v hv => absurd hv (by simp)⟩
                rw [hcube q, hothers q hq, hpre q]
              · refine ⟨some ((updateRealtime env (scanned N env (drained s)).m
                  (scanned N env (drained s)).closestDynamic).probeAt k), fun q hq hqv => ?_,
                  fun v hv => ?_⟩
                · rw [hcube q, hothers q hq (fun e => hqv (by rw [e])), hpre q]
                · have hvk : (updateRealtime env (scanned N env (drained s)).m
                      (scanned N env (drained s)).closestDynamic).probeAt k = v := by
                    simpa using hv
                  rw [hvk] at hkne hkslot hkv
                  rw [hpre v] at hkslot
                  refine ⟨hkne, hc, ?_, ?_, ?_⟩
                  · rw [hkslot]
                    intro hneg
                    rw [hneg] at hs0
                    exact absurd hs0 (by decide)
                  · rw [hkslot, hco]
                  · rw [hcube v, hkv]
            · refine ⟨none, fun q hq _ => ?_, fun v hv => absurd hv (by simp)⟩
              rw [hcube q, (hkeepslot hc).2.1, hpre q]

/-- C24, witness: the example with a pool of two slots.  Its second tick
starts with the capture of probe 0 in progress and changes no slot and no
flag of the pool; its first tick starts idle and selects probe 0, which had
no slot. -/
theorem update_slots_step_witness :
    Reachable 2 (exampleTicks 1) ∧ exampleEnv.sRenderPBR = true ∧
    exampleEnv.gTeleportDisplay = false ∧ exampleEnv.logoutRequestSent = false ∧
    (exampleTicks 1).mUpdatingProbe = some 0 ∧ (exampleTicks 1).mKillList = [] ∧
    (∀ q ∈ (drained (exampleTicks 1)).mProbes, exampleEnv.getNumRefs q ≠ 1) ∧
    ((∀ q, (((exampleTicks 1).update 2 exampleEnv).heap q).mCubeIndex =
        ((exampleTicks 1).heap q).mCubeIndex) ∧
      ((exampleTicks 1).update 2 exampleEnv).mCubeFree = (exampleTicks 1).mCubeFree) ∧
    exampleStart.mUpdatingProbe = none ∧
    (exampleStart.update 2 exampleEnv).mUpdatingProbe = some 0 ∧
    (exampleStart.heap 0).mCubeIndex = -1 ∧
    (0 ≤ ((exampleStart.update 2 exampleEnv).heap 0).mCubeIndex ∧
      ((exampleStart.update 2 exampleEnv).heap 0).mCubeIndex < ((2 : Nat) : Int)) :=
  ⟨exampleTicks_reachable 1, rfl, rfl, rfl, by decide, by decide, by decide,
    (update_slots_step (exampleTicks 1) (exampleTicks_reachable 1) exampleEnv rfl rfl rfl).1 0
      (by decide) (by decide) (by decide),
    by decide, by decide, by decide,
    (((update_slots_step exampleStart exampleStart_reachable exampleEnv rfl rfl rfl).2
      (by decide)).2 0 (by decide)).2.1 (by decide)⟩

/-- With empty queues the draining of the queues changes nothing. -/
theorem drained_quiet (s : LLReflectionMapManager) (hK : s.mKillList = [])
    (hC : s.mCreateList = []) : drained s = s := by
  unfold drained
  rw [processCreateList_eq]
  unfold processKillList
  rw [hK]
  simp only [List.foldl_nil, hC, List.append_nil]
  cases s
  simp only [LLReflectionMapManager.mk.injEq] at *
  simp_all

/-- The time stamp and the cube array of a probe across the scheduler: the
stamp is kept or set to the frame time, and it is set only for the probe
under the cursor, before or after, and for a probe with a cube array; a cube
array is given only to the probe an idle scheduler selects. -/
theorem scheduled_stamps {N : Nat} (env : Env) {s2 : LLReflectionMapManager}
    (h : ManagerInv N s2) (q : ProbePtr) :
    (((scheduled N env s2).heap q).mLastUpdateTime = (s2.heap q).mLastUpdateTime ∨
      (((scheduled N env s2).heap q).mLastUpdateTime = env.gFrameTimeSeconds ∧
        (s2.mUpdatingProbe = some q ∨ (scheduled N env s2).mUpdatingProbe = some q ∨
          (s2.heap q).mCubeArray = true))) ∧
    (((scheduled N env s2).heap q).mCubeArray = true →
      (s2.heap q).mCubeArray = true ∨
        (s2.mUpdatingProbe = none ∧ (scheduled N env s2).mUpdatingProbe = some q)) := by
  obtain ⟨h3, hscan, hP⟩ := scanned_spec env h
  obtain ⟨h4, hpos, -, -⟩ := scheduled_frame env h
  -- the state when the scan ends
  have hpre : ∀ r, (((scanned N env s2).m.heap r).mLastUpdateTime = (s2.heap r).mLastUpdateTime ∨
        (((scanned N env s2).m.heap r).mLastUpdateTime = env.gFrameTimeSeconds ∧
          s2.mUpdatingProbe = some r)) ∧
      ((scanned N env s2).m.heap r).mCubeArray = (s2.heap r).mCubeArray := by
    intro r
    rw [hscan.frame r]
    cases hU : s2.mUpdatingProbe with
    | none => exact ⟨Or.inl rfl, rfl⟩
    | some p =>
      obtain ⟨-, hheap, -⟩ := doProbeUpdate_spec env h.nbr p hU (h.cursor.live p hU) h.cursor.face
      simp only [Option.isSome_some, if_true]
      rw [hheap r]
      refine ⟨?_, rfl⟩
      show (if r = p then _ else _) = _ ∨ _
      by_cases hr : r = p
      · rw [if_pos hr]; right; exact ⟨rfl, by rw [hr]⟩
      · rw [if_neg hr]; left; rfl
  -- the realtime block
  have hrt : ∀ r, (((updateRealtime env (scanned N env s2).m
        (scanned N env s2).closestDynamic).heap r).mLastUpdateTime =
          (s2.heap r).mLastUpdateTime ∨
      (((updateRealtime env (scanned N env s2).m
        (scanned N env s2).closestDynamic).heap r).mLastUpdateTime = env.gFrameTimeSeconds ∧
        (s2.mUpdatingProbe = some r ∨ (s2.heap r).mCubeArray = true))) ∧
      ((updateRealtime env (scanned N env s2).m
        (scanned N env s2).closestDynamic).heap r).mCubeArray = (s2.heap r).mCubeArray := by
    intro r
    obtain ⟨hoff, hon⟩ := updateRealtime_spec env (scanned N env s2).m
      (scanned N env s2).closestDynamic
    by_cases hc : env.realtime = false ∨ (scanned N env s2).closestDynamic = none
    · rw [hoff hc]
      refine ⟨?_, (hpre r).2⟩
      rcases (hpre r).1 with hx | hx
      · exact Or.inl hx
      · exact Or.inr ⟨hx.1, Or.inl hx.2⟩
    · have hrt1 : env.realtime = true := by
        cases hx : env.realtime
        · exact absurd (Or.inl hx) hc
        · rfl
      cases hcd : (scanned N env s2).closestDynamic with
      | none => exact absurd (Or.inr hcd) hc
      | some c =>
        rw [← hcd, hon c hrt1 hcd]
        by_cases hr : r = c
        · subst hr
          simp only [Function.update_same]
          refine ⟨Or.inr ⟨trivial, Or.inr ?_⟩, (hpre r).2⟩
          have hfind := hscan.closest hrt1
          rw [hcd] at hfind
          have hsat := List.find?_some hfind.symm
          simp only [Bool.and_eq_true] at hsat
          have harr : ((if s2.mUpdatingProbe.isSome = true then doProbeUpdate env s2
              else s2).heap r).mCubeArray = (s2.heap r).mCubeArray := by
            cases hU : s2.mUpdatingProbe with
            | none => rfl
            | some p =>
              obtain ⟨-, hheap, -⟩ :=
                doProbeUpdate_spec env h.nbr p hU (h.cursor.live p hU) h.cursor.face
              simp only [Option.isSome_some, if_true]
              rw [hheap r]
          rw [← harr]
          exact hsat.1
        · simp only [Function.update_noteq hr]
          refine ⟨?_, (hpre r).2⟩
          rcases (hpre r).1 with hx | hx
          · exact Or.inl hx
          · exact Or.inr ⟨hx.1, Or.inl hx.2⟩
  -- the switch to the oldest probe
  cases hd : s2.mUpdatingProbe.isSome with
  | true =>
    have hout : scheduled N env s2 =
        updateRealtime env (scanned N env s2).m (scanned N env s2).closestDynamic := by
      show switchToOldest N env s2.mUpdatingProbe.isSome _ _ = _
      rw [hd]
      unfold switchToOldest
      cases (scanned N env s2).oldestProbe <;> simp
    rw [hout]
    refine ⟨?_, fun ha => Or.inl (by rw [← (hrt q).2]; exact ha)⟩
    rcases (hrt q).1 with hx | hx
    · exact Or.inl hx
    · rcases hx.2 with hy | hy
      · exact Or.inr ⟨hx.1, Or.inl hy⟩
      · exact Or.inr ⟨hx.1, Or.inr (Or.inr hy)⟩
  | false =>
    have hU2 : s2.mUpdatingProbe = none := by
      cases hx : s2.mUpdatingProbe with
      | none => rfl
      | some p => rw [hx] at hd; exact absurd hd (by simp)
    cases ho : (scanned N env s2).oldestProbe with
    | none =>
      have hout : scheduled N env s2 =
          updateRealtime env (scanned N env s2).m (scanned N env s2).closestDynamic := by
        show switchToOldest N env s2.mUpdatingProbe.isSome _ _ = _
        rw [ho]; rfl
      rw [hout]
      refine ⟨?_, fun ha => Or.inl (by rw [← (hrt q).2]; exact ha)⟩
      rcases (hrt q).1 with hx | hx
      · exact Or.inl hx
      · rcases hx.2 with hy | hy
        · exact Or.inr ⟨hx.1, Or.inl hy⟩
        · exact Or.inr ⟨hx.1, Or.inr (Or.inr hy)⟩
    | some o =>
      obtain ⟨hU4, j, hjN, hj⟩ := hpos o ho hd
      obtain ⟨slot, heap2, free2, -, heq, -, -, hprobe, hkeep, hclaim⟩ :=
        switchToOldest_spec env h4 hU4 j hjN o hj
      have hout : scheduled N env s2 = switchToOldest N env false
          (updateRealtime env (scanned N env s2).m (scanned N env s2).closestDynamic)
          (some o) := by
        show switchToOldest N env s2.mUpdatingProbe.isSome _ _ = _
        rw [hd, ho]
      rw [hout, heq]
      have hheap2 : ∀ r, r ≠ o →
          (heap2 r).mLastUpdateTime = ((updateRealtime env (scanned N env s2).m
            (scanned N env s2).closestDynamic).heap r).mLastUpdateTime ∧
          (heap2 r).mCubeArray = ((updateRealtime env (scanned N env s2).m
            (scanned N env s2).closestDynamic).heap r).mCubeArray := by
        intro r hr
        by_cases hc : ((updateRealtime env (scanned N env s2).m
            (scanned N env s2).closestDynamic).heap o).mCubeIndex = -1
        · rcases hclaim hc with ⟨-, -, hrest⟩ | ⟨-, -, k, -, -, -, -, -, hvict, hrest⟩
          · rw [hrest r hr]; exact ⟨rfl, rfl⟩
          · by_cases hrv : r = (updateRealtime env (scanned N env s2).m
                (scanned N env s2).closestDynamic).probeAt k
            · rw [hrv, hvict]; exact ⟨rfl, rfl⟩
            · rw [hrest r hr hrv]; exact ⟨rfl, rfl⟩
        · rw [(hkeep hc).2.1]; exact ⟨rfl, rfl⟩
      by_cases hq : q = o
      · subst hq
        simp only [Function.update_same]
        exact ⟨Or.inr ⟨trivial, Or.inr (Or.inl trivial)⟩, fun _ => Or.inr ⟨hU2, trivial⟩⟩
      · simp only [Function.update_noteq hq]
        obtain ⟨e1, e2⟩ := hheap2 q hq
        rw [e1, e2]
        refine ⟨?_, fun ha => Or.inl (by rw [← (hrt q).2]; exact ha)⟩
        rcases (hrt q).1 with hx | hx
        · exact Or.inl hx
        · rcases hx.2 with hy | hy
          · exact Or.inr ⟨hx.1, Or.inl hy⟩
          · exact Or.inr ⟨hx.1, Or.inr (Or.inr hy)⟩

/-- One tick of the static scene, whatever the cursor: the probes stay, where
they were, the queues stay empty, and `mProbes` ends sorted by distance. -/
theorem quiet_tick {N : Nat} {s0 s : LLReflectionMapManager} {dist : ProbePtr → Int}
    {A : List ProbePtr} (hc : CaptureInv N s0 dist A s) (env : Env)
    (he : StaticScene s0 dist env) (hne : s0.mProbes ≠ [])
    (hinj : ∀ a ∈ s0.mProbes, ∀ b ∈ s0.mProbes, dist a = dist b → a = b) :
    drained s = s ∧
    ManagerInv N (s.update N env) ∧
    (s.update N env).mProbes.Perm s0.mProbes ∧
    ((s.update N env).mKillList = [] ∧ (s.update N env).mCreateList = []) ∧
    (∀ q ∈ s0.mProbes, ((s.update N env).heap q).mOrigin = (s0.heap q).mOrigin ∧
      ((s.update N env).heap q).mRadius = (s0.heap q).mRadius) ∧
    (s.update N env).mProbes.Pairwise (fun a b => dist a < dist b) ∧
    (s.update N env).heap = (scheduled N env s).heap ∧
    (s.update N env).mUpdatingProbe = (scheduled N env s).mUpdatingProbe ∧
    (s.update N env).mUpdatingFace = (scheduled N env s).mUpdatingFace ∧
    s.mProbes.filter (fun p => decide (env.getNumRefs p ≠ 1)) = s.mProbes := by
  have hd : drained s = s := drained_quiet s hc.quiet.1 hc.quiet.2
  have hmem : ∀ q, q ∈ s.mProbes ↔ q ∈ s0.mProbes := fun q => hc.perm.mem_iff
  have hne2 : (drained s).mProbes ≠ [] := by
    rw [hd]
    intro h0
    have := hc.perm.length_eq
    rw [h0] at this
    exact hne (List.length_eq_zero.mp this.symm)
  have hall : s.mProbes.filter (fun p => decide (env.getNumRefs p ≠ 1)) = s.mProbes := by
    rw [List.filter_eq_self]
    intro q hq
    simpa using he.held q ((hmem q).mp hq)
  obtain ⟨hheap, hperm, hsorted⟩ :=
    update_sorted hc.inv env he.pbr he.noTeleport he.noLogout he.sort hne2
  obtain ⟨-, hcur, hface, -⟩ := update_scheduled N env s he.pbr he.noTeleport he.noLogout hne2
  rw [hd] at hheap hperm hcur hface
  rw [hall] at hperm
  have hinv' := update_inv env he.sort hc.inv
  have hperm' : (s.update N env).mProbes.Perm s0.mProbes := hperm.trans hc.perm
  have hmem' : ∀ q, q ∈ (s.update N env).mProbes ↔ q ∈ s0.mProbes := fun q => hperm'.mem_iff
  refine ⟨hd, hinv', hperm', update_queues_empty hc.inv env he.pbr he.noTeleport he.noLogout,
    ?_, ?_, hheap, hcur, hface, hall⟩
  · intro q hq
    obtain ⟨ho, hr, -⟩ := scheduled_heap_fields env hc.inv q
    rw [hheap]
    have horig := he.origin q hq
    constructor
    · rcases ho with ho | ho
      · rw [ho]; exact (hc.static q hq).1
      · rw [ho, horig]
    · rcases hr with hr | hr
      · rw [hr]; exact (hc.static q hq).2
      · rw [hr, horig]
  · have hdist : ∀ q ∈ (s.update N env).mProbes, ((s.update N env).heap q).mDistance = dist q := by
      intro q hq
      have hq0 : q ∈ s0.mProbes := (hmem' q).mp hq
      have hqs : q ∈ s.mProbes := (hmem q).mpr hq0
      obtain ⟨k, hk, hkq⟩ := List.getElem_of_mem hqs
      have hk' : ((drained s).mProbes.filter (fun p => decide (env.getNumRefs p ≠ 1)))[k]? =
          some q := by
        rw [hd, hall, List.getElem?_eq_getElem hk, hkq]
      have hsv := (scheduled_survivor env hc.inv k q hk').2
      rw [hd] at hsv
      rw [hheap, hsv, (hc.static q hq0).1, (hc.static q hq0).2]
      exact he.distance q hq0
    have hnd : (s.update N env).mProbes.Nodup := hinv'.nbr.nodup
    refine (hsorted.and hnd).imp_of_mem ?_
    intro a b ha hb hab
    rw [hdist a ha, hdist b hb] at hab
    exact lt_of_le_of_ne hab.1
      (fun e => hab.2 (hinj a ((hmem' a).mp ha) b ((hmem' b).mp hb) e))

/-- One tick of the static scene with a capture in progress: nothing is
selected, and the cursor moves one face on, or goes idle after face 5. -/
theorem capture_tick {N : Nat} {s0 s : LLReflectionMapManager} {dist : ProbePtr → Int}
    {A : List ProbePtr} (hc : CaptureInv N s0 dist A s) (env : Env)
    (he : StaticScene s0 dist env) (hne : s0.mProbes ≠ [])
    (hinj : ∀ a ∈ s0.mProbes, ∀ b ∈ s0.mProbes, dist a = dist b → a = b)
    (p : ProbePtr) (hU : s.mUpdatingProbe = some p) :
    CaptureInv N s0 dist A (s.update N env) ∧
    (s.mUpdatingFace < 5 →
      (s.update N env).mUpdatingProbe = some p ∧
      (s.update N env).mUpdatingFace = s.mUpdatingFace + 1) ∧
    (s.mUpdatingFace = 5 → (s.update N env).mUpdatingProbe = none) := by
  obtain ⟨hd, hinv', hperm', hquiet', hstatic', hsorted', hheap, hcur, hface, hall⟩ :=
    quiet_tick hc env he hne hinj
  have hpA : p ∈ A := hc.cursor p hU
  have hp0 : p ∈ s0.mProbes := (hc.captured p hpA).1
  obtain ⟨-, hlt, h5⟩ := update_capturing hc.inv env he.pbr he.noTeleport he.noLogout p hU
    (by rw [hc.quiet.1]; exact List.not_mem_nil p) (he.held p hp0)
  have hsome : s.mUpdatingProbe.isSome = true := by rw [hU]; rfl
  have hcube : ∀ q, ((s.update N env).heap q).mCubeIndex = (s.heap q).mCubeIndex := by
    intro q
    rw [hheap]
    exact (scheduled_heap_fields env hc.inv q).2.2.2 hsome
  have hcur' : ∀ q, (s.update N env).mUpdatingProbe = some q → q = p := by
    intro q hq
    by_cases hf : s.mUpdatingFace < 5
    · rw [(hlt hf).1] at hq
      exact (Option.some.inj hq).symm
    · have hf5 : s.mUpdatingFace = 5 := by
        have := hc.inv.cursor.face
        omega
      rw [(h5 hf5).1] at hq
      exact absurd hq (by simp)
  refine ⟨⟨hinv', hperm', hquiet', hstatic', ?_, ?_, hc.nodup, hc.who, hc.first, ?_, ?_⟩, hlt,
    fun h => (h5 h).1⟩
  · intro q hq
    obtain ⟨h1, h2, h3⟩ := hc.captured q hq
    refine ⟨h1, by rw [hcube q]; exact h2, ?_⟩
    rw [hheap]
    rcases (scheduled_stamps env hc.inv q).1 with hx | hx
    · rw [hx]; exact h3
    · rw [hx.1]; exact he.time
  · intro q hq hqA
    obtain ⟨h1, h2, h3⟩ := hc.waiting q hq hqA
    have hqp : q ≠ p := fun e => hqA (e ▸ hpA)
    refine ⟨by rw [hcube q]; exact h1, ?_, ?_⟩
    · rw [hheap]
      rcases (scheduled_stamps env hc.inv q).1 with hx | ⟨-, hx | hx | hx⟩
      · rw [hx]; exact h2
      · rw [hU] at hx; exact absurd (Option.some.inj hx).symm hqp
      · rw [← hcur] at hx; exact absurd (hcur' q hx) hqp
      · rw [h3] at hx; exact absurd hx (by decide)
    · cases harr : ((s.update N env).heap q).mCubeArray with
      | false => rfl
      | true =>
        rw [hheap] at harr
        rcases (scheduled_stamps env hc.inv q).2 harr with hx | hx
        · rw [h3] at hx; exact absurd hx (by decide)
        · rw [hU] at hx; exact absurd hx.1 (by simp)
  · intro q hq
    rw [hcur' q hq]; exact hpA
  · exact Or.inr ⟨List.ne_nil_of_mem hpA, hsorted'⟩

/-- The scheduler on an idle cursor when a slot is free: the probe it selects,
if that has no slot, takes a free slot, no other probe loses its slot, the
selected probe is stamped with the frame time, and the cursor ends on its
face 1. -/
theorem idle_claims_free {N : Nat} (env : Env) {s : LLReflectionMapManager}
    (h : ManagerInv N s) (hU : s.mUpdatingProbe = none) (p : ProbePtr)
    (hp : (scheduled N env s).mUpdatingProbe = some p)
    (hfree : ∃ i : Nat, i < N ∧ s.mCubeFree (i : Int) = true)
    (hcp : (s.heap p).mCubeIndex = -1) :
    (∀ q, q ≠ p → ((scheduled N env s).heap q).mCubeIndex = (s.heap q).mCubeIndex) ∧
    ((scheduled N env s).heap p).mLastUpdateTime = env.gFrameTimeSeconds ∧
    0 ≤ ((scheduled N env s).heap p).mCubeIndex ∧
    ((scheduled N env s).heap p).mCubeIndex < (N : Int) ∧
    (scheduled N env s).mUpdatingFace = 1 := by
  obtain ⟨-, hscan, -⟩ := scanned_spec env h
  obtain ⟨h4, hpos, -, -⟩ := scheduled_frame env h
  have hsome : s.mUpdatingProbe.isSome = false := by rw [hU]; rfl
  rw [hsome] at hscan
  simp only [Bool.false_eq_true, if_false] at hscan
  have hpre : ∀ q, ((updateRealtime env (scanned N env s).m
      (scanned N env s).closestDynamic).heap q).mCubeIndex = (s.heap q).mCubeIndex := by
    intro q
    rw [(updateRealtime_log env _ _).2.2.2.2.2 q]
    show ((scanned N env s).m.heap q).mCubeIndex = _
    rw [hscan.frame q]
  have hsch : scheduled N env s =
      switchToOldest N env false
        (updateRealtime env (scanned N env s).m (scanned N env s).closestDynamic)
        (scanned N env s).oldestProbe := by
    show switchToOldest N env s.mUpdatingProbe.isSome _ _ = _
    rw [hsome]
  cases ho : (scanned N env s).oldestProbe with
  | none =>
    have hs4 : scheduled N env s =
        updateRealtime env (scanned N env s).m (scanned N env s).closestDynamic := by
      rw [hsch, ho]; rfl
    rw [hs4, (updateRealtime_log env _ _).2.1, (hscan.cursorIdle hU).1] at hp
    exact absurd hp (by simp)
  | some o =>
    obtain ⟨hU4, j, hjN, hj⟩ := hpos o ho hsome
    obtain ⟨slot, heap2, free2, -, heq, hs0, hsN, hh2, -, hnew⟩ :=
      switchToOldest_spec env h4 hU4 j hjN o hj
    rw [← ho, ← hsch] at heq
    have hop : o = p := by
      rw [heq] at hp
      have hp' : (scanned N env s).oldestProbe = some p := hp
      rw [ho] at hp'
      exact Option.some.inj hp'
    subst hop
    have hc4 : ((updateRealtime env (scanned N env s).m
        (scanned N env s).closestDynamic).heap o).mCubeIndex = -1 := by
      rw [hpre o]; exact hcp
    obtain ⟨i, hiN, hifree⟩ := hfree
    have hfree4 : (updateRealtime env (scanned N env s).m
        (scanned N env s).closestDynamic).mCubeFree (i : Int) = true := by
      rw [(updateRealtime_log env _ _).2.2.2.1]
      exact (hscan.free (i : Int)).mpr (Or.inl hifree)
    have hcube : ∀ q, ((scheduled N env s).heap q).mCubeIndex = (heap2 q).mCubeIndex := by
      intro q
      rw [heq]
      show (Function.update heap2 o _ q).mCubeIndex = _
      by_cases hq : q = o
      · subst hq; rw [Function.update_same]
      · rw [Function.update_noteq hq]
    have hco : ((scheduled N env s).heap o).mCubeIndex = slot := by rw [hcube o, hh2]
    refine ⟨?_, ?_, by rw [hco]; exact hs0, by rw [hco]; exact hsN, by rw [heq]⟩
    · intro q hq
      rcases hnew hc4 with ⟨-, -, hothers⟩ | ⟨hnone, -⟩
      · rw [hcube q, hothers q hq, hpre q]
      · rw [hnone i hiN] at hfree4
        exact absurd hfree4 (by decide)
    · rw [heq]
      show (Function.update heap2 o _ o).mLastUpdateTime = _
      rw [Function.update_same]

/-- While fewer than `N` live probes hold a slot, a slot of the pool is
free. -/
theorem free_slot_of_few_owners {N : Nat} {s : LLReflectionMapManager} (h : PoolInv N s)
    (A : List ProbePtr) (hown : ∀ q ∈ s.mProbes, (s.heap q).mCubeIndex ≠ -1 → q ∈ A)
    (hA : A.length < N) : ∃ i : Nat, i < N ∧ s.mCubeFree (i : Int) = true := by
  by_contra hno
  have hall : ∀ i : Nat, i < N → s.mCubeFree (i : Int) = false := by
    intro i hi
    cases hf : s.mCubeFree (i : Int) with
    | false => rfl
    | true => exact absurd ⟨i, hi, hf⟩ hno
  have hsub : List.range N ⊆ A.map (fun p => ((s.heap p).mCubeIndex).toNat) := by
    intro i hi
    have hiN : i < N := List.mem_range.mp hi
    obtain ⟨p, hp, hpc⟩ := (h.used (i : Int) (Int.natCast_nonneg _) (by exact_mod_cast hiN)).mp
      (hall i hiN)
    have hpA : p ∈ A := hown p hp (by rw [hpc]; omega)
    rw [List.mem_map]
    exact ⟨p, hpA, by rw [hpc]; rfl⟩
  have hle := (List.subperm_of_subset (List.nodup_range N) hsub).length_le
  rw [List.length_range, List.length_map] at hle
  omega

/-- One tick of the static scene with an idle cursor while fewer than `N`
probes have been selected: a probe that was not selected before is selected,
takes a free slot, and ends under the cursor on face 1. -/
theorem idle_tick {N : Nat} {s0 s : LLReflectionMapManager} {dist : ProbePtr → Int}
    {A : List ProbePtr} (hc : CaptureInv N s0 dist A s) (env : Env)
    (he : StaticScene s0 dist env) (hlen : s0.mProbes.length = N + 2)
    (hinj : ∀ a ∈ s0.mProbes, ∀ b ∈ s0.mProbes, dist a = dist b → a = b)
    (hU : s.mUpdatingProbe = none) (hA : A.length < N) :
    ∃ p, CaptureInv N s0 dist (A ++ [p]) (s.update N env) ∧
      (s.update N env).mUpdatingProbe = some p ∧ (s.update N env).mUpdatingFace = 1 := by
  have hne : s0.mProbes ≠ [] := by
    intro h0; rw [h0] at hlen; simp at hlen
  obtain ⟨hd, hinv', hperm', hquiet', hstatic', hsorted', hheap, hcur, hface, hall⟩ :=
    quiet_tick hc env he hne hinj
  have hmem : ∀ q, q ∈ s.mProbes ↔ q ∈ s0.mProbes := fun q => hc.perm.mem_iff
  have hlen_s : s.mProbes.length = N + 2 := by rw [hc.perm.length_eq, hlen]
  obtain ⟨hold, -, hsel⟩ := scheduled_idle env hc.inv hU
  rw [hall] at hold
  -- a candidate that was not selected before
  have hcl : (s.mProbes.take N).length = N := by
    rw [List.length_take, hlen_s]; omega
  have hcnd : (s.mProbes.take N).Nodup := hc.inv.nbr.nodup.sublist (List.take_sublist _ _)
  have hu : ∃ u ∈ s.mProbes.take N, u ∉ A := by
    by_contra hno
    have hsub : s.mProbes.take N ⊆ A := by
      intro u hu
      by_contra hx
      exact hno ⟨u, hu, hx⟩
    have := (List.subperm_of_subset hcnd hsub).length_le
    omega
  obtain ⟨u, hu1, hu2⟩ := hu
  have hu0 : u ∈ s0.mProbes := (hmem u).mp (List.mem_of_mem_take hu1)
  have htu : (s.heap u).mLastUpdateTime = 0 := (hc.waiting u hu0 hu2).2.1
  cases hsp : (scheduled N env s).mUpdatingProbe with
  | none =>
    rw [hsp] at hold
    have hnil : s.mProbes.take N = [] := hold
    rw [hnil] at hu1
    exact absurd hu1 (List.not_mem_nil u)
  | some p =>
    rw [hsp] at hold
    obtain ⟨a, b, hab, ha0, hb0⟩ := hold
    have ha : ∀ q ∈ a, (s.heap p).mLastUpdateTime < (s.heap q).mLastUpdateTime := ha0
    have hb : ∀ q ∈ b, (s.heap p).mLastUpdateTime ≤ (s.heap q).mLastUpdateTime := hb0
    have hpc : p ∈ s.mProbes.take N := by rw [hab]; simp
    have hp0 : p ∈ s0.mProbes := (hmem p).mp (List.mem_of_mem_take hpc)
    have htp : (s.heap p).mLastUpdateTime ≤ 0 := by
      rw [hab, List.mem_append, List.mem_cons] at hu1
      rcases hu1 with hx | hx | hx
      · have := ha u hx; rw [htu] at this; omega
      · rw [← hx, htu]
      · have := hb u hx; rw [htu] at this; exact this
    have hpA : p ∉ A := by
      intro hx
      have := (hc.captured p hx).2.2
      omega
    obtain ⟨hwc, hwt, hwa⟩ := hc.waiting p hp0 hpA
    -- who is selected
    have hwho : (A = [] ∧ s0.mProbes.head? = some p) ∨
        (A ≠ [] ∧ IsNear dist s0.mProbes p) := by
      rcases hc.order with ⟨hA0, hL⟩ | ⟨hA1, hsorted⟩
      · left
        refine ⟨hA0, ?_⟩
        have ha0 : a = [] := by
          cases a with
          | nil => rfl
          | cons x xs =>
            have hx : x ∈ s.mProbes.take N := by rw [hab]; simp
            have hx0 : x ∈ s0.mProbes := (hmem x).mp (List.mem_of_mem_take hx)
            have htx := (hc.waiting x hx0 (by rw [hA0]; exact List.not_mem_nil x)).2.1
            have := ha x (List.mem_cons_self _ _)
            rw [htx, hwt] at this
            exact absurd this (lt_irrefl _)
        rw [ha0, List.nil_append, hL] at hab
        cases hL0 : s0.mProbes with
        | nil => exact absurd hL0 hne
        | cons x xs =>
          rw [hL0] at hab
          cases N with
          | zero => exact absurd hA (Nat.not_lt_zero _)
          | succ n =>
            rw [List.take_succ_cons] at hab
            rw [List.head?_cons, (List.cons.inj hab).1]
      · right
        refine ⟨hA1, ?_⟩
        obtain ⟨k, hk, hkp⟩ := List.getElem_of_mem hpc
        have hkN : k < N := by rw [hcl] at hk; exact hk
        have hkl : k < s.mProbes.length := by omega
        have hNl : N < s.mProbes.length := by omega
        have hMl : N + 1 < s.mProbes.length := by omega
        have hkp' : s.mProbes[k] = p := by
          rw [List.getElem_take] at hkp; exact hkp
        have hpw := List.pairwise_iff_getElem.mp hsorted
        have h1 := hpw k N hkl hNl (by omega)
        have h2 := hpw k (N + 1) hkl hMl (by omega)
        rw [hkp'] at h1 h2
        refine ⟨s.mProbes[N], (hmem _).mp (List.getElem_mem _),
          s.mProbes[N + 1], (hmem _).mp (List.getElem_mem _), ?_, h1, h2⟩
        intro heq
        have := (List.Nodup.getElem_inj_iff hc.inv.nbr.nodup).mp heq
        omega
    -- a slot is free
    have hfree := free_slot_of_few_owners hc.inv.pool A (by
      intro q hq hqc
      by_contra hx
      exact hqc (hc.waiting q ((hmem q).mp hq) hx).1) hA
    obtain ⟨hothers, hstamp, hs0, hsN, hface1⟩ := idle_claims_free env hc.inv hU p hsp hfree hwc
    have hcurp : (s.update N env).mUpdatingProbe = some p := by rw [hcur, hsp]
    refine ⟨p, ⟨hinv', hperm', hquiet', hstatic', ?_, ?_, ?_, ?_, ?_, ?_, ?_⟩, hcurp,
      by rw [hface, hface1]⟩
    · intro q hq
      rw [List.mem_append, List.mem_singleton] at hq
      rcases hq with hq | hq
      · obtain ⟨h1, h2, h3⟩ := hc.captured q hq
        have hqp : q ≠ p := fun e => hpA (e ▸ hq)
        refine ⟨h1, by rw [hheap, hothers q hqp]; exact h2, ?_⟩
        rw [hheap]
        rcases (scheduled_stamps env hc.inv q).1 with hx | hx
        · rw [hx]; exact h3
        · rw [hx.1]; exact he.time
      · subst hq
        refine ⟨hp0, ?_, ?_⟩
        · rw [hheap]; omega
        · rw [hheap, hstamp]; exact he.time
    · intro q hq hqA
      rw [List.mem_append, List.mem_singleton, not_or] at hqA
      obtain ⟨h1, h2, h3⟩ := hc.waiting q hq hqA.1
      refine ⟨by rw [hheap, hothers q hqA.2]; exact h1, ?_, ?_⟩
      · rw [hheap]
        rcases (scheduled_stamps env hc.inv q).1 with hx | ⟨-, hx | hx | hx⟩
        · rw [hx]; exact h2
        · rw [hU] at hx; exact absurd hx (by simp)
        · rw [hsp] at hx; exact absurd (Option.some.inj hx).symm hqA.2
        · rw [h3] at hx; exact absurd hx (by decide)
      · cases harr : ((s.update N env).heap q).mCubeArray with
        | false => rfl
        | true =>
          rw [hheap] at harr
          rcases (scheduled_stamps env hc.inv q).2 harr with hx | hx
          · rw [h3] at hx; exact absurd hx (by decide)
          · rw [hsp] at hx; exact absurd (Option.some.inj hx.2).symm hqA.2
    · rw [List.nodup_append]
      refine ⟨hc.nodup, List.nodup_singleton p, ?_⟩
      intro x hx hx2
      rw [List.mem_singleton] at hx2
      exact hpA (hx2 ▸ hx)
    · intro q hq
      rw [List.mem_append, List.mem_singleton] at hq
      rcases hq with hq | hq
      · exact hc.who q hq
      · rw [hq]
        rcases hwho with hx | hx
        · exact Or.inl hx.2
        · exact Or.inr hx.2
    · intro _
      rcases hwho with ⟨hA0, hx⟩ | ⟨hA1, -⟩
      · rw [hA0, hx]; rfl
      · rw [List.head?_append_of_ne_nil _ hA1]
        exact hc.first hA1
    · intro q hq
      rw [hcurp] at hq
      rw [← Option.some.inj hq]
      simp
    · exact Or.inr ⟨by simp, hsorted'⟩

/-- One capture cycle of the static scene: six ticks from an idle cursor
select one more probe, capture its six faces and end with an idle cursor. -/
theorem capture_cycle {N : Nat} {s0 : LLReflectionMapManager} {dist : ProbePtr → Int}
    {A : List ProbePtr} (e : Nat → Env) (t : Nat)
    (hc : CaptureInv N s0 dist A (ticks N e t s0))
    (he : ∀ k, StaticScene s0 dist (e k)) (hlen : s0.mProbes.length = N + 2)
    (hinj : ∀ a ∈ s0.mProbes, ∀ b ∈ s0.mProbes, dist a = dist b → a = b)
    (hU : (ticks N e t s0).mUpdatingProbe = none) (hA : A.length < N) :
    ∃ p, CaptureInv N s0 dist (A ++ [p]) (ticks N e (t + 6) s0) ∧
      (ticks N e (t + 6) s0).mUpdatingProbe = none := by
  have hne : s0.mProbes ≠ [] := by
    intro h0; rw [h0] at hlen; simp at hlen
  have e1 : ticks N e (t + 1) s0 = (ticks N e t s0).update N (e t) := rfl
  have e2 : ticks N e (t + 2) s0 = (ticks N e (t + 1) s0).update N (e (t + 1)) := rfl
  have e3 : ticks N e (t + 3) s0 = (ticks N e (t + 2) s0).update N (e (t + 2)) := rfl
  have e4 : ticks N e (t + 4) s0 = (ticks N e (t + 3) s0).update N (e (t + 3)) := rfl
  have e5 : ticks N e (t + 5) s0 = (ticks N e (t + 4) s0).update N (e (t + 4)) := rfl
  have e6 : ticks N e (t + 6) s0 = (ticks N e (t + 5) s0).update N (e (t + 5)) := rfl
  obtain ⟨p, c1, u1, f1⟩ := idle_tick hc (e t) (he t) hlen hinj hU hA
  rw [← e1] at c1 u1 f1
  obtain ⟨c2, n2, -⟩ := capture_tick c1 (e (t + 1)) (he (t + 1)) hne hinj p u1
  rw [← e2] at c2 n2
  rw [f1] at n2
  obtain ⟨u2, f2⟩ := n2 (by omega)
  obtain ⟨c3, n3, -⟩ := capture_tick c2 (e (t + 2)) (he (t + 2)) hne hinj p u2
  rw [← e3] at c3 n3
  rw [f2] at n3
  obtain ⟨u3, f3⟩ := n3 (by omega)
  obtain ⟨c4, n4, -⟩ := capture_tick c3 (e (t + 3)) (he (t + 3)) hne hinj p u3
  rw [← e4] at c4 n4
  rw [f3] at n4
  obtain ⟨u4, f4⟩ := n4 (by omega)
  obtain ⟨c5, n5, -⟩ := capture_tick c4 (e (t + 4)) (he (t + 4)) hne hinj p u4
  rw [← e5] at c5 n5
  rw [f4] at n5
  obtain ⟨u5, f5⟩ := n5 (by omega)
  obtain ⟨c6, -, n6⟩ := capture_tick c5 (e (t + 5)) (he (t + 5)) hne hinj p u5
  rw [← e6] at c6 n6
  rw [f5] at n6
  exact ⟨p, c6, n6 rfl⟩

/-- The static scene from a start state with `N + 2` freshly registered
probes: after `c` capture cycles, `c <= N`, exactly `c` probes have been
selected and the cursor is idle. -/
theorem capture_cycles {N : Nat} {s0 : LLReflectionMapManager} (hr : Reachable N s0)
    (hlen : s0.mProbes.length = N + 2) (hidle : s0.mUpdatingProbe = none)
    (hquiet : s0.mKillList = [] ∧ s0.mCreateList = [])
    (hfresh : ∀ q ∈ s0.mProbes, (s0.heap q).mCubeIndex = -1 ∧
      (s0.heap q).mLastUpdateTime = 0 ∧ (s0.heap q).mCubeArray = false)
    (dist : ProbePtr → Int)
    (hinj : ∀ a ∈ s0.mProbes, ∀ b ∈ s0.mProbes, dist a = dist b → a = b)
    (e : Nat → Env) (he : ∀ k, StaticScene s0 dist (e k)) :
    ∀ c, c ≤ N → ∃ A : List ProbePtr, A.length = c ∧
      CaptureInv N s0 dist A (ticks N e (6 * c) s0) ∧
      (ticks N e (6 * c) s0).mUpdatingProbe = none := by
  intro c
  induction c with
  | zero =>
    intro _
    refine ⟨[], rfl, ⟨reachable_inv hr, List.Perm.refl _, hquiet, fun _ _ => ⟨rfl, rfl⟩, ?_,
      fun q hq _ => hfresh q hq, List.nodup_nil, ?_, fun h => absurd rfl h, ?_,
      Or.inl ⟨rfl, rfl⟩⟩, hidle⟩
    · intro q hq; exact absurd hq (List.not_mem_nil q)
    · intro q hq; exact absurd hq (List.not_mem_nil q)
    · intro p hp
      have hp' : s0.mUpdatingProbe = some p := hp
      rw [hidle] at hp'
      exact absurd hp' (by simp)
  | succ c ih =>
    intro hcN
    obtain ⟨A, hAl, hc, hU⟩ := ih (by omega)
    obtain ⟨p, hc', hU'⟩ := capture_cycle e (6 * c) hc he hlen hinj hU (by omega)
    have h6 : 6 * (c + 1) = 6 * c + 6 := by omega
    rw [h6]
    exact ⟨A ++ [p], by rw [List.length_append, hAl]; rfl, hc', hU'⟩

theorem sceneStart_reachable (N : Nat) (pos : ProbePtr → Int) :
    ∀ n, Reachable N (sceneStart N pos n) := by
  intro n
  induction n with
  | zero => exact Reachable.init
  | succ n ih => exact Reachable.registerViewerObject false n (pos n, 0, 0) ih

/-- The scene examples meet the conditions of the static scene. -/
theorem sceneEnv_static (s0 : LLReflectionMapManager) (pos : ProbePtr → Int)
    (dist : ProbePtr → Int)
    (horigin : ∀ q ∈ s0.mProbes, (s0.heap q).mOrigin = (pos q, 0, 0) ∧ (s0.heap q).mRadius = 0)
    (hdist : ∀ q ∈ s0.mProbes,
      exampleEnv.getLength3 (LLVector4a.sub (0, 0, 0) (s0.heap q).mOrigin) -
        (s0.heap q).mRadius = dist q) :
    ∀ k, StaticScene s0 dist (sceneEnv pos k) := by
  intro k
  refine ⟨rfl, rfl, rfl, exampleSort_spec, ?_, ?_, ?_, ?_⟩
  · intro q _
    show (2 : Nat) ≠ 1
    decide
  · show (0 : Int) < 10 + (k : Int)
    omega
  · intro q hq
    show ((pos q, 0, 0), (0 : Int)) = _
    rw [(horigin q hq).1, (horigin q hq).2]
  · intro q hq
    exact hdist q hq

/-- C23, counterexample: the first tick selects among the probes in
registration order, so the probe registered first is captured first.  With a
pool of 8 slots and 10 probes registered from the furthest to the nearest,
the probe furthest from the camera holds a slot after 8 capture cycles. -/
theorem capture_cycles_furthest_first :
    Reachable 8 (sceneStart 8 (fun p => 10 - (p : Int)) 10) ∧
    (sceneStart 8 (fun p => 10 - (p : Int)) 10).mProbes = [0, 1, 2, 3, 4, 5, 6, 7, 8, 9] ∧
    (∀ q ∈ (sceneStart 8 (fun p => 10 - (p : Int)) 10).mProbes,
      ((sceneStart 8 (fun p => 10 - (p : Int)) 10).heap q).mCubeIndex = -1) ∧
    (∀ k, StaticScene (sceneStart 8 (fun p => 10 - (p : Int)) 10) (fun p => 10 - (p : Int))
      (sceneEnv (fun p => 10 - (p : Int)) k)) ∧
    (∀ a ∈ (sceneStart 8 (fun p => 10 - (p : Int)) 10).mProbes,
      ∀ b ∈ (sceneStart 8 (fun p => 10 - (p : Int)) 10).mProbes,
      (10 : Int) - (a : Int) = 10 - (b : Int) → a = b) ∧
    (∀ q ∈ (sceneStart 8 (fun p => 10 - (p : Int)) 10).mProbes, q ≠ 0 →
      (10 - (q : Int)) < 10 - ((0 : ProbePtr) : Int)) ∧
    ((ticks 8 (sceneEnv (fun p => 10 - (p : Int))) (6 * 8)
      (sceneStart 8 (fun p => 10 - (p : Int)) 10)).heap 0).mCubeIndex ≠ -1 := by
  have hstatic := sceneEnv_static (sceneStart 8 (fun p => 10 - (p : Int)) 10)
    (fun p => 10 - (p : Int)) (fun p => 10 - (p : Int)) (by decide) (by decide)
  have hfresh : ∀ q ∈ (sceneStart 8 (fun p => 10 - (p : Int)) 10).mProbes,
      ((sceneStart 8 (fun p => 10 - (p : Int)) 10).heap q).mCubeIndex = -1 ∧
      ((sceneStart 8 (fun p => 10 - (p : Int)) 10).heap q).mLastUpdateTime = 0 ∧
      ((sceneStart 8 (fun p => 10 - (p : Int)) 10).heap q).mCubeArray = false := by decide
  have hinj : ∀ a ∈ (sceneStart 8 (fun p => 10 - (p : Int)) 10).mProbes,
      ∀ b ∈ (sceneStart 8 (fun p => 10 - (p : Int)) 10).mProbes,
      (10 : Int) - (a : Int) = 10 - (b : Int) → a = b := by
    intro a _ b _ h
    have : (a : Int) = (b : Int) := by omega
    exact_mod_cast this
  obtain ⟨A, hA, hc, -⟩ := capture_cycles (sceneStart_reachable 8 _ 10) (by decide) (by decide)
    (by decide) hfresh (fun p => 10 - (p : Int)) hinj
    (sceneEnv (fun p => 10 - (p : Int))) hstatic 8 (le_refl _)
  have hne : A ≠ [] := by
    intro h0; rw [h0] at hA; exact absurd hA (by decide)
  have hhead := hc.first hne
  have h0 : (sceneStart 8 (fun p => 10 - (p : Int)) 10).mProbes.head? = some 0 := by decide
  rw [h0] at hhead
  have hmem : (0 : ProbePtr) ∈ A := List.mem_of_mem_head? hhead
  refine ⟨sceneStart_reachable 8 _ 10, by decide, fun q hq => (hfresh q hq).1, hstatic, hinj,
    ?_, (hc.captured 0 hmem).2.1⟩
  intro q _ hq
  have : 0 < q := Nat.pos_of_ne_zero hq
  have h2 : (0 : Int) < (q : Int) := by exact_mod_cast this
  show (10 : Int) - (q : Int) < 10 - ((0 : Nat) : Int)
  omega

/-- C23: the scenario of `N + 2` probes and `N` capture cycles.  Start from a
reachable state with `N + 2` live probes as registration leaves them (no
slot, time stamp 0, no cube array), an idle cursor and empty queues, and run
`6 * N` ticks of the static scene: `update` is not suspended, every probe is
referenced from outside, the frame times are positive, the probes stay where
they were registered and their distances to the camera are pairwise
different.  When the probe registered first is not one of the two furthest
(two probes are further away than it is), then after the `N` cycles exactly
`N` live probes hold a slot, the slots are pairwise different slots of the
pool, and every probe with fewer than two probes further away, that is each
of the two furthest probes, has `mCubeIndex == -1`. -/
theorem capture_cycles_assign {N : Nat} (s0 : LLReflectionMapManager) (hr : Reachable N s0)
    (hlen : s0.mProbes.length = N + 2) (hidle : s0.mUpdatingProbe = none)
    (hquiet : s0.mKillList = [] ∧ s0.mCreateList = [])
    (hfresh : ∀ q ∈ s0.mProbes, (s0.heap q).mCubeIndex = -1 ∧
      (s0.heap q).mLastUpdateTime = 0 ∧ (s0.heap q).mCubeArray = false)
    (dist : ProbePtr → Int)
    (hinj : ∀ a ∈ s0.mProbes, ∀ b ∈ s0.mProbes, dist a = dist b → a = b)
    (e : Nat → Env) (he : ∀ k, StaticScene s0 dist (e k))
    (hfirst : ∀ p, s0.mProbes.head? = some p → IsNear dist s0.mProbes p) :
    (ticks N e (6 * N) s0).mProbes.Perm s0.mProbes ∧
    ((ticks N e (6 * N) s0).mProbes.filter
      (fun p => decide (((ticks N e (6 * N) s0).heap p).mCubeIndex ≠ -1))).length = N ∧
    (∀ p ∈ (ticks N e (6 * N) s0).mProbes, ∀ q ∈ (ticks N e (6 * N) s0).mProbes,
      ((ticks N e (6 * N) s0).heap p).mCubeIndex ≠ -1 →
      ((ticks N e (6 * N) s0).heap p).mCubeIndex = ((ticks N e (6 * N) s0).heap q).mCubeIndex →
      p = q) ∧
    (∀ p ∈ (ticks N e (6 * N) s0).mProbes,
      ((ticks N e (6 * N) s0).heap p).mCubeIndex ≠ -1 →
      0 ≤ ((ticks N e (6 * N) s0).heap p).mCubeIndex ∧
      ((ticks N e (6 * N) s0).heap p).mCubeIndex < (N : Int)) ∧
    (∀ q ∈ s0.mProbes, ¬ IsNear dist s0.mProbes q →
      ((ticks N e (6 * N) s0).heap q).mCubeIndex = -1) := by
  obtain ⟨A, hA, hc, -⟩ := capture_cycles hr hlen hidle hquiet hfresh dist hinj e he N (le_refl _)
  generalize ticks N e (6 * N) s0 = s at hc
  have hmem : ∀ q, q ∈ s.mProbes ↔ q ∈ s0.mProbes := fun q => hc.perm.mem_iff
  refine ⟨hc.perm, ?_, ?_, ?_, ?_⟩
  · have hperm : (s.mProbes.filter (fun p => decide ((s.heap p).mCubeIndex ≠ -1))).Perm A := by
      rw [List.perm_ext_iff_of_nodup (hc.inv.nbr.nodup.filter _) hc.nodup]
      intro q
      rw [List.mem_filter]
      constructor
      · rintro ⟨hq, hqc⟩
        by_contra hx
        have := (hc.waiting q ((hmem q).mp hq) hx).1
        simp [this] at hqc
      · intro hq
        obtain ⟨h1, h2, -⟩ := hc.captured q hq
        exact ⟨(hmem q).mpr h1, by simpa using h2⟩
    rw [hperm.length_eq, hA]
  · intro p hp q hq hpc heq
    exact hc.inv.pool.unique p hp q hq heq hpc
  · intro p hp hpc
    rcases hc.inv.pool.valid p hp with hv | hv
    · exact absurd hv hpc
    · exact hv
  · intro q hq hfar
    have hqA : q ∉ A := by
      intro hx
      rcases hc.who q hx with hw | hw
      · exact hfar (hfirst q hw)
      · exact hfar hw
    exact (hc.waiting q hq hqA).1

/-- C23, witness: a pool of 8 slots and 10 probes registered from the nearest
to the furthest; after 8 capture cycles 8 probes hold a slot and the probes 8
and 9, the two furthest, hold none. -/
theorem capture_cycles_assign_witness :
    Reachable 8 (sceneStart 8 (fun p => 1 + (p : Int)) 10) ∧
    (sceneStart 8 (fun p => 1 + (p : Int)) 10).mProbes.length = 8 + 2 ∧
    (∀ k, StaticScene (sceneStart 8 (fun p => 1 + (p : Int)) 10) (fun p => 1 + (p : Int))
      (sceneEnv (fun p => 1 + (p : Int)) k)) ∧
    ((ticks 8 (sceneEnv (fun p => 1 + (p : Int))) (6 * 8)
        (sceneStart 8 (fun p => 1 + (p : Int)) 10)).mProbes.filter
      (fun p => decide (((ticks 8 (sceneEnv (fun p => 1 + (p : Int))) (6 * 8)
        (sceneStart 8 (fun p => 1 + (p : Int)) 10)).heap p).mCubeIndex ≠ -1))).length = 8 ∧
    ((ticks 8 (sceneEnv (fun p => 1 + (p : Int))) (6 * 8)
      (sceneStart 8 (fun p => 1 + (p : Int)) 10)).heap 8).mCubeIndex = -1 ∧
    ((ticks 8 (sceneEnv (fun p => 1 + (p : Int))) (6 * 8)
      (sceneStart 8 (fun p => 1 + (p : Int)) 10)).heap 9).mCubeIndex = -1 := by
  have hstatic := sceneEnv_static (sceneStart 8 (fun p => 1 + (p : Int)) 10)
    (fun p => 1 + (p : Int)) (fun p => 1 + (p : Int)) (by decide) (by decide)
  have hinj : ∀ a ∈ (sceneStart 8 (fun p => 1 + (p : Int)) 10).mProbes,
      ∀ b ∈ (sceneStart 8 (fun p => 1 + (p : Int)) 10).mProbes,
      (fun p : ProbePtr => 1 + (p : Int)) a = (fun p : ProbePtr => 1 + (p : Int)) b → a = b := by
    intro a _ b _ h
    have h' : (1 : Int) + (a : Int) = 1 + (b : Int) := h
    have : (a : Int) = (b : Int) := by omega
    exact_mod_cast this
  have hfirst : ∀ p, (sceneStart 8 (fun p => 1 + (p : Int)) 10).mProbes.head? = some p →
      IsNear (fun p => 1 + (p : Int)) (sceneStart 8 (fun p => 1 + (p : Int)) 10).mProbes p := by
    intro p hp
    have h0 : (sceneStart 8 (fun p => 1 + (p : Int)) 10).mProbes.head? = some 0 := by decide
    rw [h0] at hp
    rw [← Option.some.inj hp]
    exact ⟨1, by decide, 2, by decide, by decide, by decide, by decide⟩
  have hfar : ∀ q, 8 ≤ q →
      ¬ IsNear (fun p => 1 + (p : Int)) (sceneStart 8 (fun p => 1 + (p : Int)) 10).mProbes q := by
    rintro q hq ⟨a, ha, b, hb, hab, h1, h2⟩
    have hL : (sceneStart 8 (fun p => 1 + (p : Int)) 10).mProbes =
        [0, 1, 2, 3, 4, 5, 6, 7, 8, 9] := by decide
    rw [hL] at ha hb
    have h1' : (1 : Int) + (q : Int) < 1 + (a : Int) := h1
    have h2' : (1 : Int) + (q : Int) < 1 + (b : Int) := h2
    have hle : ∀ x ∈ ([0, 1, 2, 3, 4, 5, 6, 7, 8, 9] : List ProbePtr), ((x : Nat) : Int) ≤ 9 := by
      decide
    have ha9 := hle a ha
    have hb9 := hle b hb
    have hq' : (8 : Int) ≤ ((q : Nat) : Int) := by exact_mod_cast hq
    have : ((a : Nat) : Int) = ((b : Nat) : Int) := by omega
    exact hab (by exact_mod_cast this)
  have h := capture_cycles_assign (sceneStart 8 (fun p => 1 + (p : Int)) 10)
    (sceneStart_reachable 8 _ 10) (by decide) (by decide) (by decide) (by decide)
    (fun p => 1 + (p : Int)) hinj (sceneEnv (fun p => 1 + (p : Int))) hstatic hfirst
  exact ⟨sceneStart_reachable 8 _ 10, by decide, hstatic, h.2.1,
    h.2.2.2.2 8 (by decide) (hfar 8 (le_refl _)), h.2.2.2.2 9 (by decide) (hfar 9 (by decide))⟩
